import Mathlib

/-!
# elfutils: concurrent dynamic-size hash table and dwarflint message routing

A shallow embedding of

* `lib/dynamicsizehash_concurrent.c` (`lookup`, `insert_helper`, `resize_helper`,
  `resize_master`, `resize_worker`, `INIT`, `INSERT`, `FIND`), executed by a single
  thread, and
* `dwarflint/messages.cc` (`message_accept`, `wr_message`, ...).

Modelling conventions for the hash table.

* `size_t` and `HASHTYPE` values are natural numbers.  The arithmetic of the code
  (`100 * filled`, `90 * size`, `size * 2`, `size + idx - hash`) is taken without
  wrap-around, which is what the C code computes for every table of fewer than
  `2 ^ 57` slots.
* A table is a map from slot index to entry; `malloc` hands out a block whose
  content is arbitrary (a component of the environment).
* A single thread runs the code: `pthread_rwlock_tryrdlock` succeeds at once, a
  compare-and-swap on a word that holds the expected value succeeds, and a loop
  that re-reads a word until another thread changes it never ends.
* Loops carry a fuel argument; `none` means that the call does not return: the
  fuel did not suffice, a waiting loop never ends, or an `assert` failed.
* `lookup` and `insert_helper` also return the list of slot indices whose `state`
  they load, in the order of the loads.
-/

namespace Dynhash

/-- The table entry type `name##_ent`: `state` is 0 (empty), 1 (insert in progress)
or 2 (filled). -/
structure Ent (α : Type) where
  hashval : Nat
  data : α
  state : Nat

/-- The hash table structure `name` of `dynamicsizehash_concurrent.h`. -/
structure Htab (α : Type) where
  size : Nat
  old_size : Nat
  filled : Nat
  table : Nat → Ent α
  old_table : Nat → Ent α
  resizing_state : Nat
  next_init_block : Nat
  num_initialized_blocks : Nat
  next_move_block : Nat
  num_moved_blocks : Nat

/-- What the including file and the C library supply: the macro `COMPARE`, the
function `next_prime` (declared `extern` in the header, defined elsewhere), the
null value of `TYPE`, and the content `malloc n i` of slot `i` of a newly
allocated block of `n` entries. -/
structure Env (α : Type) where
  next_prime : Nat → Nat
  COMPARE : α → α → Int
  NULL : α
  malloc : Nat → Nat → Ent α

def NO_RESIZING : Nat := 0
def ALLOCATING_MEMORY : Nat := 1
def MOVING_DATA : Nat := 3
def CLEANING : Nat := 2
def STATE_BITS : Nat := 2
def STATE_INCREMENT : Nat := 1 <<< STATE_BITS
def STATE_MASK : Nat := STATE_INCREMENT - 1
def GET_STATE (a : Nat) : Nat := a &&& STATE_MASK
def IS_NO_RESIZE_OR_CLEANING (a : Nat) : Bool := (a &&& 1) == 0
def GET_ACTIVE_WORKERS (a : Nat) : Nat := a >>> STATE_BITS
def INITIALIZATION_BLOCK_SIZE : Nat := 256
def MOVE_BLOCK_SIZE : Nat := 256
def CEIL (a b : Nat) : Nat := (a + b - 1) / b

/-- The `for (;;)` loop of `lookup`; `idx` is the slot examined last. -/
def lookup_loop {α : Type} (E : Env α) (htab : Htab α) (hval : Nat) (val : α) (hash : Nat) :
    Nat → Nat → List Nat × Option Nat
  | 0, _ => ([], none)
  | fuel + 1, idx =>
    let idx := if idx ≤ hash then htab.size + idx - hash else idx - hash
    let state := (htab.table idx).state
    if state = 0 then ([idx], some 0)
    else if state = 1 then ([idx], none)
    else if (htab.table idx).hashval = hval ∧ E.COMPARE (htab.table idx).data val = 0 then
      ([idx], some idx)
    else
      let r := lookup_loop E htab hval val hash fuel idx
      (idx :: r.1, r.2)

/-- The function `lookup`: the examined slots, and the index found (0 if none). -/
def lookup {α : Type} (E : Env α) (fuel : Nat) (htab : Htab α) (hval : Nat) (val : α) :
    List Nat × Option Nat :=
  let idx := 1 + (if hval < htab.size then hval else hval % htab.size)
  let state := (htab.table idx).state
  if state = 0 then ([idx], some 0)
  else if state = 1 then ([idx], none)
  else if (htab.table idx).hashval = hval ∧ E.COMPARE (htab.table idx).data val = 0 then
    ([idx], some idx)
  else
    let hash := 1 + hval % (htab.size - 2)
    let r := lookup_loop E htab hval val hash fuel idx
    (idx :: r.1, r.2)

/-- The three stores of a successful claim of slot `idx`. -/
def store_entry {α : Type} (htab : Htab α) (idx hval : Nat) (val : α) : Htab α :=
  { htab with table := Function.update htab.table idx ⟨hval, val, 2⟩ }

/-- The `for (;;)` loop of `insert_helper`. -/
def insert_helper_loop {α : Type} (E : Env α) (htab : Htab α) (hval : Nat) (val : α)
    (hash : Nat) : Nat → Nat → List Nat × Option (Htab α × Int)
  | 0, _ => ([], none)
  | fuel + 1, idx =>
    let idx := if idx ≤ hash then htab.size + idx - hash else idx - hash
    let state := (htab.table idx).state
    if state = 0 then ([idx], some (store_entry htab idx hval val, 0))
    else if state = 1 then ([idx], none)
    else if (htab.table idx).hashval = hval ∧ E.COMPARE (htab.table idx).data val = 0 then
      ([idx], some (htab, -1))
    else
      let r := insert_helper_loop E htab hval val hash fuel idx
      (idx :: r.1, r.2)

/-- The function `insert_helper`: the examined slots, the table afterwards and the
return value (0 inserted, -1 already present). -/
def insert_helper {α : Type} (E : Env α) (fuel : Nat) (htab : Htab α) (hval : Nat) (val : α) :
    List Nat × Option (Htab α × Int) :=
  let idx := 1 + (if hval < htab.size then hval else hval % htab.size)
  let state := (htab.table idx).state
  if state = 0 then ([idx], some (store_entry htab idx hval val, 0))
  else if state = 1 then ([idx], none)
  else if (htab.table idx).hashval = hval ∧ E.COMPARE (htab.table idx).data val = 0 then
    ([idx], some (htab, -1))
  else
    let hash := 1 + hval % (htab.size - 2)
    let r := insert_helper_loop E htab hval val hash fuel idx
    (idx :: r.1, r.2)

/-- The loop `while (record_it++ != record_end) atomic_init (&table[record_it].state, 0)`
of the initialisation phase. -/
def init_records {α : Type} (record_end : Nat) : Nat → Htab α → Nat → Option (Htab α)
  | 0, _, _ => none
  | fuel + 1, htab, record_it =>
    if record_it ≠ record_end then
      let record_it := record_it + 1
      let ent := { (htab.table record_it) with state := 0 }
      init_records record_end fuel
        { htab with table := Function.update htab.table record_it ent } record_it
    else some htab

/-- The loop `while ((my_block = atomic_fetch_add (&next_init_block, 1)) < num_new_blocks)`;
the result carries `num_finished_blocks`. -/
def init_blocks {α : Type} (num_new_blocks : Nat) :
    Nat → Nat → Htab α → Nat → Option (Htab α × Nat)
  | 0, _, _, _ => none
  | fuel + 1, inner, htab, num_finished_blocks =>
    let my_block := htab.next_init_block
    let htab := { htab with next_init_block := htab.next_init_block + 1 }
    if my_block < num_new_blocks then
      let record_it := my_block * INITIALIZATION_BLOCK_SIZE
      let record_end := (my_block + 1) * INITIALIZATION_BLOCK_SIZE
      let record_end := if record_end > htab.size then htab.size else record_end
      match init_records record_end inner htab record_it with
      | none => none
      | some htab => init_blocks num_new_blocks fuel inner htab (num_finished_blocks + 1)
    else some (htab, num_finished_blocks)

/-- The loop over the records of one block of the move phase. -/
def move_records {α : Type} (E : Env α) (record_end : Nat) :
    Nat → Nat → Htab α → Nat → Option (Htab α)
  | 0, _, _, _ => none
  | fuel + 1, inner, htab, record_it =>
    if record_it ≠ record_end then
      let record_it := record_it + 1
      if (htab.old_table record_it).state ≠ 2 then
        move_records E record_end fuel inner htab record_it
      else
        match (insert_helper E inner htab (htab.old_table record_it).hashval
                (htab.old_table record_it).data).2 with
        | none => none
        | some r => move_records E record_end fuel inner r.1 record_it
    else some htab

/-- The loop `while ((my_block = atomic_fetch_add (&next_move_block, 1)) < num_old_blocks)`. -/
def move_blocks {α : Type} (E : Env α) (num_old_blocks : Nat) :
    Nat → Nat → Htab α → Nat → Option (Htab α × Nat)
  | 0, _, _, _ => none
  | fuel + 1, inner, htab, num_finished_blocks =>
    let my_block := htab.next_move_block
    let htab := { htab with next_move_block := htab.next_move_block + 1 }
    if my_block < num_old_blocks then
      let record_it := my_block * MOVE_BLOCK_SIZE
      let record_end := (my_block + 1) * MOVE_BLOCK_SIZE
      let record_end := if record_end > htab.old_size then htab.old_size else record_end
      match move_records E record_end inner inner htab record_it with
      | none => none
      | some htab => move_blocks E num_old_blocks fuel inner htab (num_finished_blocks + 1)
    else some (htab, num_finished_blocks)

/-- The function `resize_helper`.  The two waiting loops end at once when the counter
has the awaited value and never otherwise, no other thread being there to change it. -/
def resize_helper {α : Type} (E : Env α) (fuel : Nat) (htab : Htab α) (blocking : Bool) :
    Option (Htab α) :=
  let num_old_blocks := CEIL htab.old_size MOVE_BLOCK_SIZE
  let num_new_blocks := CEIL htab.size INITIALIZATION_BLOCK_SIZE
  match init_blocks num_new_blocks fuel fuel htab 0 with
  | none => none
  | some (htab, num_finished_blocks) =>
    let htab := { htab with
      num_initialized_blocks := htab.num_initialized_blocks + num_finished_blocks }
    if htab.num_initialized_blocks ≠ num_new_blocks then none
    else
      match move_blocks E num_old_blocks fuel fuel htab 0 with
      | none => none
      | some (htab, num_finished_blocks) =>
        let htab := { htab with num_moved_blocks := htab.num_moved_blocks + num_finished_blocks }
        if blocking ∧ htab.num_moved_blocks ≠ num_old_blocks then none
        else some htab

/-- The function `resize_master`. -/
def resize_master {α : Type} (E : Env α) (fuel : Nat) (htab : Htab α) : Option (Htab α) :=
  let htab := { htab with old_size := htab.size }
  let htab := { htab with old_table := htab.table }
  let htab := { htab with size := E.next_prime (htab.size * 2) }
  let htab := { htab with table := E.malloc (1 + htab.size) }
  let htab := { htab with resizing_state := htab.resizing_state ^^^ (ALLOCATING_MEMORY ^^^ MOVING_DATA) }
  match resize_helper E fuel htab true with
  | none => none
  | some htab =>
    let htab := { htab with resizing_state := htab.resizing_state ^^^ (MOVING_DATA ^^^ CLEANING) }
    if GET_ACTIVE_WORKERS htab.resizing_state ≠ 0 then none
    else
      let htab := { htab with next_init_block := 0, num_initialized_blocks := 0 }
      let htab := { htab with next_move_block := 0, num_moved_blocks := 0 }
      if htab.resizing_state ≠ CLEANING then none
      else some { htab with resizing_state := NO_RESIZING }

/-- The function `resize_worker`. -/
def resize_worker {α : Type} (E : Env α) (fuel : Nat) (htab : Htab α) : Option (Htab α) :=
  let resize_state := htab.resizing_state
  if IS_NO_RESIZE_OR_CLEANING resize_state then some htab
  else
    let resize_state := htab.resizing_state
    let htab := { htab with resizing_state := htab.resizing_state + STATE_INCREMENT }
    if IS_NO_RESIZE_OR_CLEANING resize_state then
      some { htab with resizing_state := htab.resizing_state - STATE_INCREMENT }
    else if GET_STATE resize_state = ALLOCATING_MEMORY then none
    else if GET_STATE resize_state = NO_RESIZING then none
    else if GET_STATE resize_state = CLEANING then
      some { htab with resizing_state := htab.resizing_state - STATE_INCREMENT }
    else
      match resize_helper E fuel htab false with
      | none => none
      | some htab => some { htab with resizing_state := htab.resizing_state - STATE_INCREMENT }

/-- The function `name##_init`; the allocation is taken to succeed. -/
def INIT {α : Type} (E : Env α) (htab : Htab α) (init_size : Nat) : Htab α × Int :=
  let init_size := E.next_prime init_size
  let block := E.malloc (init_size + 1)
  ({ htab with
      size := init_size
      filled := 0
      resizing_state := 0
      next_init_block := 0
      num_initialized_blocks := 0
      next_move_block := 0
      num_moved_blocks := 0
      table := fun i => if i ≤ init_size then { (block i) with state := 0 } else block i }, 0)

/-- The `for (;;)` loop of `name##_insert`, up to its `break`: the table then, and
the number of calls of `resize_master` made on the way.  `filled` is the value that
`atomic_fetch_add` returns (the count before the increment) in the first round and
the value that `atomic_load` reads in the later rounds. -/
def INSERT_loop {α : Type} (E : Env α) :
    Nat → Nat → Htab α → Bool → Option (Htab α × Nat)
  | 0, _, _, _ => none
  | fuel + 1, inner, htab, incremented =>
    let filled := htab.filled
    let htab := if incremented then htab else { htab with filled := htab.filled + 1 }
    if 100 * filled > 90 * htab.size then
      if htab.resizing_state = 0 then
        match resize_master E inner { htab with resizing_state := ALLOCATING_MEMORY } with
        | none => none
        | some htab =>
          match INSERT_loop E fuel inner htab true with
          | none => none
          | some r => some (r.1, r.2 + 1)
      else
        match resize_worker E inner htab with
        | none => none
        | some htab => INSERT_loop E fuel inner htab true
    else some (htab, 0)

/-- The function `name##_insert`. -/
def INSERT {α : Type} (E : Env α) (fuel : Nat) (htab : Htab α) (hval : Nat) (data : α) :
    Option (Htab α × Int) :=
  match INSERT_loop E fuel fuel htab false with
  | none => none
  | some r => (insert_helper E fuel r.1 hval data).2

/-- The function `name##_find`. -/
def FIND {α : Type} (E : Env α) (fuel : Nat) (htab : Htab α) (hval : Nat) (val : α) :
    Option α :=
  let hval := if hval ≠ 0 then hval else 1
  match (lookup E fuel htab hval val).2 with
  | none => none
  | some idx => if idx = 0 then some E.NULL else some (htab.table idx).data

/-- Trial division. -/
def is_prime (n : Nat) : Bool :=
  decide (2 ≤ n) && (List.range n).all (fun d => decide (d < 2) || decide (n % d ≠ 0))

/-- Upward search for a prime. -/
def next_prime_from : Nat → Nat → Nat
  | 0, n => n
  | fuel + 1, n => if is_prime n then n else next_prime_from fuel (n + 1)

/-- Modelled from the spec: `next_prime` is only declared in the header (its
definition is not among the sources); the spec takes its value to be the next
prime at or above the seed ("size = next prime >= 2 x old size"), and 5 at least
("size >= 5 after `next_prime`", for an initial size of 3 or less). -/
def next_prime (seed : Nat) : Nat := next_prime_from (max seed 5 + 2) (max seed 5)

/-- An instance for experiments: entries are numbers compared by subtraction, the
null value is 0, and new memory is full of entries that look filled. -/
def natEnv : Env Nat where
  next_prime := next_prime
  COMPARE := fun a b => (a : Int) - (b : Int)
  NULL := 0
  malloc := fun _ i => ⟨i + 77, 13, 2⟩

/-- A descriptor before `name##_init`, with arbitrary content. -/
def raw_htab : Htab Nat where
  size := 0
  old_size := 9
  filled := 4
  table := fun _ => ⟨3, 3, 1⟩
  old_table := fun _ => ⟨4, 4, 2⟩
  resizing_state := 3
  next_init_block := 5
  num_initialized_blocks := 6
  next_move_block := 7
  num_moved_blocks := 8

/-- Run a list of `insert` calls, collecting the return values. -/
def insert_all {α : Type} (E : Env α) (fuel : Nat) :
    Htab α → List (Nat × α) → Option (Htab α × List Int)
  | htab, [] => some (htab, [])
  | htab, (hval, data) :: rest =>
    match INSERT E fuel htab hval data with
    | none => none
    | some (htab, ret_val) =>
      match insert_all E fuel htab rest with
      | none => none
      | some (htab, rets) => some (htab, ret_val :: rets)



/-! ## The probe sequence -/

/-- The slot examined at step `k` of a probe for `hval` in a table of `size` slots:
the expressions of `lookup` and `insert_helper`, iterated. -/
def probe (size hval : Nat) : Nat → Nat
  | 0 => 1 + (if hval < size then hval else hval % size)
  | k + 1 =>
    if probe size hval k ≤ 1 + hval % (size - 2) then
      size + probe size hval k - (1 + hval % (size - 2))
    else probe size hval k - (1 + hval % (size - 2))

/-- The probe sequence in the words of the specification: the primary index. -/
def spec_h1 (size hv : Nat) : Nat := 1 + (if hv < size then hv else hv % size)

/-- The probe sequence in the words of the specification: the secondary step. -/
def spec_h2 (size hv : Nat) : Nat := 1 + hv % (size - 2)

/-- The probe sequence in the words of the specification: the index after `idx` is
`idx - h2`, to which `size` is added when it is not positive. -/
def spec_next (size h2 idx : Nat) : Nat :=
  (if (idx : Int) - (h2 : Int) ≤ 0 then (idx : Int) - (h2 : Int) + (size : Int)
   else (idx : Int) - (h2 : Int)).toNat

/-- The probe sequence in the words of the specification. -/
def spec_probe (size hv : Nat) : Nat → Nat
  | 0 => spec_h1 size hv
  | k + 1 => spec_next size (spec_h2 size hv) (spec_probe size hv k)

end Dynhash


namespace Dwarflint

/-- A term of a message criterion: the category bits that must be set and the ones
that must be clear (`unsigned long` masks). -/
structure message_term where
  positive : Nat
  negative : Nat
deriving DecidableEq, Repr

/-- A message criterion: the array `terms[0 .. size)`. -/
structure message_criteria where
  terms : List message_term
deriving DecidableEq, Repr

/-- The loop of `message_accept`, over the terms from index `i` on. -/
def message_accept_terms (cat : Nat) : List message_term → Bool
  | [] => false
  | t :: rest =>
    if (t.positive &&& cat) = t.positive ∧ (t.negative &&& cat) = 0 then true
    else message_accept_terms cat rest

/-- The function `message_accept`. -/
def message_accept (cri : message_criteria) (cat : Nat) : Bool :=
  message_accept_terms cat cri.terms

/-- What is written to standard output: the label that opens an error or a warning,
or other text. -/
inductive out_item where
  | error_label
  | warning_label
  | text (s : String)
deriving DecidableEq, Repr

/-- The global state of the message module: the counter `error_count` (an
`unsigned`, 32 bits wide) and the output written so far. -/
structure msg_state where
  error_count : Nat
  out : List out_item
deriving DecidableEq, Repr

/-- A location `struct where`, as far as the message module uses it: the text that
`where_fmt` gives and the lines that `where_fmt_chain` prints for a severity. -/
structure Where where
  fmt : String
  chain : String → String

/-- The function `wr_verror`; `msg` is the expanded format. -/
def wr_verror (st : msg_state) (wh : Where) (msg : String) : msg_state :=
  { error_count := (st.error_count + 1) % 2 ^ 32
    out := st.out ++ [out_item.error_label, out_item.text wh.fmt, out_item.text msg,
      out_item.text (wh.chain "error")] }

/-- The function `wr_vwarning`. -/
def wr_vwarning (st : msg_state) (wh : Where) (msg : String) : msg_state :=
  { error_count := (st.error_count + 1) % 2 ^ 32
    out := st.out ++ [out_item.warning_label, out_item.text wh.fmt, out_item.text msg,
      out_item.text (wh.chain "warning")] }

/-- The function `wr_error (const struct where *, const char *, ...)`. -/
def wr_error (st : msg_state) (wh : Where) (msg : String) : msg_state :=
  wr_verror st wh msg

/-- The function `wr_warning (const struct where *, const char *, ...)`. -/
def wr_warning (st : msg_state) (wh : Where) (msg : String) : msg_state :=
  wr_vwarning st wh msg

/-- The function `wr_message (unsigned long, const struct where *, const char *, ...)`;
`warning_criteria` and `error_criteria` are the two global criteria. -/
def wr_message (warning_criteria error_criteria : message_criteria) (st : msg_state)
    (category : Nat) (wh : Where) (msg : String) : msg_state :=
  if message_accept warning_criteria category then
    if message_accept error_criteria category then wr_verror st wh msg
    else wr_vwarning st wh msg
  else st

/-- The stream that a stream-style function returns: `std::cout`, or the stream
`nostr` that has no buffer and drops what is written to it. -/
inductive stream where
  | cout
  | nostr
deriving DecidableEq, Repr

/-- The function `wr_warning ()`. -/
def wr_warning_stream (st : msg_state) : msg_state × stream :=
  ({ error_count := (st.error_count + 1) % 2 ^ 32
     out := st.out ++ [out_item.warning_label] }, stream.cout)

/-- The function `wr_error ()`. -/
def wr_error_stream (st : msg_state) : msg_state × stream :=
  ({ error_count := (st.error_count + 1) % 2 ^ 32
     out := st.out ++ [out_item.error_label] }, stream.cout)

/-- The function `wr_message (message_category)`. -/
def wr_message_stream (warning_criteria error_criteria : message_criteria) (st : msg_state)
    (category : Nat) : msg_state × stream :=
  if ¬ message_accept warning_criteria category then (st, stream.nostr)
  else if message_accept error_criteria category then wr_error_stream st
  else wr_warning_stream st

/-- The labels among the output items. -/
def labels (items : List out_item) : List out_item :=
  items.filter (fun x => decide (x = out_item.error_label ∨ x = out_item.warning_label))

/-- A call of one of the functions of `messages.cc` that write a diagnostic: the
three with a location and a format, and the three that return a stream. -/
inductive msg_call where
  | error (wh : Where) (msg : String)
  | warning (wh : Where) (msg : String)
  | message (category : Nat) (wh : Where) (msg : String)
  | error_stream
  | warning_stream
  | message_stream (category : Nat)

/-- The state of the message module after a call. -/
def msg_call.run (warning_criteria error_criteria : message_criteria) (st : msg_state) :
    msg_call → msg_state
  | msg_call.error wh msg => wr_error st wh msg
  | msg_call.warning wh msg => wr_warning st wh msg
  | msg_call.message category wh msg =>
    wr_message warning_criteria error_criteria st category wh msg
  | msg_call.error_stream => (wr_error_stream st).1
  | msg_call.warning_stream => (wr_warning_stream st).1
  | msg_call.message_stream category =>
    (wr_message_stream warning_criteria error_criteria st category).1

/-- The state of the message module after a sequence of calls. -/
def run_calls (warning_criteria error_criteria : message_criteria) (st : msg_state)
    (calls : List msg_call) : msg_state :=
  calls.foldl (msg_call.run warning_criteria error_criteria) st

/-- The state of the message module when the program starts (`error_count = 0`). -/
def msg_start : msg_state := ⟨0, []⟩

/-- The number of diagnostics of severity error among the output. -/
def errors_emitted (st : msg_state) : Nat := st.out.count out_item.error_label

/-- The number of diagnostics of severity warning among the output. -/
def warnings_emitted (st : msg_state) : Nat := st.out.count out_item.warning_label

/-- A location without text, for examples. -/
def where_blank : Where := ⟨"", fun _ => ""⟩

end Dwarflint

namespace Dynhash

/-- Slot `i` holds an entry that `lookup` and `insert_helper` accept for `(hval, val)`. -/
def hit {α : Type} (E : Env α) (t : Htab α) (hval : Nat) (val : α) (i : Nat) : Prop :=
  (t.table i).hashval = hval ∧ E.COMPARE (t.table i).data val = 0

instance {α : Type} (E : Env α) (t : Htab α) (hval : Nat) (val : α) (i : Nat) :
    Decidable (hit E t hval val i) := by
  unfold hit
  infer_instance

/-- Slot `i` makes a probe for `(hval, val)` go on: it is filled with another entry. -/
def pass {α : Type} (E : Env α) (t : Htab α) (hval : Nat) (val : α) (i : Nat) : Prop :=
  (t.table i).state ≠ 0 ∧ (t.table i).state ≠ 1 ∧ ¬ hit E t hval val i

/-- The invariant of the slots `1 .. size` of a table that no thread is working on:
each slot is empty or filled; each filled slot is reached by the probe for its hash
value through filled slots only; and no two filled slots hold entries with the same
hash value that `COMPARE` takes for equal. -/
structure TableInv {α : Type} (E : Env α) (t : Htab α) : Prop where
  states : ∀ i, 1 ≤ i → i ≤ t.size → (t.table i).state = 0 ∨ (t.table i).state = 2
  chain : ∀ i, 1 ≤ i → i ≤ t.size → (t.table i).state = 2 →
    ∃ k, k < t.size ∧ probe t.size (t.table i).hashval k = i ∧
      ∀ j, j < k → (t.table (probe t.size (t.table i).hashval j)).state = 2
  distinct : ∀ i j, 1 ≤ i → i ≤ t.size → 1 ≤ j → j ≤ t.size →
    (t.table i).state = 2 → (t.table j).state = 2 →
    (t.table i).hashval = (t.table j).hashval →
    E.COMPARE (t.table i).data (t.table j).data = 0 → i = j

/-- The number of filled slots among `1 .. size`. -/
def nfilled {α : Type} (t : Htab α) : Nat :=
  ((Finset.Icc 1 t.size).filter (fun i => (t.table i).state = 2)).card

/-- The entry `(hv, d)` is stored in one of the slots `1 .. size`. -/
def stored {α : Type} (t : Htab α) (hv : Nat) (d : α) : Prop :=
  ∃ i, 1 ≤ i ∧ i ≤ t.size ∧ (t.table i).state = 2 ∧ (t.table i).hashval = hv ∧
    (t.table i).data = d

/-- The block `tb` with the state of the slots `a + 1 .. b` set to 0. -/
def clear_range {α : Type} (tb : Nat → Ent α) (a b : Nat) : Nat → Ent α :=
  fun i => if a < i ∧ i ≤ b then { (tb i) with state := 0 } else tb i

/-- The descriptor `t'` differs from `t` in the content of the table at most. -/
def frame {α : Type} (t t' : Htab α) : Prop := t' = { t with table := t'.table }

/-- The invariant of the move phase of a resize by one thread, when the old slots
`1 .. m` have been dealt with: the new table is in order and has room, and it
stores the entries of the filled old slots `1 .. m`, one slot for each. -/
structure MoveInv {α : Type} (E : Env α) (t : Htab α) (m : Nat) : Prop where
  prime : Nat.Prime t.size
  three : 3 ≤ t.size
  room : t.old_size < t.size
  inv : TableInv E t
  old_distinct : ∀ i j, 1 ≤ i → i ≤ t.old_size → 1 ≤ j → j ≤ t.old_size →
    (t.old_table i).state = 2 → (t.old_table j).state = 2 →
    (t.old_table i).hashval = (t.old_table j).hashval →
    E.COMPARE (t.old_table i).data (t.old_table j).data = 0 → i = j
  moved : ∀ h d, stored t h d ↔
    ∃ i, 1 ≤ i ∧ i ≤ m ∧ (t.old_table i).state = 2 ∧ (t.old_table i).hashval = h ∧
      (t.old_table i).data = d
  count : nfilled t = ((Finset.Icc 1 m).filter (fun i => (t.old_table i).state = 2)).card

/-- What the code expects of its environment: `next_prime` returns a prime that is
not below its argument, and `COMPARE` is a test for an equality that is reflexive and
symmetric. -/
structure EnvOK {α : Type} (E : Env α) : Prop where
  prime : ∀ n, Nat.Prime (E.next_prime n)
  ge : ∀ n, n ≤ E.next_prime n
  symm : ∀ a b, E.COMPARE a b = 0 → E.COMPARE b a = 0
  refl : ∀ a, E.COMPARE a a = 0

/-- The invariant of a descriptor between two calls made by the one thread that
uses the table. -/
structure HtabInv {α : Type} (E : Env α) (t : Htab α) : Prop where
  prime : Nat.Prime t.size
  three : 3 ≤ t.size
  inv : TableInv E t
  count : nfilled t ≤ t.filled
  fill : 100 * t.filled ≤ 90 * t.size + 100
  idle : t.resizing_state = 0
  c0 : t.next_init_block = 0
  c1 : t.num_initialized_blocks = 0
  c2 : t.next_move_block = 0
  c3 : t.num_moved_blocks = 0

/-- The table that the inserts `ops` leave, starting from `init` with size 5 in the
instance `natEnv`. -/
def table_after (ops : List (Nat × Nat)) : Htab Nat :=
  match insert_all natEnv 20 (INIT natEnv raw_htab 5).1 ops with
  | some r => r.1
  | none => raw_htab

end Dynhash

namespace Dwarflint

/-! ## `check_debug_loc_range.cc`: the walk over `.debug_loc` and `.debug_ranges`

Conventions.

* `uint64_t` values are natural numbers below `2 ^ 64`; sums and differences that the
  code forms in `uint64_t` are reduced modulo `2 ^ 64` where they can wrap.
* The calls of the message module are collected, in order, as values of `diag`
  (`diag.error` for `wr_error`, `diag.message` for `wr_message`); what the functions
  that are not among the sources write is kept as `diag.other`.
* Functions and constants of the program that are not among the sources are the
  fields of `lr_env`, or are modelled from the specification where it describes them
  (the read cursor and the coverage).
* A function whose loop carries fuel returns `none` when the fuel does not suffice
  or an `assert` fails.
-/

/-- The `enum section_id` of dwarflint. -/
inductive section_id where
  | sec_info | sec_abbrev | sec_aranges | sec_pubnames | sec_pubtypes | sec_str
  | sec_line | sec_loc | sec_mac | sec_ranges | sec_locexpr
  | rel_value | rel_address | rel_exec
deriving DecidableEq, Repr

/-- A `struct where`, as far as this file uses it: the section, the first address
(`where_reset_1`), and the location that referred here (`WHERE (id, next)`). -/
inductive locus where
  | root (id : section_id) (addr1 : Nat)
  | sub (id : section_id) (addr1 : Nat) (next : locus)
deriving DecidableEq, Repr

/-- The field `addr1` of a location. -/
def locus.addr : locus → Nat
  | locus.root _ a => a
  | locus.sub _ a _ => a

/-- An argument of a format: a number, a string, the text that `range_fmt` makes of
the two ends of a range, or the text that `pri::locexpr_opcode`, `pri::form` or
`pri::hex` makes of a value. -/
inductive fmt_arg where
  | num (n : Nat)
  | str (s : String)
  | range (b e : Nat)
  | opcode (op : Nat)
  | form (f : Nat)
  | hex (n : Nat)
deriving DecidableEq, Repr

/-- A call of the message module: `wr_error (wh, format, args)`,
`wr_message (category, wh, format, args)`, output of a function that is not modelled,
or text that a function writes to `std::cout` itself.  A call in the stream style,
`wr_error (wh) << a << b`, is given with the text that is written as the format, `%s`
standing for each value, and the values as arguments. -/
inductive diag where
  | error (wh : locus) (format : String) (args : List fmt_arg)
  | message (category : Nat) (wh : locus) (format : String) (args : List fmt_arg)
  | other (text : String)
  | print (format : String) (args : List fmt_arg)
deriving DecidableEq, Repr

/-- The message categories that this file uses; their values are set in `messages.h`. -/
structure categories where
  mc_impact_1 : Nat
  mc_impact_2 : Nat
  mc_impact_3 : Nat
  mc_impact_4 : Nat
  mc_acc_bloat : Nat
  mc_acc_suboptimal : Nat
  mc_error : Nat
  mc_loc : Nat
  mc_ranges : Nat
  mc_reloc : Nat
deriving DecidableEq, Repr

/-- Reduction to `uint64_t`. -/
def u64 (n : Nat) : Nat := n % 2 ^ 64

/-- Modelled from the spec: the read cursor `struct read_ctx` (section 4.2), a
position `ptr` in the bytes `data` of a section, with the flag that asks for
swapped byte order. -/
structure read_ctx where
  data : List Nat
  ptr : Nat
  other_byte_order : Bool
deriving DecidableEq, Repr

/-- Modelled from the spec: `read_ctx_init`. -/
def read_ctx_init (data : List Nat) (other_byte_order : Bool) : read_ctx :=
  ⟨data, 0, other_byte_order⟩

/-- Modelled from the spec: `need_data (n)`. -/
def read_ctx_need_data (ctx : read_ctx) (length : Nat) : Bool :=
  decide (ctx.ptr + length ≤ ctx.data.length)

/-- Modelled from the spec: `skip (n)`, which fails when the cursor would advance past
the end. -/
def read_ctx_skip (ctx : read_ctx) (len : Nat) : Option read_ctx :=
  if read_ctx_need_data ctx len then some { ctx with ptr := ctx.ptr + len } else none

/-- Modelled from the spec: `eof ()`. -/
def read_ctx_eof (ctx : read_ctx) : Bool := !read_ctx_need_data ctx 1

/-- Modelled from the spec: `offset ()`. -/
def read_ctx_get_offset (ctx : read_ctx) : Nat := ctx.ptr

/-- The number that the bytes denote, least significant byte first. -/
def le_value : List Nat → Nat
  | [] => 0
  | b :: bs => b % 256 + 256 * le_value bs

/-- Modelled from the spec: a fixed-width read of `n` bytes, with no partial read. -/
def read_ctx_read (ctx : read_ctx) (n : Nat) : Option (Nat × read_ctx) :=
  if read_ctx_need_data ctx n then
    let bytes := (ctx.data.drop ctx.ptr).take n
    some (le_value (if ctx.other_byte_order then bytes.reverse else bytes),
      { ctx with ptr := ctx.ptr + n })
  else none

/-- Modelled from the spec: `read_2ubyte`. -/
def read_ctx_read_2ubyte (ctx : read_ctx) : Option (Nat × read_ctx) := read_ctx_read ctx 2

/-- Modelled from the spec: `read_offset (is_64)`, which reads 4 or 8 bytes. -/
def read_ctx_read_offset (ctx : read_ctx) (dwarf64 : Bool) : Option (Nat × read_ctx) :=
  read_ctx_read ctx (if dwarf64 then 8 else 4)

/-- Modelled from the spec: `read_ubyte`. -/
def read_ctx_read_ubyte (ctx : read_ctx) : Option (Nat × read_ctx) := read_ctx_read ctx 1

/-- Modelled from the spec: `read_4ubyte`. -/
def read_ctx_read_4ubyte (ctx : read_ctx) : Option (Nat × read_ctx) := read_ctx_read ctx 4

/-- Modelled from the spec: `read_8ubyte`. -/
def read_ctx_read_8ubyte (ctx : read_ctx) : Option (Nat × read_ctx) := read_ctx_read ctx 8

/-- Modelled from the spec: `init_sub (parent, begin, end)`, a child bounded to
`[begin, end)` within the parent: a cursor over these bytes of the parent, at their
start, so that its offsets count from `begin`.  It fails when the bytes are not within
the parent. -/
def read_ctx_init_sub (parent : read_ctx) (begin_ end_ : Nat) : Option read_ctx :=
  if begin_ ≤ end_ ∧ end_ ≤ parent.data.length then
    some ⟨(parent.data.drop begin_).take (end_ - begin_), 0, parent.other_byte_order⟩
  else none

/-- The number that the bytes at the start of the list encode as ULEB128, and the number
of these bytes; there is none if the bytes end within the number. -/
def uleb128_decode : List Nat → Option (Nat × Nat)
  | [] => none
  | b :: bs =>
    if b % 256 < 128 then some (b % 256, 1)
    else
      match uleb128_decode bs with
      | none => none
      | some (v, n) => some (b % 128 + 128 * v, n + 1)

/-- Modelled from the spec: `read_uleb128`, the standard variable-length encoding, with
the result in `uint64_t`; it fails when the input is exhausted or there are more than
128 bits of payload. -/
def read_ctx_read_uleb128 (ctx : read_ctx) : Option (Nat × read_ctx) :=
  match uleb128_decode (ctx.data.drop ctx.ptr) with
  | none => none
  | some (v, n) =>
    if 7 * n > 128 + 6 then none else some (v % 2 ^ 64, { ctx with ptr := ctx.ptr + n })

/-- Modelled from the spec: `read_sleb128`, the standard variable-length encoding of a
signed number, with the result in `int64_t`. -/
def read_ctx_read_sleb128 (ctx : read_ctx) : Option (Int × read_ctx) :=
  match uleb128_decode (ctx.data.drop ctx.ptr) with
  | none => none
  | some (v, n) =>
    if 7 * n > 128 + 6 then none
    else
      let s : Int := if v < 2 ^ (7 * n - 1) then (v : Int) else (v : Int) - 2 ^ (7 * n)
      some ((s + 2 ^ 63) % 2 ^ 64 - 2 ^ 63, { ctx with ptr := ctx.ptr + n })

/-- Modelled from the spec: `struct coverage` (section 4.1), the set of the bytes of
the intervals `(start, length)` added so far. -/
structure coverage where
  ranges : List (Nat × Nat)
deriving DecidableEq, Repr

/-- Byte `b` is in the set. -/
def coverage.has (cov : coverage) (b : Nat) : Bool :=
  cov.ranges.any (fun r => decide (r.1 ≤ b ∧ b < r.1 + r.2))

/-- Modelled from the spec: `add (start, len)`; an empty interval adds nothing. -/
def coverage_add (cov : coverage) (start length : Nat) : coverage :=
  if length = 0 then cov else ⟨cov.ranges ++ [(start, length)]⟩

/-- Modelled from the spec: `is_overlap (start, len)`, true iff any byte of
`[start, start + len)` is in the set. -/
def coverage_is_overlap (cov : coverage) (start length : Nat) : Bool :=
  (List.range length).any (fun i => cov.has (start + i))

/-- Modelled from the spec: `is_covered (start, len)`, true iff every byte of
`[start, start + len)` is in the set. -/
def coverage_is_covered (cov : coverage) (start length : Nat) : Bool :=
  (List.range length).all (fun i => cov.has (start + i))

/-- The holes among the bytes `pos .. pos + n - 1`, in ascending order; `cur` is the
hole that is open at `pos`, as `(start, length)`. -/
def holes_from (cov : coverage) : Nat → Nat → Option (Nat × Nat) → List (Nat × Nat)
  | 0, _, none => []
  | 0, _, some h => [h]
  | n + 1, pos, none =>
    if cov.has pos then holes_from cov n (pos + 1) none
    else holes_from cov n (pos + 1) (some (pos, 1))
  | n + 1, pos, some h =>
    if cov.has pos then h :: holes_from cov n (pos + 1) none
    else holes_from cov n (pos + 1) (some (h.1, h.2 + 1))

/-- Modelled from the spec: `find_holes (begin, end, cb)` with a callback that always
returns true: the maximal sub-intervals of `[begin, end)` that are not covered, in
ascending order, as `(start, length)`. -/
def coverage_find_holes (cov : coverage) (begin_ end_ : Nat) : List (Nat × Nat) :=
  holes_from cov (end_ - begin_) begin_ none

/-- A relocation entry (`struct relocation`). -/
structure relocation where
  offset : Nat
  type : Nat
  symndx : Nat
  addend : Nat
deriving DecidableEq, Repr

/-- The relocations of a section with the cursor into them (`struct relocation_data`). -/
structure relocation_data where
  rel : List relocation
  index : Nat
deriving DecidableEq, Repr

/-- The `enum skip_type` of the relocation cursor. -/
inductive skip_type where
  | skip_unref
  | skip_mismatched
  | skip_ok
deriving DecidableEq, Repr

/-- The fields of a section header `GElf_Shdr` that are used. -/
structure shdr where
  sh_addr : Nat
  sh_size : Nat
  sh_flags : Nat
  sh_addralign : Nat
deriving DecidableEq, Repr

/-- The `struct sec` of `low.h`; `data` are the bytes of the section, if present. -/
structure sec where
  shdr : shdr
  rel : relocation_data
  name : String
  data : Option (List Nat)
  id : section_id
deriving DecidableEq, Repr

/-- The `struct elf_file` of `low.h`, as far as it is used. -/
structure elf_file where
  e_type : Nat
  sec : List sec
  addr_64 : Bool
  other_byte_order : Bool
deriving DecidableEq, Repr

/-- A reference `struct ref`: the offset referred to and where the reference is. -/
structure ref where
  addr : Nat
  who : locus
deriving DecidableEq, Repr

/-- The header of a compilation unit, as far as it is used. -/
structure cu_head where
  address_size : Nat
  version : Nat
  offset_size : Nat
deriving DecidableEq, Repr

/-- A compilation unit `struct cu`, as far as it is used; the chain of units is a
list. -/
structure cu where
  head : cu_head
  low_pc : Nat
  loc_refs : List ref
  range_refs : List ref
deriving DecidableEq, Repr

/-- The `struct section_coverage` of `low.h`. -/
structure section_coverage where
  sec : sec
  cov : coverage
  hit : Bool
  warn : Bool
deriving DecidableEq, Repr

/-- The `struct coverage_map` of `low.h`. -/
structure coverage_map where
  elf : elf_file
  scos : List section_coverage
  allow_overlap : Bool
deriving DecidableEq, Repr

/-- The parts of the program that `check_debug_loc_range.cc` uses and that are not
among the sources: the category constants, the relocation cursor (`relocation_next`,
`relocation_skip`, `relocation_skip_rest`), `relocate_one` (which gives the relocated
value and the symbol), `check_range_relocations`, `necessary_alignment`, the table
`DW_OP_OPERANDS` of the forms of the operands of an opcode (as the function
`get_location_opcode_operands` that is made of it), and the messages of
`checked_read_uleb128` and `checked_read_sleb128` (for the cursor before the read).
Those that write messages give the text that they write. -/
structure lr_env where
  mc : categories
  relocation_next : relocation_data → Nat → locus → skip_type →
    Option relocation × relocation_data × List String
  relocate_one : elf_file → relocation_data → relocation → Nat → Nat → locus → section_id →
    Nat × Nat × relocation_data × List String
  check_range_relocations : Nat → locus → elf_file → Nat → Nat → List String
  relocation_skip : relocation_data → Nat → locus → skip_type → relocation_data × List String
  relocation_skip_rest : relocation_data → section_id → relocation_data × List String
  necessary_alignment : Nat → Nat → Nat → Bool
  get_location_opcode_operands : Nat → Option (Nat × Nat)
  leb128_messages : Bool → read_ctx → locus → String → List String

/-- The state of `coverage_map_add` in its loop over the sections. -/
structure cma_state where
  scos : List section_coverage
  found : Bool
  crosses_boundary : Bool
  overlap : Bool
  range_cov : coverage
  diags : List diag

/-- The loop of `coverage_map_add` over the sections from `todo` on; `done` are the
sections before, in reverse.  `none` stands for the failed `assert`. -/
def coverage_map_add_loop (mc : categories) (allow_overlap : Bool) (address length : Nat)
    (wh : locus) (cat : Nat) :
    List section_coverage → List section_coverage → cma_state → Option cma_state
  | [], done, st => some { st with scos := done.reverse }
  | sco :: todo, done, st =>
    let end_ := u64 (address + length)
    let s_end := u64 (sco.sec.shdr.sh_addr + sco.sec.shdr.sh_size)
    if end_ ≤ sco.sec.shdr.sh_addr ∨ address ≥ s_end then
      coverage_map_add_loop mc allow_overlap address length wh cat todo (sco :: done) st
    else
      let st :=
        if st.found ∧ ¬ st.crosses_boundary then
          { st with
            diags := st.diags ++ [diag.message (cat ||| mc.mc_impact_2) wh
              ": the range %s crosses section boundaries.\n" [fmt_arg.range address end_]]
            crosses_boundary := true }
        else st
      let st := { st with found := true }
      if length = 0 then some { st with scos := done.reverse ++ sco :: todo }
      else
        let cov_begin :=
          if address < sco.sec.shdr.sh_addr then 0 else address - sco.sec.shdr.sh_addr
        let cov_end :=
          if end_ < s_end then u64 (end_ + 2 ^ 64 - sco.sec.shdr.sh_addr)
          else sco.sec.shdr.sh_size
        if ¬ cov_begin < cov_end then none
        else
          let r_delta := u64 (sco.sec.shdr.sh_addr + 2 ^ 64 - address)
          let r_cov_begin := u64 (cov_begin + r_delta)
          let r_cov_end := u64 (cov_end + r_delta)
          let st :=
            if ¬ st.overlap ∧ ¬ allow_overlap ∧
                coverage_is_overlap sco.cov cov_begin (cov_end - cov_begin) then
              { st with
                diags := st.diags ++ [diag.message (cat ||| mc.mc_impact_2 ||| mc.mc_error) wh
                  ": the range %s overlaps with another one.\n"
                  [fmt_arg.range address end_]]
                overlap := true }
            else st
          let st :=
            if sco.warn then
              { st with
                diags := st.diags ++ [diag.message (cat ||| mc.mc_impact_2) wh
                  ": the range %s covers section %s.\n"
                  [fmt_arg.range address end_, fmt_arg.str sco.sec.name]] }
            else st
          let sco := { sco with
            cov := coverage_add sco.cov cov_begin (cov_end - cov_begin)
            hit := true }
          let st := { st with
            range_cov := coverage_add st.range_cov r_cov_begin
              (u64 (r_cov_end + 2 ^ 64 - r_cov_begin)) }
          coverage_map_add_loop mc allow_overlap address length wh cat todo (sco :: done) st

/-- The callback `range_hole`: one error for a hole of the range. -/
def range_hole (wh : locus) (address end_ : Nat) (hole : Nat × Nat) : diag :=
  diag.error wh ": portion %s of the range %s doesn't fall into any ALLOC section.\n"
    [fmt_arg.range (u64 (hole.1 + address)) (u64 (hole.1 + address + hole.2)),
     fmt_arg.range address end_]

/-- The function `coverage_map_add`: the map afterwards and the messages. -/
def coverage_map_add (mc : categories) (cm : coverage_map) (address length : Nat)
    (wh : locus) (cat : Nat) : Option (coverage_map × List diag) :=
  match coverage_map_add_loop mc cm.allow_overlap address length wh cat cm.scos []
      ⟨cm.scos, false, false, false, ⟨[]⟩, []⟩ with
  | none => none
  | some st =>
    let end_ := u64 (address + length)
    let diags :=
      if ¬ st.found then
        st.diags ++ [diag.error wh ": couldn't find a section that the range %s covers.\n"
          [fmt_arg.range address end_]]
      else if length > 0 then
        st.diags ++ (coverage_find_holes st.range_cov 0 length).map (range_hole wh address end_)
      else st.diags
    some ({ cm with scos := st.scos }, diags)

/-- What `check_loc_or_range_ref` works on: its cursor `ctx`, the relocation cursor
`sec->rel`, the section coverage, the optional coverage map and `pc_coverage`, its
variables `retval`, `overlap` and `base`, and the calls of the message module so
far. -/
structure lr_state where
  ctx : read_ctx
  rel : relocation_data
  coverage : coverage
  coverage_map : Option Dwarflint.coverage_map
  pc_coverage : Option Dwarflint.coverage
  retval : Bool
  overlap : Bool
  base : Nat
  diags : List diag
deriving DecidableEq, Repr

/-- How a round of the loop ends: with the next round, with `break`, or with
`return false`. -/
inductive lr_step where
  | next (st : lr_state)
  | stop (st : lr_state)
  | fail (st : lr_state)
deriving DecidableEq, Repr

/-- The state that a round ends with. -/
def lr_step.state : lr_step → lr_state
  | lr_step.next st => st
  | lr_step.stop st => st
  | lr_step.fail st => st

/-- An end of a range as read: the address, whether a relocation applied, and the
symbol of the relocation. -/
structure endpoint where
  addr : Nat
  relocated : Bool
  symbol : Nat
deriving DecidableEq, Repr

/-- The value `escape`: all bits of an address set. -/
def escape_value (address_size : Nat) : Nat :=
  if address_size = 8 then 2 ^ 64 - 1 else 2 ^ 32 - 1

/-- The macro `HAVE_OVERLAP`. -/
def HAVE_OVERLAP (st : lr_state) (wh : locus) : lr_state :=
  { st with
    diags := st.diags ++ [diag.error wh ": range definitions overlap.\n" []]
    retval := false
    overlap := true }

/-- The statement `if (!overlap && coverage_is_overlap (coverage, off, len)) HAVE_OVERLAP;`. -/
def lr_check_overlap (st : lr_state) (wh : locus) (off len : Nat) : lr_state :=
  if ¬ st.overlap ∧ coverage_is_overlap st.coverage off len then HAVE_OVERLAP st wh else st

/-- The part "begin address" of a round: the overlap test, the read and the
relocation.  No endpoint means `return false`. -/
def lr_begin (E : lr_env) (file : elf_file) (c : cu) (wh : locus) (st : lr_state) :
    lr_state × Option endpoint :=
  let begin_off := read_ctx_get_offset st.ctx
  let st := lr_check_overlap st wh begin_off c.head.address_size
  match read_ctx_read_offset st.ctx (c.head.address_size == 8) with
  | none =>
    ({ st with diags := st.diags ++
        [diag.error wh ": can't read address range beginning.\n" []] }, none)
  | some (begin_addr, ctx) =>
    let st := { st with ctx := ctx }
    let r := E.relocation_next st.rel begin_off wh skip_type.skip_mismatched
    let st := { st with rel := r.2.1, diags := st.diags ++ r.2.2.map diag.other }
    match r.1 with
    | some rel =>
      let q := E.relocate_one file st.rel rel c.head.address_size begin_addr wh
        section_id.rel_value
      ({ st with rel := q.2.2.1, diags := st.diags ++ q.2.2.2.map diag.other },
        some ⟨q.1, true, q.2.1⟩)
    | none => (st, some ⟨begin_addr, false, 0⟩)

/-- The part "end address" of a round, with the messages about an end relocated
without the other. -/
def lr_end (E : lr_env) (file : elf_file) (c : cu) (wh : locus) (cat : Nat) (st : lr_state)
    (b : endpoint) : lr_state × Option endpoint :=
  let end_off := read_ctx_get_offset st.ctx
  let st := lr_check_overlap st wh end_off c.head.address_size
  match read_ctx_read_offset st.ctx (c.head.address_size == 8) with
  | none =>
    ({ st with diags := st.diags ++
        [diag.error wh ": can't read address range ending.\n" []] }, none)
  | some (end_addr, ctx) =>
    let st := { st with ctx := ctx }
    let r := E.relocation_next st.rel end_off wh skip_type.skip_mismatched
    let st := { st with rel := r.2.1, diags := st.diags ++ r.2.2.map diag.other }
    match r.1 with
    | some rel =>
      let q := E.relocate_one file st.rel rel c.head.address_size end_addr wh
        section_id.rel_value
      let st := { st with rel := q.2.2.1, diags := st.diags ++ q.2.2.2.map diag.other }
      let st :=
        if b.addr ≠ escape_value c.head.address_size then
          if ¬ b.relocated then
            { st with diags := st.diags ++
                [diag.message (cat ||| E.mc.mc_impact_2 ||| E.mc.mc_reloc) wh
                  ": end of address range is relocated, but the beginning wasn't.\n" []] }
          else
            { st with diags := st.diags ++
                (E.check_range_relocations cat wh file b.symbol q.2.1).map diag.other }
        else st
      (st, some ⟨q.1, true, q.2.1⟩)
    | none =>
      let st :=
        if b.relocated then
          { st with diags := st.diags ++
              [diag.message (cat ||| E.mc.mc_impact_2 ||| E.mc.mc_reloc) wh
                ": end of address range is not relocated, but the beginning was.\n" []] }
        else st
      (st, some ⟨end_addr, false, 0⟩)

/-- The coverage analysis of a payload entry with `begin_addr < end_addr`. -/
def lr_cover (E : lr_env) (wh : locus) (cat : Nat) (st : lr_state)
    (begin_addr end_addr : Nat) : Option lr_state :=
  if st.base < 2 ^ 64 - 2 ∧ st.retval ∧
      (st.coverage_map.isSome ∨ st.pc_coverage.isSome) then
    let address := u64 (begin_addr + st.base)
    let length := end_addr - begin_addr
    let r :=
      match st.coverage_map with
      | none => some st
      | some cm =>
        match coverage_map_add E.mc cm address length wh cat with
        | none => none
        | some (cm, diags) =>
          some { st with coverage_map := some cm, diags := st.diags ++ diags }
    match r with
    | none => none
    | some st =>
      match st.pc_coverage with
      | none => some st
      | some pc => some { st with pc_coverage := some (coverage_add pc address length) }
  else some st

/-! ### Location expressions

The opcodes and forms are constants of `dwarf.h`, with the values of the DWARF
standard. -/

def DW_OP_addr : Nat := 0x03
def DW_OP_const8u : Nat := 0x0e
def DW_OP_const8s : Nat := 0x0f
def DW_OP_constu : Nat := 0x10
def DW_OP_consts : Nat := 0x11
def DW_OP_plus_uconst : Nat := 0x23
def DW_OP_bra : Nat := 0x28
def DW_OP_skip : Nat := 0x2f
def DW_OP_deref_size : Nat := 0x94
def DW_OP_nop : Nat := 0x96
def DW_OP_call2 : Nat := 0x98
def DW_OP_call4 : Nat := 0x99
def DW_OP_call_ref : Nat := 0x9a

def DW_FORM_addr : Nat := 0x01
def DW_FORM_block2 : Nat := 0x03
def DW_FORM_block4 : Nat := 0x04
def DW_FORM_data2 : Nat := 0x05
def DW_FORM_data4 : Nat := 0x06
def DW_FORM_data8 : Nat := 0x07
def DW_FORM_block : Nat := 0x09
def DW_FORM_block1 : Nat := 0x0a
def DW_FORM_data1 : Nat := 0x0b
def DW_FORM_sdata : Nat := 0x0d
def DW_FORM_udata : Nat := 0x0f
def DW_FORM_ref_addr : Nat := 0x10

/-- The function `checked_read_uleb128`: the read of the cursor, and the messages. -/
def checked_read_uleb128 (E : lr_env) (ctx : read_ctx) (wh : locus) (what : String) :
    Option (Nat × read_ctx) × List String :=
  (read_ctx_read_uleb128 ctx, E.leb128_messages false ctx wh what)

/-- The function `checked_read_sleb128`: the read of the cursor, and the messages. -/
def checked_read_sleb128 (E : lr_env) (ctx : read_ctx) (wh : locus) (what : String) :
    Option (Int × read_ctx) × List String :=
  (read_ctx_read_sleb128 ctx, E.leb128_messages true ctx wh what)

/-- The first `switch` of `read_ctx_read_form`, over the forms that are not blocks: the
value and the cursor behind it if the read succeeds, and the messages; no result if the
form is none of these.  A signed value is passed back in the `uint64_t`. -/
def read_ctx_read_data_form (E : lr_env) (ctx : read_ctx) (c : cu) (form : Nat) (wh : locus)
    (what : String) : Option (Option (Nat × read_ctx) × List String) :=
  if form = DW_FORM_addr then
    some (read_ctx_read_offset ctx (c.head.address_size == 8), [])
  else if form = DW_FORM_ref_addr then
    some (read_ctx_read_offset ctx
      ((if c.head.version ≥ 3 then c.head.offset_size else c.head.address_size) == 8), [])
  else if form = DW_FORM_udata then some (checked_read_uleb128 E ctx wh what)
  else if form = DW_FORM_sdata then
    let r := checked_read_sleb128 E ctx wh what
    some (r.1.map (fun p => (Int.toNat (p.1 % 2 ^ 64), p.2)), r.2)
  else if form = DW_FORM_data1 then some (read_ctx_read_ubyte ctx, [])
  else if form = DW_FORM_data2 then some (read_ctx_read_2ubyte ctx, [])
  else if form = DW_FORM_data4 then some (read_ctx_read_4ubyte ctx, [])
  else if form = DW_FORM_data8 then some (read_ctx_read_8ubyte ctx, [])
  else none

/-- The function `read_ctx_read_form`; `is_blockp` says that the pointer of this name is
not null.  The result is the value, `*is_blockp`, and the cursor, if the function returns
true. -/
def read_ctx_read_form (E : lr_env) (ctx : read_ctx) (c : cu) (form : Nat) (wh : locus)
    (what : String) (is_blockp : Bool) : Option (Nat × Bool × read_ctx) × List String :=
  match read_ctx_read_data_form E ctx c form wh what with
  | some (r, ds) => (r.map (fun p => (p.1, false, p.2)), ds)
  | none =>
    if is_blockp then
      let dform :=
        if form = DW_FORM_block then some DW_FORM_udata
        else if form = DW_FORM_block1 then some DW_FORM_data1
        else if form = DW_FORM_block2 then some DW_FORM_data2
        else if form = DW_FORM_block4 then some DW_FORM_data4
        else none
      match dform with
      | none => (none, [])
      | some dform =>
        match read_ctx_read_data_form E ctx c dform wh what with
        | none => (none, [])
        | some (none, ds) => (none, ds)
        | some (some (v, ctx), ds) =>
          match read_ctx_skip ctx v with
          | none => (none, ds)
          | some ctx => (some (v, true, ctx), ds)
    else (none, [])

/-- The function `reloc_target_loc`, with what it writes to `std::cout`; `none` stands
for the failed `assert`. -/
def reloc_target_loc (opcode : Nat) : Option (section_id × List diag) :=
  if opcode = DW_OP_call2 ∨ opcode = DW_OP_call4 then some (section_id.sec_info, [])
  else if opcode = DW_OP_addr then some (section_id.rel_address, [])
  else if opcode = DW_OP_call_ref then none
  else
    some (section_id.rel_value,
      [diag.print "XXX don't know how to handle opcode=%s\n" [fmt_arg.opcode opcode]])

/-- What `op_read_form` gives: its return value, the cursor, the relocation cursor, the
value `*valuep` (none as long as nothing was assigned), and the messages. -/
structure op_result where
  ok : Bool
  ctx : read_ctx
  reloc : relocation_data
  value : Option Nat
  diags : List diag
deriving DecidableEq, Repr

/-- The statement `if ((rel = relocation_next (reloc, off, where, skip_mismatched)))`
of `op_read_form`, for the value `v` that was read: the relocation cursor, the value and
the messages; `none` stands for the failed `assert` of `reloc_target_loc`. -/
def op_relocate (E : lr_env) (file : elf_file) (c : cu) (reloc : relocation_data)
    (opcode v : Nat) (isblock : Bool) (off : Nat) (wh : locus) :
    Option (relocation_data × Nat × List diag) :=
  let r := E.relocation_next reloc off wh skip_type.skip_mismatched
  match r.1 with
  | none => some (r.2.1, v, r.2.2.map diag.other)
  | some rel =>
    if ¬ isblock then
      match reloc_target_loc opcode with
      | none => none
      | some (target, ds2) =>
        let q := E.relocate_one file r.2.1 rel c.head.address_size v wh target
        some (q.2.2.1, q.1, r.2.2.map diag.other ++ ds2 ++ q.2.2.2.map diag.other)
    else
      some (r.2.1, v, r.2.2.map diag.other ++
        [diag.error wh ": relocation relocates a length field.\n" []])

/-- The statement `if (isblock)` at the end of `op_read_form`: the relocation cursor and
the messages. -/
def op_block_end (E : lr_env) (ctx : read_ctx) (init_off : Nat) (reloc : relocation_data)
    (isblock : Bool) (wh : locus) : relocation_data × List diag :=
  if isblock then
    let off_block_end := u64 (read_ctx_get_offset ctx + init_off + 2 ^ 64 - 1)
    let r := E.relocation_next reloc off_block_end wh skip_type.skip_ok
    (r.2.1, r.2.2.map diag.other)
  else (reloc, [])

/-- The function `op_read_form`; `none` stands for the failed `assert` of
`reloc_target_loc`.  When the read fails the caller leaves its loop and uses neither the
cursor nor the value again: they are given as they were. -/
def op_read_form (E : lr_env) (file : elf_file) (ctx : read_ctx) (c : cu) (init_off : Nat)
    (reloc : relocation_data) (opcode form : Nat) (value : Option Nat) (str : String)
    (wh : locus) : Option op_result :=
  if form = 0 then some ⟨true, ctx, reloc, value, []⟩
  else
    let off := u64 (read_ctx_get_offset ctx + init_off)
    match read_ctx_read_form E ctx c form wh str true with
    | (none, ds) =>
      some ⟨false, ctx, reloc, value, ds.map diag.other ++
        [diag.error wh "opcode \"%s\": can't read %s (form \"%s\").\n"
          [fmt_arg.opcode opcode, fmt_arg.str str, fmt_arg.form form]]⟩
    | (some (v, isblock, ctx), ds) =>
      match op_relocate E file c reloc opcode v isblock off wh with
      | none => none
      | some (rd, v, ds1) =>
        let b := op_block_end E ctx init_off rd isblock wh
        some ⟨true, ctx, b.1, some v, ds.map diag.other ++ ds1 ++ b.2⟩

/-- What `check_location_expression` works on: its cursor, the relocation cursor, the
records `oprefs` and `opaddrs`, and the messages.  The records `struct ref_record` and
`struct addr_record` are not among the sources: `ref_record_add` and `addr_record_add`
are taken to add an element, which is appended here. -/
structure locexpr_state where
  ctx : read_ctx
  reloc : relocation_data
  oprefs : List ref
  opaddrs : List Nat
  diags : List diag
deriving DecidableEq, Repr

/-- How a round of the loop over the opcodes ends: with the next round, or with `break`
or `goto out`. -/
inductive locexpr_step where
  | next (st : locexpr_state)
  | stop (st : locexpr_state)
deriving DecidableEq, Repr

/-- The state that a round ends with. -/
def locexpr_step.state : locexpr_step → locexpr_state
  | locexpr_step.next st => st
  | locexpr_step.stop st => st

/-- The value of `int16_t skip = (uint16_t)value1`. -/
def skip_value (value1 : Nat) : Int :=
  if value1 % 2 ^ 16 < 2 ^ 15 then ((value1 % 2 ^ 16 : Nat) : Int)
  else ((value1 % 2 ^ 16 : Nat) : Int) - 2 ^ 16

/-- The messages of the branch of `DW_OP_bra` and `DW_OP_skip`; `cat (a, b, c)` of
`messages.h` is taken to join the categories. -/
def skip_zero_message (E : lr_env) (wh : locus) (opcode : Nat) : diag :=
  diag.message (E.mc.mc_loc ||| E.mc.mc_acc_bloat ||| E.mc.mc_impact_3) wh
    "%s with skip 0.\n" [fmt_arg.opcode opcode]

def branch_out_error (wh : locus) (opcode : Nat) : diag :=
  diag.error wh "%s branches out of location expression.\n" [fmt_arg.opcode opcode]

def branch_before_error (wh : locus) (opcode : Nat) : diag :=
  diag.error wh "%s branches before the beginning of location expression.\n"
    [fmt_arg.opcode opcode]

/-- The case `DW_OP_bra`, `DW_OP_skip` of the `switch` on the opcode; `wh` is the
location of the opcode and `value1` the first operand. -/
def locexpr_branch (E : lr_env) (init_off : Nat) (wh : locus) (opcode value1 : Nat)
    (st : locexpr_state) : locexpr_state :=
  let skip := skip_value value1
  if skip = 0 then { st with diags := st.diags ++ [skip_zero_message E wh opcode] }
  else if skip > 0 ∧ ¬ read_ctx_need_data st.ctx skip.toNat then
    { st with diags := st.diags ++ [branch_out_error wh opcode] }
  else if skip < 0 ∧ (-skip).toNat > read_ctx_get_offset st.ctx then
    { st with diags := st.diags ++ [branch_before_error wh opcode] }
  else
    let off_after := u64 (read_ctx_get_offset st.ctx + init_off)
    { st with oprefs := st.oprefs ++ [⟨Int.toNat (((off_after : Int) + skip) % 2 ^ 64), wh⟩] }

/-- The message for an operand that does not fit into 32 bits. -/
def operand_32bit_message (E : lr_env) (wh : locus) (opcode value1 : Nat) : diag :=
  diag.message (E.mc.mc_loc ||| E.mc.mc_acc_bloat ||| E.mc.mc_impact_3) wh
    "%s with operand %s on a 32-bit machine.\n" [fmt_arg.opcode opcode, fmt_arg.hex value1]

/-- The `switch` on the opcode, after the operands are read; `value1` is the first
operand, none if the opcode has none, in which case the variable has no value and
there is no result where it is read. -/
def locexpr_check (E : lr_env) (c : cu) (init_off : Nat) (wh : locus) (opcode : Nat)
    (value1 : Option Nat) (st : locexpr_state) : Option locexpr_state :=
  if opcode = DW_OP_bra ∨ opcode = DW_OP_skip then
    match value1 with
    | none => none
    | some v => some (locexpr_branch E init_off wh opcode v st)
  else if opcode = DW_OP_const8u ∨ opcode = DW_OP_const8s then
    if c.head.address_size = 4 then
      some { st with diags := st.diags ++
        [diag.error wh "%s on 32-bit machine.\n" [fmt_arg.opcode opcode]] }
    else some st
  else if c.head.address_size = 4 ∧ (opcode = DW_OP_constu ∨ opcode = DW_OP_consts ∨
      opcode = DW_OP_deref_size ∨ opcode = DW_OP_plus_uconst) then
    match value1 with
    | none => none
    | some v =>
      if v > 2 ^ 32 - 1 then
        some { st with diags := st.diags ++ [operand_32bit_message E wh opcode v] }
      else some st
  else some st

/-- One round of the loop of `check_location_expression`. -/
def locexpr_round (E : lr_env) (file : elf_file) (c : cu) (init_off : Nat) (wh : locus)
    (st : locexpr_state) : Option locexpr_step :=
  let opcode_off := u64 (read_ctx_get_offset st.ctx + init_off)
  let where_ := locus.sub section_id.sec_locexpr opcode_off wh
  let st := { st with opaddrs := st.opaddrs ++ [opcode_off] }
  match read_ctx_read_ubyte st.ctx with
  | none =>
    some (locexpr_step.stop { st with diags := st.diags ++
      [diag.error where_ ": can't read opcode.\n" []] })
  | some (opcode, ctx) =>
    let st := { st with ctx := ctx }
    match E.get_location_opcode_operands opcode with
    | none =>
      some (locexpr_step.stop { st with diags := st.diags ++
        [diag.error where_ "can't decode opcode \"%s\".\n" [fmt_arg.opcode opcode]] })
    | some (op1, op2) =>
      match op_read_form E file st.ctx c init_off st.reloc opcode op1 none "1st operand"
          where_ with
      | none => none
      | some r1 =>
        let st := { st with ctx := r1.ctx, reloc := r1.reloc, diags := st.diags ++ r1.diags }
        if ¬ r1.ok then some (locexpr_step.stop st)
        else
          match op_read_form E file st.ctx c init_off st.reloc opcode op2 none "2st operand"
              where_ with
          | none => none
          | some r2 =>
            let st := { st with ctx := r2.ctx, reloc := r2.reloc, diags := st.diags ++ r2.diags }
            if ¬ r2.ok then some (locexpr_step.stop st)
            else
              match locexpr_check E c init_off where_ opcode r1.value st with
              | none => none
              | some st => some (locexpr_step.next st)

/-- The loop `while (!read_ctx_eof (&ctx))` of `check_location_expression`. -/
def locexpr_loop (E : lr_env) (file : elf_file) (c : cu) (init_off : Nat) (wh : locus) :
    Nat → locexpr_state → Option locexpr_state
  | 0, _ => none
  | fuel + 1, st =>
    if read_ctx_eof st.ctx then some st
    else
      match locexpr_round E file c init_off wh st with
      | none => none
      | some (locexpr_step.stop st) => some st
      | some (locexpr_step.next st) => locexpr_loop E file c init_off wh fuel st

/-- The error for a reference to an offset where no opcode starts. -/
def unresolved_error (r : ref) : diag :=
  diag.error r.who ": unresolved reference to opcode at %#lx.\n" [fmt_arg.num r.addr]

/-- The loop after the label `out` of `check_location_expression`, over the references
of `oprefs`; `addr_record_has_addr`, which is not among the sources, is taken to say
whether the offset was added to `opaddrs`. -/
def locexpr_out (opaddrs : List Nat) : List ref → List diag
  | [] => []
  | r :: rest =>
    if r.addr ∈ opaddrs then locexpr_out opaddrs rest
    else unresolved_error r :: locexpr_out opaddrs rest

/-- The function `check_location_expression`: its return value, the relocation cursor
and the messages.  Each round of its loop reads a byte at least, so the loop gets one
unit of fuel more than the expression has bytes; `none` stands for a failed `assert`
or the read of a variable without value. -/
def check_location_expression (E : lr_env) (file : elf_file) (parent_ctx : read_ctx) (c : cu)
    (init_off : Nat) (reloc : relocation_data) (length : Nat) (wh : locus) :
    Option (Bool × relocation_data × List diag) :=
  match read_ctx_init_sub parent_ctx parent_ctx.ptr (parent_ctx.ptr + length) with
  | none =>
    some (false, reloc,
      [diag.error wh ": not enough data for %s.\n" [fmt_arg.str "location expression"]])
  | some ctx =>
    match locexpr_loop E file c init_off wh (length + 1) ⟨ctx, reloc, [], [], []⟩ with
    | none => none
    | some st => some (true, st.reloc, st.diags ++ locexpr_out st.opaddrs st.oprefs)

/-- The part of a payload entry of `.debug_loc` that reads the location expression;
`none` stands for a call of `check_location_expression` that does not return. -/
def lr_locexpr (E : lr_env) (file : elf_file) (c : cu) (wh : locus) (st : lr_state) :
    Option lr_step :=
  let st := lr_check_overlap st wh (read_ctx_get_offset st.ctx) 2
  match read_ctx_read_2ubyte st.ctx with
  | none =>
    some (lr_step.fail { st with diags := st.diags ++
      [diag.error wh "can't read length of location expression.\n" []] })
  | some (len, ctx) =>
    let st := { st with ctx := ctx }
    let expr_start := read_ctx_get_offset st.ctx
    match check_location_expression E file st.ctx c expr_start st.rel len wh with
    | none => none
    | some r =>
      let st := { st with rel := r.2.1, diags := st.diags ++ r.2.2 }
      if ¬ r.1 then some (lr_step.fail st)
      else
        let expr_end := read_ctx_get_offset st.ctx
        let st := lr_check_overlap st wh expr_start (expr_end - expr_start)
        match read_ctx_skip st.ctx len with
        | none =>
          some (lr_step.fail { st with diags := st.diags ++
            [diag.error wh ": not enough data for %s.\n" [fmt_arg.str "location expression"]] })
        | some ctx => some (lr_step.next { st with ctx := ctx })

/-- The statement `coverage_add (coverage, where.addr1, read_ctx_get_offset (&ctx) -
where.addr1)` at the end of a round. -/
def lr_finish (wh : locus) (st : lr_state) : lr_state :=
  let length := read_ctx_get_offset st.ctx - wh.addr
  { st with coverage := coverage_add st.coverage wh.addr length }

/-- The tests of a payload entry on its range: the error for a missing base address,
and then the message for a negative range, the message for an empty range, or the
coverage analysis. -/
def lr_range (E : lr_env) (wh : locus) (cat : Nat) (st : lr_state) (b e : endpoint) :
    Option lr_state :=
  let st :=
    if st.base = 2 ^ 64 - 1 then
      { st with diags := st.diags ++
          [diag.error wh ": address range with no base address set: %s.\n"
            [fmt_arg.range b.addr e.addr]] }
    else st
  if e.addr < b.addr then
    some { st with diags := st.diags ++
      [diag.message (cat ||| E.mc.mc_error) wh ": has negative range %s.\n"
        [fmt_arg.range b.addr e.addr]] }
  else if b.addr = e.addr then
    some { st with diags := st.diags ++
      [diag.message (cat ||| E.mc.mc_acc_bloat ||| E.mc.mc_impact_3) wh
        ": entry covers no range.\n" []] }
  else lr_cover E wh cat st b.addr e.addr

/-- The branch `else if (begin_addr != escape)` of a round: a payload entry. -/
def lr_payload (E : lr_env) (file : elf_file) (c : cu) (sec_id : section_id) (wh : locus)
    (cat : Nat) (st : lr_state) (b e : endpoint) : Option lr_step :=
  match lr_range E wh cat st b e with
  | none => none
  | some st =>
    if sec_id = section_id.sec_loc then lr_locexpr E file c wh st
    else some (lr_step.next st)

/-- The last branch of a round: a base address selection. -/
def lr_selector (E : lr_env) (wh : locus) (cat : Nat) (st : lr_state) (e : endpoint) :
    lr_state :=
  if e.addr = st.base then
    { st with diags := st.diags ++
        [diag.message (cat ||| E.mc.mc_acc_bloat ||| E.mc.mc_impact_3) wh
          ": base address selection doesn't change base address (%#lx).\n"
          [fmt_arg.num st.base]] }
  else { st with base := e.addr }

/-- The classification of an entry and what follows it in a round, up to the
`coverage_add` for the bytes of the entry and the `break` after a list end. -/
def lr_tail (E : lr_env) (file : elf_file) (c : cu) (sec_id : section_id) (wh : locus)
    (cat : Nat) (st : lr_state) (b e : endpoint) : Option lr_step :=
  if b.addr = 0 ∧ e.addr = 0 ∧ ¬ b.relocated ∧ ¬ e.relocated then
    some (lr_step.stop (lr_finish wh st))
  else if b.addr ≠ escape_value c.head.address_size then
    match lr_payload E file c sec_id wh cat st b e with
    | some (lr_step.next st) => some (lr_step.next (lr_finish wh st))
    | r => r
  else some (lr_step.next (lr_finish wh (lr_selector E wh cat st e)))

/-- One round of the loop of `check_loc_or_range_ref`. -/
def lr_body (E : lr_env) (file : elf_file) (c : cu) (sec_id : section_id) (wh : locus)
    (cat : Nat) (st : lr_state) : Option lr_step :=
  let where_ := locus.sub sec_id (read_ctx_get_offset st.ctx) wh
  match lr_begin E file c where_ st with
  | (st, none) => some (lr_step.fail st)
  | (st, some b) =>
    match lr_end E file c where_ cat st b with
    | (st, none) => some (lr_step.fail st)
    | (st, some e) => lr_tail E file c sec_id where_ cat st b e

/-- The loop `while (!read_ctx_eof (&ctx))` of `check_loc_or_range_ref`; the field
`retval` of the result is the value returned. -/
def lr_loop (E : lr_env) (file : elf_file) (c : cu) (sec_id : section_id) (wh : locus)
    (cat : Nat) : Nat → lr_state → Option lr_state
  | 0, _ => none
  | fuel + 1, st =>
    if read_ctx_eof st.ctx then some st
    else
      match lr_body E file c sec_id wh cat st with
      | none => none
      | some (lr_step.fail st) => some { st with retval := false }
      | some (lr_step.stop st) => some st
      | some (lr_step.next st) => lr_loop E file c sec_id wh cat fuel st

/-- What `check_loc_or_range_ref` is given besides its arguments by value: the
relocation cursor of the section, the coverages, and the messages so far. -/
structure lr_input where
  rel : relocation_data
  coverage : coverage
  coverage_map : Option Dwarflint.coverage_map
  pc_coverage : Option Dwarflint.coverage
  diags : List diag
deriving DecidableEq, Repr

/-- The function `check_loc_or_range_ref`; `data` are the bytes of `parent_ctx`. -/
def check_loc_or_range_ref (E : lr_env) (fuel : Nat) (file : elf_file) (data : List Nat)
    (c : cu) (sec_id : section_id) (io : lr_input) (addr : Nat) (wh : locus) (cat : Nat) :
    Option lr_state :=
  if ¬ (sec_id = section_id.sec_loc ∨ sec_id = section_id.sec_ranges) then none
  else if ¬ (cat = E.mc.mc_loc ∨ cat = E.mc.mc_ranges) then none
  else if ¬ ((sec_id = section_id.sec_loc) ↔ (cat = E.mc.mc_loc)) then none
  else
    let ctx := read_ctx_init data file.other_byte_order
    match read_ctx_skip ctx addr with
    | none =>
      some ⟨ctx, io.rel, io.coverage, io.coverage_map, io.pc_coverage, false, false,
        c.low_pc, io.diags ++
          [diag.error wh ": invalid reference outside the section %#lx, size only %#tx.\n"
            [fmt_arg.num addr, fmt_arg.num data.length]]⟩
    | some ctx =>
      let st : lr_state := ⟨ctx, io.rel, io.coverage, io.coverage_map, io.pc_coverage, true,
        false, c.low_pc, io.diags⟩
      let st :=
        if coverage_is_covered st.coverage addr 1 then
          { st with
            diags := st.diags ++ [diag.error wh
              ": reference to %#lx points into another location or range list.\n"
              [fmt_arg.num addr]]
            retval := false }
        else st
      lr_loop E file c sec_id wh cat fuel st

/-- The global `do_range_coverage` ("currently no option"). -/
def do_range_coverage : Bool := false

def SHF_ALLOC : Nat := 2
def SHF_EXECINSTR : Nat := 4
def ET_REL : Nat := 1

/-- The address of a `struct where` that has not been set, `(uint64_t)-1`. -/
def addr_unset : Nat := 2 ^ 64 - 1

/-- The function `section_coverage_init`. -/
def section_coverage_init (s : sec) (warn : Bool) : section_coverage :=
  ⟨s, ⟨[]⟩, false, warn⟩

/-- The function `coverage_map_init`: the sections from index 1 on whose flags contain
`mask` or `warn_mask`. -/
def coverage_map_init (elf : elf_file) (mask warn_mask : Nat) (allow_overlap : Bool) :
    coverage_map :=
  { elf := elf
    scos := (elf.sec.drop 1).filterMap (fun s =>
      let normal := decide ((s.shdr.sh_flags &&& mask) = mask)
      let warn := decide ((s.shdr.sh_flags &&& warn_mask) = warn_mask)
      if normal || warn then some (section_coverage_init s (!normal)) else none)
    allow_overlap := allow_overlap }

/-- The function `coverage_map_alloc_XA`; `xmalloc` does not return a null pointer and
`coverage_map_init` returns true. -/
def coverage_map_alloc_XA (elf : elf_file) (allow_overlap : Bool) : Option coverage_map :=
  some (coverage_map_init elf (SHF_EXECINSTR ||| SHF_ALLOC) SHF_ALLOC allow_overlap)

/-- The function `wr_message_padding_0` of `messages.cc`, as a call of `wr_message`. -/
def wr_message_padding_0 (mc : categories) (category : Nat) (wh : locus) (start end_ : Nat) :
    diag :=
  diag.message (category ||| mc.mc_acc_bloat ||| mc.mc_impact_1) wh ": %s: %s.\n"
    [fmt_arg.range start end_, fmt_arg.str "unnecessary padding with zero bytes"]

/-- The function `wr_message_padding_n0` of `messages.cc`, as a call of `wr_message`. -/
def wr_message_padding_n0 (mc : categories) (category : Nat) (wh : locus)
    (start end_ : Nat) : diag :=
  diag.message (category ||| mc.mc_acc_bloat ||| mc.mc_impact_1) wh ": %s: %s.\n"
    [fmt_arg.range start end_, fmt_arg.str "unreferenced non-zero bytes"]

/-- The `struct hole_info` of `low.h`. -/
structure hole_info where
  id : section_id
  category : Nat
  data : List Nat
  align : Nat

/-- The function `found_hole`: the messages for the hole `(start, length)`. -/
def found_hole (mc : categories) (info : hole_info) (start length : Nat) : List diag :=
  let all_zeroes := (List.range length).all (fun i => decide (info.data.getD (start + i) 0 = 0))
  let end_ := u64 (start + length)
  if all_zeroes then
    if ¬ (info.align ≠ 0 ∧ info.align ≠ 1 ∧ end_ % info.align = 0 ∧ start % 4 ≠ 0 ∧
        length < info.align) then
      [wr_message_padding_0 mc info.category (locus.root info.id addr_unset) start end_]
    else []
  else [wr_message_padding_n0 mc info.category (locus.root info.id addr_unset) start end_]

/-- The function `coverage_map_found_hole`: the messages for the hole `[begin, end)` of
the section of `sco`. -/
def coverage_map_found_hole (E : lr_env) (elf : elf_file) (info : hole_info)
    (begin_ end_ : Nat) (sco : section_coverage) : List diag :=
  if ¬ sco.hit ∧ ((sco.sec.shdr.sh_flags &&& SHF_EXECINSTR) = 0 ∨ sco.sec.name = ".init" ∨
      sco.sec.name = ".fini" ∨ sco.sec.name = ".plt") then []
  else
    let base := if elf.e_type = ET_REL then 0 else sco.sec.shdr.sh_addr
    let quiet :=
      match sco.sec.data with
      | some buf =>
        (List.range (end_ - begin_)).all (fun j => decide (buf.getD (begin_ + j) 0 = 0))
      | none =>
        E.necessary_alignment (u64 (base + begin_)) (end_ - begin_) sco.sec.shdr.sh_addralign
    if quiet then []
    else
      [diag.message (info.category ||| E.mc.mc_acc_suboptimal ||| E.mc.mc_impact_4)
        (locus.root info.id addr_unset) ": addresses %s of section %s are not covered.\n"
        [fmt_arg.range (u64 (begin_ + base)) (u64 (end_ + base)), fmt_arg.str sco.sec.name]]

/-- The function `coverage_map_find_holes` with the callback `coverage_map_found_hole`,
which always returns true. -/
def coverage_map_find_holes (E : lr_env) (cm : coverage_map) (info : hole_info) :
    List diag :=
  cm.scos.flatMap (fun sco =>
    (coverage_find_holes sco.cov 0 sco.sec.shdr.sh_size).flatMap (fun h =>
      coverage_map_found_hole E cm.elf info h.1 (u64 (h.1 + h.2)) sco))

/-- A reference together with its unit (`struct ref_cu`). -/
structure ref_cu where
  ref : ref
  cu : cu
deriving DecidableEq, Repr

/-- The references of all units of the chain, in the order in which the loops of
`check_loc_or_range_structural` push them. -/
def merge_refs (sec_id : section_id) (cu_chain : List cu) : List ref_cu :=
  cu_chain.flatMap (fun c =>
    (if sec_id = section_id.sec_loc then c.loc_refs else c.range_refs).map
      (fun r => ⟨r, c⟩))

/-- The call `std::sort (refs.begin (), refs.end ())`, by offset.  (`std::sort` leaves
the order of references with equal offsets open; here they keep their order.) -/
def sort_refs (refs : List ref_cu) : List ref_cu :=
  refs.insertionSort (fun a b => a.ref.addr ≤ b.ref.addr)

/-- The state of the loop of `check_loc_or_range_structural` over the references;
`checked` lists the offsets that `check_loc_or_range_ref` has been called with. -/
structure refs_state where
  io : lr_input
  retval : Bool
  last_off : Nat
  checked : List Nat
deriving DecidableEq, Repr

/-- The loop of `check_loc_or_range_structural` over the sorted references; `first`
says that the iterator is at `refs.begin ()`. -/
def check_refs_loop (E : lr_env) (fuel : Nat) (file : elf_file) (data : List Nat)
    (sec_id : section_id) (cat : Nat) : List ref_cu → Bool → refs_state → Option refs_state
  | [], _, st => some st
  | it :: rest, first, st =>
    let off := it.ref.addr
    if ¬ first ∧ off = st.last_off then
      check_refs_loop E fuel file data sec_id cat rest false st
    else
      let io :=
        if ¬ first then
          let r := E.relocation_skip st.io.rel off (locus.root sec_id addr_unset)
            skip_type.skip_unref
          { st.io with rel := r.1, diags := st.io.diags ++ r.2.map diag.other }
        else st.io
      match check_loc_or_range_ref E fuel file data it.cu sec_id io off it.ref.who cat with
      | none => none
      | some r =>
        check_refs_loop E fuel file data sec_id cat rest false
          { io := ⟨r.rel, r.coverage, r.coverage_map, r.pc_coverage, r.diags⟩
            retval := st.retval && r.retval
            last_off := off
            checked := st.checked ++ [off] }

/-- The function `check_loc_or_range_structural`: the return value, the state of the
loop at its end, and all messages. -/
def check_loc_or_range_structural (E : lr_env) (fuel : Nat) (file : elf_file) (s : sec)
    (cu_chain : List cu) (pc_coverage : Option coverage) (diags : List diag) :
    Option (Bool × refs_state × List diag) :=
  if ¬ (s.id = section_id.sec_loc ∨ s.id = section_id.sec_ranges) then none
  else
    match cu_chain with
    | [] => none
    | first_cu :: _ =>
      let data := s.data.getD []
      let coverage_map :=
        if do_range_coverage ∧ s.id = section_id.sec_ranges then
          coverage_map_alloc_XA file (s.id = section_id.sec_loc)
        else none
      let cat := if s.id = section_id.sec_loc then E.mc.mc_loc else E.mc.mc_ranges
      let refs := sort_refs (merge_refs s.id cu_chain)
      match check_refs_loop E fuel file data s.id cat refs true
          ⟨⟨s.rel, ⟨[]⟩, coverage_map, pc_coverage, diags⟩, true, 0, []⟩ with
      | none => none
      | some st =>
        if st.retval then
          let r := E.relocation_skip_rest st.io.rel s.id
          let hi : hole_info := ⟨s.id, cat, data, first_cu.head.address_size⟩
          let d1 := (coverage_find_holes st.io.coverage 0 data.length).flatMap
            (fun h => found_hole E.mc hi h.1 h.2)
          let d2 :=
            match st.io.coverage_map with
            | some cm => coverage_map_find_holes E cm ⟨s.id, cat, [], 0⟩
            | none => []
          some (true, { st with io := { st.io with rel := r.1 } },
            st.io.diags ++ r.2.map diag.other ++ d1 ++ d2)
        else some (false, st, st.io.diags)

/-! ### Instances for the evaluation of examples -/

/-- A choice of the category bits, one bit for each. -/
def mc_bits : categories :=
  { mc_impact_1 := 0x1
    mc_impact_2 := 0x2
    mc_impact_3 := 0x4
    mc_impact_4 := 0x8
    mc_acc_bloat := 0x10
    mc_acc_suboptimal := 0x20
    mc_error := 0x40
    mc_loc := 0x20000
    mc_ranges := 0x40000
    mc_reloc := 0x100000 }

/-- A part of the table `DW_OP_OPERANDS`: the forms of the operands of some opcodes. -/
def operands_sample (opcode : Nat) : Option (Nat × Nat) :=
  if opcode = DW_OP_addr then some (DW_FORM_addr, 0)
  else if opcode = DW_OP_const8u ∨ opcode = DW_OP_const8s then some (DW_FORM_data8, 0)
  else if opcode = DW_OP_constu ∨ opcode = DW_OP_plus_uconst then some (DW_FORM_udata, 0)
  else if opcode = DW_OP_consts then some (DW_FORM_sdata, 0)
  else if opcode = DW_OP_bra ∨ opcode = DW_OP_skip then some (DW_FORM_data2, 0)
  else if opcode = DW_OP_deref_size then some (DW_FORM_data1, 0)
  else if opcode = DW_OP_nop then some (0, 0)
  else if opcode = DW_OP_call2 then some (DW_FORM_data2, 0)
  else if opcode = DW_OP_call4 then some (DW_FORM_data4, 0)
  else if opcode = DW_OP_call_ref then some (DW_FORM_ref_addr, 0)
  else none

/-- An environment for a file without relocations: no relocation is found, and the
functions that are not among the sources accept what they are given and write
nothing. -/
def env_plain : lr_env :=
  { mc := mc_bits
    relocation_next := fun rd _ _ _ => (none, rd, [])
    relocate_one := fun _ rd _ _ value _ _ => (value, 0, rd, [])
    check_range_relocations := fun _ _ _ _ _ => []
    relocation_skip := fun rd _ _ _ => (rd, [])
    relocation_skip_rest := fun rd _ => (rd, [])
    necessary_alignment := fun _ _ _ => false
    get_location_opcode_operands := operands_sample
    leb128_messages := fun _ _ _ _ => [] }

/-- An environment for a file with relocations: `relocation_next` finds the
relocation at the offset asked for, and `relocate_one` adds the addend to the value
read, within the width, and gives the symbol index as the symbol. -/
def env_reloc : lr_env :=
  { mc := mc_bits
    relocation_next := fun rd off _ _ =>
      ((rd.rel.drop rd.index).find? (fun r => decide (r.offset = off)), rd, [])
    relocate_one := fun _ rd rel width value _ _ =>
      ((value + rel.addend) % 2 ^ (8 * width), rel.symndx, rd, [])
    check_range_relocations := fun _ _ _ _ _ => []
    relocation_skip := fun rd _ _ _ => (rd, [])
    relocation_skip_rest := fun rd _ => (rd, [])
    necessary_alignment := fun _ _ _ => false
    get_location_opcode_operands := operands_sample
    leb128_messages := fun _ _ _ _ => [] }

/-- A little-endian file of 32-bit addresses, without sections. -/
def file32 : elf_file := ⟨ET_REL, [], false, false⟩

/-- A unit with addresses of 4 bytes and the given `low_pc`. -/
def cu32 (low_pc : Nat) : cu := ⟨⟨4, 3, 4⟩, low_pc, [], []⟩

/-- The location of a reference in `.debug_info`. -/
def who_info (addr : Nat) : locus := locus.root section_id.sec_info addr

/-- The input of a first call of `check_loc_or_range_ref`: no relocations, nothing
covered, no coverage map, an empty `pc_coverage`, and no messages. -/
def io_start : lr_input := ⟨⟨[], 0⟩, ⟨[]⟩, none, some ⟨[]⟩, []⟩

/-- The bytes of scenario S1: `(0x1000, 0x2000)`, a base selector with `0x4000`, and
the list end. -/
def S1_bytes : List Nat :=
  [0x00, 0x10, 0, 0, 0x00, 0x20, 0, 0, 0xFF, 0xFF, 0xFF, 0xFF, 0x00, 0x40, 0, 0,
   0, 0, 0, 0, 0, 0, 0, 0]

/-- The bytes of scenario S2: `(0xFF, 0)` and four more zero bytes. -/
def S2_bytes : List Nat := [0xFF, 0, 0, 0, 0, 0, 0, 0, 0, 0, 0, 0]

/-- The bytes of scenario S3: a section of 80 bytes that starts with a list of 24
bytes, `(0x10, 0x20)`, `(0x30, 0x40)` and the list end. -/
def S3_bytes : List Nat :=
  [0x10, 0, 0, 0, 0x20, 0, 0, 0, 0x30, 0, 0, 0, 0x40, 0, 0, 0, 0, 0, 0, 0, 0, 0, 0, 0] ++
    List.replicate 56 0

/-- A section `.debug_ranges` with the given bytes and no relocations. -/
def ranges_sec (bytes : List Nat) : sec :=
  ⟨⟨0, bytes.length, 0, 1⟩, ⟨[], 0⟩, ".debug_ranges", some bytes, section_id.sec_ranges⟩

/-! ### Relations between the states of a walk -/

/-- The message is one of `HAVE_OVERLAP`. -/
def is_overlap_error (d : diag) : Prop :=
  ∃ w, d = diag.error w ": range definitions overlap.\n" []

/-- The call is one of `wr_message`. -/
def diag.is_message : diag → Bool
  | diag.message _ _ _ _ => true
  | _ => false

/-- The call is the error of `HAVE_OVERLAP`, as a test. -/
def diag.is_overlap : diag → Bool
  | diag.error _ f a => decide (f = ": range definitions overlap.\n" ∧ a = [])
  | _ => false

/-- The state `st'` comes after `st` in a walk of `check_loc_or_range_ref`: the
cursor is in the same bytes and not before, a coverage map has not appeared, `retval`
has not become true again and `overlap` not false again, and the messages have grown:
`retval` is false if one of the new ones is of `HAVE_OVERLAP`; none is if `overlap` was
set; at most one is; `overlap` is set if one is; and if `overlap` is set, it was set or
one is. -/
structure lr_ext (st st' : lr_state) : Prop where
  data : st'.ctx.data = st.ctx.data
  ptr : st.ctx.ptr ≤ st'.ctx.ptr
  map : st.coverage_map = none → st'.coverage_map = none
  retval : st.retval = false → st'.retval = false
  overlap : st.overlap = true → st'.overlap = true
  diags : ∃ D, st'.diags = st.diags ++ D ∧
    ((∃ d ∈ D, is_overlap_error d) → st'.retval = false) ∧
    (st.overlap = true → D.countP diag.is_overlap = 0) ∧
    D.countP diag.is_overlap ≤ 1 ∧
    (D.countP diag.is_overlap ≠ 0 → st'.overlap = true) ∧
    (st'.overlap = true → st.overlap = true ∨ D.countP diag.is_overlap ≠ 0)

/-- The call is a `wr_message` with the format of the negative range. -/
def is_negative_range (d : diag) : Prop :=
  ∃ category w args, d = diag.message category w ": has negative range %s.\n" args

/-- The call is neither the error of `HAVE_OVERLAP` nor a message of a negative
range. -/
def diag.plain : diag → Bool
  | diag.error _ f _ => f != ": range definitions overlap.\n"
  | diag.message _ _ f _ => f != ": has negative range %s.\n"
  | diag.other _ => true
  | diag.print _ _ => true

/-- The state `st'` comes after `st` by steps that read, relocate, test for overlap
and check a location expression: the coverage map, `pc_coverage`, the section coverage
and the base are the same, and none of the new messages is of a negative range. -/
structure lr_quiet (st st' : lr_state) : Prop where
  ext : lr_ext st st'
  coverage : st'.coverage = st.coverage
  coverage_map : st'.coverage_map = st.coverage_map
  pc_coverage : st'.pc_coverage = st.pc_coverage
  base : st'.base = st.base
  diags : ∃ D, st'.diags = st.diags ++ D ∧ ∀ d ∈ D, ¬ is_negative_range d

/-- The error of a payload entry when no base address is set. -/
def no_base_error (wh : locus) (b e : endpoint) : diag :=
  diag.error wh ": address range with no base address set: %s.\n" [fmt_arg.range b.addr e.addr]

/-- The message of a payload entry whose end is below its beginning. -/
def negative_range_message (E : lr_env) (wh : locus) (cat : Nat) (b e : endpoint) : diag :=
  diag.message (cat ||| E.mc.mc_error) wh ": has negative range %s.\n"
    [fmt_arg.range b.addr e.addr]

/-- The message of a payload entry whose ends are equal. -/
def empty_range_message (E : lr_env) (wh : locus) (cat : Nat) : diag :=
  diag.message (cat ||| E.mc.mc_acc_bloat ||| E.mc.mc_impact_3) wh
    ": entry covers no range.\n" []

/-- The messages that the tests of a payload entry on its range write when there is
no coverage map. -/
def range_diags (E : lr_env) (wh : locus) (cat : Nat) (st : lr_state) (b e : endpoint) :
    List diag :=
  (if st.base = 2 ^ 64 - 1 then [no_base_error wh b e] else []) ++
    (if e.addr < b.addr then [negative_range_message E wh cat b e]
     else if b.addr = e.addr then [empty_range_message E wh cat]
     else [])

/-- The `pc_coverage` after the tests of a payload entry on its range. -/
def range_pc (st : lr_state) (b e : endpoint) : Option coverage :=
  if b.addr < e.addr ∧ st.base < 2 ^ 64 - 2 ∧ st.retval = true then
    st.pc_coverage.map (fun pc => coverage_add pc (u64 (b.addr + st.base)) (e.addr - b.addr))
  else st.pc_coverage

/-- The state after the tests of a payload entry on its range when there is no
coverage map. -/
def range_state (E : lr_env) (wh : locus) (cat : Nat) (st : lr_state) (b e : endpoint) :
    lr_state :=
  { st with diags := st.diags ++ range_diags E wh cat st b e, pc_coverage := range_pc st b e }

/-- The three assertions of `check_loc_or_range_ref` on the section and the
category. -/
def lr_asserts (E : lr_env) (sec_id : section_id) (cat : Nat) : Prop :=
  (sec_id = section_id.sec_loc ∨ sec_id = section_id.sec_ranges) ∧
    (cat = E.mc.mc_loc ∨ cat = E.mc.mc_ranges) ∧
    ((sec_id = section_id.sec_loc) ↔ (cat = E.mc.mc_loc))

/-- The error for a reference into a list that has been walked. -/
def ref_into_other_error (wh : locus) (addr : Nat) : diag :=
  diag.error wh ": reference to %#lx points into another location or range list.\n"
    [fmt_arg.num addr]

/-- The state in which `check_loc_or_range_ref` enters its loop: the cursor at
`addr`, and `retval` as the test of the byte at `addr` leaves it. -/
def lr_entry (file : elf_file) (data : List Nat) (c : cu) (io : lr_input) (addr : Nat)
    (wh : locus) : lr_state :=
  if coverage_is_covered io.coverage addr 1 then
    ⟨⟨data, addr, file.other_byte_order⟩, io.rel, io.coverage, io.coverage_map,
      io.pc_coverage, false, false, c.low_pc, io.diags ++ [ref_into_other_error wh addr]⟩
  else
    ⟨⟨data, addr, file.other_byte_order⟩, io.rel, io.coverage, io.coverage_map,
      io.pc_coverage, true, false, c.low_pc, io.diags⟩

/-- The call is a `wr_message` that the end of a range is relocated and the beginning
is not. -/
def is_end_only_relocated (d : diag) : Prop :=
  ∃ category w args, d = diag.message category w
    ": end of address range is relocated, but the beginning wasn't.\n" args

/-- The call is a `wr_message` that the beginning of a range is relocated and the end
is not. -/
def is_begin_only_relocated (d : diag) : Prop :=
  ∃ category w args, d = diag.message category w
    ": end of address range is not relocated, but the beginning was.\n" args

/-- The message of a base address selection that selects the base that is set. -/
def same_base_message (E : lr_env) (wh : locus) (cat : Nat) (base : Nat) : diag :=
  diag.message (cat ||| E.mc.mc_acc_bloat ||| E.mc.mc_impact_3) wh
    ": base address selection doesn't change base address (%#lx).\n" [fmt_arg.num base]

/-- A state of a walk over 32-bit entries of `.debug_ranges` with the cursor behind
the two addresses of an entry that starts at offset 0: nothing covered, no coverage
map, `pc_coverage` empty, `retval` true, the given base, and no messages. -/
def st_after_entry (data : List Nat) (base : Nat) : lr_state :=
  ⟨⟨data, 8, false⟩, ⟨[], 0⟩, ⟨[]⟩, none, some ⟨[]⟩, true, false, base, []⟩

/-- The location of the entry at offset `off` of `.debug_ranges`, referred to from
offset 11 of `.debug_info`. -/
def entry_at (off : Nat) : locus := locus.sub section_id.sec_ranges off (who_info 11)

/-- The bytes of a list of 32-bit entries with the one range `(0x10, 0x20)` and the
list end. -/
def one_range_bytes : List Nat := [0x10, 0, 0, 0, 0x20, 0, 0, 0, 0, 0, 0, 0, 0, 0, 0, 0]

/-- The bytes of scenario S2 with a whole list end: `(0xFF, 0)` and `(0, 0)`. -/
def negative_range_bytes : List Nat := [0xFF, 0, 0, 0, 0, 0, 0, 0, 0, 0, 0, 0, 0, 0, 0, 0]

/-- The state of the walk over the bytes of scenario S1 with the cursor at `ptr`, after
the first two entries. -/
def st_S1 (ptr : Nat) : lr_state :=
  ⟨⟨S1_bytes, ptr, false⟩, ⟨[], 0⟩, ⟨[(0, 8), (8, 8)]⟩, none, some ⟨[(0x2000, 0x1000)]⟩, true,
    false, 0x4000, []⟩

/-- The input of the second call in scenario S3: what the walk of the list at offset 0
has left. -/
def io_S3 : lr_input :=
  ⟨⟨[], 0⟩, ⟨[(0, 8), (8, 8), (16, 8)]⟩, none, some ⟨[(0x1010, 0x10), (0x1030, 0x10)]⟩, []⟩

/-- The two units of scenario S3, with a reference to offset 0 and one to offset 8 of
`.debug_ranges`. -/
def S3_units : List cu :=
  [⟨⟨4, 3, 4⟩, 0x1000, [], [⟨0, who_info 11⟩]⟩, ⟨⟨4, 3, 4⟩, 0x1000, [], [⟨8, who_info 50⟩]⟩]

/-- Bytes with a base address selection whose first address is relocated: the escape
value and `0x4000`, and the list end. -/
def selector_bytes : List Nat :=
  [0xFF, 0xFF, 0xFF, 0xFF, 0x00, 0x40, 0, 0, 0, 0, 0, 0, 0, 0, 0, 0]

/-- A state at the start of `selector_bytes`, with a relocation of addend 0 at offset
0. -/
def st_selector (ptr : Nat) : lr_state :=
  ⟨⟨selector_bytes, ptr, false⟩, ⟨[⟨0, 1, 1, 0⟩], 0⟩, ⟨[]⟩, none, some ⟨[]⟩, true, false, 0x1000,
    []⟩

/-- Two units whose references into `.debug_ranges` are not in order and repeat: the
offsets 16 and 0 from the first, 0 and 16 from the second. -/
def repeat_units : List cu :=
  [⟨⟨4, 3, 4⟩, 0x1000, [], [⟨16, who_info 11⟩, ⟨0, who_info 12⟩]⟩,
   ⟨⟨4, 3, 4⟩, 0x1000, [], [⟨0, who_info 50⟩, ⟨16, who_info 51⟩]⟩]

/-- A section `.debug_ranges` with two lists of one range each, at the offsets 0 and
16. -/
def two_lists_bytes : List Nat := one_range_bytes ++ one_range_bytes

/-! ### The algebra of message criteria (`messages.cc`) -/

/-- The constant `mc_none` of `messages.h`: the mask without a bit. -/
def mc_none : Nat := 0

/-- Modelled from the spec: the constructor `message_term (a, b)` of `messages.h`; a
term is the pair of its positive and its negative mask, in this order. -/
def message_term_of (a b : Nat) : message_term := ⟨a, b⟩

/-- The term matches the category: the test in the loop of `message_accept`. -/
def message_term.matches (t : message_term) (cat : Nat) : Bool :=
  decide ((t.positive &&& cat) = t.positive ∧ (t.negative &&& cat) = 0)

/-- The method `message_criteria::operator |=`; `none` stands for the failed
`assert`. -/
def cri_or_assign (cri : message_criteria) (term : message_term) : Option message_criteria :=
  if ¬ ((term.positive &&& term.negative) = 0) then none
  else some ⟨cri.terms ++ [term]⟩

/-- The loop of `operator !` over the bits `i`, `i + 1`, ..., `i + n - 1`; the mask
`1u << i` is an `unsigned`. -/
def operator_not_loop (term : message_term) : Nat → Nat → message_criteria →
    Option message_criteria
  | 0, _, ret => some ret
  | n + 1, i, ret =>
    let mask := (1 <<< i) % 2 ^ 32
    if (term.positive &&& mask) ≠ 0 then
      match cri_or_assign ret (message_term_of ((1 <<< i) % 2 ^ 32) mc_none) with
      | none => none
      | some ret => operator_not_loop term n (i + 1) ret
    else if (term.negative &&& mask) ≠ 0 then
      match cri_or_assign ret (message_term_of mc_none ((1 <<< i) % 2 ^ 32)) with
      | none => none
      | some ret => operator_not_loop term n (i + 1) ret
    else operator_not_loop term n (i + 1) ret

/-- The function `operator ! (message_term const &)`.  The macro `MESSAGE_CATEGORIES` is
not among the sources: `max` is the identifier of the category that it lists last, which
is what the loop `max = ID` over its entries leaves. -/
def operator_not (max : Nat) (term : message_term) : Option message_criteria :=
  if ¬ ((term.positive &&& term.negative) = 0) then none
  else operator_not_loop term max 0 ⟨[]⟩

/-- The inner loop of `message_cri_mul`, over the terms of `rhs` from `j` on, for the
term `t_i` of `cri`. -/
def message_cri_mul_inner (t_i : message_term) : List message_term → message_criteria →
    Option message_criteria
  | [], ret => some ret
  | t2 :: rest, ret =>
    let t1 : message_term := ⟨t_i.positive ||| t2.positive, t_i.negative ||| t2.negative⟩
    if (t1.positive &&& t1.negative) ≠ 0 then message_cri_mul_inner t_i rest ret
    else
      match cri_or_assign ret t1 with
      | none => none
      | some ret => message_cri_mul_inner t_i rest ret

/-- The outer loop of `message_cri_mul`, over the terms of `cri`. -/
def message_cri_mul_outer (rhs : List message_term) : List message_term → message_criteria →
    Option message_criteria
  | [], ret => some ret
  | t_i :: rest, ret =>
    match message_cri_mul_inner t_i rhs ret with
    | none => none
    | some ret => message_cri_mul_outer rhs rest ret

/-- The function `message_cri_mul`: the new value of `*cri`. -/
def message_cri_mul (cri rhs : message_criteria) : Option message_criteria :=
  message_cri_mul_outer rhs.terms cri.terms ⟨[]⟩

/-- The function `message_cri_and_not`: the new value of `cri`. -/
def message_cri_and_not (max : Nat) (cri : message_criteria) (term : message_term) :
    Option message_criteria :=
  match operator_not max (message_term_of term.negative term.positive) with
  | none => none
  | some tmp => message_cri_mul cri tmp

/-- The identifier of the last category in the list of elfutils, `other`. -/
def max_other : Nat := 31

/-- The formats of the messages that a round of the loop of `check_location_expression`
writes. -/
def locexpr_formats : List String :=
  [": can't read opcode.\n", "can't decode opcode \"%s\".\n",
   "opcode \"%s\": can't read %s (form \"%s\").\n",
   ": relocation relocates a length field.\n", "XXX don't know how to handle opcode=%s\n",
   "%s with skip 0.\n", "%s branches out of location expression.\n",
   "%s branches before the beginning of location expression.\n", "%s on 32-bit machine.\n",
   "%s with operand %s on a 32-bit machine.\n"]

/-- The formats of the messages that `check_location_expression` writes. -/
def locexpr_all_formats : List String :=
  locexpr_formats ++ [": unresolved reference to opcode at %#lx.\n", ": not enough data for %s.\n"]

/-- The call is output of a function that is not modelled, or its format is one of
the list. -/
def diag.fmt_in (L : List String) : diag → Bool
  | diag.error _ f _ => decide (f ∈ L)
  | diag.message _ _ f _ => decide (f ∈ L)
  | diag.other _ => true
  | diag.print f _ => decide (f ∈ L)

/-- The environment lets every call of `check_location_expression` return: it finds
no relocation, and its table gives a first operand to the opcodes whose first operand
the code reads. -/
def locexpr_safe (E : lr_env) : Prop :=
  (∀ rd off w k, (E.relocation_next rd off w k).1 = none) ∧
    (∀ op p, (op = DW_OP_bra ∨ op = DW_OP_skip ∨ op = DW_OP_constu ∨ op = DW_OP_consts ∨
        op = DW_OP_deref_size ∨ op = DW_OP_plus_uconst) →
      E.get_location_opcode_operands op = some p → p.1 ≠ 0)

/-- Every call of `check_location_expression` returns: no assertion fails in it and
no variable is read that has no value. -/
def locexpr_returns (E : lr_env) : Prop :=
  ∀ (file : elf_file) (ctx : read_ctx) (c : cu) (init_off : Nat) (reloc : relocation_data)
    (length : Nat) (wh : locus),
    ∃ r, check_location_expression E file ctx c init_off reloc length wh = some r

/-! ### Examples for the location expressions -/

/-- The bytes of a list of `.debug_loc` with 32-bit addresses: the entry `(0x10, 0x20)`
with the location expression `DW_OP_nop`, of length 1, and the list end. -/
def loc_list_bytes : List Nat :=
  [0x10, 0, 0, 0, 0x20, 0, 0, 0, 1, 0, 0x96, 0, 0, 0, 0, 0, 0, 0, 0]

/-- The input of a call of `check_loc_or_range_ref` with the one byte at `off` covered:
no relocations, no coverage map, an empty `pc_coverage`, and no messages. -/
def io_covered (off : Nat) : lr_input := ⟨⟨[], 0⟩, ⟨[(off, 1)]⟩, none, some ⟨[]⟩, []⟩

/-- A cursor at the start of the given bytes. -/
def ctx_at_start (bytes : List Nat) : read_ctx := ⟨bytes, 0, false⟩

/-- Three `DW_OP_nop`, and `DW_OP_skip` at offset 3, whose operand `0x7FFF` has its
second byte behind the five bytes of the expression. -/
def skip_at_3_bytes : List Nat := [0x96, 0x96, 0x96, 0x2f, 0xff, 0x7f]

/-- Two `DW_OP_nop`, and `DW_OP_skip` at offset 2 with the operand `0x7FFF`. -/
def skip_at_2_bytes : List Nat := [0x96, 0x96, 0x2f, 0xff, 0x7f]

/-- The expression `DW_OP_skip 1` (to offset 4), `DW_OP_constu 5` (opcode at offset 3, operand
at offset 4), `DW_OP_nop`, `DW_OP_bra -6` (to offset 3). -/
def jumps_bytes : List Nat := [0x2f, 0x01, 0x00, 0x10, 0x05, 0x96, 0x28, 0xfa, 0xff]

/-- The expression `DW_OP_consts -1`. -/
def consts_minus_one_bytes : List Nat := [0x11, 0x7f]

/-- The location of the opcode at the offset `off` of `.debug_loc`, in an expression
referred to from `wh`. -/
def opcode_at (off : Nat) (wh : locus) : locus := locus.sub section_id.sec_locexpr off wh

/-- The bytes of a list of `.debug_loc` with 32-bit addresses: the entry `(0x10, 0x20)`
with the given location expression, and the list end. -/
def loc_list_with (expr : List Nat) : List Nat :=
  [0x10, 0, 0, 0, 0x20, 0, 0, 0, expr.length % 256, expr.length / 256] ++ expr ++
    List.replicate 8 0

/-- The bytes of a list of `.debug_ranges` with 32-bit addresses: the ranges
`(0x10, 0x20)`, `(0x30, 0x40)`, `(0x50, 0x60)`, and the list end. -/
def three_ranges_bytes : List Nat :=
  [0x10, 0, 0, 0, 0x20, 0, 0, 0, 0x30, 0, 0, 0, 0x40, 0, 0, 0, 0x50, 0, 0, 0, 0x60, 0, 0, 0,
   0, 0, 0, 0, 0, 0, 0, 0]

/-- The input of the call of `check_loc_or_range_ref` that follows the walk of
`three_ranges_bytes` from offset 0 with `low_pc = 0x1000`: the four entries are
covered. -/
def io_three : lr_input :=
  ⟨⟨[], 0⟩, ⟨[(0, 8), (8, 8), (16, 8), (24, 8)]⟩, none,
    some ⟨[(0x1010, 0x10), (0x1030, 0x10), (0x1050, 0x10)]⟩, []⟩

/-! ### The method `operator &=` of `messages.cc` -/

/-- The loop `for (size_t i = 0; i < size; )` of `message_criteria::operator &=`, on the
array `terms` and the member `size`; the elements from `size` on stay where they are. -/
def and_assign_loop (term : message_term) :
    Nat → List message_term → Nat → Nat → Option (List message_term × Nat)
  | 0, _, _, _ => none
  | fuel + 1, terms, size, i =>
    if i < size then
      let t := terms.getD i ⟨0, 0⟩
      let t : message_term := ⟨t.positive ||| term.positive, t.negative ||| term.negative⟩
      let terms := terms.set i t
      if (t.positive &&& t.negative) ≠ 0 then
        let size := size - 1
        let terms := terms.set i (terms.getD size ⟨0, 0⟩)
        and_assign_loop term fuel terms size i
      else and_assign_loop term fuel terms size (i + 1)
    else some (terms, size)

/-- The method `message_criteria::operator &=`: the terms `terms[0 .. size)` that the
loop leaves; `none` stands for the failed `assert`.  A round of the loop either drops a
term or goes on to the next, so the loop gets one unit of fuel more than there are
terms. -/
def cri_and_assign (cri : message_criteria) (term : message_term) : Option message_criteria :=
  if ¬ ((term.positive &&& term.negative) = 0) then none
  else
    match and_assign_loop term (cri.terms.length + 1) cri.terms cri.terms.length 0 with
    | none => none
    | some (terms, size) => some ⟨terms.take size⟩

/-- The term `t` after the statements `t.positive |= term.positive` and
`t.negative |= term.negative`. -/
def message_term.or_masks (term t : message_term) : message_term :=
  ⟨t.positive ||| term.positive, t.negative ||| term.negative⟩

/-- The terms of the list combined with `term`, each once, without the ones that ask for
a bit to be set and clear. -/
def and_terms (term : message_term) (l : List message_term) : List message_term :=
  (l.map (message_term.or_masks term)).filter
    (fun t => decide ((t.positive &&& t.negative) = 0))

/-! ### The overlap test of a location expression -/

/-- The bytes of a list of `.debug_loc` with 32-bit addresses: the entries
`(0x10, 0x20)` and `(0x30, 0x40)`, each with the location expression `DW_OP_nop` of
length 1, and the list end; the entries are at the offsets 0 and 11, the list end at
22. -/
def loc_two_bytes : List Nat :=
  [0x10, 0, 0, 0, 0x20, 0, 0, 0, 1, 0, 0x96, 0x30, 0, 0, 0, 0x40, 0, 0, 0, 1, 0, 0x96,
   0, 0, 0, 0, 0, 0, 0, 0]

/-- The relocations of a section with a relocation at each address of the entry at
offset 0, with the addend `0x1000` and the symbol 1. -/
def rel_first_entry : relocation_data := ⟨[⟨0, 1, 1, 0x1000⟩, ⟨4, 1, 1, 0x1000⟩], 0⟩

/-- The input of a first call of `check_loc_or_range_ref` in a file with the relocations
`rel_first_entry`. -/
def io_reloc_start : lr_input := ⟨rel_first_entry, ⟨[]⟩, none, some ⟨[]⟩, []⟩

/-- What the walk of `loc_two_bytes` from offset 0 with `io_reloc_start` and
`low_pc = 0x1000` leaves: the three entries are covered, and `pc_coverage` has the
ranges of the two payload entries, the first one relocated. -/
def io_loc_walked : lr_input :=
  ⟨rel_first_entry, ⟨[(0, 11), (11, 11), (22, 8)]⟩, none,
    some ⟨[(0x2010, 0x10), (0x1030, 0x10)]⟩, []⟩

/-- The bytes of a list of `.debug_loc` with 32-bit addresses: the entry `(0x10, 0x10)`,
which covers no range, with the location expression `DW_OP_nop`, and the list end. -/
def loc_empty_range_bytes : List Nat :=
  [0x10, 0, 0, 0, 0x10, 0, 0, 0, 1, 0, 0x96, 0, 0, 0, 0, 0, 0, 0, 0]

/-- A section `.debug_loc` with the bytes `loc_two_bytes` and the relocations
`rel_first_entry`. -/
def loc_sec : sec :=
  ⟨⟨0, loc_two_bytes.length, 0, 1⟩, rel_first_entry, ".debug_loc", some loc_two_bytes,
    section_id.sec_loc⟩

/-- Two units whose references into `.debug_loc` are not in order and repeat: the
offsets 11 and 0 from the first, 0 and 11 from the second. -/
def loc_units : List cu :=
  [⟨⟨4, 3, 4⟩, 0x1000, [⟨11, who_info 12⟩, ⟨0, who_info 11⟩], []⟩,
   ⟨⟨4, 3, 4⟩, 0x1000, [⟨0, who_info 50⟩, ⟨11, who_info 51⟩], []⟩]

/-- The location expression `DW_OP_call_ref 0` of a unit with offsets of 4 bytes. -/
def call_ref_bytes : List Nat := [0x9a, 0, 0, 0, 0]

/-- The relocations of a section with one relocation, at offset 1. -/
def reloc_at_1 : relocation_data := ⟨[⟨1, 1, 1, 0⟩], 0⟩

end Dwarflint

namespace Dynhash

/-! ### The loops of `resize_helper` over the blocks and their slots -/

/-- The table that the inserts `ops` leave, starting from `init` with the size
`init_size` in the instance `natEnv`. -/
def table_after_init (init_size : Nat) (ops : List (Nat × Nat)) : Htab Nat :=
  match insert_all natEnv 20 (INIT natEnv raw_htab init_size).1 ops with
  | some r => r.1
  | none => raw_htab


theorem probe_zero_mem (size hval : Nat) (h : 0 < size) :
    1 ≤ probe size hval 0 ∧ probe size hval 0 ≤ size := by
  unfold probe
  split_ifs with h1
  · omega
  · have := Nat.mod_lt hval h
    omega

theorem hash2_mem (size hval : Nat) (h : 3 ≤ size) :
    1 ≤ 1 + hval % (size - 2) ∧ 1 + hval % (size - 2) ≤ size - 2 := by
  have := Nat.mod_lt hval (show 0 < size - 2 by omega)
  omega

theorem probe_mem (size hval : Nat) (h : 3 ≤ size) (k : Nat) :
    1 ≤ probe size hval k ∧ probe size hval k ≤ size := by
  induction k with
  | zero => exact probe_zero_mem size hval (by omega)
  | succ k ih =>
    have h2 := hash2_mem size hval h
    rw [probe]
    split_ifs with hc <;> omega

theorem spec_probe_eq (size hval : Nat) (h : 3 ≤ size) (k : Nat) :
    spec_probe size hval k = probe size hval k := by
  induction k with
  | zero => rfl
  | succ k ih =>
    have h2 := hash2_mem size hval h
    have hm := probe_mem size hval h k
    rw [spec_probe, probe, ih, spec_next, spec_h2]
    split_ifs with hc hd hd <;> omega

theorem lookup_loop_trace {α : Type} (E : Env α) (t : Htab α) (hval : Nat) (val : α)
    (fuel k : Nat) :
    (lookup_loop E t hval val (1 + hval % (t.size - 2)) fuel (probe t.size hval k)).1 =
      (List.range' (k + 1)
        (lookup_loop E t hval val (1 + hval % (t.size - 2)) fuel
          (probe t.size hval k)).1.length).map (probe t.size hval) := by
  induction fuel generalizing k with
  | zero => simp [lookup_loop]
  | succ fuel ih =>
    have hp : (if probe t.size hval k ≤ 1 + hval % (t.size - 2) then
        t.size + probe t.size hval k - (1 + hval % (t.size - 2))
      else probe t.size hval k - (1 + hval % (t.size - 2))) = probe t.size hval (k + 1) := by
      rw [probe]
    simp only [lookup_loop, hp]
    split_ifs
    · simp [List.range']
    · simp [List.range']
    · simp [List.range']
    · have := ih (k + 1)
      simp only [List.length_cons, List.range', List.map_cons]
      rw [← this]

theorem insert_helper_loop_trace {α : Type} (E : Env α) (t : Htab α) (hval : Nat) (val : α)
    (fuel idx : Nat) :
    (insert_helper_loop E t hval val (1 + hval % (t.size - 2)) fuel idx).1 =
      (lookup_loop E t hval val (1 + hval % (t.size - 2)) fuel idx).1 := by
  induction fuel generalizing idx with
  | zero => simp [lookup_loop, insert_helper_loop]
  | succ fuel ih =>
    simp only [lookup_loop, insert_helper_loop]
    split_ifs <;> first | rfl | simp only [ih]

theorem insert_helper_trace {α : Type} (E : Env α) (t : Htab α) (hval : Nat) (val : α)
    (fuel : Nat) : (insert_helper E fuel t hval val).1 = (lookup E fuel t hval val).1 := by
  simp only [lookup, insert_helper]
  split_ifs <;> first | rfl | simp only [insert_helper_loop_trace]

theorem lookup_trace {α : Type} (E : Env α) (t : Htab α) (hval : Nat) (val : α) (fuel : Nat) :
    (lookup E fuel t hval val).1 =
      (List.range (lookup E fuel t hval val).1.length).map (probe t.size hval) := by
  have hp : 1 + (if hval < t.size then hval else hval % t.size) = probe t.size hval 0 := rfl
  simp only [lookup, hp]
  split_ifs
  · simp [List.range_succ_eq_map]
  · simp [List.range_succ_eq_map]
  · simp [List.range_succ_eq_map]
  · have := lookup_loop_trace E t hval val fuel 0
    have key : ∀ n, List.map (probe t.size hval) (List.range' 1 n) =
        List.map (probe t.size hval ∘ Nat.succ) (List.range n) := by
      intro n
      rw [← List.map_map, List.range_eq_range']
      congr 1
      have h1 := List.map_add_range' 1 0 n 1
      simp only [Nat.add_zero] at h1
      rw [← h1]
      apply List.map_congr_left
      intro a _
      omega
    simp only [List.length_cons, List.range_succ_eq_map, List.map_cons, List.map_map]
    congr 1
    rw [← key]
    exact this

theorem probe_succ_modEq (size hval : Nat) (h : 3 ≤ size) (k : Nat) :
    probe size hval (k + 1) + (1 + hval % (size - 2)) ≡ probe size hval k [MOD size] := by
  have h2 := hash2_mem size hval h
  have hm := probe_mem size hval h k
  rw [probe]
  split_ifs with hc
  · have e : size + probe size hval k - (1 + hval % (size - 2)) + (1 + hval % (size - 2)) =
        probe size hval k + size := by omega
    rw [e]
    exact Nat.add_modEq_right
  · have e : probe size hval k - (1 + hval % (size - 2)) + (1 + hval % (size - 2)) =
        probe size hval k := by omega
    rw [e]

theorem probe_linear (size hval : Nat) (h : 3 ≤ size) (k : Nat) :
    probe size hval k + k * (1 + hval % (size - 2)) ≡ probe size hval 0 [MOD size] := by
  induction k with
  | zero => simp [Nat.ModEq]
  | succ k ih =>
    have hs := probe_succ_modEq size hval h k
    have e : probe size hval (k + 1) + (k + 1) * (1 + hval % (size - 2)) =
        (probe size hval (k + 1) + (1 + hval % (size - 2))) + k * (1 + hval % (size - 2)) := by
      ring
    rw [e]
    exact (hs.add_right _).trans ih

theorem probe_injective (size hval : Nat) (hp : Nat.Prime size) (h : 3 ≤ size) (i j : Nat)
    (hij : i < j) (hj : j < size) : probe size hval i ≠ probe size hval j := by
  intro he
  have h2 := hash2_mem size hval h
  have hi := probe_linear size hval h i
  have hjj := probe_linear size hval h j
  rw [he] at hi
  have hc : i * (1 + hval % (size - 2)) ≡ j * (1 + hval % (size - 2)) [MOD size] :=
    Nat.ModEq.add_left_cancel' _ (hi.trans hjj.symm)
  have hle : i * (1 + hval % (size - 2)) ≤ j * (1 + hval % (size - 2)) :=
    Nat.mul_le_mul_right _ (Nat.le_of_lt hij)
  have hd := (Nat.modEq_iff_dvd' hle).1 hc
  rw [← Nat.sub_mul] at hd
  rcases (Nat.Prime.dvd_mul hp).1 hd with hd1 | hd2
  · have := Nat.le_of_dvd (by omega) hd1
    omega
  · have := Nat.le_of_dvd (by omega) hd2
    omega

theorem probe_surjective (size hval : Nat) (hp : Nat.Prime size) (h : 3 ≤ size) (s : Nat)
    (h1 : 1 ≤ s) (h2 : s ≤ size) : ∃ k, k < size ∧ probe size hval k = s := by
  have hinj : Set.InjOn (probe size hval) (Finset.range size : Set Nat) := by
    intro a ha b hb hab
    simp only [Finset.coe_range, Set.mem_Iio] at ha hb
    rcases Nat.lt_trichotomy a b with hlt | heq | hgt
    · exact absurd hab (probe_injective size hval hp h a b hlt hb)
    · exact heq
    · exact absurd hab.symm (probe_injective size hval hp h b a hgt ha)
  have hsub : (Finset.range size).image (probe size hval) ⊆ Finset.Icc 1 size := by
    intro x hx
    obtain ⟨k, _, rfl⟩ := Finset.mem_image.1 hx
    exact Finset.mem_Icc.2 (probe_mem size hval h k)
  have hcard : ((Finset.range size).image (probe size hval)).card = size := by
    rw [Finset.card_image_of_injOn hinj, Finset.card_range]
  have heq : (Finset.range size).image (probe size hval) = Finset.Icc 1 size := by
    apply Finset.eq_of_subset_of_card_le hsub
    rw [hcard, Nat.card_Icc]
    omega
  have hs : s ∈ (Finset.range size).image (probe size hval) := by
    rw [heq]
    exact Finset.mem_Icc.2 ⟨h1, h2⟩
  obtain ⟨k, hk, rfl⟩ := Finset.mem_image.1 hs
  exact ⟨k, Finset.mem_range.1 hk, rfl⟩

theorem insert_helper_loop_writes {α : Type} (E : Env α) (t : Htab α) (hval : Nat) (val : α)
    (hash fuel idx : Nat) (t' : Htab α) (r : Int)
    (h : (insert_helper_loop E t hval val hash fuel idx).2 = some (t', r)) :
    (t' = t ∧ r = -1) ∨
      ∃ i ∈ (insert_helper_loop E t hval val hash fuel idx).1,
        (t.table i).state = 0 ∧ t' = store_entry t i hval val ∧ r = 0 := by
  induction fuel generalizing idx with
  | zero => simp [insert_helper_loop] at h
  | succ fuel ih =>
    simp only [insert_helper_loop] at h ⊢
    generalize (if idx ≤ hash then t.size + idx - hash else idx - hash) = j at h ⊢
    by_cases h0 : (t.table j).state = 0
    · simp only [h0, if_true, Option.some.injEq, Prod.mk.injEq] at h ⊢
      obtain ⟨rfl, rfl⟩ := h
      right; exact ⟨j, List.mem_singleton.2 rfl, h0, rfl, rfl⟩
    · by_cases h1 : (t.table j).state = 1
      · simp [h0, h1] at h
      · by_cases h2 : (t.table j).hashval = hval ∧ E.COMPARE (t.table j).data val = 0
        · simp only [h0, h1, h2, if_false, if_true, and_self, Option.some.injEq,
            Prod.mk.injEq] at h ⊢
          obtain ⟨rfl, rfl⟩ := h
          left; exact ⟨rfl, rfl⟩
        · simp only [h0, h1, h2, if_false] at h ⊢
          rcases ih _ h with h' | ⟨i, hi, h'⟩
          · left; exact h'
          · right; exact ⟨i, List.mem_cons_of_mem _ hi, h'⟩

theorem insert_helper_writes {α : Type} (E : Env α) (t : Htab α) (hval : Nat) (val : α)
    (fuel : Nat) (t' : Htab α) (r : Int)
    (h : (insert_helper E fuel t hval val).2 = some (t', r)) :
    (t' = t ∧ r = -1) ∨
      ∃ i ∈ (insert_helper E fuel t hval val).1,
        (t.table i).state = 0 ∧ t' = store_entry t i hval val ∧ r = 0 := by
  simp only [insert_helper] at h ⊢
  generalize (1 + if hval < t.size then hval else hval % t.size) = j at h ⊢
  by_cases h0 : (t.table j).state = 0
  · simp only [h0, if_true, Option.some.injEq, Prod.mk.injEq] at h ⊢
    obtain ⟨rfl, rfl⟩ := h
    right; exact ⟨j, List.mem_singleton.2 rfl, h0, rfl, rfl⟩
  · by_cases h1 : (t.table j).state = 1
    · simp [h0, h1] at h
    · by_cases h2 : (t.table j).hashval = hval ∧ E.COMPARE (t.table j).data val = 0
      · simp only [h0, h1, h2, if_false, if_true, and_self, Option.some.injEq,
          Prod.mk.injEq] at h ⊢
        obtain ⟨rfl, rfl⟩ := h
        left; exact ⟨rfl, rfl⟩
      · simp only [h0, h1, h2, if_false] at h ⊢
        rcases insert_helper_loop_writes E t hval val _ fuel _ t' r h with h' | ⟨i, hi, h'⟩
        · left; exact h'
        · right; exact ⟨i, List.mem_cons_of_mem _ hi, h'⟩

theorem lookup_trace_mem {α : Type} (E : Env α) (t : Htab α) (hval : Nat) (val : α)
    (fuel : Nat) (h : 3 ≤ t.size) (idx : Nat) (hi : idx ∈ (lookup E fuel t hval val).1) :
    1 ≤ idx ∧ idx ≤ t.size := by
  rw [lookup_trace] at hi
  obtain ⟨k, _, rfl⟩ := List.mem_map.1 hi
  exact probe_mem t.size hval h k

/-- C7: in a table of at least 3 slots the modulus `size - 2` of the second hash
function is not zero, every slot index whose state `lookup` or `insert_helper`
loads lies in `[1, size]`, and `insert_helper` leaves slot 0 and every slot above
`size` as they were. -/
theorem C7_probe_indices_in_bounds {α : Type} (E : Env α) (t : Htab α) (hval : Nat) (val : α)
    (fuel : Nat) (h : 3 ≤ t.size) :
    t.size - 2 ≠ 0 ∧
    (∀ idx ∈ (lookup E fuel t hval val).1, 1 ≤ idx ∧ idx ≤ t.size) ∧
    (∀ idx ∈ (insert_helper E fuel t hval val).1, 1 ≤ idx ∧ idx ≤ t.size) ∧
    (∀ t' r, (insert_helper E fuel t hval val).2 = some (t', r) →
      ∀ i, (i = 0 ∨ t.size < i) → t'.table i = t.table i) := by
  refine ⟨by omega, lookup_trace_mem E t hval val fuel h, ?_, ?_⟩
  · rw [insert_helper_trace]
    exact lookup_trace_mem E t hval val fuel h
  · intro t' r hr i hi
    rcases insert_helper_writes E t hval val fuel t' r hr with ⟨rfl, _⟩ | ⟨j, hj, _, rfl, _⟩
    · rfl
    · rw [insert_helper_trace] at hj
      have := lookup_trace_mem E t hval val fuel h j hj
      have hne : i ≠ j := by omega
      simp [store_entry, Function.update_noteq hne]

theorem C7_probe_indices_in_bounds_witness :
    3 ≤ (INIT natEnv raw_htab 5).1.size ∧
    (INIT natEnv raw_htab 5).1.size - 2 ≠ 0 ∧
    (∀ idx ∈ (lookup natEnv 9 (INIT natEnv raw_htab 5).1 7 1).1,
      1 ≤ idx ∧ idx ≤ (INIT natEnv raw_htab 5).1.size) ∧
    (∀ idx ∈ (insert_helper natEnv 9 (INIT natEnv raw_htab 5).1 7 1).1,
      1 ≤ idx ∧ idx ≤ (INIT natEnv raw_htab 5).1.size) ∧
    (∀ t' r, (insert_helper natEnv 9 (INIT natEnv raw_htab 5).1 7 1).2 = some (t', r) →
      ∀ i, (i = 0 ∨ (INIT natEnv raw_htab 5).1.size < i) →
        t'.table i = (INIT natEnv raw_htab 5).1.table i) :=
  ⟨by decide, C7_probe_indices_in_bounds natEnv (INIT natEnv raw_htab 5).1 7 1 9 (by decide)⟩

/-- C8: in a table of at least 3 slots `lookup` and `insert_helper` load the states of
the same slots in the same order, namely an initial segment of the sequence that
starts at `h1 = 1 + (hv if hv < size, else hv mod size)` and goes from `idx` to
`idx - h2`, plus `size` when that is not positive, with `h2 = 1 + hv mod (size - 2)`;
from an index in `[1, size]` the next index is again in `[1, size]` and congruent to
`idx - h2` modulo `size`. -/
theorem C8_probe_sequence {α : Type} (E : Env α) (t : Htab α) (hv : Nat) (val : α)
    (fuel : Nat) (h : 3 ≤ t.size) :
    (insert_helper E fuel t hv val).1 = (lookup E fuel t hv val).1 ∧
    (lookup E fuel t hv val).1 =
      (List.range (lookup E fuel t hv val).1.length).map (spec_probe t.size hv) ∧
    (∀ idx, 1 ≤ idx → idx ≤ t.size →
      1 ≤ spec_next t.size (spec_h2 t.size hv) idx ∧
      spec_next t.size (spec_h2 t.size hv) idx ≤ t.size ∧
      (spec_next t.size (spec_h2 t.size hv) idx : Int) % (t.size : Int) =
        ((idx : Int) - (spec_h2 t.size hv : Int)) % (t.size : Int)) := by
  refine ⟨insert_helper_trace E t hv val fuel, ?_, ?_⟩
  · have hfun : spec_probe t.size hv = probe t.size hv := funext (spec_probe_eq t.size hv h)
    rw [hfun]
    exact lookup_trace E t hv val fuel
  · intro idx h1 h2
    have hh := hash2_mem t.size hv h
    simp only [spec_next, spec_h2]
    split_ifs with hc
    · refine ⟨by omega, by omega, ?_⟩
      rw [Int.toNat_of_nonneg (by omega)]
      simp [Int.add_emod]
    · refine ⟨by omega, by omega, ?_⟩
      rw [Int.toNat_of_nonneg (by omega)]

theorem C8_probe_sequence_witness :
    3 ≤ (INIT natEnv raw_htab 5).1.size ∧
    (insert_helper natEnv 9 (INIT natEnv raw_htab 5).1 7 1).1 =
      (lookup natEnv 9 (INIT natEnv raw_htab 5).1 7 1).1 ∧
    (lookup natEnv 9 (INIT natEnv raw_htab 5).1 7 1).1 =
      (List.range (lookup natEnv 9 (INIT natEnv raw_htab 5).1 7 1).1.length).map
        (spec_probe (INIT natEnv raw_htab 5).1.size 7) ∧
    (∀ idx, 1 ≤ idx → idx ≤ (INIT natEnv raw_htab 5).1.size →
      1 ≤ spec_next (INIT natEnv raw_htab 5).1.size (spec_h2 (INIT natEnv raw_htab 5).1.size 7) idx ∧
      spec_next (INIT natEnv raw_htab 5).1.size (spec_h2 (INIT natEnv raw_htab 5).1.size 7) idx ≤
        (INIT natEnv raw_htab 5).1.size ∧
      (spec_next (INIT natEnv raw_htab 5).1.size
          (spec_h2 (INIT natEnv raw_htab 5).1.size 7) idx : Int) %
          ((INIT natEnv raw_htab 5).1.size : Int) =
        ((idx : Int) - (spec_h2 (INIT natEnv raw_htab 5).1.size 7 : Int)) %
          ((INIT natEnv raw_htab 5).1.size : Int)) :=
  ⟨by decide, C8_probe_sequence natEnv (INIT natEnv raw_htab 5).1 7 1 9 (by decide)⟩

end Dynhash

namespace Dwarflint

theorem message_accept_terms_iff (cat : Nat) (terms : List message_term) :
    message_accept_terms cat terms = true ↔
      ∃ t ∈ terms, (t.positive &&& cat) = t.positive ∧ (t.negative &&& cat) = 0 := by
  induction terms with
  | nil => simp [message_accept_terms]
  | cons t rest ih =>
    rw [message_accept_terms]
    split_ifs with h
    · simp only [List.mem_cons, true_iff]
      exact ⟨t, Or.inl rfl, h⟩
    · rw [ih]
      constructor
      · rintro ⟨u, hu, hm⟩
        exact ⟨u, List.mem_cons_of_mem _ hu, hm⟩
      · rintro ⟨u, hu, hm⟩
        rcases List.mem_cons.1 hu with rfl | hu
        · exact absurd hm h
        · exact ⟨u, hu, hm⟩

/-- C9: `message_accept (cri, cat)` is true iff some term `t` of `cri` satisfies
`(t.positive & cat) == t.positive` and `(t.negative & cat) == 0`; a criterion with no
terms accepts no category. -/
theorem C9_message_accept_iff (cri : message_criteria) (cat : Nat) :
    (message_accept cri cat = true ↔
      ∃ t ∈ cri.terms, (t.positive &&& cat) = t.positive ∧ (t.negative &&& cat) = 0) ∧
    message_accept ⟨[]⟩ cat = false :=
  ⟨message_accept_terms_iff cat cri.terms, rfl⟩

theorem msg_state_out_ne (st : msg_state) (n : Nat) (items : List out_item)
    (h : items ≠ []) : (⟨n, st.out ++ items⟩ : msg_state) ≠ st := by
  intro he
  have h1 := congrArg msg_state.out he
  simp only at h1
  have h2 := congrArg List.length h1
  rw [List.length_append] at h2
  have : items.length = 0 := by omega
  exact h (List.length_eq_zero.1 this)

/-- C10: for every category, both the printf-style and the stream-style `wr_message`
write the error label iff `warning_criteria` and `error_criteria` both accept the
category, write the warning label iff `warning_criteria` accepts and `error_criteria`
rejects it, and leave the whole state (output and `error_count`) unchanged iff
`warning_criteria` rejects it, in which case the stream-style function returns the
stream that drops its input; the two styles write the same label and leave the same
`error_count`. -/
theorem C10_wr_message_routing (warning_criteria error_criteria : message_criteria)
    (st : msg_state) (category : Nat) (wh : Where) (msg : String) :
    (labels ((wr_message warning_criteria error_criteria st category wh msg).out.drop
        st.out.length) = [out_item.error_label] ↔
      (message_accept warning_criteria category = true ∧
        message_accept error_criteria category = true)) ∧
    (labels ((wr_message warning_criteria error_criteria st category wh msg).out.drop
        st.out.length) = [out_item.warning_label] ↔
      (message_accept warning_criteria category = true ∧
        message_accept error_criteria category = false)) ∧
    (wr_message warning_criteria error_criteria st category wh msg = st ↔
      message_accept warning_criteria category = false) ∧
    (labels ((wr_message_stream warning_criteria error_criteria st category).1.out.drop
        st.out.length) = [out_item.error_label] ↔
      (message_accept warning_criteria category = true ∧
        message_accept error_criteria category = true)) ∧
    (labels ((wr_message_stream warning_criteria error_criteria st category).1.out.drop
        st.out.length) = [out_item.warning_label] ↔
      (message_accept warning_criteria category = true ∧
        message_accept error_criteria category = false)) ∧
    ((wr_message_stream warning_criteria error_criteria st category).1 = st ↔
      message_accept warning_criteria category = false) ∧
    ((wr_message_stream warning_criteria error_criteria st category).2 = stream.nostr ↔
      message_accept warning_criteria category = false) ∧
    labels ((wr_message_stream warning_criteria error_criteria st category).1.out.drop
        st.out.length) =
      labels ((wr_message warning_criteria error_criteria st category wh msg).out.drop
        st.out.length) ∧
    (wr_message_stream warning_criteria error_criteria st category).1.error_count =
      (wr_message warning_criteria error_criteria st category wh msg).error_count := by
  cases hw : message_accept warning_criteria category <;>
    cases he : message_accept error_criteria category <;>
    simp [wr_message, wr_message_stream, wr_verror, wr_vwarning, wr_error_stream,
      wr_warning_stream, hw, he, labels, msg_state_out_ne]

end Dwarflint

namespace Dynhash

theorem insert_helper_loop_pass {α : Type} (E : Env α) (t : Htab α) (hval : Nat) (val : α)
    (fuel k : Nat) (hp : pass E t hval val (probe t.size hval (k + 1))) :
    (insert_helper_loop E t hval val (1 + hval % (t.size - 2)) (fuel + 1)
        (probe t.size hval k)).2 =
      (insert_helper_loop E t hval val (1 + hval % (t.size - 2)) fuel
        (probe t.size hval (k + 1))).2 := by
  obtain ⟨h0, h1, h2⟩ := hp
  unfold hit at h2
  have e : (if probe t.size hval k ≤ 1 + hval % (t.size - 2) then
        t.size + probe t.size hval k - (1 + hval % (t.size - 2))
      else probe t.size hval k - (1 + hval % (t.size - 2))) = probe t.size hval (k + 1) := by
    rw [probe]
  simp only [insert_helper_loop, e, h0, h1, h2, if_false]

theorem insert_helper_loop_empty {α : Type} (E : Env α) (t : Htab α) (hval : Nat) (val : α)
    (fuel k : Nat) (h0 : (t.table (probe t.size hval (k + 1))).state = 0) :
    (insert_helper_loop E t hval val (1 + hval % (t.size - 2)) (fuel + 1)
        (probe t.size hval k)).2 =
      some (store_entry t (probe t.size hval (k + 1)) hval val, 0) := by
  have e : (if probe t.size hval k ≤ 1 + hval % (t.size - 2) then
        t.size + probe t.size hval k - (1 + hval % (t.size - 2))
      else probe t.size hval k - (1 + hval % (t.size - 2))) = probe t.size hval (k + 1) := by
    rw [probe]
  simp only [insert_helper_loop, e, h0, if_true]

theorem insert_helper_loop_hit {α : Type} (E : Env α) (t : Htab α) (hval : Nat) (val : α)
    (fuel k : Nat) (h0 : (t.table (probe t.size hval (k + 1))).state ≠ 0)
    (h1 : (t.table (probe t.size hval (k + 1))).state ≠ 1)
    (h2 : hit E t hval val (probe t.size hval (k + 1))) :
    (insert_helper_loop E t hval val (1 + hval % (t.size - 2)) (fuel + 1)
        (probe t.size hval k)).2 = some (t, -1) := by
  unfold hit at h2
  have e : (if probe t.size hval k ≤ 1 + hval % (t.size - 2) then
        t.size + probe t.size hval k - (1 + hval % (t.size - 2))
      else probe t.size hval k - (1 + hval % (t.size - 2))) = probe t.size hval (k + 1) := by
    rw [probe]
  simp only [insert_helper_loop, e, h0, h1, h2, if_false, if_true, and_self]

theorem insert_helper_loop_skip {α : Type} (E : Env α) (t : Htab α) (hval : Nat) (val : α)
    (n : Nat) : ∀ (k fuel : Nat),
    (∀ j, k < j → j ≤ k + n → pass E t hval val (probe t.size hval j)) →
    (insert_helper_loop E t hval val (1 + hval % (t.size - 2)) (fuel + n)
        (probe t.size hval k)).2 =
      (insert_helper_loop E t hval val (1 + hval % (t.size - 2)) fuel
        (probe t.size hval (k + n))).2 := by
  induction n with
  | zero => intro k fuel _; rfl
  | succ n ih =>
    intro k fuel hp
    have e : fuel + (n + 1) = (fuel + n) + 1 := by omega
    rw [e, insert_helper_loop_pass E t hval val (fuel + n) k (hp (k + 1) (by omega) (by omega))]
    have := ih (k + 1) fuel (fun j hj1 hj2 => hp j (by omega) (by omega))
    rw [this]
    have e2 : k + 1 + n = k + (n + 1) := by omega
    rw [e2]

theorem insert_helper_zero {α : Type} (E : Env α) (t : Htab α) (hval : Nat) (val : α)
    (fuel : Nat) :
    (insert_helper E fuel t hval val).2 =
      if (t.table (probe t.size hval 0)).state = 0 then
        some (store_entry t (probe t.size hval 0) hval val, 0)
      else if (t.table (probe t.size hval 0)).state = 1 then none
      else if hit E t hval val (probe t.size hval 0) then some (t, -1)
      else (insert_helper_loop E t hval val (1 + hval % (t.size - 2)) fuel
        (probe t.size hval 0)).2 := by
  have hp : 1 + (if hval < t.size then hval else hval % t.size) = probe t.size hval 0 := rfl
  simp only [insert_helper, hp]
  by_cases h0 : (t.table (probe t.size hval 0)).state = 0
  · simp only [h0, if_true]
  · by_cases h1 : (t.table (probe t.size hval 0)).state = 1
    · simp [h1]
    · by_cases h2 : hit E t hval val (probe t.size hval 0)
      · have h2' := h2
        unfold hit at h2'
        simp only [h0, h1, h2, h2', if_true, if_false, and_self]
      · have h2' := h2
        unfold hit at h2'
        simp only [h0, h1, h2, h2', if_false]

theorem insert_helper_empty {α : Type} (E : Env α) (t : Htab α) (hval : Nat) (val : α)
    (fuel k0 : Nat) (hpass : ∀ j, j < k0 → pass E t hval val (probe t.size hval j))
    (h0 : (t.table (probe t.size hval k0)).state = 0) (hf : k0 ≤ fuel) :
    (insert_helper E fuel t hval val).2 =
      some (store_entry t (probe t.size hval k0) hval val, 0) := by
  rw [insert_helper_zero]
  cases k0 with
  | zero => simp [h0]
  | succ k =>
    obtain ⟨p0, p1, p2⟩ := hpass 0 (by omega)
    simp only [p0, p1, p2, if_false]
    obtain ⟨f, rfl⟩ : ∃ f, fuel = (f + 1) + k := ⟨fuel - (k + 1), by omega⟩
    rw [insert_helper_loop_skip E t hval val k 0 (f + 1)
      (fun j hj1 hj2 => hpass j (by omega))]
    rw [Nat.zero_add]
    exact insert_helper_loop_empty E t hval val f k h0

theorem insert_helper_hit {α : Type} (E : Env α) (t : Htab α) (hval : Nat) (val : α)
    (fuel k0 : Nat) (hpass : ∀ j, j < k0 → pass E t hval val (probe t.size hval j))
    (h0 : (t.table (probe t.size hval k0)).state ≠ 0)
    (h1 : (t.table (probe t.size hval k0)).state ≠ 1)
    (h2 : hit E t hval val (probe t.size hval k0)) (hf : k0 ≤ fuel) :
    (insert_helper E fuel t hval val).2 = some (t, -1) := by
  rw [insert_helper_zero]
  cases k0 with
  | zero => simp [h0, h1, h2]
  | succ k =>
    obtain ⟨p0, p1, p2⟩ := hpass 0 (by omega)
    simp only [p0, p1, p2, if_false]
    obtain ⟨f, rfl⟩ : ∃ f, fuel = (f + 1) + k := ⟨fuel - (k + 1), by omega⟩
    rw [insert_helper_loop_skip E t hval val k 0 (f + 1)
      (fun j hj1 hj2 => hpass j (by omega))]
    rw [Nat.zero_add]
    exact insert_helper_loop_hit E t hval val f k h0 h1 h2

theorem lookup_loop_pass {α : Type} (E : Env α) (t : Htab α) (hval : Nat) (val : α)
    (fuel k : Nat) (hp : pass E t hval val (probe t.size hval (k + 1))) :
    (lookup_loop E t hval val (1 + hval % (t.size - 2)) (fuel + 1)
        (probe t.size hval k)).2 =
      (lookup_loop E t hval val (1 + hval % (t.size - 2)) fuel
        (probe t.size hval (k + 1))).2 := by
  obtain ⟨h0, h1, h2⟩ := hp
  unfold hit at h2
  have e : (if probe t.size hval k ≤ 1 + hval % (t.size - 2) then
        t.size + probe t.size hval k - (1 + hval % (t.size - 2))
      else probe t.size hval k - (1 + hval % (t.size - 2))) = probe t.size hval (k + 1) := by
    rw [probe]
  simp only [lookup_loop, e, h0, h1, h2, if_false]

theorem lookup_loop_empty {α : Type} (E : Env α) (t : Htab α) (hval : Nat) (val : α)
    (fuel k : Nat) (h0 : (t.table (probe t.size hval (k + 1))).state = 0) :
    (lookup_loop E t hval val (1 + hval % (t.size - 2)) (fuel + 1)
        (probe t.size hval k)).2 =
      some 0 := by
  have e : (if probe t.size hval k ≤ 1 + hval % (t.size - 2) then
        t.size + probe t.size hval k - (1 + hval % (t.size - 2))
      else probe t.size hval k - (1 + hval % (t.size - 2))) = probe t.size hval (k + 1) := by
    rw [probe]
  simp only [lookup_loop, e, h0, if_true]

theorem lookup_loop_hit {α : Type} (E : Env α) (t : Htab α) (hval : Nat) (val : α)
    (fuel k : Nat) (h0 : (t.table (probe t.size hval (k + 1))).state ≠ 0)
    (h1 : (t.table (probe t.size hval (k + 1))).state ≠ 1)
    (h2 : hit E t hval val (probe t.size hval (k + 1))) :
    (lookup_loop E t hval val (1 + hval % (t.size - 2)) (fuel + 1)
        (probe t.size hval k)).2 = some (probe t.size hval (k + 1)) := by
  unfold hit at h2
  have e : (if probe t.size hval k ≤ 1 + hval % (t.size - 2) then
        t.size + probe t.size hval k - (1 + hval % (t.size - 2))
      else probe t.size hval k - (1 + hval % (t.size - 2))) = probe t.size hval (k + 1) := by
    rw [probe]
  simp only [lookup_loop, e, h0, h1, h2, if_false, if_true, and_self]

theorem lookup_loop_skip {α : Type} (E : Env α) (t : Htab α) (hval : Nat) (val : α)
    (n : Nat) : ∀ (k fuel : Nat),
    (∀ j, k < j → j ≤ k + n → pass E t hval val (probe t.size hval j)) →
    (lookup_loop E t hval val (1 + hval % (t.size - 2)) (fuel + n)
        (probe t.size hval k)).2 =
      (lookup_loop E t hval val (1 + hval % (t.size - 2)) fuel
        (probe t.size hval (k + n))).2 := by
  induction n with
  | zero => intro k fuel _; rfl
  | succ n ih =>
    intro k fuel hp
    have e : fuel + (n + 1) = (fuel + n) + 1 := by omega
    rw [e, lookup_loop_pass E t hval val (fuel + n) k (hp (k + 1) (by omega) (by omega))]
    have := ih (k + 1) fuel (fun j hj1 hj2 => hp j (by omega) (by omega))
    rw [this]
    have e2 : k + 1 + n = k + (n + 1) := by omega
    rw [e2]

theorem lookup_zero {α : Type} (E : Env α) (t : Htab α) (hval : Nat) (val : α)
    (fuel : Nat) :
    (lookup E fuel t hval val).2 =
      if (t.table (probe t.size hval 0)).state = 0 then
        some 0
      else if (t.table (probe t.size hval 0)).state = 1 then none
      else if hit E t hval val (probe t.size hval 0) then some (probe t.size hval 0)
      else (lookup_loop E t hval val (1 + hval % (t.size - 2)) fuel
        (probe t.size hval 0)).2 := by
  have hp : 1 + (if hval < t.size then hval else hval % t.size) = probe t.size hval 0 := rfl
  simp only [lookup, hp]
  by_cases h0 : (t.table (probe t.size hval 0)).state = 0
  · simp only [h0, if_true]
  · by_cases h1 : (t.table (probe t.size hval 0)).state = 1
    · simp [h1]
    · by_cases h2 : hit E t hval val (probe t.size hval 0)
      · have h2' := h2
        unfold hit at h2'
        simp only [h0, h1, h2, h2', if_true, if_false, and_self]
      · have h2' := h2
        unfold hit at h2'
        simp only [h0, h1, h2, h2', if_false]

theorem lookup_empty {α : Type} (E : Env α) (t : Htab α) (hval : Nat) (val : α)
    (fuel k0 : Nat) (hpass : ∀ j, j < k0 → pass E t hval val (probe t.size hval j))
    (h0 : (t.table (probe t.size hval k0)).state = 0) (hf : k0 ≤ fuel) :
    (lookup E fuel t hval val).2 =
      some 0 := by
  rw [lookup_zero]
  cases k0 with
  | zero => simp [h0]
  | succ k =>
    obtain ⟨p0, p1, p2⟩ := hpass 0 (by omega)
    simp only [p0, p1, p2, if_false]
    obtain ⟨f, rfl⟩ : ∃ f, fuel = (f + 1) + k := ⟨fuel - (k + 1), by omega⟩
    rw [lookup_loop_skip E t hval val k 0 (f + 1)
      (fun j hj1 hj2 => hpass j (by omega))]
    rw [Nat.zero_add]
    exact lookup_loop_empty E t hval val f k h0

theorem lookup_hit {α : Type} (E : Env α) (t : Htab α) (hval : Nat) (val : α)
    (fuel k0 : Nat) (hpass : ∀ j, j < k0 → pass E t hval val (probe t.size hval j))
    (h0 : (t.table (probe t.size hval k0)).state ≠ 0)
    (h1 : (t.table (probe t.size hval k0)).state ≠ 1)
    (h2 : hit E t hval val (probe t.size hval k0)) (hf : k0 ≤ fuel) :
    (lookup E fuel t hval val).2 = some (probe t.size hval k0) := by
  rw [lookup_zero]
  cases k0 with
  | zero => simp [h0, h1, h2]
  | succ k =>
    obtain ⟨p0, p1, p2⟩ := hpass 0 (by omega)
    simp only [p0, p1, p2, if_false]
    obtain ⟨f, rfl⟩ : ∃ f, fuel = (f + 1) + k := ⟨fuel - (k + 1), by omega⟩
    rw [lookup_loop_skip E t hval val k 0 (f + 1)
      (fun j hj1 hj2 => hpass j (by omega))]
    rw [Nat.zero_add]
    exact lookup_loop_hit E t hval val f k h0 h1 h2


theorem exists_empty_slot {α : Type} (t : Htab α) (hn : nfilled t < t.size)
    (hs : ∀ i, 1 ≤ i → i ≤ t.size → (t.table i).state = 0 ∨ (t.table i).state = 2) :
    ∃ i, 1 ≤ i ∧ i ≤ t.size ∧ (t.table i).state = 0 := by
  by_contra hne
  push_neg at hne
  have hall : (Finset.Icc 1 t.size).filter (fun i => (t.table i).state = 2) =
      Finset.Icc 1 t.size := by
    apply Finset.filter_true_of_mem
    intro i hi
    obtain ⟨h1, h2⟩ := Finset.mem_Icc.1 hi
    rcases hs i h1 h2 with h0 | h2'
    · exact absurd h0 (hne i h1 h2)
    · exact h2'
  unfold nfilled at hn
  rw [hall, Nat.card_Icc] at hn
  omega

theorem exists_first_stop {α : Type} (E : Env α) (t : Htab α) (hval : Nat) (val : α)
    (h3 : 3 ≤ t.size)
    (hs : ∀ i, 1 ≤ i → i ≤ t.size → (t.table i).state = 0 ∨ (t.table i).state = 2)
    (k : Nat)
    (hk : (t.table (probe t.size hval k)).state = 0 ∨ hit E t hval val (probe t.size hval k)) :
    ∃ k0, k0 ≤ k ∧ (∀ j, j < k0 → pass E t hval val (probe t.size hval j)) ∧
      ((t.table (probe t.size hval k0)).state = 0 ∨
        ((t.table (probe t.size hval k0)).state = 2 ∧
          hit E t hval val (probe t.size hval k0))) := by
  classical
  have hex : ∃ k, (t.table (probe t.size hval k)).state = 0 ∨
      hit E t hval val (probe t.size hval k) := ⟨k, hk⟩
  refine ⟨Nat.find hex, Nat.find_min' hex hk, ?_, ?_⟩
  · intro j hj
    have hnot := Nat.find_min hex hj
    push_neg at hnot
    have hm := probe_mem t.size hval h3 j
    rcases hs _ hm.1 hm.2 with h0 | h2
    · exact absurd h0 hnot.1
    · exact ⟨hnot.1, by omega, hnot.2⟩
  · have hm := probe_mem t.size hval h3 (Nat.find hex)
    rcases Nat.find_spec hex with h0 | hh
    · exact Or.inl h0
    · rcases hs _ hm.1 hm.2 with h0 | h2
      · exact Or.inl h0
      · exact Or.inr ⟨h2, hh⟩

theorem stored_on_chain {α : Type} (E : Env α) (t : Htab α) (hI : TableInv E t)
    (hval : Nat) (val : α) (i : Nat) (h1 : 1 ≤ i) (h2 : i ≤ t.size)
    (hf : (t.table i).state = 2) (hh : hit E t hval val i) :
    ∃ k, k < t.size ∧ probe t.size hval k = i ∧
      ∀ j, j < k → (t.table (probe t.size hval j)).state = 2 := by
  obtain ⟨k, hk, hpk, hall⟩ := hI.chain i h1 h2 hf
  rw [hh.1] at hpk hall
  exact ⟨k, hk, hpk, hall⟩

theorem store_entry_size {α : Type} (t : Htab α) (idx hv : Nat) (val : α) :
    (store_entry t idx hv val).size = t.size := rfl

theorem store_entry_same {α : Type} (t : Htab α) (idx hv : Nat) (val : α) :
    (store_entry t idx hv val).table idx = ⟨hv, val, 2⟩ := by
  simp [store_entry]

theorem store_entry_ne {α : Type} (t : Htab α) (idx hv : Nat) (val : α) (i : Nat)
    (h : i ≠ idx) : (store_entry t idx hv val).table i = t.table i := by
  simp [store_entry, Function.update_noteq h]

theorem store_entry_state {α : Type} (t : Htab α) (idx hv : Nat) (val : α) (i : Nat)
    (h : (t.table i).state = 2 ∨ i = idx) : ((store_entry t idx hv val).table i).state = 2 := by
  by_cases hi : i = idx
  · subst hi
    rw [store_entry_same]
  · rw [store_entry_ne t idx hv val i hi]
    rcases h with h | h
    · exact h
    · exact absurd h hi

theorem store_entry_inv {α : Type} (E : Env α) (t : Htab α) (hI : TableInv E t)
    (hv : Nat) (val : α) (k0 : Nat) (hk0 : k0 < t.size)
    (hpre : ∀ j, j < k0 → (t.table (probe t.size hv j)).state = 2)
    (hno : ∀ i, 1 ≤ i → i ≤ t.size → (t.table i).state = 2 → (t.table i).hashval = hv →
      E.COMPARE (t.table i).data val ≠ 0 ∧ E.COMPARE val (t.table i).data ≠ 0) :
    TableInv E (store_entry t (probe t.size hv k0) hv val) := by
  constructor
  · intro i h1 h2
    rw [store_entry_size] at h2
    by_cases hi : i = probe t.size hv k0
    · right
      exact store_entry_state t _ hv val i (Or.inr hi)
    · rw [store_entry_ne t _ hv val i hi]
      exact hI.states i h1 h2
  · intro i h1 h2 hf
    rw [store_entry_size] at h2 ⊢
    by_cases hi : i = probe t.size hv k0
    · subst hi
      rw [store_entry_same]
      refine ⟨k0, hk0, rfl, ?_⟩
      intro j hj
      exact store_entry_state t _ hv val _ (Or.inl (hpre j hj))
    · rw [store_entry_ne t _ hv val i hi] at hf ⊢
      obtain ⟨k, hk, hpk, hall⟩ := hI.chain i h1 h2 hf
      refine ⟨k, hk, hpk, ?_⟩
      intro j hj
      exact store_entry_state t _ hv val _ (Or.inl (hall j hj))
  · intro i j hi1 hi2 hj1 hj2 hfi hfj hh hc
    rw [store_entry_size] at hi2 hj2
    by_cases hi : i = probe t.size hv k0
    · by_cases hj : j = probe t.size hv k0
      · rw [hi, hj]
      · exfalso
        rw [store_entry_ne t _ hv val j hj] at hfj hh hc
        rw [hi, store_entry_same] at hh hc
        exact (hno j hj1 hj2 hfj hh.symm).2 hc
    · by_cases hj : j = probe t.size hv k0
      · exfalso
        rw [store_entry_ne t _ hv val i hi] at hfi hh hc
        rw [hj, store_entry_same] at hh hc
        exact (hno i hi1 hi2 hfi hh).1 hc
      · rw [store_entry_ne t _ hv val i hi] at hfi hh hc
        rw [store_entry_ne t _ hv val j hj] at hfj hh hc
        exact hI.distinct i j hi1 hi2 hj1 hj2 hfi hfj hh hc

theorem nfilled_store_entry {α : Type} (t : Htab α) (idx hv : Nat) (val : α)
    (h1 : 1 ≤ idx) (h2 : idx ≤ t.size) (h0 : (t.table idx).state = 0) :
    nfilled (store_entry t idx hv val) = nfilled t + 1 := by
  unfold nfilled
  rw [store_entry_size]
  have hnot : idx ∉ (Finset.Icc 1 t.size).filter (fun i => (t.table i).state = 2) := by
    intro hm
    have := (Finset.mem_filter.1 hm).2
    omega
  have heq : (Finset.Icc 1 t.size).filter
        (fun i => ((store_entry t idx hv val).table i).state = 2) =
      insert idx ((Finset.Icc 1 t.size).filter (fun i => (t.table i).state = 2)) := by
    ext i
    simp only [Finset.mem_filter, Finset.mem_insert, Finset.mem_Icc]
    by_cases hi : i = idx
    · subst hi
      simp [store_entry_same, h1, h2]
    · rw [store_entry_ne t idx hv val i hi]
      simp [hi]
  rw [heq, Finset.card_insert_of_not_mem hnot]

theorem stored_store_entry {α : Type} (t : Htab α) (idx hv : Nat) (val : α)
    (h1 : 1 ≤ idx) (h2 : idx ≤ t.size) (h0 : (t.table idx).state = 0) (h : Nat) (d : α) :
    stored (store_entry t idx hv val) h d ↔ stored t h d ∨ (h = hv ∧ d = val) := by
  constructor
  · rintro ⟨i, hi1, hi2, hf, hh, hd⟩
    rw [store_entry_size] at hi2
    by_cases hi : i = idx
    · subst hi
      rw [store_entry_same] at hh hd
      exact Or.inr ⟨hh.symm, hd.symm⟩
    · rw [store_entry_ne t idx hv val i hi] at hf hh hd
      exact Or.inl ⟨i, hi1, hi2, hf, hh, hd⟩
  · rintro (⟨i, hi1, hi2, hf, hh, hd⟩ | ⟨rfl, rfl⟩)
    · have hi : i ≠ idx := by
        intro he
        rw [he] at hf
        omega
      refine ⟨i, hi1, hi2, ?_⟩
      rw [store_entry_ne t idx hv val i hi]
      exact ⟨hf, hh, hd⟩
    · refine ⟨idx, h1, h2, ?_⟩
      rw [store_entry_same]
      exact ⟨rfl, rfl, rfl⟩

theorem no_match_of_empty_stop {α : Type} (E : Env α) (t : Htab α) (hI : TableInv E t)
    (hv : Nat) (val : α) (k0 : Nat)
    (hpass : ∀ j, j < k0 → pass E t hv val (probe t.size hv j))
    (h0 : (t.table (probe t.size hv k0)).state = 0) :
    ¬ ∃ d, stored t hv d ∧ E.COMPARE d val = 0 := by
  rintro ⟨d, ⟨i, hi1, hi2, hfi, hhi, hdi⟩, hc⟩
  have hiti : hit E t hv val i := ⟨hhi, by rw [hdi]; exact hc⟩
  obtain ⟨k, _, hpk, hall⟩ := stored_on_chain E t hI hv val i hi1 hi2 hfi hiti
  rcases Nat.lt_trichotomy k k0 with hlt | heq | hgt
  · have := (hpass k hlt).2.2
    rw [hpk] at this
    exact this hiti
  · rw [heq] at hpk
    rw [hpk] at h0
    omega
  · have := hall k0 hgt
    omega

theorem pass_filled {α : Type} (E : Env α) (t : Htab α) (hI : TableInv E t) (h3 : 3 ≤ t.size)
    (hv : Nat) (val : α) (k0 : Nat)
    (hpass : ∀ j, j < k0 → pass E t hv val (probe t.size hv j)) :
    ∀ j, j < k0 → (t.table (probe t.size hv j)).state = 2 := by
  intro j hj
  have hm := probe_mem t.size hv h3 j
  rcases hI.states _ hm.1 hm.2 with h0 | h2
  · exact absurd h0 (hpass j hj).1
  · exact h2

theorem insert_helper_spec {α : Type} (E : Env α)
    (hsym : ∀ a b, E.COMPARE a b = 0 → E.COMPARE b a = 0) (t : Htab α)
    (hp : Nat.Prime t.size) (h3 : 3 ≤ t.size) (hI : TableInv E t) (hn : nfilled t < t.size)
    (hv : Nat) (val : α) :
    ((∃ d, stored t hv d ∧ E.COMPARE d val = 0) ∧
      ∀ fuel, t.size ≤ fuel → (insert_helper E fuel t hv val).2 = some (t, -1)) ∨
    ((¬ ∃ d, stored t hv d ∧ E.COMPARE d val = 0) ∧
      ∃ idx, 1 ≤ idx ∧ idx ≤ t.size ∧ (t.table idx).state = 0 ∧
        (∀ fuel, t.size ≤ fuel →
          (insert_helper E fuel t hv val).2 = some (store_entry t idx hv val, 0)) ∧
        TableInv E (store_entry t idx hv val)) := by
  obtain ⟨e, he1, he2, he0⟩ := exists_empty_slot t hn hI.states
  obtain ⟨ke, hke, hpe⟩ := probe_surjective t.size hv hp h3 e he1 he2
  obtain ⟨k0, hk0le, hpass, hstop⟩ :=
    exists_first_stop E t hv val h3 hI.states ke (Or.inl (by rw [hpe]; exact he0))
  have hm := probe_mem t.size hv h3 k0
  rcases hstop with h0 | ⟨h2, hh⟩
  · right
    have hno := no_match_of_empty_stop E t hI hv val k0 hpass h0
    refine ⟨hno, probe t.size hv k0, hm.1, hm.2, h0,
      fun fuel hf => insert_helper_empty E t hv val fuel k0 hpass h0 (by omega), ?_⟩
    apply store_entry_inv E t hI hv val k0 (by omega) (pass_filled E t hI h3 hv val k0 hpass)
    intro i hi1 hi2 hfi hhi
    constructor
    · intro hc
      exact hno ⟨_, ⟨i, hi1, hi2, hfi, hhi, rfl⟩, hc⟩
    · intro hc
      exact hno ⟨_, ⟨i, hi1, hi2, hfi, hhi, rfl⟩, hsym _ _ hc⟩
  · left
    exact ⟨⟨_, ⟨probe t.size hv k0, hm.1, hm.2, h2, hh.1, rfl⟩, hh.2⟩,
      fun fuel hf =>
        insert_helper_hit E t hv val fuel k0 hpass (by omega) (by omega) hh (by omega)⟩

theorem lookup_found {α : Type} (E : Env α) (t : Htab α) (h3 : 3 ≤ t.size)
    (hI : TableInv E t) (hv : Nat) (val : α)
    (hex : ∃ d, stored t hv d ∧ E.COMPARE d val = 0) :
    ∃ idx, 1 ≤ idx ∧ idx ≤ t.size ∧ (t.table idx).state = 2 ∧ hit E t hv val idx ∧
      ∀ fuel, t.size ≤ fuel → (lookup E fuel t hv val).2 = some idx := by
  obtain ⟨d, ⟨i, hi1, hi2, hfi, hhi, hdi⟩, hc⟩ := hex
  have hiti : hit E t hv val i := ⟨hhi, by rw [hdi]; exact hc⟩
  obtain ⟨k, hk, hpk, _⟩ := stored_on_chain E t hI hv val i hi1 hi2 hfi hiti
  obtain ⟨k0, hk0le, hpass, hstop⟩ :=
    exists_first_stop E t hv val h3 hI.states k (Or.inr (by rw [hpk]; exact hiti))
  have hm := probe_mem t.size hv h3 k0
  rcases hstop with h0 | ⟨h2, hh⟩
  · exact absurd ⟨d, ⟨i, hi1, hi2, hfi, hhi, hdi⟩, hc⟩
      (no_match_of_empty_stop E t hI hv val k0 hpass h0)
  · exact ⟨probe t.size hv k0, hm.1, hm.2, h2, hh, fun fuel hf =>
      lookup_hit E t hv val fuel k0 hpass (by omega) (by omega) hh (by omega)⟩

theorem lookup_not_found {α : Type} (E : Env α) (t : Htab α) (hp : Nat.Prime t.size)
    (h3 : 3 ≤ t.size) (hI : TableInv E t) (hn : nfilled t < t.size)
    (hv : Nat) (val : α) (fuel : Nat) (hf : t.size ≤ fuel)
    (hno : ¬ ∃ d, stored t hv d ∧ E.COMPARE d val = 0) :
    (lookup E fuel t hv val).2 = some 0 := by
  obtain ⟨e, he1, he2, he0⟩ := exists_empty_slot t hn hI.states
  obtain ⟨ke, hke, hpe⟩ := probe_surjective t.size hv hp h3 e he1 he2
  obtain ⟨k0, hk0le, hpass, hstop⟩ :=
    exists_first_stop E t hv val h3 hI.states ke (Or.inl (by rw [hpe]; exact he0))
  have hm := probe_mem t.size hv h3 k0
  rcases hstop with h0 | ⟨h2, hh⟩
  · exact lookup_empty E t hv val fuel k0 hpass h0 (by omega)
  · exact absurd ⟨_, ⟨probe t.size hv k0, hm.1, hm.2, h2, hh.1, rfl⟩, hh.2⟩ hno

theorem clear_range_step {α : Type} (tb : Nat → Ent α) (a b : Nat) (h : a < b) :
    clear_range (Function.update tb (a + 1) { (tb (a + 1)) with state := 0 }) (a + 1) b =
      clear_range tb a b := by
  funext i
  unfold clear_range
  by_cases hi : i = a + 1
  · subst hi
    have h1 : ¬ (a + 1 < a + 1 ∧ a + 1 ≤ b) := by omega
    have h2 : a < a + 1 ∧ a + 1 ≤ b := by omega
    rw [if_neg h1, if_pos h2, Function.update_same]
  · rw [Function.update_noteq hi]
    by_cases hc : a + 1 < i ∧ i ≤ b
    · have h2 : a < i ∧ i ≤ b := by omega
      rw [if_pos hc, if_pos h2]
    · have h2 : ¬ (a < i ∧ i ≤ b) := by omega
      rw [if_neg hc, if_neg h2]

theorem clear_range_empty {α : Type} (tb : Nat → Ent α) (a : Nat) :
    clear_range tb a a = tb := by
  funext i
  unfold clear_range
  have h : ¬ (a < i ∧ i ≤ a) := by omega
  rw [if_neg h]

theorem clear_range_append {α : Type} (tb : Nat → Ent α) (a b c : Nat) (h1 : a ≤ b)
    (h2 : b ≤ c) : clear_range (clear_range tb a b) b c = clear_range tb a c := by
  funext i
  unfold clear_range
  by_cases hc1 : a < i ∧ i ≤ b
  · have h3 : ¬ (b < i ∧ i ≤ c) := by omega
    have h4 : a < i ∧ i ≤ c := by omega
    rw [if_neg h3, if_pos hc1, if_pos h4]
  · by_cases hc2 : b < i ∧ i ≤ c
    · have h4 : a < i ∧ i ≤ c := by omega
      rw [if_pos hc2, if_neg hc1, if_pos h4]
    · have h4 : ¬ (a < i ∧ i ≤ c) := by omega
      rw [if_neg hc2, if_neg hc1, if_neg h4]

theorem init_records_spec {α : Type} (record_end : Nat) (fuel : Nat) :
    ∀ (htab : Htab α) (record_it : Nat), record_it ≤ record_end →
      record_end - record_it < fuel →
      init_records record_end fuel htab record_it =
        some { htab with table := clear_range htab.table record_it record_end } := by
  induction fuel with
  | zero => intro htab record_it _ h; omega
  | succ fuel ih =>
    intro htab record_it hle hf
    rw [init_records]
    by_cases he : record_it = record_end
    · subst he
      simp [clear_range_empty]
    · simp only [ne_eq, he, not_false_eq_true, if_true]
      rw [ih _ (record_it + 1) (by omega) (by omega)]
      simp only [clear_range_step htab.table record_it record_end (by omega)]

theorem init_blocks_spec {α : Type} (size fuel inner : Nat) (hin : 256 < inner) :
    ∀ (htab : Htab α) (nf : Nat), htab.size = size →
      htab.next_init_block ≤ CEIL size 256 →
      CEIL size 256 - htab.next_init_block < fuel →
      init_blocks (CEIL size 256) fuel inner htab nf =
        some ({ htab with
                next_init_block := CEIL size 256 + 1
                table := clear_range htab.table
                  (min (htab.next_init_block * 256) size) size },
              nf + (CEIL size 256 - htab.next_init_block)) := by
  induction fuel with
  | zero => intro htab nf _ _ h; omega
  | succ fuel ih =>
    intro htab nf hsz hle hf
    subst hsz
    rw [init_blocks]
    by_cases hb : htab.next_init_block < CEIL htab.size 256
    · simp only [hb, if_true]
      have hc : htab.next_init_block * 256 < htab.size := by
        unfold CEIL at hb
        omega
      simp only [INITIALIZATION_BLOCK_SIZE]
      rw [init_records_spec _ inner _ _ (by split_ifs <;> omega) (by split_ifs <;> omega)]
      simp only
      refine (ih _ (nf + 1) ?_ ?_ ?_).trans ?_
      · rfl
      · exact hb
      · show CEIL htab.size 256 - (htab.next_init_block + 1) < fuel
        omega
      simp only [Option.some.injEq, Prod.mk.injEq]
      refine ⟨?_, by omega⟩
      have hmin1 : min (htab.next_init_block * 256) htab.size =
          htab.next_init_block * 256 := by
        omega
      rw [hmin1]
      have hmin2 : min ((htab.next_init_block + 1) * 256) htab.size =
          (if (htab.next_init_block + 1) * 256 > htab.size then htab.size
            else (htab.next_init_block + 1) * 256) := by
        split_ifs <;> omega
      rw [hmin2, clear_range_append _ _ _ _ (by split_ifs <;> omega) (by split_ifs <;> omega)]
    · have heq : htab.next_init_block = CEIL htab.size 256 := by omega
      simp only [hb, if_false, Option.some.injEq, Prod.mk.injEq]
      refine ⟨?_, by omega⟩
      have hge : htab.size ≤ htab.next_init_block * 256 := by
        rw [heq]
        unfold CEIL
        omega
      rw [Nat.min_eq_right hge, clear_range_empty, heq]

theorem frame_refl {α : Type} (t : Htab α) : frame t t := rfl

theorem frame_trans {α : Type} (t t' t'' : Htab α) (h1 : frame t t') (h2 : frame t' t'') :
    frame t t'' := by
  unfold frame at *
  rw [h2, h1]

theorem frame_store_entry {α : Type} (t : Htab α) (idx hv : Nat) (val : α) :
    frame t (store_entry t idx hv val) := rfl

theorem count_old_succ {α : Type} (tb : Nat → Ent α) (m : Nat) :
    ((Finset.Icc 1 (m + 1)).filter (fun i => (tb i).state = 2)).card =
      ((Finset.Icc 1 m).filter (fun i => (tb i).state = 2)).card +
        (if (tb (m + 1)).state = 2 then 1 else 0) := by
  rw [← Nat.Icc_insert_succ_right (by omega : 1 ≤ m + 1), Finset.filter_insert]
  split_ifs with h
  · rw [Finset.card_insert_of_not_mem]
    intro hm
    have := (Finset.mem_Icc.1 (Finset.mem_filter.1 hm).1).2
    omega
  · rfl

theorem count_old_le {α : Type} (tb : Nat → Ent α) (m : Nat) :
    ((Finset.Icc 1 m).filter (fun i => (tb i).state = 2)).card ≤ m := by
  have := Finset.card_filter_le (Finset.Icc 1 m) (fun i => (tb i).state = 2)
  rw [Nat.card_Icc] at this
  omega

theorem move_skip {α : Type} (E : Env α) (t : Htab α) (m : Nat) (hM : MoveInv E t m)
    (hs : (t.old_table (m + 1)).state ≠ 2) : MoveInv E t (m + 1) := by
  refine ⟨hM.prime, hM.three, hM.room, hM.inv, hM.old_distinct, ?_, ?_⟩
  · intro h d
    rw [hM.moved]
    constructor
    · rintro ⟨i, h1, h2, h3⟩
      exact ⟨i, h1, by omega, h3⟩
    · rintro ⟨i, h1, h2, h3⟩
      have hne : i ≠ m + 1 := by
        intro he
        rw [he] at h3
        exact hs h3.1
      exact ⟨i, h1, by omega, h3⟩
  · rw [hM.count, count_old_succ, if_neg hs, Nat.add_zero]

theorem move_insert {α : Type} (E : Env α)
    (hsym : ∀ a b, E.COMPARE a b = 0 → E.COMPARE b a = 0) (t : Htab α) (m : Nat)
    (hM : MoveInv E t m) (hm : m < t.old_size) (hs : (t.old_table (m + 1)).state = 2) :
    ∃ idx, (∀ inner, t.size ≤ inner →
        (insert_helper E inner t (t.old_table (m + 1)).hashval
          (t.old_table (m + 1)).data).2 =
          some (store_entry t idx (t.old_table (m + 1)).hashval
            (t.old_table (m + 1)).data, 0)) ∧
      MoveInv E (store_entry t idx (t.old_table (m + 1)).hashval
        (t.old_table (m + 1)).data) (m + 1) := by
  have hn : nfilled t < t.size := by
    have := count_old_le t.old_table m
    have := hM.count
    have := hM.room
    omega
  rcases insert_helper_spec E hsym t hM.prime hM.three hM.inv hn (t.old_table (m + 1)).hashval
      (t.old_table (m + 1)).data with ⟨⟨d, hst, hc⟩, _⟩ | ⟨_, idx, h1, h2, h0, hr, hI⟩
  · exfalso
    obtain ⟨i, hi1, hi2, hi3, hi4, hi5⟩ := (hM.moved _ _).1 hst
    rw [← hi5] at hc
    have := hM.old_distinct i (m + 1) hi1 (by omega) (by omega) (by omega) hi3 hs hi4 hc
    omega
  · refine ⟨idx, hr, hM.prime, hM.three, hM.room, hI, hM.old_distinct, ?_, ?_⟩
    · intro h d
      rw [stored_store_entry t idx _ _ h1 h2 h0, hM.moved]
      constructor
      · rintro (⟨i, hi1, hi2, hi3⟩ | ⟨rfl, rfl⟩)
        · exact ⟨i, hi1, by omega, hi3⟩
        · exact ⟨m + 1, by omega, le_refl _, hs, rfl, rfl⟩
      · rintro ⟨i, hi1, hi2, hi3, hi4, hi5⟩
        by_cases hi : i = m + 1
        · subst hi
          exact Or.inr ⟨hi4.symm, hi5.symm⟩
        · exact Or.inl ⟨i, hi1, by omega, hi3, hi4, hi5⟩
    · rw [nfilled_store_entry t idx _ _ h1 h2 h0, hM.count]
      show _ = ((Finset.Icc 1 (m + 1)).filter (fun i => (t.old_table i).state = 2)).card
      rw [count_old_succ, if_pos hs]

theorem move_records_spec {α : Type} (E : Env α)
    (hsym : ∀ a b, E.COMPARE a b = 0 → E.COMPARE b a = 0) (record_end : Nat) (n : Nat) :
    ∀ (t : Htab α) (r : Nat), record_end - r = n → r ≤ record_end →
      record_end ≤ t.old_size → MoveInv E t r →
      ∃ t', (∀ fuel inner, n < fuel → t.size ≤ inner →
          move_records E record_end fuel inner t r = some t') ∧
        MoveInv E t' record_end ∧ frame t t' := by
  induction n with
  | zero =>
    intro t r hn hle hold hM
    have he : r = record_end := by omega
    subst he
    refine ⟨t, ?_, hM, frame_refl t⟩
    intro fuel inner hf _
    obtain ⟨f, rfl⟩ : ∃ f, fuel = f + 1 := ⟨fuel - 1, by omega⟩
    simp [move_records]
  | succ n ih =>
    intro t r hn hle hold hM
    have he : r ≠ record_end := by omega
    by_cases hs : (t.old_table (r + 1)).state = 2
    · obtain ⟨idx, hr, hM'⟩ := move_insert E hsym t r hM (by omega) hs
      obtain ⟨t', ht', hM'', hfr⟩ :=
        ih (store_entry t idx (t.old_table (r + 1)).hashval (t.old_table (r + 1)).data)
          (r + 1) (by omega) (by omega) hold hM'
      refine ⟨t', ?_, hM'', frame_trans _ _ _ (frame_store_entry _ _ _ _) hfr⟩
      intro fuel inner hf hin
      obtain ⟨f, rfl⟩ : ∃ f, fuel = f + 1 := ⟨fuel - 1, by omega⟩
      rw [move_records]
      simp only [ne_eq, he, not_false_eq_true, if_true, hs, not_true_eq_false, if_false,
        hr inner hin]
      exact ht' f inner (by omega) hin
    · obtain ⟨t', ht', hM'', hfr⟩ :=
        ih t (r + 1) (by omega) (by omega) hold (move_skip E t r hM hs)
      refine ⟨t', ?_, hM'', hfr⟩
      intro fuel inner hf hin
      obtain ⟨f, rfl⟩ : ∃ f, fuel = f + 1 := ⟨fuel - 1, by omega⟩
      rw [move_records]
      simp only [ne_eq, he, not_false_eq_true, if_true, hs]
      exact ht' f inner (by omega) hin

theorem MoveInv_congr {α : Type} (E : Env α) (t t' : Htab α) (m : Nat)
    (h1 : t'.size = t.size) (h2 : t'.table = t.table) (h3 : t'.old_size = t.old_size)
    (h4 : t'.old_table = t.old_table) (hM : MoveInv E t m) : MoveInv E t' m := by
  obtain ⟨s, os, f, tb, otb, rs, a, b, c, d⟩ := t
  obtain ⟨s', os', f', tb', otb', rs', a', b', c', d'⟩ := t'
  simp only at h1 h2 h3 h4
  subst h1 h2 h3 h4
  exact ⟨hM.prime, hM.three, hM.room, ⟨hM.inv.states, hM.inv.chain, hM.inv.distinct⟩,
    hM.old_distinct, hM.moved, hM.count⟩

theorem move_blocks_spec {α : Type} (E : Env α)
    (hsym : ∀ a b, E.COMPARE a b = 0 → E.COMPARE b a = 0) (osz n : Nat) :
    ∀ (t : Htab α), t.old_size = osz →
      t.next_move_block ≤ CEIL osz 256 →
      CEIL osz 256 - t.next_move_block = n →
      MoveInv E t (min (t.next_move_block * 256) osz) →
      ∃ t', (∀ fuel inner nf, n < fuel → 256 < inner → t.size ≤ inner →
          move_blocks E (CEIL osz 256) fuel inner t nf =
            some (t', nf + (CEIL osz 256 - t.next_move_block))) ∧
        MoveInv E t' osz ∧
        t' = { t with table := t'.table, next_move_block := CEIL osz 256 + 1 } := by
  induction n with
  | zero =>
    intro t hos hle hn hM
    subst hos
    have heq : t.next_move_block = CEIL t.old_size 256 := by omega
    have hb : ¬ t.next_move_block < CEIL t.old_size 256 := by omega
    have hge : t.old_size ≤ t.next_move_block * 256 := by
      rw [heq]
      unfold CEIL
      omega
    rw [Nat.min_eq_right hge] at hM
    refine ⟨{ t with next_move_block := t.next_move_block + 1 }, ?_,
      MoveInv_congr E t _ _ rfl rfl rfl rfl hM, ?_⟩
    · intro fuel inner nf hf _ _
      obtain ⟨f, rfl⟩ : ∃ f, fuel = f + 1 := ⟨fuel - 1, by omega⟩
      rw [move_blocks]
      simp only [hb, if_false, Option.some.injEq, Prod.mk.injEq, true_and]
      omega
    · rw [heq]
  | succ n ih =>
    intro t hos hle hn hM
    subst hos
    have hb : t.next_move_block < CEIL t.old_size 256 := by omega
    have hc : t.next_move_block * 256 < t.old_size := by
      unfold CEIL at hb
      omega
    have hmin1 : min (t.next_move_block * 256) t.old_size = t.next_move_block * 256 := by
      omega
    rw [hmin1] at hM
    have hM1 : MoveInv E { t with next_move_block := t.next_move_block + 1 }
        (t.next_move_block * 256) :=
      MoveInv_congr E t _ _ rfl rfl rfl rfl hM
    obtain ⟨t2, ht2, hM2, hfr⟩ := move_records_spec E hsym
      (if (t.next_move_block + 1) * 256 > t.old_size then t.old_size
        else (t.next_move_block + 1) * 256)
      ((if (t.next_move_block + 1) * 256 > t.old_size then t.old_size
        else (t.next_move_block + 1) * 256) - t.next_move_block * 256)
      { t with next_move_block := t.next_move_block + 1 } (t.next_move_block * 256)
      rfl (by split_ifs <;> omega) (by simp only; split_ifs <;> omega) hM1
    have e1 : t2.old_size = t.old_size := by rw [hfr]
    have e2 : t2.next_move_block = t.next_move_block + 1 := by rw [hfr]
    have e3 : t2.size = t.size := by rw [hfr]
    have hmin2 : min (t2.next_move_block * 256) t.old_size =
        (if (t.next_move_block + 1) * 256 > t.old_size then t.old_size
          else (t.next_move_block + 1) * 256) := by
      rw [e2]
      split_ifs <;> omega
    obtain ⟨t', ht', hM', heq⟩ := ih t2 e1 (by omega) (by omega)
      (by rw [hmin2]; exact hM2)
    refine ⟨t', ?_, hM', ?_⟩
    · intro fuel inner nf hf hin hsz
      obtain ⟨f, rfl⟩ : ∃ f, fuel = f + 1 := ⟨fuel - 1, by omega⟩
      rw [move_blocks]
      simp only [hb, if_true, MOVE_BLOCK_SIZE]
      rw [ht2 inner inner (by split_ifs <;> omega) hsz]
      simp only
      rw [ht' f inner (nf + 1) (by omega) hin (by omega), e2]
      simp only [Option.some.injEq, Prod.mk.injEq, true_and]
      omega
    · rw [heq, hfr]

theorem CEIL_le (n : Nat) : CEIL n 256 ≤ n := by
  unfold CEIL
  omega

theorem cleared_MoveInv {α : Type} (E : Env α) (t : Htab α) (hp : Nat.Prime t.size)
    (h3 : 3 ≤ t.size) (hroom : t.old_size < t.size)
    (hclear : ∀ i, 1 ≤ i → i ≤ t.size → (t.table i).state = 0)
    (hold : ∀ i j, 1 ≤ i → i ≤ t.old_size → 1 ≤ j → j ≤ t.old_size →
      (t.old_table i).state = 2 → (t.old_table j).state = 2 →
      (t.old_table i).hashval = (t.old_table j).hashval →
      E.COMPARE (t.old_table i).data (t.old_table j).data = 0 → i = j) :
    MoveInv E t 0 := by
  refine ⟨hp, h3, hroom, ⟨?_, ?_, ?_⟩, hold, ?_, ?_⟩
  · intro i h1 h2
    exact Or.inl (hclear i h1 h2)
  · intro i h1 h2 hf
    have := hclear i h1 h2
    omega
  · intro i j h1 h2 _ _ hf
    have := hclear i h1 h2
    omega
  · intro h d
    constructor
    · rintro ⟨i, h1, h2, hf, _⟩
      have := hclear i h1 h2
      omega
    · rintro ⟨i, h1, h2, _⟩
      omega
  · unfold nfilled
    rw [Finset.card_eq_zero.2, Finset.card_eq_zero.2]
    · rw [Finset.filter_eq_empty_iff]
      intro i hi
      have := Finset.mem_Icc.1 hi
      omega
    · rw [Finset.filter_eq_empty_iff]
      intro i hi
      obtain ⟨h1, h2⟩ := Finset.mem_Icc.1 hi
      have := hclear i h1 h2
      omega

theorem resize_helper_spec {α : Type} (E : Env α)
    (hsym : ∀ a b, E.COMPARE a b = 0 → E.COMPARE b a = 0) (t : Htab α)
    (blocking : Bool) (hp : Nat.Prime t.size) (h3 : 3 ≤ t.size) (hroom : t.old_size < t.size)
    (hc0 : t.next_init_block = 0) (hc1 : t.num_initialized_blocks = 0)
    (hc2 : t.next_move_block = 0) (hc3 : t.num_moved_blocks = 0)
    (hold : ∀ i j, 1 ≤ i → i ≤ t.old_size → 1 ≤ j → j ≤ t.old_size →
      (t.old_table i).state = 2 → (t.old_table j).state = 2 →
      (t.old_table i).hashval = (t.old_table j).hashval →
      E.COMPARE (t.old_table i).data (t.old_table j).data = 0 → i = j) :
    ∃ t', (∀ fuel, t.size + 257 ≤ fuel → resize_helper E fuel t blocking = some t') ∧
      MoveInv E t' t.old_size ∧
      t' = { t with
        table := t'.table
        next_init_block := CEIL t.size 256 + 1
        num_initialized_blocks := CEIL t.size 256
        next_move_block := CEIL t.old_size 256 + 1
        num_moved_blocks := CEIL t.old_size 256 } := by
  obtain ⟨s, os, f, tb, otb, rs, a, b, c, d⟩ := t
  simp only at hp h3 hroom hc0 hc1 hc2 hc3 hold
  subst hc0 hc1 hc2 hc3
  have hcs := CEIL_le s
  have hcos := CEIL_le os
  have hM0 : MoveInv E
      (⟨s, os, f, clear_range tb 0 s, otb, rs, CEIL s 256 + 1, CEIL s 256, 0, 0⟩ : Htab α)
      (min (0 * 256) os) := by
    rw [Nat.zero_mul, Nat.min_eq_left (Nat.zero_le _)]
    apply cleared_MoveInv E _ hp h3 hroom _ hold
    intro i h1 h2
    show (clear_range tb 0 s i).state = 0
    unfold clear_range
    rw [if_pos ⟨by omega, h2⟩]
  obtain ⟨t', ht', hM', heq⟩ := move_blocks_spec E hsym os (CEIL os 256)
    (⟨s, os, f, clear_range tb 0 s, otb, rs, CEIL s 256 + 1, CEIL s 256, 0, 0⟩ : Htab α)
    rfl (Nat.zero_le _) rfl hM0
  simp only at heq
  have hnm : t'.num_moved_blocks = 0 := by rw [heq]
  refine ⟨{ t' with num_moved_blocks := CEIL os 256 }, ?_, ?_, ?_⟩
  · intro fuel hf
    simp only at hf
    unfold resize_helper
    simp only [INITIALIZATION_BLOCK_SIZE, MOVE_BLOCK_SIZE]
    rw [init_blocks_spec s fuel fuel (by omega) _ 0 rfl (Nat.zero_le _) (by simp only; omega)]
    simp only [Nat.zero_mul, Nat.zero_le, Nat.min_eq_left, Nat.sub_zero, Nat.zero_add,
      ne_eq, not_true_eq_false, if_false]
    rw [ht' fuel fuel 0 (by omega) (by omega) (by simp only; omega)]
    simp only [Nat.sub_zero, Nat.zero_add, ne_eq, hnm, not_true_eq_false, and_false, if_false]
  · exact MoveInv_congr E t' _ _ rfl rfl rfl rfl hM'
  · simp only
    rw [heq]

theorem resize_master_spec {α : Type} (E : Env α) (hE : EnvOK E) (t : Htab α)
    (hI : TableInv E t) (h3 : 3 ≤ t.size) (hrs : t.resizing_state = ALLOCATING_MEMORY)
    (hc0 : t.next_init_block = 0) (hc1 : t.num_initialized_blocks = 0)
    (hc2 : t.next_move_block = 0) (hc3 : t.num_moved_blocks = 0) :
    ∃ t', (∀ fuel, E.next_prime (t.size * 2) + 257 ≤ fuel →
        resize_master E fuel t = some t') ∧ t'.size = E.next_prime (t.size * 2) ∧
      t'.filled = t.filled ∧ TableInv E t' ∧ (∀ h d, stored t' h d ↔ stored t h d) ∧
      nfilled t' = nfilled t ∧ t'.resizing_state = 0 ∧ t'.next_init_block = 0 ∧
      t'.num_initialized_blocks = 0 ∧ t'.next_move_block = 0 ∧ t'.num_moved_blocks = 0 := by
  obtain ⟨s, os, f, tb, otb, rs, a, b, c, d⟩ := t
  simp only at h3 hrs hc0 hc1 hc2 hc3
  subst hrs hc0 hc1 hc2 hc3
  have hge := hE.ge (s * 2)
  obtain ⟨t', ht', hM', heq⟩ := resize_helper_spec E hE.symm
    (⟨E.next_prime (s * 2), s, f, E.malloc (1 + E.next_prime (s * 2)), tb,
      ALLOCATING_MEMORY ^^^ (ALLOCATING_MEMORY ^^^ MOVING_DATA), 0, 0, 0, 0⟩ : Htab α)
    true (hE.prime _) (by simp only; omega) (by simp only; omega) rfl rfl rfl rfl
    hI.distinct
  simp only at heq hM'
  have hrs' : t'.resizing_state = ALLOCATING_MEMORY ^^^ (ALLOCATING_MEMORY ^^^ MOVING_DATA) := by
    rw [heq]
  have hsz : t'.size = E.next_prime (s * 2) := by rw [heq]
  have hfl : t'.filled = f := by rw [heq]
  have hos : t'.old_size = s := by rw [heq]
  have hot : t'.old_table = tb := by rw [heq]
  have e1 : ALLOCATING_MEMORY ^^^ (ALLOCATING_MEMORY ^^^ MOVING_DATA) ^^^
      (MOVING_DATA ^^^ CLEANING) = CLEANING := by decide
  have e2 : GET_ACTIVE_WORKERS CLEANING = 0 := by decide
  refine ⟨{ t' with
      resizing_state := NO_RESIZING
      next_init_block := 0
      num_initialized_blocks := 0
      next_move_block := 0
      num_moved_blocks := 0 }, ?_, hsz, hfl, ?_, ?_, ?_, rfl, rfl, rfl, rfl, rfl⟩
  · intro fuel hf
    unfold resize_master
    simp only [ht' fuel hf, hrs', e1, e2, ne_eq, not_true_eq_false, if_false]
  · exact ⟨hM'.inv.states, hM'.inv.chain, hM'.inv.distinct⟩
  · intro h d
    have := hM'.moved h d
    rw [hot] at this
    exact this
  · have := hM'.count
    rw [hot] at this
    exact this

theorem TableInv_congr {α : Type} (E : Env α) (t t' : Htab α) (h1 : t'.size = t.size)
    (h2 : t'.table = t.table) (hI : TableInv E t) : TableInv E t' := by
  obtain ⟨s, os, f, tb, otb, rs, a, b, c, d⟩ := t
  obtain ⟨s', os', f', tb', otb', rs', a', b', c', d'⟩ := t'
  simp only at h1 h2
  subst h1 h2
  exact ⟨hI.states, hI.chain, hI.distinct⟩

theorem nfilled_congr {α : Type} (t t' : Htab α) (h1 : t'.size = t.size)
    (h2 : t'.table = t.table) : nfilled t' = nfilled t := by
  unfold nfilled
  rw [h1, h2]

theorem stored_congr {α : Type} (t t' : Htab α) (h1 : t'.size = t.size)
    (h2 : t'.table = t.table) (h : Nat) (d : α) : stored t' h d ↔ stored t h d := by
  unfold stored
  rw [h1, h2]

theorem INSERT_loop_spec {α : Type} (E : Env α) (hE : EnvOK E) (t : Htab α)
    (hI : HtabInv E t) :
    ∃ t' n, (∀ fuel inner, 2 ≤ fuel → E.next_prime (t.size * 2) + 257 ≤ inner →
        INSERT_loop E fuel inner t false = some (t', n)) ∧
      (¬ 100 * t.filled > 90 * t.size → n = 0 ∧ t'.size = t.size) ∧
      (100 * t.filled > 90 * t.size → n = 1 ∧ t'.size = E.next_prime (t.size * 2) ∧
        ¬ 100 * t'.filled > 90 * t'.size) ∧
      t'.filled = t.filled + 1 ∧ TableInv E t' ∧ Nat.Prime t'.size ∧ 3 ≤ t'.size ∧
      nfilled t' < t'.size ∧ nfilled t' = nfilled t ∧
      100 * t'.filled ≤ 90 * t'.size + 100 ∧
      (∀ h d, stored t' h d ↔ stored t h d) ∧
      t'.resizing_state = 0 ∧ t'.next_init_block = 0 ∧ t'.num_initialized_blocks = 0 ∧
      t'.next_move_block = 0 ∧ t'.num_moved_blocks = 0 := by
  have hfill := hI.fill
  have hcount := hI.count
  have h3 := hI.three
  by_cases hc : 100 * t.filled > 90 * t.size
  · obtain ⟨t2, ht2, hsz, hfl, hI2, hst, hnf, hrs, hc0, hc1, hc2, hc3⟩ :=
      resize_master_spec E hE
        { t with filled := t.filled + 1, resizing_state := ALLOCATING_MEMORY }
        (TableInv_congr E t _ rfl rfl hI.inv) hI.three rfl hI.c0 hI.c1 hI.c2 hI.c3
    simp only at hsz hfl
    have hge := hE.ge (t.size * 2)
    have hnf' : nfilled t2 = nfilled t := by
      rw [hnf]
      exact nfilled_congr t _ rfl rfl
    have hnot : ¬ 100 * t2.filled > 90 * t2.size := by
      rw [hsz, hfl]
      omega
    refine ⟨t2, 1, ?_, fun h => absurd hc h, fun _ => ⟨rfl, hsz, hnot⟩, hfl, hI2,
      by rw [hsz]; exact hE.prime _, by omega, by omega, hnf', by omega, ?_,
      hrs, hc0, hc1, hc2, hc3⟩
    · intro fuel inner hfuel hinner
      obtain ⟨f, rfl⟩ : ∃ f, fuel = (f + 1) + 1 := ⟨fuel - 2, by omega⟩
      rw [INSERT_loop]
      simp only [Bool.false_eq_true, if_false, hc, if_true, hI.idle]
      rw [ht2 inner hinner]
      simp only
      rw [INSERT_loop]
      simp only [if_true, hnot, if_false]
    · intro h d
      rw [hst h d]
      exact stored_congr t _ rfl rfl h d
  · refine ⟨{ t with filled := t.filled + 1 }, 0, ?_, fun _ => ⟨rfl, rfl⟩,
      fun h => absurd h hc, rfl, TableInv_congr E t _ rfl rfl hI.inv, hI.prime, hI.three,
      ?_, ?_, ?_, fun h d => stored_congr t _ rfl rfl h d, hI.idle, hI.c0, hI.c1, hI.c2,
      hI.c3⟩
    · intro fuel inner hfuel hinner
      obtain ⟨f, rfl⟩ : ∃ f, fuel = f + 1 := ⟨fuel - 1, by omega⟩
      rw [INSERT_loop]
      simp only [Bool.false_eq_true, if_false, hc]
    · have := nfilled_congr t { t with filled := t.filled + 1 } rfl rfl
      show nfilled { t with filled := t.filled + 1 } < t.size
      omega
    · exact nfilled_congr t { t with filled := t.filled + 1 } rfl rfl
    · show 100 * (t.filled + 1) ≤ 90 * t.size + 100
      omega

theorem INSERT_spec {α : Type} (E : Env α) (hE : EnvOK E) (t : Htab α) (hI : HtabInv E t)
    (hv : Nat) (val : α) :
    ∃ t' r, (∀ fuel, E.next_prime (t.size * 2) + 257 ≤ fuel →
        INSERT E fuel t hv val = some (t', r)) ∧
      HtabInv E t' ∧ t.size ≤ t'.size ∧ t'.filled = t.filled + 1 ∧
      ((r = -1 ∧ (∃ d, stored t hv d ∧ E.COMPARE d val = 0) ∧
          (∀ h d, stored t' h d ↔ stored t h d) ∧ nfilled t' = nfilled t) ∨
        (r = 0 ∧ (¬ ∃ d, stored t hv d ∧ E.COMPARE d val = 0) ∧
          (∀ h d, stored t' h d ↔ stored t h d ∨ (h = hv ∧ d = val)) ∧
          nfilled t' = nfilled t + 1)) := by
  obtain ⟨t1, n, hloop, hA, hB, hfl, hI1, hp1, h31, hn1, hnf1, hfill1, hst1, hrs, hc0, hc1,
    hc2, hc3⟩ := INSERT_loop_spec E hE t hI
  have hge := hE.ge (t.size * 2)
  have hsz1 : t.size ≤ t1.size ∧ t1.size ≤ E.next_prime (t.size * 2) := by
    by_cases hc : 100 * t.filled > 90 * t.size
    · have := (hB hc).2.1
      omega
    · have := (hA hc).2
      omega
  have hcount := hI.count
  rcases insert_helper_spec E hE.symm t1 hp1 h31 hI1 hn1 hv val with
    ⟨⟨d, hd, hc⟩, hr⟩ | ⟨hno, idx, hi1, hi2, hi0, hr, hI2⟩
  · refine ⟨t1, -1, ?_, ⟨hp1, h31, hI1, by omega, hfill1, hrs, hc0, hc1, hc2, hc3⟩,
      hsz1.1, hfl, Or.inl ⟨rfl, ⟨d, (hst1 hv d).1 hd, hc⟩, hst1, hnf1⟩⟩
    intro fuel hf
    unfold INSERT
    rw [hloop fuel fuel (by omega) hf]
    exact hr fuel (by omega)
  · have hnf2 := nfilled_store_entry t1 idx hv val hi1 hi2 hi0
    refine ⟨store_entry t1 idx hv val, 0, ?_,
      ⟨hp1, h31, hI2, ?_, hfill1, hrs, hc0, hc1, hc2, hc3⟩, hsz1.1, hfl, Or.inr ⟨rfl, ?_, ?_, ?_⟩⟩
    · intro fuel hf
      unfold INSERT
      rw [hloop fuel fuel (by omega) hf]
      exact hr fuel (by omega)
    · show nfilled (store_entry t1 idx hv val) ≤ t1.filled
      omega
    · rintro ⟨d, hd, hc⟩
      exact hno ⟨d, (hst1 hv d).2 hd, hc⟩
    · intro h d
      rw [stored_store_entry t1 idx hv val hi1 hi2 hi0, hst1]
    · omega

theorem INIT_inv {α : Type} (E : Env α) (hE : EnvOK E) (h0 : Htab α) (init_size : Nat)
    (h3 : 3 ≤ E.next_prime init_size) : HtabInv E (INIT E h0 init_size).1 := by
  have hclear : ∀ i, 1 ≤ i → i ≤ (INIT E h0 init_size).1.size →
      ((INIT E h0 init_size).1.table i).state = 0 := by
    intro i _ h2
    have h2' : i ≤ E.next_prime init_size := h2
    simp only [INIT, h2', if_true]
  refine ⟨hE.prime _, h3, ⟨?_, ?_, ?_⟩, ?_, ?_, rfl, rfl, rfl, rfl, rfl⟩
  · intro i h1 h2
    exact Or.inl (hclear i h1 h2)
  · intro i h1 h2 hf
    have := hclear i h1 h2
    omega
  · intro i j h1 h2 _ _ hf
    have := hclear i h1 h2
    omega
  · have : nfilled (INIT E h0 init_size).1 = 0 := by
      unfold nfilled
      rw [Finset.card_eq_zero, Finset.filter_eq_empty_iff]
      intro i hi
      obtain ⟨h1, h2⟩ := Finset.mem_Icc.1 hi
      have := hclear i h1 h2
      omega
    omega
  · show 100 * 0 ≤ 90 * E.next_prime init_size + 100
    omega

theorem insert_all_spec {α : Type} (E : Env α) (hE : EnvOK E) (ops : List (Nat × α)) :
    ∀ (t : Htab α), HtabInv E t →
      ∃ t' rets F, (∀ fuel, F ≤ fuel → insert_all E fuel t ops = some (t', rets)) ∧
        HtabInv E t' ∧ t.size ≤ t'.size ∧ rets.length = ops.length ∧
        (∀ h d, stored t h d → stored t' h d) := by
  induction ops with
  | nil =>
    intro t hI
    exact ⟨t, [], 0, fun _ _ => rfl, hI, le_refl _, rfl, fun _ _ h => h⟩
  | cons op rest ih =>
    intro t hI
    obtain ⟨hv, val⟩ := op
    obtain ⟨t1, r, hins, hI1, hsz1, _, hcase⟩ := INSERT_spec E hE t hI hv val
    obtain ⟨t2, rets, F, hrest, hI2, hsz2, hlen, hst2⟩ := ih t1 hI1
    refine ⟨t2, r :: rets, max (E.next_prime (t.size * 2) + 257) F, ?_, hI2, by omega,
      by simp [hlen], ?_⟩
    · intro fuel hf
      rw [insert_all, hins fuel (le_trans (le_max_left _ _) hf)]
      simp only
      rw [hrest fuel (le_trans (le_max_right _ _) hf)]
    · intro h d hst
      apply hst2
      rcases hcase with ⟨_, _, hs, _⟩ | ⟨_, _, hs, _⟩
      · exact (hs h d).2 hst
      · exact (hs h d).2 (Or.inl hst)

theorem insert_all_match {α : Type} (E : Env α) (hE : EnvOK E) (hv : Nat) (val : α)
    (ops : List (Nat × α)) :
    ∀ (t t' : Htab α) (rets : List Int) (F : Nat), HtabInv E t →
      (∃ d, stored t hv d ∧ E.COMPARE d val = 0) →
      (∀ fuel, F ≤ fuel → insert_all E fuel t ops = some (t', rets)) →
      ∀ j, ops.get? j = some (hv, val) → rets.get? j = some (-1) := by
  induction ops with
  | nil =>
    intro t t' rets F _ _ _ j hj
    simp at hj
  | cons op rest ih =>
    intro t t' rets F hI hm hrun j hj
    obtain ⟨hv1, val1⟩ := op
    obtain ⟨t1, r, hins, hI1, _, _, hcase⟩ := INSERT_spec E hE t hI hv1 val1
    obtain ⟨t2, rets2, F2, hrest, _, _, _, _⟩ := insert_all_spec E hE rest t1 hI1
    have hF := hrun (max F (max (E.next_prime (t.size * 2) + 257) F2)) (le_max_left _ _)
    rw [insert_all, hins _ (le_trans (le_max_left _ _) (le_max_right _ _))] at hF
    simp only at hF
    rw [hrest _ (le_trans (le_max_right _ _) (le_max_right _ _))] at hF
    simp only [Option.some.injEq, Prod.mk.injEq] at hF
    obtain ⟨rfl, rfl⟩ := hF
    have hm1 : ∃ d, stored t1 hv d ∧ E.COMPARE d val = 0 := by
      obtain ⟨d, hd, hc⟩ := hm
      rcases hcase with ⟨_, _, hs, _⟩ | ⟨_, _, hs, _⟩
      · exact ⟨d, (hs hv d).2 hd, hc⟩
      · exact ⟨d, (hs hv d).2 (Or.inl hd), hc⟩
    cases j with
    | zero =>
      simp only [List.get?_cons_zero, Option.some.injEq, Prod.mk.injEq] at hj
      obtain ⟨rfl, rfl⟩ := hj
      rcases hcase with ⟨hr, _⟩ | ⟨_, hno, _⟩
      · simp [hr]
      · exact absurd hm hno
    | succ j =>
      simp only [List.get?_cons_succ] at hj ⊢
      exact ih t1 t2 rets2 F2 hI1 hm1 hrest j hj

theorem is_prime_iff (n : Nat) : is_prime n = true ↔ Nat.Prime n := by
  unfold is_prime
  simp only [Bool.and_eq_true, decide_eq_true_eq, List.all_eq_true, List.mem_range,
    Bool.or_eq_true, ne_eq, decide_not, Bool.not_eq_true', decide_eq_false_iff_not]
  rw [Nat.prime_def_lt]
  constructor
  · rintro ⟨h2, hall⟩
    refine ⟨h2, ?_⟩
    intro m hm hd
    rcases hall m hm with h | h
    · rcases Nat.eq_zero_or_pos m with h0 | hpos
      · subst h0
        have := Nat.eq_zero_of_zero_dvd hd
        omega
      · omega
    · exact absurd (Nat.mod_eq_zero_of_dvd hd) h
  · rintro ⟨h2, hall⟩
    refine ⟨h2, ?_⟩
    intro d hd
    by_cases h : d < 2
    · exact Or.inl h
    · right
      intro hmod
      have := hall d hd (Nat.dvd_of_mod_eq_zero hmod)
      omega

theorem next_prime_from_spec (fuel : Nat) :
    ∀ (n p : Nat), Nat.Prime p → n ≤ p → p < n + fuel →
      Nat.Prime (next_prime_from fuel n) ∧ n ≤ next_prime_from fuel n ∧
        next_prime_from fuel n ≤ p := by
  induction fuel with
  | zero => intro n p _ h1 h2; omega
  | succ fuel ih =>
    intro n p hp h1 h2
    rw [next_prime_from]
    by_cases hn : is_prime n = true
    · rw [if_pos hn]
      exact ⟨(is_prime_iff n).1 hn, le_refl _, h1⟩
    · rw [if_neg hn]
      have hne : n ≠ p := by
        intro he
        subst he
        exact hn ((is_prime_iff n).2 hp)
      have := ih (n + 1) p hp (by omega) (by omega)
      exact ⟨this.1, by omega, this.2.2⟩

theorem next_prime_spec (seed : Nat) :
    Nat.Prime (next_prime seed) ∧ seed ≤ next_prime seed ∧ 5 ≤ next_prime seed ∧
      ∀ p, Nat.Prime p → seed ≤ p → 5 ≤ p → next_prime seed ≤ p := by
  have hm : max seed 5 ≠ 0 := by omega
  obtain ⟨p, hp, h1, h2⟩ := Nat.exists_prime_lt_and_le_two_mul (max seed 5) hm
  have hs := next_prime_from_spec (max seed 5 + 2) (max seed 5) p hp (by omega) (by omega)
  refine ⟨hs.1, ?_, ?_, ?_⟩
  · have := hs.2.1
    unfold next_prime
    omega
  · have := hs.2.1
    unfold next_prime
    omega
  · intro q hq hle h5
    by_cases hlt : q < max seed 5 + (max seed 5 + 2)
    · exact (next_prime_from_spec (max seed 5 + 2) (max seed 5) q hq (by omega) hlt).2.2
    · have := hs.2.2
      unfold next_prime
      omega

theorem natEnv_ok : EnvOK natEnv := by
  refine ⟨fun n => (next_prime_spec n).1, fun n => (next_prime_spec n).2.1, ?_, ?_⟩
  · intro a b h
    simp only [natEnv] at h ⊢
    omega
  · intro a
    simp [natEnv]

theorem lookup_loop_all_pass {α : Type} (E : Env α) (t : Htab α) (hval : Nat) (val : α)
    (hall : ∀ k, pass E t hval val (probe t.size hval k)) (fuel : Nat) :
    ∀ k, (lookup_loop E t hval val (1 + hval % (t.size - 2)) fuel
      (probe t.size hval k)).2 = none := by
  induction fuel with
  | zero => intro k; rfl
  | succ fuel ih =>
    intro k
    rw [lookup_loop_pass E t hval val fuel k (hall (k + 1))]
    exact ih (k + 1)

theorem lookup_full_diverges {α : Type} (E : Env α) (t : Htab α) (hval : Nat) (val : α)
    (h3 : 3 ≤ t.size)
    (hfull : ∀ i, 1 ≤ i → i ≤ t.size → (t.table i).state = 2 ∧ ¬ hit E t hval val i)
    (fuel : Nat) : (lookup E fuel t hval val).2 = none := by
  have hall : ∀ k, pass E t hval val (probe t.size hval k) := by
    intro k
    have hm := probe_mem t.size hval h3 k
    have := hfull _ hm.1 hm.2
    exact ⟨by omega, by omega, this.2⟩
  rw [lookup_zero]
  obtain ⟨p0, p1, p2⟩ := hall 0
  simp only [p0, p1, p2, if_false]
  exact lookup_loop_all_pass E t hval val hall fuel 0

theorem insert_all_cons {α : Type} (E : Env α) (hE : EnvOK E) (t : Htab α)
    (hI : HtabInv E t) (hv : Nat) (val : α) (rest : List (Nat × α)) (t' : Htab α)
    (rets : List Int) (F : Nat)
    (hrun : ∀ fuel, F ≤ fuel → insert_all E fuel t ((hv, val) :: rest) = some (t', rets)) :
    ∃ t1 r rets1 F1, rets = r :: rets1 ∧ HtabInv E t1 ∧
      (∀ fuel, F1 ≤ fuel → insert_all E fuel t1 rest = some (t', rets1)) ∧
      (∃ d, stored t1 hv d ∧ E.COMPARE d val = 0) ∧
      (∀ h d, stored t h d → stored t1 h d) ∧
      ((∃ d, stored t hv d ∧ E.COMPARE d val = 0) → r = -1) := by
  obtain ⟨t1, r, hins, hI1, _, _, hcase⟩ := INSERT_spec E hE t hI hv val
  obtain ⟨t2, rets2, F2, hrest, _, _, _, _⟩ := insert_all_spec E hE rest t1 hI1
  have hF := hrun (max F (max (E.next_prime (t.size * 2) + 257) F2)) (le_max_left _ _)
  rw [insert_all, hins _ (le_trans (le_max_left _ _) (le_max_right _ _))] at hF
  simp only at hF
  rw [hrest _ (le_trans (le_max_right _ _) (le_max_right _ _))] at hF
  simp only [Option.some.injEq, Prod.mk.injEq] at hF
  obtain ⟨rfl, rfl⟩ := hF
  refine ⟨t1, r, rets2, F2, rfl, hI1, hrest, ?_, ?_, ?_⟩
  · rcases hcase with ⟨_, ⟨d, hd, hc⟩, hs, _⟩ | ⟨_, _, hs, _⟩
    · exact ⟨d, (hs hv d).2 hd, hc⟩
    · exact ⟨val, (hs hv val).2 (Or.inr ⟨rfl, rfl⟩), hE.refl val⟩
  · intro h d hst
    rcases hcase with ⟨_, _, hs, _⟩ | ⟨_, _, hs, _⟩
    · exact (hs h d).2 hst
    · exact (hs h d).2 (Or.inl hst)
  · intro hm
    rcases hcase with ⟨hr, _⟩ | ⟨_, hno, _⟩
    · exact hr
    · exact absurd hm hno

theorem insert_all_once {α : Type} (E : Env α) (hE : EnvOK E) (hv : Nat) (val : α)
    (ops : List (Nat × α)) :
    ∀ (t t' : Htab α) (rets : List Int) (F : Nat), HtabInv E t →
      (∀ fuel, F ≤ fuel → insert_all E fuel t ops = some (t', rets)) →
      ∀ i j, i < j → ops.get? i = some (hv, val) → ops.get? j = some (hv, val) →
        rets.get? j = some (-1) := by
  induction ops with
  | nil =>
    intro t t' rets F _ _ i j _ hi
    simp at hi
  | cons op rest ih =>
    intro t t' rets F hI hrun i j hij hi hj
    obtain ⟨hv1, val1⟩ := op
    obtain ⟨t1, r, rets1, F1, rfl, hI1, hrest, hm1, _, _⟩ :=
      insert_all_cons E hE t hI hv1 val1 rest t' rets F hrun
    cases j with
    | zero => omega
    | succ j =>
      simp only [List.get?_cons_succ] at hj ⊢
      cases i with
      | zero =>
        simp only [List.get?_cons_zero, Option.some.injEq, Prod.mk.injEq] at hi
        obtain ⟨rfl, rfl⟩ := hi
        exact insert_all_match E hE hv1 val1 rest t1 t' rets1 F1 hI1 hm1 hrest j hj
      | succ i =>
        simp only [List.get?_cons_succ] at hi
        exact ih t1 t' rets1 F1 hI1 hrest i j (by omega) hi hj

theorem insert_all_keeps {α : Type} (E : Env α) (hE : EnvOK E) (hv : Nat) (val : α)
    (ops : List (Nat × α)) :
    ∀ (t t' : Htab α) (rets : List Int) (F : Nat), HtabInv E t →
      (∀ fuel, F ≤ fuel → insert_all E fuel t ops = some (t', rets)) →
      ∀ i, ops.get? i = some (hv, val) → ∃ d, stored t' hv d ∧ E.COMPARE d val = 0 := by
  induction ops with
  | nil =>
    intro t t' rets F _ _ i hi
    simp at hi
  | cons op rest ih =>
    intro t t' rets F hI hrun i hi
    obtain ⟨hv1, val1⟩ := op
    obtain ⟨t1, r, rets1, F1, rfl, hI1, hrest, hm1, _, _⟩ :=
      insert_all_cons E hE t hI hv1 val1 rest t' rets F hrun
    cases i with
    | zero =>
      simp only [List.get?_cons_zero, Option.some.injEq, Prod.mk.injEq] at hi
      obtain ⟨rfl, rfl⟩ := hi
      obtain ⟨t2, rets2, F2, hrest2, _, _, _, hst⟩ := insert_all_spec E hE rest t1 hI1
      have h1 := hrest (max F1 F2) (le_max_left _ _)
      rw [hrest2 (max F1 F2) (le_max_right _ _)] at h1
      simp only [Option.some.injEq, Prod.mk.injEq] at h1
      obtain ⟨rfl, _⟩ := h1
      obtain ⟨d, hd, hc⟩ := hm1
      exact ⟨d, hst _ _ hd, hc⟩
    | succ i =>
      simp only [List.get?_cons_succ] at hi
      exact ih t1 t' rets1 F1 hI1 hrest i hi

/-- C3: after `init` with a size of at least 3 and any sequence `ops` of inserts, a
further `insert (hv, val)` returns; it returns -1 exactly when a filled slot holds an
entry with hash value `hv` and a value that `COMPARE` takes for equal to `val`, and 0
otherwise, in which case `(hv, val)` is stored afterwards; when it returns -1 the
stored entries are the same before and after; and of the inserts of one key in `ops`
every one after the first returns -1, as does the further insert when the key occurs
in `ops`. -/
theorem C3_insert_return_value {α : Type} (E : Env α) (hE : EnvOK E) (h0 : Htab α)
    (init_size : Nat) (h3 : 3 ≤ E.next_prime init_size) (ops : List (Nat × α))
    (hv : Nat) (val : α) :
    ∃ t rets t' r F,
      (∀ fuel, F ≤ fuel →
        insert_all E fuel (INIT E h0 init_size).1 ops = some (t, rets) ∧
        INSERT E fuel t hv val = some (t', r)) ∧
      (r = -1 ↔ ∃ d, stored t hv d ∧ E.COMPARE d val = 0) ∧
      (r ≠ -1 → r = 0 ∧ stored t' hv val) ∧
      (r = -1 → ∀ h d, stored t' h d ↔ stored t h d) ∧
      (∀ i j, i < j → ops.get? i = some (hv, val) → ops.get? j = some (hv, val) →
        rets.get? j = some (-1)) ∧
      ((∃ i, ops.get? i = some (hv, val)) → r = -1) := by
  have hI0 := INIT_inv E hE h0 init_size h3
  obtain ⟨t, rets, F, hrun, hI, _, _, _⟩ := insert_all_spec E hE ops _ hI0
  obtain ⟨t', r, hins, _, _, _, hcase⟩ := INSERT_spec E hE t hI hv val
  refine ⟨t, rets, t', r, max F (E.next_prime (t.size * 2) + 257), ?_, ?_, ?_, ?_, ?_, ?_⟩
  · intro fuel hf
    exact ⟨hrun fuel (le_trans (le_max_left _ _) hf),
      hins fuel (le_trans (le_max_right _ _) hf)⟩
  · rcases hcase with ⟨hr, hm, _⟩ | ⟨hr, hno, _⟩
    · exact ⟨fun _ => hm, fun _ => hr⟩
    · constructor
      · intro h
        rw [hr] at h
        omega
      · intro hm
        exact absurd hm hno
  · intro hne
    rcases hcase with ⟨hr, _⟩ | ⟨hr, _, hs, _⟩
    · exact absurd hr hne
    · exact ⟨hr, (hs hv val).2 (Or.inr ⟨rfl, rfl⟩)⟩
  · intro hr
    rcases hcase with ⟨_, _, hs, _⟩ | ⟨hr0, _⟩
    · exact hs
    · rw [hr0] at hr
      omega
  · exact insert_all_once E hE hv val ops _ t rets F hI0 hrun
  · rintro ⟨i, hi⟩
    have hm := insert_all_keeps E hE hv val ops _ t rets F hI0 hrun i hi
    rcases hcase with ⟨hr, _⟩ | ⟨_, hno, _⟩
    · exact hr
    · exact absurd hm hno

theorem C3_insert_return_value_witness :
    EnvOK natEnv ∧ 3 ≤ natEnv.next_prime 5 ∧
    ∃ t rets t' r F,
      (∀ fuel, F ≤ fuel →
        insert_all natEnv fuel (INIT natEnv raw_htab 5).1 [(7, 1), (2, 4), (7, 1)] =
          some (t, rets) ∧
        INSERT natEnv fuel t 7 1 = some (t', r)) ∧
      (r = -1 ↔ ∃ d, stored t 7 d ∧ natEnv.COMPARE d 1 = 0) ∧
      (r ≠ -1 → r = 0 ∧ stored t' 7 1) ∧
      (r = -1 → ∀ h d, stored t' h d ↔ stored t h d) ∧
      (∀ i j, i < j → [(7, 1), (2, 4), (7, 1)].get? i = some (7, 1) →
        [(7, 1), (2, 4), (7, 1)].get? j = some (7, 1) → rets.get? j = some (-1)) ∧
      ((∃ i, [(7, 1), (2, 4), (7, 1)].get? i = some (7, 1)) → r = -1) :=
  ⟨natEnv_ok, by decide,
    C3_insert_return_value natEnv natEnv_ok raw_htab 5 (by decide) [(7, 1), (2, 4), (7, 1)] 7 1⟩

/-- C5: after `init` with a prime size of at least 3 and any sequence `ops` of inserts,
the loop of a further `insert` call ends after at most one call of `resize_master`;
it calls `resize_master` exactly when `100 * filled > 90 * size` holds for the count
before the increment, the table then has the size `next_prime (2 * size)`, and the
fill test evaluated again, with the incremented count, is false. -/
theorem C5_at_most_one_resize {α : Type} (E : Env α) (hE : EnvOK E) (h0 : Htab α)
    (init_size : Nat) (h3 : 3 ≤ E.next_prime init_size) (ops : List (Nat × α)) :
    ∃ t rets t' n F,
      (∀ fuel, F ≤ fuel →
        insert_all E fuel (INIT E h0 init_size).1 ops = some (t, rets) ∧
        INSERT_loop E fuel fuel t false = some (t', n)) ∧
      n ≤ 1 ∧ (n = 1 ↔ 100 * t.filled > 90 * t.size) ∧
      (n = 1 → t'.size = E.next_prime (t.size * 2) ∧ t'.filled = t.filled + 1 ∧
        ¬ 100 * t'.filled > 90 * t'.size) := by
  have hI0 := INIT_inv E hE h0 init_size h3
  obtain ⟨t, rets, F, hrun, hI, _, _, _⟩ := insert_all_spec E hE ops _ hI0
  obtain ⟨t', n, hloop, hA, hB, hfl, _⟩ := INSERT_loop_spec E hE t hI
  refine ⟨t, rets, t', n, max F (E.next_prime (t.size * 2) + 257), ?_, ?_, ?_, ?_⟩
  · intro fuel hf
    have h1 : F ≤ fuel := le_trans (le_max_left _ _) hf
    have h2 : E.next_prime (t.size * 2) + 257 ≤ fuel := le_trans (le_max_right _ _) hf
    exact ⟨hrun fuel h1, hloop fuel fuel (by omega) h2⟩
  · by_cases hc : 100 * t.filled > 90 * t.size
    · have := (hB hc).1
      omega
    · have := (hA hc).1
      omega
  · by_cases hc : 100 * t.filled > 90 * t.size
    · exact ⟨fun _ => hc, fun _ => (hB hc).1⟩
    · have := (hA hc).1
      constructor
      · intro h
        omega
      · intro h
        exact absurd h hc
  · intro hn
    by_cases hc : 100 * t.filled > 90 * t.size
    · exact ⟨(hB hc).2.1, hfl, (hB hc).2.2⟩
    · have := (hA hc).1
      omega

theorem C5_at_most_one_resize_witness :
    EnvOK natEnv ∧ 3 ≤ natEnv.next_prime 5 ∧
    ∃ t rets t' n F,
      (∀ fuel, F ≤ fuel →
        insert_all natEnv fuel (INIT natEnv raw_htab 5).1
            [(1, 10), (2, 11), (3, 12), (4, 13), (5, 14)] = some (t, rets) ∧
        INSERT_loop natEnv fuel fuel t false = some (t', n)) ∧
      n ≤ 1 ∧ (n = 1 ↔ 100 * t.filled > 90 * t.size) ∧
      (n = 1 → t'.size = natEnv.next_prime (t.size * 2) ∧ t'.filled = t.filled + 1 ∧
        ¬ 100 * t'.filled > 90 * t'.size) :=
  ⟨natEnv_ok, by decide,
    C5_at_most_one_resize natEnv natEnv_ok raw_htab 5 (by decide)
      [(1, 10), (2, 11), (3, 12), (4, 13), (5, 14)]⟩

/-- C6: after `init` with a size of at least 3 and any inserts `ops1` followed by any
inserts `ops2`, the table is at no time smaller than before (`find` does not write
to the descriptor); and `resize_master`, called as `insert` calls it, returns with the
new size `next_prime (2 * size)`, which is a prime and at least twice the old size
when `next_prime` returns a prime not below its argument. -/
theorem C6_size_never_decreases {α : Type} (E : Env α) (hE : EnvOK E) (h0 : Htab α)
    (init_size : Nat) (h3 : 3 ≤ E.next_prime init_size) (ops1 ops2 : List (Nat × α)) :
    ∃ t1 rets1 t2 rets2 tm F,
      (∀ fuel, F ≤ fuel →
        insert_all E fuel (INIT E h0 init_size).1 ops1 = some (t1, rets1) ∧
        insert_all E fuel t1 ops2 = some (t2, rets2) ∧
        resize_master E fuel
          { t2 with filled := t2.filled + 1, resizing_state := ALLOCATING_MEMORY } =
            some tm) ∧
      (INIT E h0 init_size).1.size = E.next_prime init_size ∧
      (INIT E h0 init_size).1.size ≤ t1.size ∧ t1.size ≤ t2.size ∧
      tm.size = E.next_prime (t2.size * 2) ∧ Nat.Prime tm.size ∧ 2 * t2.size ≤ tm.size := by
  have hI0 := INIT_inv E hE h0 init_size h3
  obtain ⟨t1, rets1, F1, hrun1, hI1, hsz1, _, _⟩ := insert_all_spec E hE ops1 _ hI0
  obtain ⟨t2, rets2, F2, hrun2, hI2, hsz2, _, _⟩ := insert_all_spec E hE ops2 t1 hI1
  obtain ⟨tm, hrm, hsz, _⟩ := resize_master_spec E hE
    { t2 with filled := t2.filled + 1, resizing_state := ALLOCATING_MEMORY }
    (TableInv_congr E t2 _ rfl rfl hI2.inv) hI2.three rfl hI2.c0 hI2.c1 hI2.c2 hI2.c3
  simp only at hsz
  have hge := hE.ge (t2.size * 2)
  refine ⟨t1, rets1, t2, rets2, tm, max F1 (max F2 (E.next_prime (t2.size * 2) + 257)), ?_,
    rfl, hsz1, hsz2, hsz, by rw [hsz]; exact hE.prime _, by omega⟩
  intro fuel hf
  have h1 : F1 ≤ fuel := le_trans (le_max_left _ _) hf
  have h2 : F2 ≤ fuel := le_trans (le_trans (le_max_left _ _) (le_max_right _ _)) hf
  have h3 : E.next_prime (t2.size * 2) + 257 ≤ fuel :=
    le_trans (le_trans (le_max_right _ _) (le_max_right _ _)) hf
  exact ⟨hrun1 fuel h1, hrun2 fuel h2, hrm fuel h3⟩

theorem C6_size_never_decreases_witness :
    EnvOK natEnv ∧ 3 ≤ natEnv.next_prime 5 ∧
    ∃ t1 rets1 t2 rets2 tm F,
      (∀ fuel, F ≤ fuel →
        insert_all natEnv fuel (INIT natEnv raw_htab 5).1 [(1, 10), (2, 11)] =
          some (t1, rets1) ∧
        insert_all natEnv fuel t1 [(3, 12), (4, 13), (5, 14), (6, 15)] = some (t2, rets2) ∧
        resize_master natEnv fuel
          { t2 with filled := t2.filled + 1, resizing_state := ALLOCATING_MEMORY } =
            some tm) ∧
      (INIT natEnv raw_htab 5).1.size = natEnv.next_prime 5 ∧
      (INIT natEnv raw_htab 5).1.size ≤ t1.size ∧ t1.size ≤ t2.size ∧
      tm.size = natEnv.next_prime (t2.size * 2) ∧ Nat.Prime tm.size ∧
      2 * t2.size ≤ tm.size :=
  ⟨natEnv_ok, by decide,
    C6_size_never_decreases natEnv natEnv_ok raw_htab 5 (by decide) [(1, 10), (2, 11)]
      [(3, 12), (4, 13), (5, 14), (6, 15)]⟩

/-- C1, at the input where the code departs from it: on a table initialised with
size 5, `insert (0, 10)` returns 0, and `find (0, 10)` then returns the null value
and not 10, because `insert` stores the entry under hash value 0 in slot 1 while
`find` replaces 0 by 1 and looks into slot 2. -/
theorem C1_zero_hash_insert_not_found :
    (INSERT natEnv 20 (INIT natEnv raw_htab 5).1 0 10).map
        (fun r => (r.2, (r.1.table 1).hashval, (r.1.table 1).data, (r.1.table 2).state,
          FIND natEnv 20 r.1 0 10)) =
      some (0, 0, 10, 0, some natEnv.NULL) ∧ natEnv.NULL ≠ 10 := by
  decide

/-- C2, at the input where the code departs from it: on a table initialised with
size 5, five inserts with the hash values 1 to 5 all return 0 without a resize and
fill all five slots, and `find (6, 15)`, for a pair never inserted, then does not
return, whatever the fuel. -/
theorem C2_find_absent_key_never_returns :
    (insert_all natEnv 20 (INIT natEnv raw_htab 5).1
        [(1, 10), (2, 11), (3, 12), (4, 13), (5, 14)]).map
        (fun r => (r.2, r.1.size, r.1.filled)) = some ([0, 0, 0, 0, 0], 5, 5) ∧
    ∀ fuel, FIND natEnv fuel
      (table_after [(1, 10), (2, 11), (3, 12), (4, 13), (5, 14)]) 6 15 = none := by
  refine ⟨by decide, ?_⟩
  intro fuel
  have hd := lookup_full_diverges natEnv
    (table_after [(1, 10), (2, 11), (3, 12), (4, 13), (5, 14)]) 6 15 (by decide)
    (by
      intro i h1 h2
      have h2' : i ≤ 5 := h2
      interval_cases i <;> decide) fuel
  unfold FIND
  simp only [ne_eq, OfNat.ofNat_ne_zero, not_false_eq_true, if_true]
  rw [hd]

/-- C4, at the input where the code departs from it: after `insert` of (0, 10),
(2, 11), (3, 12), (4, 13), (5, 14) into a table of size 5, `find (0, 10)` does not
return; the next `insert (6, 15)` resizes the table once, to size 11, and returns 0,
and `find (0, 10)` then returns the null value. -/
theorem C4_find_differs_across_resize :
    (∀ fuel, FIND natEnv fuel
      (table_after [(0, 10), (2, 11), (3, 12), (4, 13), (5, 14)]) 0 10 = none) ∧
    (INSERT_loop natEnv 20 20
      (table_after [(0, 10), (2, 11), (3, 12), (4, 13), (5, 14)]) false).map
        (fun r => (r.1.size, r.2)) = some (11, 1) ∧
    (INSERT natEnv 20 (table_after [(0, 10), (2, 11), (3, 12), (4, 13), (5, 14)]) 6 15).map
        (fun r => (r.2, r.1.size, FIND natEnv 20 r.1 0 10)) =
      some (0, 11, some natEnv.NULL) := by
  refine ⟨?_, by decide, by decide⟩
  intro fuel
  have hd := lookup_full_diverges natEnv
    (table_after [(0, 10), (2, 11), (3, 12), (4, 13), (5, 14)]) 1 10 (by decide)
    (by
      intro i h1 h2
      have h2' : i ≤ 5 := h2
      interval_cases i <;> decide) fuel
  unfold FIND
  simp only [ne_eq, not_true_eq_false, if_false]
  rw [hd]

end Dynhash

namespace Dwarflint

/-! ## The counter `error_count` -/

theorem msg_call_run_count (wc ec : message_criteria) (st : msg_state) (c : msg_call) :
    ∃ k, errors_emitted (c.run wc ec st) + warnings_emitted (c.run wc ec st) =
        errors_emitted st + warnings_emitted st + k ∧
      (c.run wc ec st).error_count % 2 ^ 32 = (st.error_count + k) % 2 ^ 32 := by
  have one : ∀ (st' : msg_state) (l : out_item) (rest : List out_item),
      (l = out_item.error_label ∨ l = out_item.warning_label) →
      rest.count out_item.error_label = 0 → rest.count out_item.warning_label = 0 →
      st'.out = st.out ++ l :: rest →
      st'.error_count = (st.error_count + 1) % 2 ^ 32 →
      errors_emitted st' + warnings_emitted st' = errors_emitted st + warnings_emitted st + 1 ∧
        st'.error_count % 2 ^ 32 = (st.error_count + 1) % 2 ^ 32 := by
    intro st' l rest hl h1 h2 ho hc
    refine ⟨?_, by rw [hc, Nat.mod_mod]⟩
    unfold errors_emitted warnings_emitted
    rw [ho]
    rcases hl with rfl | rfl <;> simp [List.count_append, List.count_cons, h1, h2] <;> omega
  have zero : errors_emitted st + warnings_emitted st =
      errors_emitted st + warnings_emitted st + 0 ∧
        st.error_count % 2 ^ 32 = (st.error_count + 0) % 2 ^ 32 := ⟨rfl, rfl⟩
  cases c with
  | error wh msg =>
    exact ⟨1, one _ out_item.error_label _ (Or.inl rfl) (by simp [List.count_cons])
      (by simp [List.count_cons]) rfl rfl⟩
  | warning wh msg =>
    exact ⟨1, one _ out_item.warning_label _ (Or.inr rfl) (by simp [List.count_cons])
      (by simp [List.count_cons]) rfl rfl⟩
  | message category wh msg =>
    simp only [msg_call.run, wr_message]
    split_ifs
    · exact ⟨1, one _ out_item.error_label _ (Or.inl rfl) (by simp [List.count_cons])
        (by simp [List.count_cons]) rfl rfl⟩
    · exact ⟨1, one _ out_item.warning_label _ (Or.inr rfl) (by simp [List.count_cons])
        (by simp [List.count_cons]) rfl rfl⟩
    · exact ⟨0, zero⟩
  | error_stream =>
    exact ⟨1, one _ out_item.error_label [] (Or.inl rfl) rfl rfl rfl rfl⟩
  | warning_stream =>
    exact ⟨1, one _ out_item.warning_label [] (Or.inr rfl) rfl rfl rfl rfl⟩
  | message_stream category =>
    simp only [msg_call.run, wr_message_stream]
    split_ifs
    all_goals first
      | exact ⟨0, zero⟩
      | exact ⟨1, one _ out_item.error_label [] (Or.inl rfl) rfl rfl rfl rfl⟩
      | exact ⟨1, one _ out_item.warning_label [] (Or.inr rfl) rfl rfl rfl rfl⟩

theorem run_calls_count (wc ec : message_criteria) (calls : List msg_call) (st : msg_state) :
    ∃ k, errors_emitted (run_calls wc ec st calls) + warnings_emitted (run_calls wc ec st calls) =
        errors_emitted st + warnings_emitted st + k ∧
      (run_calls wc ec st calls).error_count % 2 ^ 32 = (st.error_count + k) % 2 ^ 32 := by
  induction calls generalizing st with
  | nil => exact ⟨0, rfl, rfl⟩
  | cons c rest ih =>
    obtain ⟨k1, h1, h2⟩ := msg_call_run_count wc ec st c
    obtain ⟨k2, h3, h4⟩ := ih (c.run wc ec st)
    refine ⟨k1 + k2, ?_, ?_⟩
    · show errors_emitted (run_calls wc ec (c.run wc ec st) rest) +
        warnings_emitted (run_calls wc ec (c.run wc ec st) rest) = _
      omega
    · show (run_calls wc ec (c.run wc ec st) rest).error_count % 2 ^ 32 = _
      rw [h4, Nat.add_mod, h2, ← Nat.add_mod]
      congr 1
      omega

theorem msg_call_run_lt (wc ec : message_criteria) (st : msg_state) (c : msg_call)
    (h : st.error_count < 2 ^ 32) : (c.run wc ec st).error_count < 2 ^ 32 := by
  have m : (st.error_count + 1) % 2 ^ 32 < 2 ^ 32 := Nat.mod_lt _ (by norm_num)
  cases c with
  | error wh msg => exact m
  | warning wh msg => exact m
  | message category wh msg =>
    simp only [msg_call.run, wr_message]
    split_ifs
    all_goals first | exact m | exact h
  | error_stream => exact m
  | warning_stream => exact m
  | message_stream category =>
    simp only [msg_call.run, wr_message_stream]
    split_ifs
    all_goals first | exact m | exact h

theorem run_calls_lt (wc ec : message_criteria) (calls : List msg_call) (st : msg_state)
    (h : st.error_count < 2 ^ 32) : (run_calls wc ec st calls).error_count < 2 ^ 32 := by
  induction calls generalizing st with
  | nil => exact h
  | cons c rest ih => exact ih _ (msg_call_run_lt wc ec st c h)

/-- C11, as the code has it: `error_count` counts every diagnostic that is written,
warnings as well as errors.  After any sequence of calls of `wr_error`, `wr_warning`
and `wr_message` (in either form) from the start of the program, `error_count` is
the number of diagnostics written with severity error plus the number written with
severity warning, modulo `2 ^ 32`; a message that is suppressed leaves the state as
it is. -/
theorem C11_error_count_counts_all (wc ec : message_criteria) (calls : List msg_call) :
    (run_calls wc ec msg_start calls).error_count =
        (errors_emitted (run_calls wc ec msg_start calls) +
          warnings_emitted (run_calls wc ec msg_start calls)) % 2 ^ 32 ∧
      (∀ (st : msg_state) (category : Nat) (wh : Where) (msg : String),
        message_accept wc category = false →
          wr_message wc ec st category wh msg = st ∧
            (wr_message_stream wc ec st category).1 = st) := by
  constructor
  · obtain ⟨k, h1, h2⟩ := run_calls_count wc ec calls msg_start
    have h3 := run_calls_lt wc ec calls msg_start (by decide)
    rw [Nat.mod_eq_of_lt h3] at h2
    rw [h2, h1]
    simp [msg_start, errors_emitted, warnings_emitted]
  · intro st category wh msg h
    simp [wr_message, wr_message_stream, h]

/-- C11, as stated, fails: one call of `wr_warning` at the start of the program
leaves `error_count = 1`, and no diagnostic of severity error has been written. -/
theorem C11_warning_is_counted :
    (run_calls ⟨[]⟩ ⟨[]⟩ msg_start [msg_call.warning where_blank "w"]).error_count = 1 ∧
      errors_emitted (run_calls ⟨[]⟩ ⟨[]⟩ msg_start [msg_call.warning where_blank "w"]) = 0 ∧
      (wr_warning msg_start where_blank "w").error_count = msg_start.error_count + 1 := by
  decide

/-! ## The walk of `check_loc_or_range_ref` -/

theorem is_overlap_iff (d : diag) : d.is_overlap = true ↔ is_overlap_error d := by
  constructor
  · intro h
    cases d with
    | error w f a =>
      simp only [diag.is_overlap, decide_eq_true_eq] at h
      obtain ⟨rfl, rfl⟩ := h
      exact ⟨w, rfl⟩
    | message c w f a => cases h
    | other t => cases h
    | print f a => cases h
  · rintro ⟨w, rfl⟩
    simp [diag.is_overlap]

theorem countP_overlap_zero {D : List diag} (h : ∀ d ∈ D, ¬ is_overlap_error d) :
    D.countP diag.is_overlap = 0 := by
  rw [List.countP_eq_zero]
  intro d hd ho
  exact h d hd ((is_overlap_iff d).1 ho)

theorem lr_ext_refl (st : lr_state) : lr_ext st st :=
  ⟨rfl, le_rfl, id, id, id, [], by simp, by simp, by simp, by simp, by simp,
    fun h => Or.inl h⟩

theorem lr_ext_trans {a b c : lr_state} (h1 : lr_ext a b) (h2 : lr_ext b c) : lr_ext a c := by
  obtain ⟨D1, e1, o1, z1, c1, s1, r1⟩ := h1.diags
  obtain ⟨D2, e2, o2, z2, c2, s2, r2⟩ := h2.diags
  refine ⟨h2.data.trans h1.data, h1.ptr.trans h2.ptr, fun h => h2.map (h1.map h),
    fun h => h2.retval (h1.retval h), fun h => h2.overlap (h1.overlap h), D1 ++ D2,
    by rw [e2, e1, List.append_assoc], ?_, ?_, ?_, ?_, ?_⟩
  · rintro ⟨d, hd, hov⟩
    rcases List.mem_append.1 hd with h | h
    · exact h2.retval (o1 ⟨d, h, hov⟩)
    · exact o2 ⟨d, h, hov⟩
  · intro h
    rw [List.countP_append, z1 h, z2 (h1.overlap h)]
  · rw [List.countP_append]
    by_cases h : List.countP diag.is_overlap D1 = 0
    · omega
    · rw [z2 (s1 h)]
      omega
  · rw [List.countP_append]
    intro h
    by_cases h' : List.countP diag.is_overlap D2 = 0
    · exact h2.overlap (s1 (by omega))
    · exact s2 h'
  · rw [List.countP_append]
    intro h
    rcases r2 h with hb | hb
    · rcases r1 hb with ha | ha
      · exact Or.inl ha
      · exact Or.inr (by omega)
    · exact Or.inr (by omega)

theorem not_overlap_error_other (t : String) : ¬ is_overlap_error (diag.other t) := by
  rintro ⟨w, h⟩
  cases h

theorem not_overlap_error_message (cat : Nat) (w : locus) (f : String) (a : List fmt_arg) :
    ¬ is_overlap_error (diag.message cat w f a) := by
  rintro ⟨w, h⟩
  cases h

theorem not_overlap_error_of_format (w : locus) (f : String) (a : List fmt_arg)
    (h : f ≠ ": range definitions overlap.\n") : ¬ is_overlap_error (diag.error w f a) := by
  rintro ⟨w', h'⟩
  injection h' with _ h2 _
  exact h h2

/-- A step that changes the messages only, by messages that are not of `HAVE_OVERLAP`. -/
theorem lr_ext_diags (st : lr_state) (D : List diag) (h : ∀ d ∈ D, ¬ is_overlap_error d) :
    lr_ext st { st with diags := st.diags ++ D } :=
  ⟨rfl, le_rfl, id, id, id, D, rfl, fun ⟨d, hd, ho⟩ => absurd ho (h d hd),
    fun _ => countP_overlap_zero h, by rw [countP_overlap_zero h]; omega,
    fun h' => absurd (countP_overlap_zero h) h', fun h' => Or.inl h'⟩

theorem lr_check_overlap_cases (st : lr_state) (wh : locus) (off len : Nat) :
    lr_check_overlap st wh off len = st ∨
      (st.overlap = false ∧ lr_check_overlap st wh off len = HAVE_OVERLAP st wh) := by
  unfold lr_check_overlap
  split_ifs with h
  · exact Or.inr ⟨by simpa using h.1, rfl⟩
  · exact Or.inl rfl

theorem lr_check_overlap_frame (st : lr_state) (wh : locus) (off len : Nat) :
    (lr_check_overlap st wh off len).ctx = st.ctx ∧
      (lr_check_overlap st wh off len).rel = st.rel ∧
      (lr_check_overlap st wh off len).coverage = st.coverage ∧
      (lr_check_overlap st wh off len).coverage_map = st.coverage_map ∧
      (lr_check_overlap st wh off len).pc_coverage = st.pc_coverage ∧
      (lr_check_overlap st wh off len).base = st.base := by
  rcases lr_check_overlap_cases st wh off len with h | ⟨_, h⟩ <;> rw [h] <;>
    simp [HAVE_OVERLAP]

theorem lr_check_overlap_ext (st : lr_state) (wh : locus) (off len : Nat) :
    lr_ext st (lr_check_overlap st wh off len) := by
  rcases lr_check_overlap_cases st wh off len with h | ⟨h0, h⟩ <;> rw [h]
  · exact lr_ext_refl st
  · refine ⟨rfl, le_rfl, id, fun _ => rfl, fun _ => rfl,
      [diag.error wh ": range definitions overlap.\n" []], rfl, fun _ => rfl, ?_, ?_,
      fun _ => rfl, fun _ => Or.inr ?_⟩
    · intro h1
      rw [h0] at h1
      cases h1
    · simp [List.countP_cons, diag.is_overlap]
    · simp [List.countP_cons, diag.is_overlap]

/-- What `lr_check_overlap` adds to the messages: nothing, or the one error, with
`retval` cleared. -/
theorem lr_check_overlap_diags (st : lr_state) (wh : locus) (off len : Nat) :
    ((lr_check_overlap st wh off len).diags = st.diags ∧
        (lr_check_overlap st wh off len).retval = st.retval) ∨
      ((lr_check_overlap st wh off len).diags =
          st.diags ++ [diag.error wh ": range definitions overlap.\n" []] ∧
        (lr_check_overlap st wh off len).retval = false) := by
  rcases lr_check_overlap_cases st wh off len with h | ⟨_, h⟩ <;> rw [h]
  · exact Or.inl ⟨rfl, rfl⟩
  · exact Or.inr ⟨rfl, rfl⟩

theorem read_ctx_read_spec {ctx : read_ctx} {n v : Nat} {ctx' : read_ctx}
    (h : read_ctx_read ctx n = some (v, ctx')) :
    ctx'.data = ctx.data ∧ ctx'.ptr = ctx.ptr + n ∧ ctx.ptr + n ≤ ctx.data.length := by
  unfold read_ctx_read at h
  by_cases hn : read_ctx_need_data ctx n = true
  · rw [if_pos hn] at h
    simp only [Option.some.injEq, Prod.mk.injEq] at h
    obtain ⟨_, rfl⟩ := h
    simp only [read_ctx_need_data, decide_eq_true_eq] at hn
    exact ⟨rfl, rfl, hn⟩
  · rw [if_neg hn] at h
    cases h

theorem read_ctx_read_offset_spec {ctx : read_ctx} {w : Bool} {v : Nat} {ctx' : read_ctx}
    (h : read_ctx_read_offset ctx w = some (v, ctx')) :
    ctx'.data = ctx.data ∧ ctx.ptr + 4 ≤ ctx'.ptr := by
  obtain ⟨h1, h2, _⟩ := read_ctx_read_spec h
  refine ⟨h1, ?_⟩
  rw [h2]
  split_ifs <;> omega

theorem lr_ext_mk (s s' : lr_state) (D : List diag) (hd : s'.ctx.data = s.ctx.data)
    (hp : s.ctx.ptr ≤ s'.ctx.ptr) (hm : s'.coverage_map = s.coverage_map)
    (hr : s'.retval = s.retval) (ho : s'.overlap = s.overlap) (hD : s'.diags = s.diags ++ D)
    (hn : ∀ d ∈ D, ¬ is_overlap_error d) : lr_ext s s' :=
  ⟨hd, hp, fun h => hm.trans h, fun h => hr.trans h, fun h => ho.trans h, D, hD,
    fun ⟨d, h1, h2⟩ => absurd h2 (hn d h1), fun _ => countP_overlap_zero hn,
    by rw [countP_overlap_zero hn]; omega, fun h' => absurd (countP_overlap_zero hn) h',
    fun h' => Or.inl (ho ▸ h')⟩

theorem no_overlap_error_others (l : List String) :
    ∀ d ∈ l.map diag.other, ¬ is_overlap_error d := by
  intro d hd
  obtain ⟨t, _, rfl⟩ := List.mem_map.1 hd
  exact not_overlap_error_other t

theorem no_overlap_error_append {A B : List diag} (hA : ∀ d ∈ A, ¬ is_overlap_error d)
    (hB : ∀ d ∈ B, ¬ is_overlap_error d) : ∀ d ∈ A ++ B, ¬ is_overlap_error d := by
  intro d hd
  rcases List.mem_append.1 hd with h | h
  · exact hA d h
  · exact hB d h

theorem no_overlap_error_single {d : diag} (h : ¬ is_overlap_error d) :
    ∀ x ∈ [d], ¬ is_overlap_error x := by
  intro x hx
  rw [List.mem_singleton] at hx
  rw [hx]
  exact h

theorem no_overlap_error_nil : ∀ d ∈ ([] : List diag), ¬ is_overlap_error d := by
  intro d hd
  cases hd

/-- The part "begin address" leaves the coverages and the base as they are, and
moves the cursor on by the size of an address when it gives an endpoint. -/
theorem lr_begin_spec (E : lr_env) (file : elf_file) (c : cu) (wh : locus) (st : lr_state) :
    (lr_begin E file c wh st).1.coverage = st.coverage ∧
      (lr_begin E file c wh st).1.coverage_map = st.coverage_map ∧
      (lr_begin E file c wh st).1.pc_coverage = st.pc_coverage ∧
      (lr_begin E file c wh st).1.base = st.base ∧
      lr_ext st (lr_begin E file c wh st).1 ∧
      (∀ b, (lr_begin E file c wh st).2 = some b →
        st.ctx.ptr + 4 ≤ (lr_begin E file c wh st).1.ctx.ptr) := by
  obtain ⟨f1, f2, f3, f4, f5, f6⟩ :=
    lr_check_overlap_frame st wh (read_ctx_get_offset st.ctx) c.head.address_size
  have hx := lr_check_overlap_ext st wh (read_ctx_get_offset st.ctx) c.head.address_size
  unfold lr_begin
  dsimp only
  generalize lr_check_overlap st wh (read_ctx_get_offset st.ctx) c.head.address_size = s1 at *
  cases hr : read_ctx_read_offset s1.ctx (c.head.address_size == 8) with
  | none =>
    dsimp only
    refine ⟨f3, f4, f5, f6, lr_ext_trans hx (lr_ext_diags s1 _ ?_), ?_⟩
    · exact no_overlap_error_single (not_overlap_error_of_format _ _ _ (by decide))
    · intro b hb
      cases hb
  | some p =>
    obtain ⟨v, ctx'⟩ := p
    dsimp only
    obtain ⟨h1, h2⟩ := read_ctx_read_offset_spec hr
    generalize E.relocation_next s1.rel (read_ctx_get_offset st.ctx) wh
      skip_type.skip_mismatched = r
    obtain ⟨ro, rd, rt⟩ := r
    rw [f1] at h1 h2
    cases ro with
    | none =>
      dsimp only
      refine ⟨f3, f4, f5, f6, lr_ext_trans hx (lr_ext_mk _ _ _ ?_ ?_ rfl rfl rfl rfl
        (no_overlap_error_others rt)), fun _ _ => h2⟩
      · show ctx'.data = s1.ctx.data
        rw [f1]
        exact h1
      · rw [f1]
        exact le_trans (Nat.le_add_right _ 4) h2
    | some rel =>
      dsimp only
      refine ⟨f3, f4, f5, f6, lr_ext_trans hx (lr_ext_mk _ _ _ ?_ ?_ rfl rfl rfl
        (List.append_assoc _ _ _) (no_overlap_error_append (no_overlap_error_others rt)
          (no_overlap_error_others _))), fun _ _ => h2⟩
      · show ctx'.data = s1.ctx.data
        rw [f1]
        exact h1
      · rw [f1]
        exact le_trans (Nat.le_add_right _ 4) h2

/-- The part "end address" leaves the coverages and the base as they are, and moves
the cursor on by the size of an address when it gives an endpoint. -/
theorem lr_end_spec (E : lr_env) (file : elf_file) (c : cu) (wh : locus) (cat : Nat)
    (st : lr_state) (b : endpoint) :
    (lr_end E file c wh cat st b).1.coverage = st.coverage ∧
      (lr_end E file c wh cat st b).1.coverage_map = st.coverage_map ∧
      (lr_end E file c wh cat st b).1.pc_coverage = st.pc_coverage ∧
      (lr_end E file c wh cat st b).1.base = st.base ∧
      lr_ext st (lr_end E file c wh cat st b).1 ∧
      (∀ e, (lr_end E file c wh cat st b).2 = some e →
        st.ctx.ptr + 4 ≤ (lr_end E file c wh cat st b).1.ctx.ptr) := by
  obtain ⟨f1, f2, f3, f4, f5, f6⟩ :=
    lr_check_overlap_frame st wh (read_ctx_get_offset st.ctx) c.head.address_size
  have hx := lr_check_overlap_ext st wh (read_ctx_get_offset st.ctx) c.head.address_size
  unfold lr_end
  dsimp only
  generalize lr_check_overlap st wh (read_ctx_get_offset st.ctx) c.head.address_size = s1 at *
  cases hr : read_ctx_read_offset s1.ctx (c.head.address_size == 8) with
  | none =>
    dsimp only
    refine ⟨f3, f4, f5, f6, lr_ext_trans hx (lr_ext_diags s1 _ ?_), ?_⟩
    · exact no_overlap_error_single (not_overlap_error_of_format _ _ _ (by decide))
    · intro b hb
      cases hb
  | some p =>
    obtain ⟨v, ctx'⟩ := p
    dsimp only
    obtain ⟨h1, h2⟩ := read_ctx_read_offset_spec hr
    generalize E.relocation_next s1.rel (read_ctx_get_offset st.ctx) wh
      skip_type.skip_mismatched = r
    obtain ⟨ro, rd, rt⟩ := r
    rw [f1] at h1 h2
    have hd : ctx'.data = s1.ctx.data := by rw [f1]; exact h1
    have hp : s1.ctx.ptr ≤ ctx'.ptr := by
      rw [f1]
      exact le_trans (Nat.le_add_right _ 4) h2
    cases ro with
    | none =>
      dsimp only
      split_ifs
      · exact ⟨f3, f4, f5, f6, lr_ext_trans hx (lr_ext_mk _ _ _ hd hp rfl rfl rfl
          (List.append_assoc _ _ _) (no_overlap_error_append (no_overlap_error_others rt)
            (no_overlap_error_single (not_overlap_error_message _ _ _ _)))), fun _ _ => h2⟩
      · exact ⟨f3, f4, f5, f6, lr_ext_trans hx (lr_ext_mk _ _ _ hd hp rfl rfl rfl rfl
          (no_overlap_error_others rt)), fun _ _ => h2⟩
    | some rel =>
      dsimp only
      split_ifs
      · exact ⟨f3, f4, f5, f6, lr_ext_trans hx (lr_ext_mk _ _
          (List.map diag.other rt ++ (List.map diag.other _ ++ List.map diag.other _)) hd hp
          rfl rfl rfl (by simp only [List.append_assoc]; rfl)
          (no_overlap_error_append (no_overlap_error_others rt)
            (no_overlap_error_append (no_overlap_error_others _)
              (no_overlap_error_others _)))), fun _ _ => h2⟩
      · exact ⟨f3, f4, f5, f6, lr_ext_trans hx (lr_ext_mk _ _
          (List.map diag.other rt ++ (List.map diag.other _ ++ [_])) hd hp rfl rfl rfl
          (by simp only [List.append_assoc]; rfl)
          (no_overlap_error_append (no_overlap_error_others rt)
            (no_overlap_error_append (no_overlap_error_others _)
              (no_overlap_error_single (not_overlap_error_message _ _ _ _))))), fun _ _ => h2⟩
      · exact ⟨f3, f4, f5, f6, lr_ext_trans hx (lr_ext_mk _ _ _ hd hp rfl rfl rfl
          (List.append_assoc _ _ _) (no_overlap_error_append (no_overlap_error_others rt)
            (no_overlap_error_others _))), fun _ _ => h2⟩

theorem plain_not_overlap {d : diag} (h : d.plain = true) : ¬ is_overlap_error d := by
  rintro ⟨w, rfl⟩
  simp [diag.plain] at h

theorem plain_error (w : locus) (f : String) (a : List fmt_arg)
    (h : f ≠ ": range definitions overlap.\n") : (diag.error w f a).plain = true := by
  simp [diag.plain, h]

theorem plain_not_negative {d : diag} (h : d.plain = true) : ¬ is_negative_range d := by
  rintro ⟨cat, w, a, rfl⟩
  simp [diag.plain] at h

theorem plain_others (l : List String) : ∀ d ∈ l.map diag.other, d.plain = true := by
  intro d hd
  obtain ⟨t, _, rfl⟩ := List.mem_map.1 hd
  rfl

theorem plain_append {A B : List diag} (hA : ∀ d ∈ A, d.plain = true)
    (hB : ∀ d ∈ B, d.plain = true) : ∀ d ∈ A ++ B, d.plain = true := by
  intro d hd
  rcases List.mem_append.1 hd with h | h
  · exact hA d h
  · exact hB d h

theorem plain_single {d : diag} (h : d.plain = true) : ∀ x ∈ [d], x.plain = true := by
  intro x hx
  rw [List.mem_singleton] at hx
  rw [hx]
  exact h

theorem lr_quiet_refl (st : lr_state) : lr_quiet st st :=
  ⟨lr_ext_refl st, rfl, rfl, rfl, rfl, [], by simp, by simp⟩

theorem lr_quiet_trans {a b c : lr_state} (h1 : lr_quiet a b) (h2 : lr_quiet b c) :
    lr_quiet a c := by
  obtain ⟨D1, e1, o1⟩ := h1.diags
  obtain ⟨D2, e2, o2⟩ := h2.diags
  refine ⟨lr_ext_trans h1.ext h2.ext, h2.coverage.trans h1.coverage,
    h2.coverage_map.trans h1.coverage_map, h2.pc_coverage.trans h1.pc_coverage,
    h2.base.trans h1.base, D1 ++ D2, by rw [e2, e1, List.append_assoc], ?_⟩
  intro d hd
  rcases List.mem_append.1 hd with h | h
  · exact o1 d h
  · exact o2 d h

theorem lr_quiet_mk (s s' : lr_state) (D : List diag) (hd : s'.ctx.data = s.ctx.data)
    (hp : s.ctx.ptr ≤ s'.ctx.ptr) (hc : s'.coverage = s.coverage)
    (hm : s'.coverage_map = s.coverage_map) (hpc : s'.pc_coverage = s.pc_coverage)
    (hb : s'.base = s.base) (hr : s'.retval = s.retval) (ho : s'.overlap = s.overlap)
    (hD : s'.diags = s.diags ++ D) (hn : ∀ d ∈ D, d.plain = true) : lr_quiet s s' :=
  ⟨lr_ext_mk s s' D hd hp hm hr ho hD (fun d h => plain_not_overlap (hn d h)), hc, hm, hpc, hb,
    D, hD, fun d h => plain_not_negative (hn d h)⟩

theorem lr_check_overlap_quiet (st : lr_state) (wh : locus) (off len : Nat) :
    lr_quiet st (lr_check_overlap st wh off len) := by
  obtain ⟨_, _, f3, f4, f5, f6⟩ := lr_check_overlap_frame st wh off len
  refine ⟨lr_check_overlap_ext st wh off len, f3, f4, f5, f6, ?_⟩
  rcases lr_check_overlap_diags st wh off len with h | h
  · exact ⟨[], by simp [h.1], by simp⟩
  · refine ⟨_, h.1, ?_⟩
    intro d hd
    rw [List.mem_singleton] at hd
    rw [hd]
    rintro ⟨cat, w, a, h'⟩
    cases h'

/-! ## Location expressions: the messages and the cursor -/

theorem plain_message (c : Nat) (w : locus) (f : String) (a : List fmt_arg)
    (h : f ≠ ": has negative range %s.\n") : (diag.message c w f a).plain = true := by
  simp [diag.plain, h]

theorem plain_nil : ∀ d ∈ ([] : List diag), d.plain = true := by
  intro d hd
  cases hd

theorem fmt_in_nil (L : List String) : ∀ d ∈ ([] : List diag), d.fmt_in L = true := by
  intro d hd
  cases hd

theorem fmt_in_others (L : List String) (l : List String) :
    ∀ d ∈ l.map diag.other, d.fmt_in L = true := by
  intro d hd
  obtain ⟨t, _, rfl⟩ := List.mem_map.1 hd
  rfl

theorem fmt_in_append {L : List String} {A B : List diag}
    (hA : ∀ d ∈ A, d.fmt_in L = true) (hB : ∀ d ∈ B, d.fmt_in L = true) :
    ∀ d ∈ A ++ B, d.fmt_in L = true := by
  intro d hd
  rcases List.mem_append.1 hd with h | h
  · exact hA d h
  · exact hB d h

theorem fmt_in_single {L : List String} {d : diag} (h : d.fmt_in L = true) :
    ∀ x ∈ [d], x.fmt_in L = true := by
  intro x hx
  rw [List.mem_singleton] at hx
  rw [hx]
  exact h

theorem fmt_in_error {L : List String} (w : locus) (f : String) (a : List fmt_arg)
    (h : f ∈ L) : (diag.error w f a).fmt_in L = true := by
  simp [diag.fmt_in, h]

theorem fmt_in_message {L : List String} (c : Nat) (w : locus) (f : String)
    (a : List fmt_arg) (h : f ∈ L) : (diag.message c w f a).fmt_in L = true := by
  simp [diag.fmt_in, h]

theorem fmt_in_print {L : List String} (f : String) (a : List fmt_arg) (h : f ∈ L) :
    (diag.print f a).fmt_in L = true := by
  simp [diag.fmt_in, h]

theorem fmt_in_mono {L M : List String} (h : ∀ f ∈ L, f ∈ M) {d : diag}
    (hd : d.fmt_in L = true) : d.fmt_in M = true := by
  cases d with
  | error w f a =>
    simp only [diag.fmt_in, decide_eq_true_eq] at hd ⊢
    exact h f hd
  | message c w f a =>
    simp only [diag.fmt_in, decide_eq_true_eq] at hd ⊢
    exact h f hd
  | other t => rfl
  | print f a =>
    simp only [diag.fmt_in, decide_eq_true_eq] at hd ⊢
    exact h f hd

/-- A message with one of the formats of `check_location_expression` is neither the
error of `HAVE_OVERLAP` nor a message of a negative range. -/
theorem fmt_in_plain {d : diag} (h : d.fmt_in locexpr_all_formats = true) :
    d.plain = true := by
  cases d with
  | error w f a =>
    simp only [diag.fmt_in, decide_eq_true_eq] at h
    simp only [diag.plain, bne_iff_ne, ne_eq]
    rintro rfl
    revert h
    decide
  | message c w f a =>
    simp only [diag.fmt_in, decide_eq_true_eq] at h
    simp only [diag.plain, bne_iff_ne, ne_eq]
    rintro rfl
    revert h
    decide
  | other t => rfl
  | print f a => rfl

theorem reloc_target_loc_fmt {opcode : Nat} {t : section_id} {ds : List diag}
    (h : reloc_target_loc opcode = some (t, ds)) :
    ∀ d ∈ ds, d.fmt_in locexpr_formats = true := by
  unfold reloc_target_loc at h
  split_ifs at h <;> cases h
  · exact fmt_in_nil _
  · exact fmt_in_nil _
  · exact fmt_in_single (fmt_in_print _ _ (by decide))

theorem op_relocate_fmt {E : lr_env} {file : elf_file} {c : cu} {reloc : relocation_data}
    {opcode v : Nat} {isblock : Bool} {off : Nat} {wh : locus}
    {r : relocation_data × Nat × List diag}
    (h : op_relocate E file c reloc opcode v isblock off wh = some r) :
    ∀ d ∈ r.2.2, d.fmt_in locexpr_formats = true := by
  unfold op_relocate at h
  dsimp only at h
  generalize E.relocation_next reloc off wh skip_type.skip_mismatched = rn at h
  obtain ⟨ro, rd, rt⟩ := rn
  cases ro with
  | none =>
    cases h
    exact fmt_in_others _ rt
  | some rel =>
    dsimp only at h
    cases isblock with
    | true =>
      simp only [not_true_eq_false, if_false] at h
      cases h
      exact fmt_in_append (fmt_in_others _ rt)
        (fmt_in_single (fmt_in_error _ _ _ (by decide)))
    | false =>
      simp only [Bool.false_eq_true, not_false_eq_true, if_true] at h
      cases ht : reloc_target_loc opcode with
      | none =>
        rw [ht] at h
        cases h
      | some p =>
        obtain ⟨target, ds2⟩ := p
        rw [ht] at h
        cases h
        exact fmt_in_append (fmt_in_append (fmt_in_others _ rt) (reloc_target_loc_fmt ht))
          (fmt_in_others _ _)

theorem op_block_end_fmt (E : lr_env) (ctx : read_ctx) (init_off : Nat)
    (reloc : relocation_data) (isblock : Bool) (wh : locus) :
    ∀ d ∈ (op_block_end E ctx init_off reloc isblock wh).2,
      d.fmt_in locexpr_formats = true := by
  unfold op_block_end
  split_ifs
  · exact fmt_in_others _ _
  · exact fmt_in_nil _

theorem read_ctx_skip_spec {ctx ctx' : read_ctx} {n : Nat} (h : read_ctx_skip ctx n = some ctx') :
    ctx'.data = ctx.data ∧ ctx'.ptr = ctx.ptr + n ∧ ctx.ptr + n ≤ ctx.data.length := by
  unfold read_ctx_skip at h
  by_cases hn : read_ctx_need_data ctx n = true
  · rw [if_pos hn] at h
    cases h
    simp only [read_ctx_need_data, decide_eq_true_eq] at hn
    exact ⟨rfl, rfl, hn⟩
  · rw [if_neg hn] at h
    cases h

theorem read_ctx_read_uleb128_spec {ctx ctx' : read_ctx} {v : Nat}
    (h : read_ctx_read_uleb128 ctx = some (v, ctx')) :
    ctx'.data = ctx.data ∧ ctx.ptr ≤ ctx'.ptr := by
  unfold read_ctx_read_uleb128 at h
  cases hd : uleb128_decode (ctx.data.drop ctx.ptr) with
  | none =>
    rw [hd] at h
    cases h
  | some p =>
    obtain ⟨w, n⟩ := p
    rw [hd] at h
    dsimp only at h
    by_cases hn : 7 * n > 128 + 6
    · rw [if_pos hn] at h
      cases h
    · rw [if_neg hn] at h
      simp only [Option.some.injEq, Prod.mk.injEq] at h
      obtain ⟨_, rfl⟩ := h
      exact ⟨rfl, Nat.le_add_right _ _⟩

theorem read_ctx_read_sleb128_spec {ctx ctx' : read_ctx} {v : Int}
    (h : read_ctx_read_sleb128 ctx = some (v, ctx')) :
    ctx'.data = ctx.data ∧ ctx.ptr ≤ ctx'.ptr := by
  unfold read_ctx_read_sleb128 at h
  cases hd : uleb128_decode (ctx.data.drop ctx.ptr) with
  | none =>
    rw [hd] at h
    cases h
  | some p =>
    obtain ⟨w, n⟩ := p
    rw [hd] at h
    dsimp only at h
    by_cases hn : 7 * n > 128 + 6
    · rw [if_pos hn] at h
      cases h
    · rw [if_neg hn] at h
      simp only [Option.some.injEq, Prod.mk.injEq] at h
      obtain ⟨_, rfl⟩ := h
      exact ⟨rfl, Nat.le_add_right _ _⟩

theorem read_ctx_read_mono {ctx ctx' : read_ctx} {n v : Nat}
    (h : read_ctx_read ctx n = some (v, ctx')) :
    ctx'.data = ctx.data ∧ ctx.ptr ≤ ctx'.ptr := by
  obtain ⟨h1, h2, _⟩ := read_ctx_read_spec h
  exact ⟨h1, by omega⟩

theorem sdata_map_spec {ctx ctx' : read_ctx} {v : Nat}
    (h : (read_ctx_read_sleb128 ctx).map (fun p => (Int.toNat (p.1 % 2 ^ 64), p.2)) =
      some (v, ctx')) :
    ctx'.data = ctx.data ∧ ctx.ptr ≤ ctx'.ptr := by
  cases hs : read_ctx_read_sleb128 ctx with
  | none =>
    rw [hs] at h
    cases h
  | some p =>
    rw [hs] at h
    simp only [Option.map_some', Option.some.injEq, Prod.mk.injEq] at h
    obtain ⟨_, h2⟩ := h
    rw [← h2]
    exact read_ctx_read_sleb128_spec hs

/-- A read of a form that is not a block leaves the cursor in the same bytes, not
before where it was. -/
theorem read_ctx_read_data_form_spec {E : lr_env} {ctx ctx' : read_ctx} {c : cu} {form : Nat}
    {wh : locus} {what : String} {v : Nat} {ds : List String}
    (h : read_ctx_read_data_form E ctx c form wh what = some (some (v, ctx'), ds)) :
    ctx'.data = ctx.data ∧ ctx.ptr ≤ ctx'.ptr := by
  unfold read_ctx_read_data_form at h
  split_ifs at h
  all_goals simp only [Option.some.injEq, Prod.mk.injEq, checked_read_uleb128,
    checked_read_sleb128, read_ctx_read_offset, read_ctx_read_ubyte, read_ctx_read_2ubyte,
    read_ctx_read_4ubyte, read_ctx_read_8ubyte] at h
  all_goals first
    | exact read_ctx_read_mono h.1
    | exact read_ctx_read_uleb128_spec h.1
    | exact sdata_map_spec h.1

/-- A read of a form leaves the cursor in the same bytes, not before where it was. -/
theorem read_ctx_read_form_spec {E : lr_env} {ctx ctx' : read_ctx} {c : cu} {form : Nat}
    {wh : locus} {what : String} {b isb : Bool} {v : Nat} {ds : List String}
    (h : read_ctx_read_form E ctx c form wh what b = (some (v, isb, ctx'), ds)) :
    ctx'.data = ctx.data ∧ ctx.ptr ≤ ctx'.ptr := by
  unfold read_ctx_read_form at h
  cases h1 : read_ctx_read_data_form E ctx c form wh what with
  | some p =>
    obtain ⟨r, ds1⟩ := p
    rw [h1] at h
    cases r with
    | none => simp at h
    | some q =>
      obtain ⟨w, cx⟩ := q
      simp only [Option.map_some', Prod.mk.injEq, Option.some.injEq] at h
      obtain ⟨⟨_, _, rfl⟩, rfl⟩ := h
      exact read_ctx_read_data_form_spec h1
  | none =>
    rw [h1] at h
    dsimp only at h
    cases b with
    | false => simp at h
    | true =>
      simp only [if_true] at h
      generalize (if form = DW_FORM_block then some DW_FORM_udata
        else if form = DW_FORM_block1 then some DW_FORM_data1
        else if form = DW_FORM_block2 then some DW_FORM_data2
        else if form = DW_FORM_block4 then some DW_FORM_data4
        else none) = dform at h
      cases dform with
      | none => simp at h
      | some df =>
        dsimp only at h
        cases h2 : read_ctx_read_data_form E ctx c df wh what with
        | none =>
          rw [h2] at h
          simp at h
        | some p =>
          obtain ⟨r, ds1⟩ := p
          cases r with
          | none =>
            rw [h2] at h
            simp at h
          | some q =>
            obtain ⟨w, cx⟩ := q
            rw [h2] at h
            dsimp only at h
            cases h3 : read_ctx_skip cx w with
            | none =>
              rw [h3] at h
              simp at h
            | some cy =>
              rw [h3] at h
              simp only [Prod.mk.injEq, Option.some.injEq] at h
              obtain ⟨⟨_, _, rfl⟩, _⟩ := h
              obtain ⟨a1, a2⟩ := read_ctx_read_data_form_spec h2
              obtain ⟨b1, b2, _⟩ := read_ctx_skip_spec h3
              exact ⟨by rw [b1, a1], by omega⟩

/-- What `op_read_form` gives when it returns: the cursor is in the same bytes, not
before where it was; the messages have the formats of the function; and on success
with a form other than 0 the value is assigned. -/
theorem op_read_form_spec {E : lr_env} {file : elf_file} {ctx : read_ctx} {c : cu}
    {init_off : Nat} {reloc : relocation_data} {opcode form : Nat} {value : Option Nat}
    {str : String} {wh : locus} {r : op_result}
    (h : op_read_form E file ctx c init_off reloc opcode form value str wh = some r) :
    r.ctx.data = ctx.data ∧ ctx.ptr ≤ r.ctx.ptr ∧
      (∀ d ∈ r.diags, d.fmt_in locexpr_formats = true) ∧
      (form ≠ 0 → r.ok = true → r.value ≠ none) ∧ (form = 0 → r.value = value) := by
  unfold op_read_form at h
  by_cases hf : form = 0
  · rw [if_pos hf] at h
    cases h
    exact ⟨rfl, le_refl _, fmt_in_nil _, fun h0 => absurd hf h0, fun _ => rfl⟩
  · rw [if_neg hf] at h
    dsimp only at h
    cases h1 : read_ctx_read_form E ctx c form wh str true with
    | mk o ds =>
      rw [h1] at h
      cases o with
      | none =>
        dsimp only at h
        cases h
        refine ⟨rfl, le_refl _, ?_, fun _ hk => Bool.noConfusion hk, fun h0 => absurd h0 hf⟩
        exact fmt_in_append (fmt_in_others _ ds)
          (fmt_in_single (fmt_in_error _ _ _ (by decide)))
      | some q =>
        obtain ⟨v, isblock, cx⟩ := q
        dsimp only at h
        obtain ⟨a1, a2⟩ := read_ctx_read_form_spec h1
        cases h2 : op_relocate E file c reloc opcode v isblock
            (u64 (read_ctx_get_offset ctx + init_off)) wh with
        | none =>
          rw [h2] at h
          cases h
        | some t =>
          obtain ⟨rd, w, ds1⟩ := t
          rw [h2] at h
          dsimp only at h
          cases h
          refine ⟨a1, a2, ?_, fun _ _ => Option.some_ne_none _, fun h0 => absurd h0 hf⟩
          exact fmt_in_append (fmt_in_append (fmt_in_others _ ds) (op_relocate_fmt h2))
            (op_block_end_fmt E cx init_off rd isblock wh)

/-- In an environment that finds no relocation, `op_read_form` returns. -/
theorem op_read_form_total {E : lr_env} (hE : locexpr_safe E) (file : elf_file)
    (ctx : read_ctx) (c : cu) (init_off : Nat) (reloc : relocation_data) (opcode form : Nat)
    (value : Option Nat) (str : String) (wh : locus) :
    ∃ r, op_read_form E file ctx c init_off reloc opcode form value str wh = some r := by
  unfold op_read_form
  by_cases hf : form = 0
  · rw [if_pos hf]
    exact ⟨_, rfl⟩
  · rw [if_neg hf]
    dsimp only
    cases h1 : read_ctx_read_form E ctx c form wh str true with
    | mk o ds =>
      cases o with
      | none => exact ⟨_, rfl⟩
      | some q =>
        obtain ⟨v, isblock, cx⟩ := q
        dsimp only
        have h2 : ∃ t, op_relocate E file c reloc opcode v isblock
            (u64 (read_ctx_get_offset ctx + init_off)) wh = some t := by
          unfold op_relocate
          dsimp only
          have h3 := hE.1 reloc (u64 (read_ctx_get_offset ctx + init_off)) wh
            skip_type.skip_mismatched
          generalize E.relocation_next reloc (u64 (read_ctx_get_offset ctx + init_off)) wh
            skip_type.skip_mismatched = rn at h3
          obtain ⟨ro, rd, rt⟩ := rn
          dsimp only at h3
          subst h3
          exact ⟨_, rfl⟩
        obtain ⟨t, ht⟩ := h2
        rw [ht]
        exact ⟨_, rfl⟩

theorem locexpr_branch_spec (E : lr_env) (init_off : Nat) (wh : locus) (opcode v : Nat)
    (st : locexpr_state) :
    (locexpr_branch E init_off wh opcode v st).ctx = st.ctx ∧
      (locexpr_branch E init_off wh opcode v st).opaddrs = st.opaddrs ∧
      ∃ D, (locexpr_branch E init_off wh opcode v st).diags = st.diags ++ D ∧
        ∀ d ∈ D, d.fmt_in locexpr_formats = true := by
  unfold locexpr_branch
  dsimp only
  split_ifs
  · exact ⟨rfl, rfl, _, rfl, fmt_in_single (fmt_in_message _ _ _ _ (by decide))⟩
  · exact ⟨rfl, rfl, _, rfl, fmt_in_single (fmt_in_error _ _ _ (by decide))⟩
  · exact ⟨rfl, rfl, _, rfl, fmt_in_single (fmt_in_error _ _ _ (by decide))⟩
  · exact ⟨rfl, rfl, [], (List.append_nil _).symm, fmt_in_nil _⟩

theorem locexpr_check_spec {E : lr_env} {c : cu} {init_off : Nat} {wh : locus} {opcode : Nat}
    {value1 : Option Nat} {st st' : locexpr_state}
    (h : locexpr_check E c init_off wh opcode value1 st = some st') :
    st'.ctx = st.ctx ∧ st'.opaddrs = st.opaddrs ∧
      ∃ D, st'.diags = st.diags ++ D ∧ ∀ d ∈ D, d.fmt_in locexpr_formats = true := by
  unfold locexpr_check at h
  split_ifs at h
  · cases value1 with
    | none => cases h
    | some v =>
      simp only [Option.some.injEq] at h
      rw [← h]
      exact locexpr_branch_spec E init_off wh opcode v st
  · cases h
    exact ⟨rfl, rfl, _, rfl, fmt_in_single (fmt_in_error _ _ _ (by decide))⟩
  · cases h
    exact ⟨rfl, rfl, [], (List.append_nil _).symm, fmt_in_nil _⟩
  · cases value1 with
    | none => cases h
    | some v =>
      dsimp only at h
      split_ifs at h
      · cases h
        exact ⟨rfl, rfl, _, rfl, fmt_in_single (fmt_in_message _ _ _ _ (by decide))⟩
      · cases h
        exact ⟨rfl, rfl, [], (List.append_nil _).symm, fmt_in_nil _⟩
  · cases h
    exact ⟨rfl, rfl, [], (List.append_nil _).symm, fmt_in_nil _⟩

theorem locexpr_check_total {E : lr_env} (c : cu) (init_off : Nat) (wh : locus)
    (opcode : Nat) (value1 : Option Nat) (st : locexpr_state)
    (hv : (opcode = DW_OP_bra ∨ opcode = DW_OP_skip ∨ opcode = DW_OP_constu ∨
      opcode = DW_OP_consts ∨ opcode = DW_OP_deref_size ∨ opcode = DW_OP_plus_uconst) →
      value1 ≠ none) :
    ∃ st', locexpr_check E c init_off wh opcode value1 st = some st' := by
  unfold locexpr_check
  split_ifs with h1 h2 h3 h4
  · cases value1 with
    | none =>
      exact absurd rfl (hv (by rcases h1 with h | h <;> simp [h]))
    | some v => exact ⟨_, rfl⟩
  · exact ⟨_, rfl⟩
  · exact ⟨_, rfl⟩
  · cases value1 with
    | none =>
      exact absurd rfl (hv (by rcases h4.2 with h | h | h | h <;> simp [h]))
    | some v =>
      dsimp only
      split_ifs
      · exact ⟨_, rfl⟩
      · exact ⟨_, rfl⟩
  · exact ⟨_, rfl⟩

/-- What a round of the loop of `check_location_expression` does when it returns: the
cursor stays in the same bytes, and it is behind the opcode if the loop goes on; the
offset of the opcode is recorded; the messages have the formats of the loop. -/
theorem locexpr_round_spec {E : lr_env} {file : elf_file} {c : cu} {init_off : Nat}
    {wh : locus} {st : locexpr_state} {step : locexpr_step}
    (h : locexpr_round E file c init_off wh st = some step) :
    step.state.ctx.data = st.ctx.data ∧
      (∀ s, step = locexpr_step.next s → st.ctx.ptr < s.ctx.ptr) ∧
      step.state.opaddrs = st.opaddrs ++ [u64 (read_ctx_get_offset st.ctx + init_off)] ∧
      ∃ D, step.state.diags = st.diags ++ D ∧ ∀ d ∈ D, d.fmt_in locexpr_formats = true := by
  unfold locexpr_round at h
  dsimp only at h
  cases h0 : read_ctx_read_ubyte st.ctx with
  | none =>
    rw [h0] at h
    cases h
    exact ⟨rfl, fun s hs => locexpr_step.noConfusion hs, rfl, _, rfl,
      fmt_in_single (fmt_in_error _ _ _ (by decide))⟩
  | some p =>
    obtain ⟨opcode, cx⟩ := p
    rw [h0] at h
    dsimp only at h
    obtain ⟨a1, a2, _⟩ := read_ctx_read_spec h0
    cases h1 : E.get_location_opcode_operands opcode with
    | none =>
      rw [h1] at h
      cases h
      exact ⟨a1, fun s hs => locexpr_step.noConfusion hs, rfl, _, rfl,
        fmt_in_single (fmt_in_error _ _ _ (by decide))⟩
    | some ops =>
      obtain ⟨op1, op2⟩ := ops
      rw [h1] at h
      dsimp only at h
      cases h2 : op_read_form E file cx c init_off st.reloc opcode op1 none "1st operand"
          (locus.sub section_id.sec_locexpr (u64 (read_ctx_get_offset st.ctx + init_off)) wh) with
      | none =>
        rw [h2] at h
        cases h
      | some r1 =>
        rw [h2] at h
        dsimp only at h
        obtain ⟨b1, b2, b3, _⟩ := op_read_form_spec h2
        by_cases hk1 : r1.ok = true
        · rw [if_neg (by simp [hk1])] at h
          cases h3 : op_read_form E file r1.ctx c init_off r1.reloc opcode op2 none
              "2st operand" (locus.sub section_id.sec_locexpr
                (u64 (read_ctx_get_offset st.ctx + init_off)) wh) with
          | none =>
            rw [h3] at h
            cases h
          | some r2 =>
            rw [h3] at h
            dsimp only at h
            obtain ⟨c1, c2, c3, _⟩ := op_read_form_spec h3
            by_cases hk2 : r2.ok = true
            · rw [if_neg (by simp [hk2])] at h
              generalize hst2 : locexpr_state.mk r2.ctx r2.reloc st.oprefs
                (st.opaddrs ++ [u64 (read_ctx_get_offset st.ctx + init_off)])
                (st.diags ++ r1.diags ++ r2.diags) = st2 at h
              cases h4 : locexpr_check E c init_off (locus.sub section_id.sec_locexpr
                  (u64 (read_ctx_get_offset st.ctx + init_off)) wh) opcode r1.value st2 with
              | none =>
                rw [h4] at h
                cases h
              | some st3 =>
                rw [h4] at h
                cases h
                obtain ⟨d1, d2, D, d3, d4⟩ := locexpr_check_spec h4
                subst hst2
                dsimp only [locexpr_step.state] at *
                refine ⟨by rw [d1, c1, b1, a1], ?_, d2, r1.diags ++ r2.diags ++ D, ?_,
                  fmt_in_append (fmt_in_append b3 c3) d4⟩
                · intro s hs
                  cases hs
                  rw [d1]
                  show st.ctx.ptr < r2.ctx.ptr
                  omega
                · rw [d3]
                  simp only [List.append_assoc]
            · rw [if_pos (by simp [hk2])] at h
              cases h
              dsimp only [locexpr_step.state]
              refine ⟨by rw [c1, b1, a1], fun s hs => locexpr_step.noConfusion hs, rfl, r1.diags ++ r2.diags,
                by simp only [List.append_assoc], fmt_in_append b3 c3⟩
        · rw [if_pos (by simp [hk1])] at h
          cases h
          dsimp only [locexpr_step.state]
          exact ⟨by rw [b1, a1], fun s hs => locexpr_step.noConfusion hs, rfl, r1.diags, rfl, b3⟩

/-- In a safe environment a round of the loop returns. -/
theorem locexpr_round_total {E : lr_env} (hE : locexpr_safe E) (file : elf_file) (c : cu)
    (init_off : Nat) (wh : locus) (st : locexpr_state) :
    ∃ step, locexpr_round E file c init_off wh st = some step := by
  unfold locexpr_round
  dsimp only
  cases h0 : read_ctx_read_ubyte st.ctx with
  | none => exact ⟨_, rfl⟩
  | some p =>
    obtain ⟨opcode, cx⟩ := p
    dsimp only
    cases h1 : E.get_location_opcode_operands opcode with
    | none => exact ⟨_, rfl⟩
    | some ops =>
      obtain ⟨op1, op2⟩ := ops
      dsimp only
      obtain ⟨r1, h2⟩ := op_read_form_total hE file cx c init_off st.reloc opcode op1 none
        "1st operand"
        (locus.sub section_id.sec_locexpr (u64 (read_ctx_get_offset st.ctx + init_off)) wh)
      rw [h2]
      dsimp only
      by_cases hk1 : r1.ok = true
      · rw [if_neg (by simp [hk1])]
        obtain ⟨r2, h3⟩ := op_read_form_total hE file r1.ctx c init_off r1.reloc opcode op2
          none "2st operand"
          (locus.sub section_id.sec_locexpr (u64 (read_ctx_get_offset st.ctx + init_off)) wh)
        rw [h3]
        dsimp only
        by_cases hk2 : r2.ok = true
        · rw [if_neg (by simp [hk2])]
          obtain ⟨_, _, _, b4, _⟩ := op_read_form_spec h2
          obtain ⟨st3, h4⟩ := locexpr_check_total (E := E) c init_off
            (locus.sub section_id.sec_locexpr (u64 (read_ctx_get_offset st.ctx + init_off)) wh)
            opcode r1.value
            (locexpr_state.mk r2.ctx r2.reloc st.oprefs
              (st.opaddrs ++ [u64 (read_ctx_get_offset st.ctx + init_off)])
              (st.diags ++ r1.diags ++ r2.diags))
            (fun ho => b4 (hE.2 opcode (op1, op2) ho h1) hk1)
          rw [h4]
          exact ⟨_, rfl⟩
        · rw [if_pos (by simp [hk2])]
          exact ⟨_, rfl⟩
      · rw [if_pos (by simp [hk1])]
        exact ⟨_, rfl⟩

/-- The loop of `check_location_expression` keeps the bytes of its cursor, and the
messages that it adds have the formats of the loop. -/
theorem locexpr_loop_spec {E : lr_env} {file : elf_file} {c : cu} {init_off : Nat}
    {wh : locus} :
    ∀ (fuel : Nat) (st st' : locexpr_state),
      locexpr_loop E file c init_off wh fuel st = some st' →
      st'.ctx.data = st.ctx.data ∧
        ∃ D, st'.diags = st.diags ++ D ∧ ∀ d ∈ D, d.fmt_in locexpr_formats = true := by
  intro fuel
  induction fuel with
  | zero =>
    intro st st' h
    cases h
  | succ n ih =>
    intro st st' h
    unfold locexpr_loop at h
    by_cases he : read_ctx_eof st.ctx = true
    · rw [if_pos he] at h
      cases h
      exact ⟨rfl, [], (List.append_nil _).symm, fmt_in_nil _⟩
    · rw [if_neg he] at h
      cases hr : locexpr_round E file c init_off wh st with
      | none =>
        rw [hr] at h
        cases h
      | some step =>
        rw [hr] at h
        obtain ⟨a1, _, _, D, a3, a4⟩ := locexpr_round_spec hr
        cases step with
        | stop s =>
          dsimp only at h
          cases h
          exact ⟨a1, D, a3, a4⟩
        | next s =>
          dsimp only at h
          obtain ⟨b1, D2, b3, b4⟩ := ih s st' h
          dsimp only [locexpr_step.state] at a1 a3
          refine ⟨by rw [b1, a1], D ++ D2, ?_, fmt_in_append a4 b4⟩
          rw [b3, a3, List.append_assoc]

/-- In a safe environment the loop returns when its fuel is more than the bytes that the
cursor has left. -/
theorem locexpr_loop_total {E : lr_env} (hE : locexpr_safe E) (file : elf_file) (c : cu)
    (init_off : Nat) (wh : locus) :
    ∀ (fuel : Nat) (st : locexpr_state), st.ctx.data.length - st.ctx.ptr < fuel →
      ∃ st', locexpr_loop E file c init_off wh fuel st = some st' := by
  intro fuel
  induction fuel with
  | zero =>
    intro st h
    omega
  | succ n ih =>
    intro st h
    unfold locexpr_loop
    by_cases he : read_ctx_eof st.ctx = true
    · rw [if_pos he]
      exact ⟨_, rfl⟩
    · rw [if_neg he]
      obtain ⟨step, hr⟩ := locexpr_round_total hE file c init_off wh st
      rw [hr]
      cases step with
      | stop s => exact ⟨_, rfl⟩
      | next s =>
        dsimp only
        obtain ⟨a1, a2, _⟩ := locexpr_round_spec hr
        have a3 := a2 s rfl
        dsimp only [locexpr_step.state] at a1
        simp only [read_ctx_eof, read_ctx_need_data, Bool.not_eq_true', decide_eq_false_iff_not,
          not_not] at he
        apply ih
        rw [a1]
        omega

theorem locexpr_out_fmt (opaddrs : List Nat) (oprefs : List ref) :
    ∀ d ∈ locexpr_out opaddrs oprefs, d.fmt_in locexpr_all_formats = true := by
  induction oprefs with
  | nil => exact fmt_in_nil _
  | cons r rest ih =>
    unfold locexpr_out
    split_ifs
    · exact ih
    · intro d hd
      rcases List.mem_cons.1 hd with h | h
      · rw [h]
        exact fmt_in_error _ _ _ (by decide)
      · exact ih d h

/-- The errors after the label `out`: one for each reference whose target is not the
offset of an opcode. -/
theorem locexpr_out_mem (opaddrs : List Nat) (oprefs : List ref) (d : diag) :
    d ∈ locexpr_out opaddrs oprefs ↔
      ∃ r ∈ oprefs, r.addr ∉ opaddrs ∧ d = unresolved_error r := by
  induction oprefs with
  | nil => simp [locexpr_out]
  | cons r rest ih =>
    unfold locexpr_out
    by_cases h : r.addr ∈ opaddrs
    · rw [if_pos h, ih]
      constructor
      · rintro ⟨x, hx, h1, h2⟩
        exact ⟨x, List.mem_cons_of_mem _ hx, h1, h2⟩
      · rintro ⟨x, hx, h1, h2⟩
        rcases List.mem_cons.1 hx with h3 | h3
        · rw [h3] at h1
          exact absurd h h1
        · exact ⟨x, h3, h1, h2⟩
    · rw [if_neg h, List.mem_cons, ih]
      constructor
      · rintro (h1 | ⟨x, hx, h1, h2⟩)
        · exact ⟨r, List.mem_cons_self _ _, h, h1⟩
        · exact ⟨x, List.mem_cons_of_mem _ hx, h1, h2⟩
      · rintro ⟨x, hx, h1, h2⟩
        rcases List.mem_cons.1 hx with h3 | h3
        · left
          rw [h2, h3]
        · exact Or.inr ⟨x, h3, h1, h2⟩

/-- The messages of `check_location_expression` have the formats of the function. -/
theorem check_location_expression_fmt {E : lr_env} {file : elf_file} {ctx : read_ctx}
    {c : cu} {init_off : Nat} {reloc : relocation_data} {length : Nat} {wh : locus}
    {r : Bool × relocation_data × List diag}
    (h : check_location_expression E file ctx c init_off reloc length wh = some r) :
    ∀ d ∈ r.2.2, d.fmt_in locexpr_all_formats = true := by
  unfold check_location_expression at h
  cases h0 : read_ctx_init_sub ctx ctx.ptr (ctx.ptr + length) with
  | none =>
    rw [h0] at h
    cases h
    exact fmt_in_single (fmt_in_error _ _ _ (by decide))
  | some cx =>
    rw [h0] at h
    dsimp only at h
    cases h1 : locexpr_loop E file c init_off wh (length + 1) ⟨cx, reloc, [], [], []⟩ with
    | none =>
      rw [h1] at h
      cases h
    | some st =>
      rw [h1] at h
      cases h
      obtain ⟨_, D, a2, a3⟩ := locexpr_loop_spec _ _ _ h1
      dsimp only at a2 ⊢
      rw [a2, List.nil_append]
      exact fmt_in_append
        (fun d hd => fmt_in_mono (fun f hf => List.mem_append_left _ hf) (a3 d hd))
        (locexpr_out_fmt _ _)

theorem check_location_expression_plain {E : lr_env} {file : elf_file} {ctx : read_ctx}
    {c : cu} {init_off : Nat} {reloc : relocation_data} {length : Nat} {wh : locus}
    {r : Bool × relocation_data × List diag}
    (h : check_location_expression E file ctx c init_off reloc length wh = some r) :
    ∀ d ∈ r.2.2, d.plain = true :=
  fun d hd => fmt_in_plain (check_location_expression_fmt h d hd)

/-- In a safe environment every call of `check_location_expression` returns. -/
theorem locexpr_safe_returns {E : lr_env} (hE : locexpr_safe E) : locexpr_returns E := by
  intro file ctx c init_off reloc length wh
  unfold check_location_expression
  cases h0 : read_ctx_init_sub ctx ctx.ptr (ctx.ptr + length) with
  | none => exact ⟨_, rfl⟩
  | some cx =>
    dsimp only
    have hl : cx.data.length - cx.ptr < length + 1 := by
      unfold read_ctx_init_sub at h0
      split_ifs at h0
      cases h0
      simp only [List.length_take, List.length_drop]
      omega
    obtain ⟨st, hs⟩ := locexpr_loop_total hE file c init_off wh (length + 1)
      ⟨cx, reloc, [], [], []⟩ hl
    rw [hs]
    exact ⟨_, rfl⟩

theorem env_plain_safe : locexpr_safe env_plain := by
  refine ⟨fun _ _ _ _ => rfl, ?_⟩
  rintro op p (h | h | h | h | h | h) hp <;> subst h <;> cases hp <;> decide

theorem env_plain_returns : locexpr_returns env_plain :=
  locexpr_safe_returns env_plain_safe

/-- The part that reads a location expression is quiet, and it does not move the
cursor back. -/
theorem lr_locexpr_quiet {E : lr_env} {file : elf_file} {c : cu} {wh : locus}
    {st : lr_state} {step : lr_step} (h : lr_locexpr E file c wh st = some step) :
    lr_quiet st step.state := by
  have q1 := lr_check_overlap_quiet st wh (read_ctx_get_offset st.ctx) 2
  unfold lr_locexpr at h
  dsimp only at h
  generalize lr_check_overlap st wh (read_ctx_get_offset st.ctx) 2 = s1 at *
  cases hr : read_ctx_read_2ubyte s1.ctx with
  | none =>
    rw [hr] at h
    cases h
    exact lr_quiet_trans q1 (lr_quiet_mk _ _ _ rfl le_rfl rfl rfl rfl rfl rfl rfl rfl
      (plain_single (plain_error _ _ _ (by decide))))
  | some p =>
    obtain ⟨len, cx⟩ := p
    obtain ⟨h1, h2, _⟩ := read_ctx_read_spec hr
    rw [hr] at h
    dsimp only at h
    cases hc : check_location_expression E file cx c (read_ctx_get_offset cx) s1.rel len
        wh with
    | none =>
      rw [hc] at h
      cases h
    | some r =>
      rw [hc] at h
      dsimp only at h
      have hp := check_location_expression_plain hc
      generalize hs2 : lr_state.mk cx r.2.1 s1.coverage s1.coverage_map s1.pc_coverage
        s1.retval s1.overlap s1.base (s1.diags ++ r.2.2) = s2 at h
      have q2 : lr_quiet s1 s2 := by
        subst hs2
        exact lr_quiet_mk _ _ _ h1 (by rw [h2]; exact Nat.le_add_right _ _) rfl rfl rfl rfl
          rfl rfl rfl hp
      by_cases hk : r.1 = true
      · rw [if_neg (by simp [hk])] at h
        have q3 := lr_check_overlap_quiet s2 wh (read_ctx_get_offset cx)
          (read_ctx_get_offset cx - read_ctx_get_offset cx)
        generalize lr_check_overlap s2 wh (read_ctx_get_offset cx)
          (read_ctx_get_offset cx - read_ctx_get_offset cx) = s3 at *
        have q := lr_quiet_trans q1 (lr_quiet_trans q2 q3)
        cases hs : read_ctx_skip s3.ctx len with
        | none =>
          rw [hs] at h
          cases h
          exact lr_quiet_trans q (lr_quiet_mk _ _ _ rfl le_rfl rfl rfl rfl rfl rfl rfl rfl
            (plain_single (plain_error _ _ _ (by decide))))
        | some ctx2 =>
          rw [hs] at h
          cases h
          obtain ⟨k1, k2, _⟩ := read_ctx_skip_spec hs
          exact lr_quiet_trans q (lr_quiet_mk _ _ [] k1
            (show s3.ctx.ptr ≤ ctx2.ptr by rw [k2]; exact Nat.le_add_right _ _)
            rfl rfl rfl rfl rfl rfl (List.append_nil _).symm plain_nil)
      · rw [if_pos (by simp [hk])] at h
        cases h
        exact lr_quiet_trans q1 q2

/-- What the coverage analysis leaves in `pc_coverage`, when it returns. -/
theorem lr_cover_pc {E : lr_env} {wh : locus} {cat : Nat} {st st' : lr_state} {b e : Nat}
    (h : lr_cover E wh cat st b e = some st') :
    st'.pc_coverage =
      if st.base < 2 ^ 64 - 2 ∧ st.retval = true ∧
          (st.coverage_map.isSome = true ∨ st.pc_coverage.isSome = true) then
        st.pc_coverage.map (fun pc => coverage_add pc (u64 (b + st.base)) (e - b))
      else st.pc_coverage := by
  unfold lr_cover at h
  by_cases hg : st.base < 2 ^ 64 - 2 ∧ st.retval = true ∧
      (st.coverage_map.isSome = true ∨ st.pc_coverage.isSome = true)
  · rw [if_pos hg] at h
    rw [if_pos hg]
    dsimp only at h
    cases hm : st.coverage_map with
    | none =>
      rw [hm] at h
      dsimp only at h
      cases hp : st.pc_coverage with
      | none =>
        rw [hp] at h
        cases h
        rw [hp]
        rfl
      | some pc =>
        rw [hp] at h
        cases h
        rfl
    | some cm =>
      rw [hm] at h
      dsimp only at h
      cases ha : coverage_map_add E.mc cm (u64 (b + st.base)) (e - b) wh cat with
      | none =>
        rw [ha] at h
        cases h
      | some r =>
        obtain ⟨cm', ds⟩ := r
        rw [ha] at h
        dsimp only at h
        cases hp : st.pc_coverage with
        | none =>
          rw [hp] at h
          cases h
          rfl
        | some pc =>
          rw [hp] at h
          cases h
          rfl
  · rw [if_neg hg] at h
    rw [if_neg hg]
    cases h
    rfl

/-- Without a coverage map the coverage analysis returns, and it changes
`pc_coverage` only. -/
theorem lr_cover_none (E : lr_env) (wh : locus) (cat : Nat) (st : lr_state) (b e : Nat)
    (h : st.coverage_map = none) :
    ∃ pc, lr_cover E wh cat st b e = some { st with pc_coverage := pc } := by
  obtain ⟨ctx, rel, cov, cm, pc, rv, ov, base, ds⟩ := st
  simp only at h
  subst h
  unfold lr_cover
  split_ifs
  · cases pc with
    | none => exact ⟨none, rfl⟩
    | some pc => exact ⟨_, rfl⟩
  · exact ⟨pc, rfl⟩

theorem lr_range_none (E : lr_env) (wh : locus) (cat : Nat) (st : lr_state) (b e : endpoint)
    (h : st.coverage_map = none) :
    lr_range E wh cat st b e = some (range_state E wh cat st b e) := by
  obtain ⟨ctx, rel, cov, cm, pc, rv, ov, base, ds⟩ := st
  simp only at h
  subst h
  unfold lr_range range_state range_diags range_pc lr_cover no_base_error
    negative_range_message empty_range_message
  dsimp only
  generalize 2 ^ 64 - 1 = N
  generalize 2 ^ 64 - 2 = M
  by_cases h1 : e.addr < b.addr
  · have h2 : ¬ b.addr < e.addr := by omega
    by_cases h3 : base = N <;> simp [h1, h2, h3]
  · by_cases h2 : b.addr = e.addr
    · have h4 : ¬ b.addr < e.addr := by omega
      by_cases h3 : base = N <;> simp [h1, h2, h3]
    · have h4 : b.addr < e.addr := by omega
      rcases eq_or_ne base N with h3 | h3
      · subst h3
        by_cases h5 : base < M <;> cases rv <;> cases pc <;> simp [h1, h2, h4, h5]
      · by_cases h5 : base < M <;> cases rv <;> cases pc <;> simp [h1, h2, h4, h5, h3]

theorem escape_value_ne_zero (a : Nat) : escape_value a ≠ 0 := by
  unfold escape_value
  split_ifs <;> norm_num

theorem lr_finish_ext (wh : locus) (st : lr_state) : lr_ext st (lr_finish wh st) :=
  lr_ext_mk _ _ [] rfl le_rfl rfl rfl rfl (List.append_nil _).symm no_overlap_error_nil

theorem lr_tail_terminator (E : lr_env) (file : elf_file) (c : cu) (sec_id : section_id)
    (wh : locus) (cat : Nat) (st : lr_state) (b e : endpoint)
    (h : b.addr = 0 ∧ e.addr = 0 ∧ ¬ b.relocated ∧ ¬ e.relocated) :
    lr_tail E file c sec_id wh cat st b e = some (lr_step.stop (lr_finish wh st)) := by
  unfold lr_tail
  rw [if_pos h]

theorem lr_tail_selector (E : lr_env) (file : elf_file) (c : cu) (sec_id : section_id)
    (wh : locus) (cat : Nat) (st : lr_state) (b e : endpoint)
    (h : b.addr = escape_value c.head.address_size) :
    lr_tail E file c sec_id wh cat st b e =
      some (lr_step.next (lr_finish wh (lr_selector E wh cat st e))) := by
  have h0 : ¬ (b.addr = 0 ∧ e.addr = 0 ∧ ¬ b.relocated ∧ ¬ e.relocated) := by
    rintro ⟨h1, _⟩
    exact escape_value_ne_zero _ (h.symm.trans h1)
  unfold lr_tail
  rw [if_neg h0, if_neg (not_not.2 h)]

theorem lr_locexpr_ne_stop (E : lr_env) (file : elf_file) (c : cu) (wh : locus)
    (st s : lr_state) : lr_locexpr E file c wh st ≠ some (lr_step.stop s) := by
  intro h
  unfold lr_locexpr at h
  dsimp only at h
  split at h
  · cases h
  · split at h
    · cases h
    · split_ifs at h
      all_goals first
        | cases h
        | (split at h <;> cases h)

/-- The part that reads a location expression returns if every call of
`check_location_expression` does. -/
theorem lr_locexpr_total {E : lr_env} (hE : locexpr_returns E) (file : elf_file) (c : cu)
    (wh : locus) (st : lr_state) : ∃ step, lr_locexpr E file c wh st = some step := by
  unfold lr_locexpr
  dsimp only
  generalize lr_check_overlap st wh (read_ctx_get_offset st.ctx) 2 = s1
  cases hr : read_ctx_read_2ubyte s1.ctx with
  | none => exact ⟨_, rfl⟩
  | some p =>
    obtain ⟨len, cx⟩ := p
    dsimp only
    obtain ⟨r, hc⟩ := hE file cx c (read_ctx_get_offset cx) s1.rel len wh
    rw [hc]
    dsimp only
    split_ifs
    all_goals first
      | exact ⟨_, rfl⟩
      | (split <;> exact ⟨_, rfl⟩)

theorem lr_tail_ranges (E : lr_env) (file : elf_file) (c : cu) (sec_id : section_id)
    (wh : locus) (cat : Nat) (st : lr_state) (b e : endpoint) {s0 : lr_state}
    (h0 : ¬ (b.addr = 0 ∧ e.addr = 0 ∧ ¬ b.relocated ∧ ¬ e.relocated))
    (h1 : b.addr ≠ escape_value c.head.address_size)
    (hr : lr_range E wh cat st b e = some s0) (hs : sec_id ≠ section_id.sec_loc) :
    lr_tail E file c sec_id wh cat st b e = some (lr_step.next (lr_finish wh s0)) := by
  unfold lr_tail lr_payload
  rw [if_neg h0, if_pos h1, hr]
  dsimp only
  rw [if_neg hs]

theorem lr_tail_loc (E : lr_env) (file : elf_file) (c : cu) (sec_id : section_id)
    (wh : locus) (cat : Nat) (st : lr_state) (b e : endpoint) {s0 : lr_state}
    (h0 : ¬ (b.addr = 0 ∧ e.addr = 0 ∧ ¬ b.relocated ∧ ¬ e.relocated))
    (h1 : b.addr ≠ escape_value c.head.address_size)
    (hr : lr_range E wh cat st b e = some s0) (hs : sec_id = section_id.sec_loc) :
    lr_tail E file c sec_id wh cat st b e =
      (match lr_locexpr E file c wh s0 with
        | some (lr_step.next s) => some (lr_step.next (lr_finish wh s))
        | r => r) := by
  unfold lr_tail lr_payload
  rw [if_neg h0, if_pos h1, hr]
  dsimp only
  rw [if_pos hs]

theorem lr_tail_range_none (E : lr_env) (file : elf_file) (c : cu) (sec_id : section_id)
    (wh : locus) (cat : Nat) (st : lr_state) (b e : endpoint)
    (h0 : ¬ (b.addr = 0 ∧ e.addr = 0 ∧ ¬ b.relocated ∧ ¬ e.relocated))
    (h1 : b.addr ≠ escape_value c.head.address_size)
    (hr : lr_range E wh cat st b e = none) :
    lr_tail E file c sec_id wh cat st b e = none := by
  unfold lr_tail lr_payload
  rw [if_neg h0, if_pos h1, hr]

/-- A payload entry whose tests on the range return the state `s0`, in a round that
returns: the round goes on from `s0` by quiet steps, and it does not end the list. -/
theorem lr_tail_payload_of (E : lr_env) (file : elf_file) (c : cu) (sec_id : section_id)
    (wh : locus) (cat : Nat) (st : lr_state) (b e : endpoint) {s0 : lr_state} {step : lr_step}
    (h0 : ¬ (b.addr = 0 ∧ e.addr = 0 ∧ ¬ b.relocated ∧ ¬ e.relocated))
    (h1 : b.addr ≠ escape_value c.head.address_size)
    (hr : lr_range E wh cat st b e = some s0)
    (ht : lr_tail E file c sec_id wh cat st b e = some step) :
    ∃ s, lr_quiet s0 s ∧
      (step = lr_step.next (lr_finish wh s) ∨ step = lr_step.fail s) ∧
      (sec_id ≠ section_id.sec_loc → s = s0 ∧ step = lr_step.next (lr_finish wh s)) := by
  by_cases hs : sec_id = section_id.sec_loc
  · rw [lr_tail_loc E file c sec_id wh cat st b e h0 h1 hr hs] at ht
    cases hl : lr_locexpr E file c wh s0 with
    | none =>
      rw [hl] at ht
      cases ht
    | some r =>
      have hq := lr_locexpr_quiet hl
      rw [hl] at ht
      cases r with
      | next s =>
        cases ht
        exact ⟨s, hq, Or.inl rfl, fun h => absurd hs h⟩
      | stop s => exact absurd hl (lr_locexpr_ne_stop E file c wh s0 s)
      | fail s =>
        cases ht
        exact ⟨s, hq, Or.inr rfl, fun h => absurd hs h⟩
  · rw [lr_tail_ranges E file c sec_id wh cat st b e h0 h1 hr hs] at ht
    cases ht
    exact ⟨_, lr_quiet_refl _, Or.inl rfl, fun _ => ⟨rfl, rfl⟩⟩

/-- A payload entry whose tests on the range return the state `s0`: the round returns
if the check of the location expression does. -/
theorem lr_tail_payload (E : lr_env) (file : elf_file) (c : cu) (sec_id : section_id)
    (wh : locus) (cat : Nat) (st : lr_state) (b e : endpoint) {s0 : lr_state}
    (h0 : ¬ (b.addr = 0 ∧ e.addr = 0 ∧ ¬ b.relocated ∧ ¬ e.relocated))
    (h1 : b.addr ≠ escape_value c.head.address_size)
    (hr : lr_range E wh cat st b e = some s0)
    (hloc : sec_id = section_id.sec_loc → locexpr_returns E) :
    ∃ s step, lr_tail E file c sec_id wh cat st b e = some step ∧ lr_quiet s0 s ∧
      (step = lr_step.next (lr_finish wh s) ∨ step = lr_step.fail s) ∧
      (sec_id ≠ section_id.sec_loc → s = s0 ∧ step = lr_step.next (lr_finish wh s)) := by
  have ht : ∃ step, lr_tail E file c sec_id wh cat st b e = some step := by
    by_cases hs : sec_id = section_id.sec_loc
    · rw [lr_tail_loc E file c sec_id wh cat st b e h0 h1 hr hs]
      obtain ⟨r, hl⟩ := lr_locexpr_total (hloc hs) file c wh s0
      rw [hl]
      cases r <;> exact ⟨_, rfl⟩
    · exact ⟨_, lr_tail_ranges E file c sec_id wh cat st b e h0 h1 hr hs⟩
  obtain ⟨step, ht⟩ := ht
  obtain ⟨s, h⟩ := lr_tail_payload_of E file c sec_id wh cat st b e h0 h1 hr ht
  exact ⟨s, step, ht, h⟩

/-- A round ends the list only at an entry `(0, 0)` without relocations. -/
theorem lr_tail_stop (E : lr_env) (file : elf_file) (c : cu) (sec_id : section_id)
    (wh : locus) (cat : Nat) (st : lr_state) (b e : endpoint) (s : lr_state)
    (h : lr_tail E file c sec_id wh cat st b e = some (lr_step.stop s)) :
    b.addr = 0 ∧ e.addr = 0 ∧ ¬ b.relocated ∧ ¬ e.relocated := by
  by_contra h0
  by_cases h1 : b.addr = escape_value c.head.address_size
  · rw [lr_tail_selector E file c sec_id wh cat st b e h1] at h
    cases h
  · cases hr : lr_range E wh cat st b e with
    | none =>
      rw [lr_tail_range_none E file c sec_id wh cat st b e h0 h1 hr] at h
      cases h
    | some s0 =>
      obtain ⟨s', _, hc, _⟩ := lr_tail_payload_of E file c sec_id wh cat st b e h0 h1 hr h
      rcases hc with hc | hc <;> cases hc

theorem range_diags_no_overlap (E : lr_env) (wh : locus) (cat : Nat) (st : lr_state)
    (b e : endpoint) : ∀ d ∈ range_diags E wh cat st b e, ¬ is_overlap_error d := by
  unfold range_diags
  refine no_overlap_error_append ?_ ?_
  · split_ifs
    · exact no_overlap_error_single (not_overlap_error_of_format _ _ _ (by decide))
    · exact no_overlap_error_nil
  · split_ifs
    · exact no_overlap_error_single (not_overlap_error_message _ _ _ _)
    · exact no_overlap_error_single (not_overlap_error_message _ _ _ _)
    · exact no_overlap_error_nil

theorem range_state_ext (E : lr_env) (wh : locus) (cat : Nat) (st : lr_state)
    (b e : endpoint) : lr_ext st (range_state E wh cat st b e) :=
  lr_ext_mk _ _ _ rfl le_rfl rfl rfl rfl rfl (range_diags_no_overlap E wh cat st b e)

theorem lr_selector_ext (E : lr_env) (wh : locus) (cat : Nat) (st : lr_state)
    (e : endpoint) : lr_ext st (lr_selector E wh cat st e) := by
  unfold lr_selector
  split_ifs
  · exact lr_ext_mk _ _ _ rfl le_rfl rfl rfl rfl rfl
      (no_overlap_error_single (not_overlap_error_message _ _ _ _))
  · exact lr_ext_mk _ _ [] rfl le_rfl rfl rfl rfl (List.append_nil _).symm no_overlap_error_nil

/-- Without a coverage map the classification part of a round returns, in a state
that comes after the one it started in. -/
theorem lr_tail_ext (E : lr_env) (file : elf_file) (c : cu) (sec_id : section_id)
    (wh : locus) (cat : Nat) (st : lr_state) (b e : endpoint) (hm : st.coverage_map = none)
    (hloc : sec_id = section_id.sec_loc → locexpr_returns E) :
    ∃ step, lr_tail E file c sec_id wh cat st b e = some step ∧ lr_ext st step.state := by
  by_cases h0 : b.addr = 0 ∧ e.addr = 0 ∧ ¬ b.relocated ∧ ¬ e.relocated
  · exact ⟨_, lr_tail_terminator E file c sec_id wh cat st b e h0, lr_finish_ext wh st⟩
  · by_cases h1 : b.addr = escape_value c.head.address_size
    · exact ⟨_, lr_tail_selector E file c sec_id wh cat st b e h1,
        lr_ext_trans (lr_selector_ext E wh cat st e) (lr_finish_ext wh _)⟩
    · obtain ⟨s, step, hs, hq, hc, _⟩ := lr_tail_payload E file c sec_id wh cat st b e h0 h1
        (lr_range_none E wh cat st b e hm) hloc
      refine ⟨step, hs, ?_⟩
      have hx := lr_ext_trans (range_state_ext E wh cat st b e) hq.ext
      rcases hc with rfl | rfl
      · exact lr_ext_trans hx (lr_finish_ext wh s)
      · exact hx

/-- Without a coverage map a round returns, in a state that comes after the one it
started in; if the loop goes on, the cursor has moved on. -/
theorem lr_body_spec (E : lr_env) (file : elf_file) (c : cu) (sec_id : section_id)
    (wh : locus) (cat : Nat) (st : lr_state) (hm : st.coverage_map = none)
    (hloc : sec_id = section_id.sec_loc → locexpr_returns E) :
    ∃ step, lr_body E file c sec_id wh cat st = some step ∧ lr_ext st step.state ∧
      (∀ s, step = lr_step.next s → st.ctx.ptr < s.ctx.ptr) := by
  unfold lr_body
  dsimp only
  obtain ⟨_, b2, _, _, b5, b6⟩ :=
    lr_begin_spec E file c (locus.sub sec_id (read_ctx_get_offset st.ctx) wh) st
  rcases hb : lr_begin E file c (locus.sub sec_id (read_ctx_get_offset st.ctx) wh) st with
    ⟨st1, _ | b⟩
  · rw [hb] at b5
    exact ⟨_, rfl, b5, fun s h => by cases h⟩
  · rw [hb] at b2 b5 b6
    dsimp only at b2 b5 b6 ⊢
    have p1 := b6 b rfl
    obtain ⟨_, e2, _, _, e5, _⟩ :=
      lr_end_spec E file c (locus.sub sec_id (read_ctx_get_offset st.ctx) wh) cat st1 b
    rcases he : lr_end E file c (locus.sub sec_id (read_ctx_get_offset st.ctx) wh) cat st1 b with
      ⟨st2, _ | e⟩
    · rw [he] at e5
      exact ⟨_, rfl, lr_ext_trans b5 e5, fun s h => by cases h⟩
    · rw [he] at e2 e5
      dsimp only at e2 e5 ⊢
      obtain ⟨step, hs, hx⟩ := lr_tail_ext E file c sec_id
        (locus.sub sec_id (read_ctx_get_offset st.ctx) wh) cat st2 b e
        (e2.trans (b2.trans hm)) hloc
      refine ⟨step, hs, lr_ext_trans b5 (lr_ext_trans e5 hx), ?_⟩
      intro s h
      subst h
      have p2 := e5.ptr
      have p3 := hx.ptr
      simp only [lr_step.state] at p3
      omega

theorem lr_ext_fail {st s : lr_state} (h : lr_ext st s) :
    lr_ext st { s with retval := false } := by
  obtain ⟨D, hD, _, z, c, s'⟩ := h.diags
  exact ⟨h.data, h.ptr, h.map, fun _ => rfl, h.overlap, D, hD, fun _ => rfl, z, c, s'⟩

/-- Without a coverage map the loop of `check_loc_or_range_ref` returns when the fuel
exceeds the number of bytes that are left. -/
theorem lr_loop_spec (E : lr_env) (file : elf_file) (c : cu) (sec_id : section_id)
    (wh : locus) (cat : Nat) (hloc : sec_id = section_id.sec_loc → locexpr_returns E)
    (fuel : Nat) :
    ∀ st : lr_state, st.coverage_map = none → st.ctx.data.length - st.ctx.ptr < fuel →
      ∃ st', lr_loop E file c sec_id wh cat fuel st = some st' ∧ lr_ext st st' := by
  induction fuel with
  | zero =>
    intro st _ h
    omega
  | succ n ih =>
    intro st hm hf
    unfold lr_loop
    by_cases he : read_ctx_eof st.ctx = true
    · rw [if_pos he]
      exact ⟨st, rfl, lr_ext_refl st⟩
    · rw [if_neg he]
      obtain ⟨step, hs, hx, hp⟩ := lr_body_spec E file c sec_id wh cat st hm hloc
      rw [hs]
      cases step with
      | fail s => exact ⟨_, rfl, lr_ext_fail hx⟩
      | stop s => exact ⟨_, rfl, hx⟩
      | next s =>
        dsimp only
        have h1 := hp s rfl
        have h2 : s.ctx.data = st.ctx.data := hx.data
        have h3 : st.ctx.ptr + 1 ≤ st.ctx.data.length := by
          simpa [read_ctx_eof, read_ctx_need_data] using he
        obtain ⟨st', h4, h5⟩ := ih s (hx.map hm) (by rw [h2]; omega)
        exact ⟨st', h4, lr_ext_trans hx h5⟩

theorem check_loc_or_range_ref_entry (E : lr_env) (fuel : Nat) (file : elf_file)
    (data : List Nat) (c : cu) (sec_id : section_id) (io : lr_input) (addr : Nat)
    (wh : locus) (cat : Nat) (ha : lr_asserts E sec_id cat) (hin : addr ≤ data.length) :
    check_loc_or_range_ref E fuel file data c sec_id io addr wh cat =
      lr_loop E file c sec_id wh cat fuel (lr_entry file data c io addr wh) := by
  obtain ⟨a1, a2, a3⟩ := ha
  unfold check_loc_or_range_ref lr_entry
  rw [if_neg (not_not.2 a1), if_neg (not_not.2 a2), if_neg (not_not.2 a3)]
  have hs : read_ctx_skip (read_ctx_init data file.other_byte_order) addr =
      some ⟨data, addr, file.other_byte_order⟩ := by
    simp [read_ctx_skip, read_ctx_init, read_ctx_need_data, hin]
  dsimp only
  rw [hs]
  dsimp only
  split_ifs <;> rfl

/-- An entry whose end is not above its beginning: the tests on the range return
without a look at the coverage map. -/
theorem lr_range_of_le (E : lr_env) (wh : locus) (cat : Nat) (st : lr_state) (b e : endpoint)
    (h : e.addr ≤ b.addr) :
    lr_range E wh cat st b e = some (range_state E wh cat st b e) := by
  obtain ⟨ctx, rel, cov, cm, pc, rv, ov, base, ds⟩ := st
  unfold lr_range range_state range_diags range_pc no_base_error
    negative_range_message empty_range_message
  dsimp only
  generalize 2 ^ 64 - 1 = N
  generalize 2 ^ 64 - 2 = M
  have h2 : ¬ b.addr < e.addr := by omega
  by_cases h1 : e.addr < b.addr
  · by_cases h3 : base = N <;> simp [h1, h2, h3]
  · have h4 : b.addr = e.addr := by omega
    by_cases h3 : base = N <;> simp [h1, h2, h3, h4]

theorem lr_cover_frame {E : lr_env} {wh : locus} {cat : Nat} {st st' : lr_state} {b e : Nat}
    (h : lr_cover E wh cat st b e = some st') :
    st'.ctx = st.ctx ∧ st'.rel = st.rel ∧ st'.coverage = st.coverage ∧
      st'.retval = st.retval ∧ st'.overlap = st.overlap ∧ st'.base = st.base := by
  unfold lr_cover at h
  split_ifs at h
  · dsimp only at h
    cases hm : st.coverage_map with
    | none =>
      rw [hm] at h
      dsimp only at h
      cases hp : st.pc_coverage with
      | none =>
        rw [hp] at h
        cases h
        simp
      | some pc =>
        rw [hp] at h
        cases h
        simp
    | some cm =>
      rw [hm] at h
      dsimp only at h
      cases ha : coverage_map_add E.mc cm (u64 (b + st.base)) (e - b) wh cat with
      | none =>
        rw [ha] at h
        cases h
      | some r =>
        obtain ⟨cm', ds⟩ := r
        rw [ha] at h
        dsimp only at h
        cases hp : st.pc_coverage with
        | none =>
          rw [hp] at h
          cases h
          simp
        | some pc =>
          rw [hp] at h
          cases h
          simp
  · cases h
    simp

/-- The tests of a payload entry on its range change neither the cursor nor `retval`
nor the base. -/
theorem lr_range_frame {E : lr_env} {wh : locus} {cat : Nat} {st s : lr_state}
    {b e : endpoint} (h : lr_range E wh cat st b e = some s) :
    s.ctx = st.ctx ∧ s.rel = st.rel ∧ s.coverage = st.coverage ∧ s.retval = st.retval ∧
      s.overlap = st.overlap ∧ s.base = st.base := by
  by_cases hle : e.addr ≤ b.addr
  · rw [lr_range_of_le E wh cat st b e hle] at h
    cases h
    simp [range_state]
  · unfold lr_range at h
    dsimp only at h
    rw [if_neg (by omega), if_neg (by omega)] at h
    have hf := lr_cover_frame h
    split_ifs at hf <;> exact hf

/-- The `pc_coverage` after the tests on a range with the end above the beginning. -/
theorem lr_range_pc {E : lr_env} {wh : locus} {cat : Nat} {st s : lr_state}
    {b e : endpoint} (hlt : b.addr < e.addr) (h : lr_range E wh cat st b e = some s) :
    s.pc_coverage =
      if st.base < 2 ^ 64 - 2 ∧ st.retval = true ∧
          (st.coverage_map.isSome = true ∨ st.pc_coverage.isSome = true) then
        st.pc_coverage.map (fun pc => coverage_add pc (u64 (b.addr + st.base)) (e.addr - b.addr))
      else st.pc_coverage := by
  unfold lr_range at h
  dsimp only at h
  rw [if_neg (by omega), if_neg (by omega)] at h
  have hf := lr_cover_pc h
  split_ifs at hf ⊢ <;> exact hf

theorem lr_finish_diags (wh : locus) (st : lr_state) : (lr_finish wh st).diags = st.diags :=
  rfl

theorem lr_finish_pc (wh : locus) (st : lr_state) :
    (lr_finish wh st).pc_coverage = st.pc_coverage :=
  rfl

theorem not_negative_range_of_not_message {d : diag} (h : d.is_message = false) :
    ¬ is_negative_range d := by
  rintro ⟨category, w, args, rfl⟩
  cases h

theorem range_diags_negative (E : lr_env) (wh : locus) (cat : Nat) (st : lr_state)
    (b e : endpoint) :
    (∃ d ∈ range_diags E wh cat st b e, is_negative_range d) ↔ e.addr < b.addr := by
  constructor
  · rintro ⟨d, hd, category, w, args, rfl⟩
    unfold range_diags at hd
    rcases List.mem_append.1 hd with h | h
    · split_ifs at h
      · rw [List.mem_singleton] at h
        cases h
      · cases h
    · by_contra hlt
      rw [if_neg hlt] at h
      split_ifs at h
      · rw [List.mem_singleton] at h
        unfold empty_range_message at h
        injection h with _ _ h3 _
        revert h3
        decide
      · cases h
  · intro hlt
    refine ⟨negative_range_message E wh cat b e, ?_, _, _, _, rfl⟩
    unfold range_diags
    refine List.mem_append_right _ ?_
    rw [if_pos hlt]
    exact List.mem_singleton.2 rfl

/-- C14: at an entry that is neither the list end nor a base address selection, in a
walk without a coverage map (the program never makes one), the round returns, and
among the messages that it adds there is a `wr_message` of the negative range iff
`end_addr < begin_addr`, the addresses being the relocated ones; it is then the
message with the category `cat | mc_error` and the two addresses.  In `.debug_loc` this
is for an environment in which the check of the location expression returns. -/
theorem C14_negative_range_iff (E : lr_env) (file : elf_file) (c : cu) (sec_id : section_id)
    (wh : locus) (cat : Nat) (st : lr_state) (b e : endpoint)
    (h0 : ¬ (b.addr = 0 ∧ e.addr = 0 ∧ ¬ b.relocated ∧ ¬ e.relocated))
    (h1 : b.addr ≠ escape_value c.head.address_size) (hm : st.coverage_map = none)
    (hloc : sec_id = section_id.sec_loc → locexpr_returns E) :
    ∃ step D, lr_tail E file c sec_id wh cat st b e = some step ∧
      step.state.diags = st.diags ++ D ∧
      ((∃ d ∈ D, is_negative_range d) ↔ e.addr < b.addr) ∧
      (e.addr < b.addr → negative_range_message E wh cat b e ∈ D) := by
  obtain ⟨s, step, hs, hq, hc, _⟩ := lr_tail_payload E file c sec_id wh cat st b e h0 h1
    (lr_range_none E wh cat st b e hm) hloc
  obtain ⟨D', hD', hn⟩ := hq.diags
  have hd : s.diags = st.diags ++ (range_diags E wh cat st b e ++ D') := by
    rw [hD']
    simp [range_state]
  have hiff := range_diags_negative E wh cat st b e
  refine ⟨step, range_diags E wh cat st b e ++ D', hs, ?_, ?_, ?_⟩
  · rcases hc with rfl | rfl <;> exact hd
  · constructor
    · rintro ⟨d, hd, hneg⟩
      rcases List.mem_append.1 hd with h | h
      · exact hiff.1 ⟨d, h, hneg⟩
      · exact absurd hneg (hn d h)
    · intro hlt
      obtain ⟨d, hd, hneg⟩ := hiff.2 hlt
      exact ⟨d, List.mem_append_left _ hd, hneg⟩
  · intro hlt
    refine List.mem_append_left _ ?_
    unfold range_diags
    refine List.mem_append_right _ ?_
    rw [if_pos hlt]
    exact List.mem_singleton.2 rfl

theorem C14_negative_range_iff_witness :
    (¬ ((⟨0xFF, false, 0⟩ : endpoint).addr = 0 ∧ (⟨0, false, 0⟩ : endpoint).addr = 0 ∧
        ¬ (⟨0xFF, false, 0⟩ : endpoint).relocated ∧ ¬ (⟨0, false, 0⟩ : endpoint).relocated) ∧
      (⟨0xFF, false, 0⟩ : endpoint).addr ≠ escape_value (cu32 0x1000).head.address_size ∧
      (st_after_entry S2_bytes 0x1000).coverage_map = none ∧
      locexpr_returns env_plain ∧
      ∃ step D, lr_tail env_plain file32 (cu32 0x1000) section_id.sec_ranges (entry_at 0)
          mc_bits.mc_ranges (st_after_entry S2_bytes 0x1000) ⟨0xFF, false, 0⟩ ⟨0, false, 0⟩ =
            some step ∧
        step.state.diags = (st_after_entry S2_bytes 0x1000).diags ++ D ∧
        ((∃ d ∈ D, is_negative_range d) ↔
          (⟨0, false, 0⟩ : endpoint).addr < (⟨0xFF, false, 0⟩ : endpoint).addr) ∧
        ((⟨0, false, 0⟩ : endpoint).addr < (⟨0xFF, false, 0⟩ : endpoint).addr →
          negative_range_message env_plain (entry_at 0) mc_bits.mc_ranges ⟨0xFF, false, 0⟩
            ⟨0, false, 0⟩ ∈ D)) ∧
      (check_loc_or_range_ref env_plain 30 file32 S2_bytes (cu32 0x1000) section_id.sec_ranges
          io_start 0 (who_info 11) mc_bits.mc_ranges).map (fun r => r.diags.head?) =
        some (some (diag.message (mc_bits.mc_ranges ||| mc_bits.mc_error) (entry_at 0)
          ": has negative range %s.\n" [fmt_arg.range 0xFF 0])) :=
  ⟨⟨by decide, by decide, rfl, env_plain_returns,
    C14_negative_range_iff env_plain file32 (cu32 0x1000) section_id.sec_ranges (entry_at 0)
      mc_bits.mc_ranges (st_after_entry S2_bytes 0x1000) ⟨0xFF, false, 0⟩ ⟨0, false, 0⟩
      (by decide) (by decide) rfl (fun _ => env_plain_returns)⟩, by decide⟩

/-- C13, as the code has it: at a payload entry with `begin < end`, when the base is
below `2 ^ 64 - 2` (the code leaves out `(uint64_t)-2` as well as the value
`(uint64_t)-1` of a missing base), `retval` is still true and there is a
`pc_coverage`, every round that returns has added to `pc_coverage` exactly the
interval that starts at `(begin + base) mod 2 ^ 64` and has the length `end - begin`;
without a coverage map the round does return (in `.debug_loc`: in an environment in
which the check of the location expression returns); and when `base + end` is below
`2 ^ 64` that interval is `[base + begin, base + end)`. -/
theorem C13_pc_coverage_interval (E : lr_env) (file : elf_file) (c : cu)
    (sec_id : section_id) (wh : locus) (cat : Nat) (st : lr_state) (b e : endpoint)
    (pc : coverage) (h1 : b.addr ≠ escape_value c.head.address_size)
    (hlt : b.addr < e.addr) (hbase : st.base < 2 ^ 64 - 2) (hret : st.retval = true)
    (hpc : st.pc_coverage = some pc)
    (hloc : sec_id = section_id.sec_loc → locexpr_returns E) :
    (∀ step, lr_tail E file c sec_id wh cat st b e = some step →
        step.state.pc_coverage =
          some ⟨pc.ranges ++ [(u64 (b.addr + st.base), e.addr - b.addr)]⟩) ∧
      (st.coverage_map = none → ∃ step, lr_tail E file c sec_id wh cat st b e = some step) ∧
      (st.base + e.addr < 2 ^ 64 →
        u64 (b.addr + st.base) = st.base + b.addr ∧
          st.base + b.addr + (e.addr - b.addr) = st.base + e.addr) := by
  have h0 : ¬ (b.addr = 0 ∧ e.addr = 0 ∧ ¬ b.relocated ∧ ¬ e.relocated) := by
    rintro ⟨h2, h3, _⟩
    omega
  refine ⟨?_, ?_, ?_⟩
  · intro step hstep
    cases hr : lr_range E wh cat st b e with
    | none =>
      rw [lr_tail_range_none E file c sec_id wh cat st b e h0 h1 hr] at hstep
      cases hstep
    | some s0 =>
      obtain ⟨s, hq, hc, _⟩ := lr_tail_payload_of E file c sec_id wh cat st b e h0 h1 hr hstep
      have hs0 := lr_range_pc hlt hr
      rw [if_pos ⟨hbase, hret, Or.inr (by rw [hpc]; rfl)⟩, hpc] at hs0
      have hadd : coverage_add pc (u64 (b.addr + st.base)) (e.addr - b.addr) =
          ⟨pc.ranges ++ [(u64 (b.addr + st.base), e.addr - b.addr)]⟩ := by
        unfold coverage_add
        rw [if_neg (by omega)]
      have hfin : s.pc_coverage =
          some ⟨pc.ranges ++ [(u64 (b.addr + st.base), e.addr - b.addr)]⟩ := by
        rw [hq.pc_coverage, hs0, Option.map_some', hadd]
      rcases hc with rfl | rfl <;> exact hfin
  · intro hm
    obtain ⟨step, hs, _⟩ := lr_tail_ext E file c sec_id wh cat st b e hm hloc
    exact ⟨step, hs⟩
  · intro hsum
    constructor
    · unfold u64
      rw [Nat.mod_eq_of_lt (by omega)]
      omega
    · omega

theorem C13_pc_coverage_interval_witness :
    ((⟨0x1000, false, 0⟩ : endpoint).addr ≠ escape_value (cu32 0x1000).head.address_size ∧
      (⟨0x1000, false, 0⟩ : endpoint).addr < (⟨0x2000, false, 0⟩ : endpoint).addr ∧
      (st_after_entry S1_bytes 0x1000).base < 2 ^ 64 - 2 ∧
      (st_after_entry S1_bytes 0x1000).retval = true ∧
      (st_after_entry S1_bytes 0x1000).pc_coverage = some ⟨[]⟩ ∧
      locexpr_returns env_plain ∧
      (∀ step, lr_tail env_plain file32 (cu32 0x1000) section_id.sec_ranges (entry_at 0)
          mc_bits.mc_ranges (st_after_entry S1_bytes 0x1000) ⟨0x1000, false, 0⟩
          ⟨0x2000, false, 0⟩ = some step →
        step.state.pc_coverage =
          some ⟨(⟨[]⟩ : coverage).ranges ++
            [(u64 ((⟨0x1000, false, 0⟩ : endpoint).addr + (st_after_entry S1_bytes 0x1000).base),
              (⟨0x2000, false, 0⟩ : endpoint).addr - (⟨0x1000, false, 0⟩ : endpoint).addr)]⟩) ∧
      ((st_after_entry S1_bytes 0x1000).coverage_map = none →
        ∃ step, lr_tail env_plain file32 (cu32 0x1000) section_id.sec_ranges (entry_at 0)
          mc_bits.mc_ranges (st_after_entry S1_bytes 0x1000) ⟨0x1000, false, 0⟩
          ⟨0x2000, false, 0⟩ = some step) ∧
      ((st_after_entry S1_bytes 0x1000).base + (⟨0x2000, false, 0⟩ : endpoint).addr < 2 ^ 64 →
        u64 ((⟨0x1000, false, 0⟩ : endpoint).addr + (st_after_entry S1_bytes 0x1000).base) =
            (st_after_entry S1_bytes 0x1000).base + (⟨0x1000, false, 0⟩ : endpoint).addr ∧
          (st_after_entry S1_bytes 0x1000).base + (⟨0x1000, false, 0⟩ : endpoint).addr +
              ((⟨0x2000, false, 0⟩ : endpoint).addr - (⟨0x1000, false, 0⟩ : endpoint).addr) =
            (st_after_entry S1_bytes 0x1000).base + (⟨0x2000, false, 0⟩ : endpoint).addr)) ∧
      (check_loc_or_range_ref env_plain 30 file32 S1_bytes (cu32 0x1000) section_id.sec_ranges
          io_start 0 (who_info 11) mc_bits.mc_ranges).map
            (fun r => (r.pc_coverage, r.diags, r.retval)) =
        some (some ⟨[(0x2000, 0x1000)]⟩, [], true) :=
  ⟨⟨by decide, by decide, by decide, rfl, rfl, env_plain_returns,
    C13_pc_coverage_interval env_plain file32 (cu32 0x1000) section_id.sec_ranges (entry_at 0)
      mc_bits.mc_ranges (st_after_entry S1_bytes 0x1000) ⟨0x1000, false, 0⟩ ⟨0x2000, false, 0⟩
      ⟨[]⟩ (by decide) (by decide) (by decide) rfl rfl (fun _ => env_plain_returns)⟩,
    by decide⟩

/-- C13, as stated, fails: with `low_pc = 2 ^ 64 - 2`, which is not the value
`2 ^ 64 - 1` of a missing base, the walk over the list `(0x10, 0x20)`, `(0, 0)` returns
true without a message and has added nothing to `pc_coverage`. -/
theorem C13_base_minus_two_adds_nothing :
    (2 ^ 64 - 2 ≠ 2 ^ 64 - 1) ∧
      (check_loc_or_range_ref env_plain 30 file32 one_range_bytes (cu32 (2 ^ 64 - 2))
          section_id.sec_ranges io_start 0 (who_info 11) mc_bits.mc_ranges).map
            (fun r => (r.pc_coverage, r.diags, r.retval, r.base)) =
        some (some ⟨[]⟩, [], true, 2 ^ 64 - 2) := by
  decide

/-- An entry that is not a base address selection leaves the base as it is. -/
theorem lr_tail_base (E : lr_env) (file : elf_file) (c : cu) (sec_id : section_id)
    (wh : locus) (cat : Nat) (st : lr_state) (b e : endpoint) (step : lr_step)
    (h1 : b.addr ≠ escape_value c.head.address_size)
    (h : lr_tail E file c sec_id wh cat st b e = some step) : step.state.base = st.base := by
  by_cases h0 : b.addr = 0 ∧ e.addr = 0 ∧ ¬ b.relocated ∧ ¬ e.relocated
  · rw [lr_tail_terminator E file c sec_id wh cat st b e h0] at h
    cases h
    rfl
  · cases hr : lr_range E wh cat st b e with
    | none =>
      rw [lr_tail_range_none E file c sec_id wh cat st b e h0 h1 hr] at h
      cases h
    | some s0 =>
      obtain ⟨s, hq, hc, _⟩ := lr_tail_payload_of E file c sec_id wh cat st b e h0 h1 hr h
      have hb : s.base = st.base := hq.base.trans (lr_range_frame hr).2.2.2.2.2
      rcases hc with rfl | rfl <;> exact hb

/-- C18: the escape value is `2 ^ (8 * address_size) - 1` for the address sizes 4 and
8.  At an entry whose beginning is the escape value the round goes on to the next
entry with `pc_coverage`, the cursor and the relocation cursor as they are after the
two addresses (nothing is added, no location expression is read); if the end differs
from the base, the base becomes the end and no message is written, and if it equals
the base, the base stays and the message "base address selection doesn't change base
address" (`cat | mc_acc_bloat | mc_impact_3`) is written.  The base then stays for
the entries that follow: no other entry and no read of an address changes it. -/
theorem C18_base_selector (E : lr_env) (file : elf_file) (c : cu) (sec_id : section_id)
    (wh : locus) (cat : Nat) (st : lr_state) (b e : endpoint)
    (hb : b.addr = escape_value c.head.address_size) :
    (∀ a, a = 4 ∨ a = 8 → escape_value a = 2 ^ (8 * a) - 1) ∧
      (∃ s, lr_tail E file c sec_id wh cat st b e = some (lr_step.next s) ∧
        s.pc_coverage = st.pc_coverage ∧ s.coverage_map = st.coverage_map ∧
        s.ctx = st.ctx ∧ s.rel = st.rel ∧ s.retval = st.retval ∧
        (e.addr ≠ st.base → s.base = e.addr ∧ s.diags = st.diags) ∧
        (e.addr = st.base →
          s.base = st.base ∧ s.diags = st.diags ++ [same_base_message E wh cat st.base])) ∧
      (∀ (w : locus) (t : lr_state) (b' e' : endpoint) (step : lr_step),
        b'.addr ≠ escape_value c.head.address_size →
        lr_tail E file c sec_id w cat t b' e' = some step → step.state.base = t.base) ∧
      (∀ (w : locus) (t : lr_state), (lr_begin E file c w t).1.base = t.base) ∧
      (∀ (w : locus) (t : lr_state) (b' : endpoint),
        (lr_end E file c w cat t b').1.base = t.base) := by
  refine ⟨?_, ?_, ?_, ?_, ?_⟩
  · rintro a (rfl | rfl) <;> decide
  · refine ⟨_, lr_tail_selector E file c sec_id wh cat st b e hb, ?_⟩
    unfold lr_selector same_base_message
    by_cases h : e.addr = st.base
    · rw [if_pos h]
      exact ⟨rfl, rfl, rfl, rfl, rfl, fun h' => absurd h h', fun _ => ⟨rfl, rfl⟩⟩
    · rw [if_neg h]
      exact ⟨rfl, rfl, rfl, rfl, rfl, fun _ => ⟨rfl, rfl⟩, fun h' => absurd h' h⟩
  · intro w t b' e' step h1 h
    exact lr_tail_base E file c sec_id w cat t b' e' step h1 h
  · intro w t
    exact (lr_begin_spec E file c w t).2.2.2.1
  · intro w t b'
    exact (lr_end_spec E file c w cat t b').2.2.2.1

theorem C18_base_selector_witness :
    (⟨0xFFFFFFFF, false, 0⟩ : endpoint).addr = escape_value (cu32 0x1000).head.address_size ∧
      ((∀ a, a = 4 ∨ a = 8 → escape_value a = 2 ^ (8 * a) - 1) ∧
      (∃ s, lr_tail env_plain file32 (cu32 0x1000) section_id.sec_ranges (entry_at 8)
          mc_bits.mc_ranges (st_after_entry S1_bytes 0x1000) ⟨0xFFFFFFFF, false, 0⟩
          ⟨0x4000, false, 0⟩ = some (lr_step.next s) ∧
        s.pc_coverage = (st_after_entry S1_bytes 0x1000).pc_coverage ∧
        s.coverage_map = (st_after_entry S1_bytes 0x1000).coverage_map ∧
        s.ctx = (st_after_entry S1_bytes 0x1000).ctx ∧
        s.rel = (st_after_entry S1_bytes 0x1000).rel ∧
        s.retval = (st_after_entry S1_bytes 0x1000).retval ∧
        ((⟨0x4000, false, 0⟩ : endpoint).addr ≠ (st_after_entry S1_bytes 0x1000).base →
          s.base = (⟨0x4000, false, 0⟩ : endpoint).addr ∧
            s.diags = (st_after_entry S1_bytes 0x1000).diags) ∧
        ((⟨0x4000, false, 0⟩ : endpoint).addr = (st_after_entry S1_bytes 0x1000).base →
          s.base = (st_after_entry S1_bytes 0x1000).base ∧
            s.diags = (st_after_entry S1_bytes 0x1000).diags ++
              [same_base_message env_plain (entry_at 8) mc_bits.mc_ranges
                (st_after_entry S1_bytes 0x1000).base])) ∧
      (∀ (w : locus) (t : lr_state) (b' e' : endpoint) (step : lr_step),
        b'.addr ≠ escape_value (cu32 0x1000).head.address_size →
        lr_tail env_plain file32 (cu32 0x1000) section_id.sec_ranges w mc_bits.mc_ranges t b' e' =
          some step → step.state.base = t.base) ∧
      (∀ (w : locus) (t : lr_state), (lr_begin env_plain file32 (cu32 0x1000) w t).1.base = t.base) ∧
      (∀ (w : locus) (t : lr_state) (b' : endpoint),
        (lr_end env_plain file32 (cu32 0x1000) w mc_bits.mc_ranges t b').1.base = t.base)) :=
  ⟨by decide,
    C18_base_selector env_plain file32 (cu32 0x1000) section_id.sec_ranges (entry_at 8)
      mc_bits.mc_ranges (st_after_entry S1_bytes 0x1000) ⟨0xFFFFFFFF, false, 0⟩
      ⟨0x4000, false, 0⟩ (by decide)⟩

/-- C17: let a round read the two addresses `b` and `e` of an entry, both 0.  If neither
is relocated, the loop ends with this round, whatever fuel is left: no further entry
is read, the cursor and the relocation cursor stay behind the two addresses (no
expression is read), `pc_coverage` and the base are as before the round, and the value
returned is the `retval` after the two reads.  If one of them is relocated, the round
does not end the list. -/
theorem C17_terminator (E : lr_env) (file : elf_file) (c : cu) (sec_id : section_id)
    (wh : locus) (cat : Nat) (st st1 st2 : lr_state) (b e : endpoint)
    (hne : read_ctx_eof st.ctx = false)
    (hb : lr_begin E file c (locus.sub sec_id (read_ctx_get_offset st.ctx) wh) st =
      (st1, some b))
    (he : lr_end E file c (locus.sub sec_id (read_ctx_get_offset st.ctx) wh) cat st1 b =
      (st2, some e))
    (h0 : b.addr = 0 ∧ e.addr = 0) :
    (b.relocated = false ∧ e.relocated = false →
        ∃ st', (∀ fuel, lr_loop E file c sec_id wh cat (fuel + 1) st = some st') ∧
          st'.ctx = st2.ctx ∧ st'.rel = st2.rel ∧ st'.pc_coverage = st.pc_coverage ∧
          st'.base = st.base ∧ st'.retval = st2.retval ∧ st'.diags = st2.diags) ∧
      (b.relocated = true ∨ e.relocated = true →
        ∀ step, lr_tail E file c sec_id (locus.sub sec_id (read_ctx_get_offset st.ctx) wh) cat
          st2 b e = some step → ∀ s, step ≠ lr_step.stop s) := by
  constructor
  · rintro ⟨hb0, he0⟩
    have hterm : b.addr = 0 ∧ e.addr = 0 ∧ ¬ b.relocated ∧ ¬ e.relocated :=
      ⟨h0.1, h0.2, by simp [hb0], by simp [he0]⟩
    have hbody : lr_body E file c sec_id wh cat st =
        some (lr_step.stop (lr_finish (locus.sub sec_id (read_ctx_get_offset st.ctx) wh) st2)) := by
      unfold lr_body
      dsimp only
      rw [hb]
      dsimp only
      rw [he]
      dsimp only
      exact lr_tail_terminator E file c sec_id _ cat st2 b e hterm
    have b3 := (lr_begin_spec E file c (locus.sub sec_id (read_ctx_get_offset st.ctx) wh) st)
    have e3 := (lr_end_spec E file c (locus.sub sec_id (read_ctx_get_offset st.ctx) wh) cat st1 b)
    rw [hb] at b3
    rw [he] at e3
    refine ⟨lr_finish (locus.sub sec_id (read_ctx_get_offset st.ctx) wh) st2, ?_, rfl, rfl,
      e3.2.2.1.trans b3.2.2.1, e3.2.2.2.1.trans b3.2.2.2.1, rfl, rfl⟩
    intro fuel
    unfold lr_loop
    rw [if_neg (by simp [hne]), hbody]
  · intro hrel step hstep s hs
    subst hs
    obtain ⟨_, _, h3, h4⟩ := lr_tail_stop E file c sec_id _ cat st2 b e s hstep
    rcases hrel with h | h
    · exact h3 h
    · exact h4 h

theorem C17_terminator_witness :
    read_ctx_eof (st_S1 16).ctx = false ∧
      lr_begin env_plain file32 (cu32 0x1000)
        (locus.sub section_id.sec_ranges (read_ctx_get_offset (st_S1 16).ctx) (who_info 11))
        (st_S1 16) = (st_S1 20, some ⟨0, false, 0⟩) ∧
      lr_end env_plain file32 (cu32 0x1000)
        (locus.sub section_id.sec_ranges (read_ctx_get_offset (st_S1 16).ctx) (who_info 11))
        mc_bits.mc_ranges (st_S1 20) ⟨0, false, 0⟩ = (st_S1 24, some ⟨0, false, 0⟩) ∧
      ((⟨0, false, 0⟩ : endpoint).addr = 0 ∧ (⟨0, false, 0⟩ : endpoint).addr = 0) ∧
      (((⟨0, false, 0⟩ : endpoint).relocated = false ∧
          (⟨0, false, 0⟩ : endpoint).relocated = false →
        ∃ st', (∀ fuel, lr_loop env_plain file32 (cu32 0x1000) section_id.sec_ranges
            (who_info 11) mc_bits.mc_ranges (fuel + 1) (st_S1 16) = some st') ∧
          st'.ctx = (st_S1 24).ctx ∧ st'.rel = (st_S1 24).rel ∧
          st'.pc_coverage = (st_S1 16).pc_coverage ∧ st'.base = (st_S1 16).base ∧
          st'.retval = (st_S1 24).retval ∧ st'.diags = (st_S1 24).diags) ∧
      ((⟨0, false, 0⟩ : endpoint).relocated = true ∨
          (⟨0, false, 0⟩ : endpoint).relocated = true →
        ∀ step, lr_tail env_plain file32 (cu32 0x1000) section_id.sec_ranges
          (locus.sub section_id.sec_ranges (read_ctx_get_offset (st_S1 16).ctx) (who_info 11))
          mc_bits.mc_ranges (st_S1 24) ⟨0, false, 0⟩ ⟨0, false, 0⟩ = some step →
          ∀ s, step ≠ lr_step.stop s)) :=
  ⟨by decide, by decide, by decide, ⟨rfl, rfl⟩,
    C17_terminator env_plain file32 (cu32 0x1000) section_id.sec_ranges (who_info 11)
      mc_bits.mc_ranges (st_S1 16) (st_S1 20) (st_S1 24) ⟨0, false, 0⟩ ⟨0, false, 0⟩
      (by decide) (by decide) (by decide) ⟨rfl, rfl⟩⟩

theorem lr_entry_map (file : elf_file) (data : List Nat) (c : cu) (io : lr_input)
    (addr : Nat) (wh : locus) :
    (lr_entry file data c io addr wh).coverage_map = io.coverage_map ∧
      (lr_entry file data c io addr wh).ctx = ⟨data, addr, file.other_byte_order⟩ := by
  unfold lr_entry
  split_ifs <;> exact ⟨rfl, rfl⟩

theorem lr_entry_diags (file : elf_file) (data : List Nat) (c : cu) (io : lr_input)
    (addr : Nat) (wh : locus) :
    ∃ D0, (lr_entry file data c io addr wh).diags = io.diags ++ D0 ∧
      ∀ d ∈ D0, ¬ is_overlap_error d := by
  unfold lr_entry
  split_ifs
  · exact ⟨_, rfl, no_overlap_error_single (not_overlap_error_of_format _ _ _ (by decide))⟩
  · exact ⟨[], (List.append_nil _).symm, no_overlap_error_nil⟩

/-- Without a coverage map `check_loc_or_range_ref` returns when the fuel exceeds the
size of the section, and the messages that it adds contain an error of `HAVE_OVERLAP`
only if it returns false, and one such error at most. -/
theorem check_loc_or_range_ref_total (E : lr_env) (fuel : Nat) (file : elf_file)
    (data : List Nat) (c : cu) (sec_id : section_id) (io : lr_input) (addr : Nat)
    (wh : locus) (cat : Nat) (ha : lr_asserts E sec_id cat) (hm : io.coverage_map = none)
    (hf : data.length < fuel) (hloc : sec_id = section_id.sec_loc → locexpr_returns E) :
    ∃ st' D, check_loc_or_range_ref E fuel file data c sec_id io addr wh cat = some st' ∧
      st'.coverage_map = none ∧ st'.diags = io.diags ++ D ∧
      ((∃ d ∈ D, is_overlap_error d) → st'.retval = false) ∧
      D.countP diag.is_overlap ≤ 1 := by
  by_cases hin : addr ≤ data.length
  · rw [check_loc_or_range_ref_entry E fuel file data c sec_id io addr wh cat ha hin]
    obtain ⟨m1, m2⟩ := lr_entry_map file data c io addr wh
    obtain ⟨st', hs, hx⟩ := lr_loop_spec E file c sec_id wh cat hloc fuel
      (lr_entry file data c io addr wh) (m1.trans hm) (by rw [m2]; dsimp only; omega)
    obtain ⟨D, hD, hov, _, hc, _⟩ := hx.diags
    obtain ⟨D0, hD0, hn0⟩ := lr_entry_diags file data c io addr wh
    refine ⟨st', D0 ++ D, hs, hx.map (m1.trans hm), ?_, ?_, ?_⟩
    · rw [hD, hD0, List.append_assoc]
    · rintro ⟨d, hd, ho⟩
      rcases List.mem_append.1 hd with h | h
      · exact absurd ho (hn0 d h)
      · exact hov ⟨d, h, ho⟩
    · rw [List.countP_append, countP_overlap_zero hn0]
      omega
  · obtain ⟨a1, a2, a3⟩ := ha
    unfold check_loc_or_range_ref
    rw [if_neg (not_not.2 a1), if_neg (not_not.2 a2), if_neg (not_not.2 a3)]
    have hs : read_ctx_skip (read_ctx_init data file.other_byte_order) addr = none := by
      simp [read_ctx_skip, read_ctx_init, read_ctx_need_data, hin]
    dsimp only
    rw [hs]
    refine ⟨_, _, rfl, hm, rfl, fun _ => rfl, ?_⟩
    simp [List.countP_cons, diag.is_overlap]

/-- C16, as stated, fails: the walk over `(0xFF, 0)`, `(0, 0)` writes the message for the
negative range and returns true, and with `low_pc = 2 ^ 64 - 1` (no base address) the
walk over `(0x10, 0x20)`, `(0, 0)` writes the error for the missing base address and
returns true. -/
theorem C16_negative_range_returns_true :
    (check_loc_or_range_ref env_plain 30 file32 negative_range_bytes (cu32 0x1000)
        section_id.sec_ranges io_start 0 (who_info 11) mc_bits.mc_ranges).map
          (fun r => (r.retval, r.diags)) =
      some (true, [negative_range_message env_plain (entry_at 0) mc_bits.mc_ranges
        ⟨0xFF, false, 0⟩ ⟨0, false, 0⟩]) ∧
    (check_loc_or_range_ref env_plain 30 file32 one_range_bytes (cu32 (2 ^ 64 - 1))
        section_id.sec_ranges io_start 0 (who_info 11) mc_bits.mc_ranges).map
          (fun r => (r.retval, r.diags)) =
      some (true, [no_base_error (entry_at 0) ⟨0x10, false, 0⟩ ⟨0x20, false, 0⟩]) := by
  decide

theorem not_message_others (l : List String) :
    ∀ d ∈ l.map diag.other, d.is_message = false := by
  intro d hd
  obtain ⟨t, _, rfl⟩ := List.mem_map.1 hd
  rfl

theorem not_message_append {A B : List diag} (hA : ∀ d ∈ A, d.is_message = false)
    (hB : ∀ d ∈ B, d.is_message = false) : ∀ d ∈ A ++ B, d.is_message = false := by
  intro d hd
  rcases List.mem_append.1 hd with h | h
  · exact hA d h
  · exact hB d h

theorem exists_mem_append_messages (P : diag → Prop)
    (hP : ∀ d, d.is_message = false → ¬ P d) {N : List diag}
    (hN : ∀ d ∈ N, d.is_message = false) (M : List diag) :
    (∃ d ∈ N ++ M, P d) ↔ ∃ d ∈ M, P d := by
  constructor
  · rintro ⟨d, hd, hp⟩
    rcases List.mem_append.1 hd with h | h
    · exact absurd hp (hP d (hN d h))
    · exact ⟨d, h, hp⟩
  · rintro ⟨d, hd, hp⟩
    exact ⟨d, List.mem_append_right _ hd, hp⟩

theorem end_only_is_message (d : diag) (h : d.is_message = false) :
    ¬ is_end_only_relocated d := by
  rintro ⟨_, _, _, rfl⟩
  cases h

theorem begin_only_is_message (d : diag) (h : d.is_message = false) :
    ¬ is_begin_only_relocated d := by
  rintro ⟨_, _, _, rfl⟩
  cases h

theorem lr_check_overlap_not_message (st : lr_state) (wh : locus) (off len : Nat) :
    ∃ P, (lr_check_overlap st wh off len).diags = st.diags ++ P ∧
      ∀ d ∈ P, d.is_message = false := by
  rcases lr_check_overlap_diags st wh off len with h | h
  · exact ⟨[], by simp [h.1], by simp⟩
  · exact ⟨_, h.1, by simp [diag.is_message]⟩

/-- C20, as the code has it: among the messages that the part "end address" of a round
adds there is the message "end of address range is relocated, but the beginning
wasn't" iff the end is read and relocated, the beginning is not relocated and
`begin_addr` is not the escape value; and there is the message "end of address range is
not relocated, but the beginning was" iff the end is read and not relocated and the
beginning is relocated, whatever `begin_addr` is. -/
theorem C20_mismatched_relocation (E : lr_env) (file : elf_file) (c : cu) (wh : locus) (cat : Nat)
    (st : lr_state) (b : endpoint) :
    ∃ D, (lr_end E file c wh cat st b).1.diags = st.diags ++ D ∧
      ((∃ d ∈ D, is_end_only_relocated d) ↔
        ∃ e, (lr_end E file c wh cat st b).2 = some e ∧ e.relocated = true ∧
          b.relocated = false ∧ b.addr ≠ escape_value c.head.address_size) ∧
      ((∃ d ∈ D, is_begin_only_relocated d) ↔
        ∃ e, (lr_end E file c wh cat st b).2 = some e ∧ e.relocated = false ∧
          b.relocated = true) := by
  obtain ⟨P, hP, hPn⟩ :=
    lr_check_overlap_not_message st wh (read_ctx_get_offset st.ctx) c.head.address_size
  unfold lr_end
  dsimp only
  generalize lr_check_overlap st wh (read_ctx_get_offset st.ctx) c.head.address_size = s1 at *
  have m1 : is_end_only_relocated (diag.message (cat ||| E.mc.mc_impact_2 ||| E.mc.mc_reloc) wh
      ": end of address range is relocated, but the beginning wasn't.\n" []) := ⟨_, _, _, rfl⟩
  have m1' : ¬ is_begin_only_relocated (diag.message (cat ||| E.mc.mc_impact_2 ||| E.mc.mc_reloc)
      wh ": end of address range is relocated, but the beginning wasn't.\n" []) := by
    rintro ⟨_, _, _, h⟩
    injection h with _ _ h3 _
    revert h3
    decide
  have m2 : is_begin_only_relocated (diag.message (cat ||| E.mc.mc_impact_2 ||| E.mc.mc_reloc)
      wh ": end of address range is not relocated, but the beginning was.\n" []) :=
    ⟨_, _, _, rfl⟩
  have m2' : ¬ is_end_only_relocated (diag.message (cat ||| E.mc.mc_impact_2 ||| E.mc.mc_reloc)
      wh ": end of address range is not relocated, but the beginning was.\n" []) := by
    rintro ⟨_, _, _, h⟩
    injection h with _ _ h3 _
    revert h3
    decide
  cases hr : read_ctx_read_offset s1.ctx (c.head.address_size == 8) with
  | none =>
    dsimp only
    refine ⟨(P ++ [diag.error wh ": can't read address range ending.\n" []]) ++ [],
      by rw [hP]; simp, ?_, ?_⟩
    · rw [exists_mem_append_messages _ end_only_is_message
        (not_message_append hPn (by simp [diag.is_message]))]
      simp
    · rw [exists_mem_append_messages _ begin_only_is_message
        (not_message_append hPn (by simp [diag.is_message]))]
      simp
  | some p =>
    obtain ⟨v, ctx'⟩ := p
    dsimp only
    generalize E.relocation_next s1.rel (read_ctx_get_offset st.ctx) wh
      skip_type.skip_mismatched = r
    obtain ⟨ro, rd, rt⟩ := r
    cases ro with
    | none =>
      dsimp only
      by_cases hb : b.relocated = true
      · rw [if_pos hb]
        dsimp only
        refine ⟨(P ++ List.map diag.other rt) ++
          [diag.message (cat ||| E.mc.mc_impact_2 ||| E.mc.mc_reloc) wh
            ": end of address range is not relocated, but the beginning was.\n" []],
          by rw [hP]; simp, ?_, ?_⟩
        · rw [exists_mem_append_messages _ end_only_is_message
            (not_message_append hPn (not_message_others rt))]
          simp [m2']
        · rw [exists_mem_append_messages _ begin_only_is_message
            (not_message_append hPn (not_message_others rt))]
          simp [m2, hb]
      · rw [if_neg hb]
        dsimp only
        refine ⟨(P ++ List.map diag.other rt) ++ [], by rw [hP]; simp, ?_, ?_⟩
        · rw [exists_mem_append_messages _ end_only_is_message
            (not_message_append hPn (not_message_others rt))]
          simp
        · rw [exists_mem_append_messages _ begin_only_is_message
            (not_message_append hPn (not_message_others rt))]
          simp [hb]
    | some rel =>
      dsimp only
      generalize E.relocate_one file rd rel c.head.address_size v wh section_id.rel_value = q
      obtain ⟨qv, qs, qd, qt⟩ := q
      dsimp only
      by_cases he : b.addr = escape_value c.head.address_size
      · rw [if_neg (not_not.2 he)]
        dsimp only
        refine ⟨(P ++ (List.map diag.other rt ++ List.map diag.other qt)) ++ [],
          by rw [hP]; simp, ?_, ?_⟩
        · rw [exists_mem_append_messages _ end_only_is_message
            (not_message_append hPn (not_message_append (not_message_others rt)
              (not_message_others qt)))]
          simp [he]
        · rw [exists_mem_append_messages _ begin_only_is_message
            (not_message_append hPn (not_message_append (not_message_others rt)
              (not_message_others qt)))]
          simp
      · rw [if_pos he]
        by_cases hb : b.relocated = true
        · rw [if_neg (not_not.2 hb)]
          dsimp only
          refine ⟨(P ++ (List.map diag.other rt ++ (List.map diag.other qt ++
            List.map diag.other (E.check_range_relocations cat wh file b.symbol qs)))) ++ [],
            by rw [hP]; simp, ?_, ?_⟩
          · rw [exists_mem_append_messages _ end_only_is_message
              (not_message_append hPn (not_message_append (not_message_others rt)
                (not_message_append (not_message_others qt) (not_message_others _))))]
            simp [hb]
          · rw [exists_mem_append_messages _ begin_only_is_message
              (not_message_append hPn (not_message_append (not_message_others rt)
                (not_message_append (not_message_others qt) (not_message_others _))))]
            simp
        · rw [if_pos hb]
          dsimp only
          refine ⟨(P ++ (List.map diag.other rt ++ List.map diag.other qt)) ++
            [diag.message (cat ||| E.mc.mc_impact_2 ||| E.mc.mc_reloc) wh
              ": end of address range is relocated, but the beginning wasn't.\n" []],
            by rw [hP]; simp, ?_, ?_⟩
          · rw [exists_mem_append_messages _ end_only_is_message
              (not_message_append hPn (not_message_append (not_message_others rt)
                (not_message_others qt)))]
            simp [m1, hb, he]
          · rw [exists_mem_append_messages _ begin_only_is_message
              (not_message_append hPn (not_message_append (not_message_others rt)
                (not_message_others qt)))]
            simp [m1']

/-- C20, as stated, fails: where the first address of an entry is the escape value and
has a relocation (of addend 0) and the second address has none, `begin_addr` is the
escape value after the relocation, and the message "end of address range is not
relocated, but the beginning was" is written. -/
theorem C20_relocated_escape_is_reported :
    (lr_begin env_reloc file32 (cu32 0x1000) (entry_at 0) (st_selector 0)) =
        (st_selector 4, some ⟨escape_value (cu32 0x1000).head.address_size, true, 1⟩) ∧
      (lr_end env_reloc file32 (cu32 0x1000) (entry_at 0) mc_bits.mc_ranges (st_selector 4)
          ⟨escape_value (cu32 0x1000).head.address_size, true, 1⟩).2 =
        some ⟨0x4000, false, 0⟩ ∧
      (lr_end env_reloc file32 (cu32 0x1000) (entry_at 0) mc_bits.mc_ranges (st_selector 4)
          ⟨escape_value (cu32 0x1000).head.address_size, true, 1⟩).1.diags =
        [diag.message (mc_bits.mc_ranges ||| mc_bits.mc_impact_2 ||| mc_bits.mc_reloc)
          (entry_at 0) ": end of address range is not relocated, but the beginning was.\n" []] ∧
      (check_loc_or_range_ref env_reloc 30 file32 selector_bytes (cu32 0x1000)
          section_id.sec_ranges ⟨⟨[⟨0, 1, 1, 0⟩], 0⟩, ⟨[]⟩, none, some ⟨[]⟩, []⟩ 0 (who_info 11)
          mc_bits.mc_ranges).map (fun r => (r.retval, r.base, r.diags)) =
        some (true, 0x4000,
          [diag.message (mc_bits.mc_ranges ||| mc_bits.mc_impact_2 ||| mc_bits.mc_reloc)
            (entry_at 0)
            ": end of address range is not relocated, but the beginning was.\n" []]) := by
  decide

/-- The loop over the sorted references returns, and it calls `check_loc_or_range_ref`
with the offsets of the references in rising order, once for each offset that is not
`last_off` when the loop is entered behind the first reference. -/
theorem check_refs_loop_spec (E : lr_env) (fuel : Nat) (file : elf_file) (data : List Nat)
    (sec_id : section_id) (cat : Nat) (ha : lr_asserts E sec_id cat)
    (hf : data.length < fuel) (hloc : sec_id = section_id.sec_loc → locexpr_returns E) :
    ∀ (refs : List ref_cu) (first : Bool) (st : refs_state),
      refs.Pairwise (fun a b => a.ref.addr ≤ b.ref.addr) → st.io.coverage_map = none →
      (first = false → ∀ r ∈ refs, st.last_off ≤ r.ref.addr) →
      ∃ st' new, check_refs_loop E fuel file data sec_id cat refs first st = some st' ∧
        st'.io.coverage_map = none ∧ st'.checked = st.checked ++ new ∧
        new.Pairwise (· < ·) ∧
        (∀ o, o ∈ new ↔ (∃ r ∈ refs, r.ref.addr = o) ∧ (first = true ∨ o ≠ st.last_off)) := by
  intro refs
  induction refs with
  | nil =>
    intro first st _ hm _
    exact ⟨st, [], rfl, hm, by simp, List.Pairwise.nil, by simp⟩
  | cons it rest ih =>
    intro first st hs hm hlast
    rw [check_refs_loop]
    dsimp only
    obtain ⟨hit, hrest⟩ := List.pairwise_cons.1 hs
    by_cases hskip : ¬ (first = true) ∧ it.ref.addr = st.last_off
    · rw [if_pos hskip]
      have hf' : first = false := by simpa using hskip.1
      obtain ⟨st', new, h1, h2, h3, h4, h5⟩ := ih false st hrest hm
        (fun _ r hr => hlast hf' r (List.mem_cons_of_mem _ hr))
      refine ⟨st', new, h1, h2, h3, h4, ?_⟩
      intro o
      rw [h5 o]
      subst hf'
      simp only [Bool.false_eq_true, false_or, List.mem_cons, exists_eq_or_imp]
      constructor
      · rintro ⟨⟨r, hr, rfl⟩, hne⟩
        exact ⟨Or.inr ⟨r, hr, rfl⟩, hne⟩
      · rintro ⟨h | ⟨r, hr, rfl⟩, hne⟩
        · exact absurd (h.symm.trans hskip.2) hne
        · exact ⟨⟨r, hr, rfl⟩, hne⟩
    · rw [if_neg hskip]
      have hgt : first = false → st.last_off < it.ref.addr := by
        intro hf'
        have h1 := hlast hf' it (List.mem_cons_self _ _)
        have h2 : it.ref.addr ≠ st.last_off := fun h => hskip ⟨by simp [hf'], h⟩
        omega
      have hio : ∀ io' : lr_input, io'.coverage_map = none →
          ∃ st' new,
            (match check_loc_or_range_ref E fuel file data it.cu sec_id io' it.ref.addr
                it.ref.who cat with
              | none => none
              | some r =>
                check_refs_loop E fuel file data sec_id cat rest false
                  { io := ⟨r.rel, r.coverage, r.coverage_map, r.pc_coverage, r.diags⟩
                    retval := st.retval && r.retval
                    last_off := it.ref.addr
                    checked := st.checked ++ [it.ref.addr] }) = some st' ∧
            st'.io.coverage_map = none ∧ st'.checked = st.checked ++ new ∧
            new.Pairwise (· < ·) ∧
            (∀ o, o ∈ new ↔
              (∃ r ∈ it :: rest, r.ref.addr = o) ∧ (first = true ∨ o ≠ st.last_off)) := by
        intro io' hio'
        obtain ⟨r, D, hr, hrm, _, _⟩ := check_loc_or_range_ref_total E fuel file data it.cu
          sec_id io' it.ref.addr it.ref.who cat ha hio' hf hloc
        rw [hr]
        dsimp only
        obtain ⟨st', new, h1, h2, h3, h4, h5⟩ := ih false
          { io := ⟨r.rel, r.coverage, r.coverage_map, r.pc_coverage, r.diags⟩
            retval := st.retval && r.retval
            last_off := it.ref.addr
            checked := st.checked ++ [it.ref.addr] } hrest hrm (fun _ r' hr' => hit r' hr')
        dsimp only at h3 h5
        have hlt : ∀ o ∈ new, it.ref.addr < o := by
          intro o ho
          obtain ⟨⟨r', hr', rfl⟩, hne⟩ := (h5 _).1 ho
          have h6 := hit r' hr'
          have h7 : r'.ref.addr ≠ it.ref.addr := by simpa using hne
          omega
        refine ⟨st', it.ref.addr :: new, h1, h2, by rw [h3]; simp,
          List.pairwise_cons.2 ⟨hlt, h4⟩, ?_⟩
        intro o
        simp only [List.mem_cons, exists_eq_or_imp]
        rw [h5 o]
        simp only [Bool.false_eq_true, false_or]
        constructor
        · rintro (rfl | ⟨⟨r', hr', rfl⟩, hne⟩)
          · refine ⟨Or.inl rfl, ?_⟩
            cases first with
            | true => exact Or.inl rfl
            | false => exact Or.inr (ne_of_gt (hgt rfl))
          · refine ⟨Or.inr ⟨r', hr', rfl⟩, ?_⟩
            cases first with
            | true => exact Or.inl rfl
            | false =>
              have h6 := hit r' hr'
              have h7 := hgt rfl
              exact Or.inr (by omega)
        · rintro ⟨h | ⟨r', hr', rfl⟩, _⟩
          · exact Or.inl h.symm
          · by_cases h8 : r'.ref.addr = it.ref.addr
            · exact Or.inl h8
            · exact Or.inr ⟨⟨r', hr', rfl⟩, h8⟩
      apply hio
      split_ifs <;> exact hm


/-! ## The algebra of message criteria -/

theorem two_pow_and_mask (max i : Nat) (h : i < max) :
    (1 <<< max) &&& ((1 <<< i) % 2 ^ 32) = 0 := by
  apply Nat.eq_of_testBit_eq
  intro j
  rw [Nat.testBit_and, Nat.zero_testBit, Nat.one_shiftLeft, Nat.one_shiftLeft,
    Nat.testBit_two_pow, Nat.testBit_mod_two_pow, Nat.testBit_two_pow]
  by_cases h1 : max = j
  · subst h1
    have : ¬ i = max := by omega
    simp [this]
  · simp [h1]

/-- The loop of `operator !` adds no term for a term whose masks have no bit below
`max`. -/
theorem operator_not_loop_skip (t : message_term) (max : Nat)
    (ht : ∀ i, i < max → (t.positive &&& ((1 <<< i) % 2 ^ 32)) = 0 ∧
      (t.negative &&& ((1 <<< i) % 2 ^ 32)) = 0)
    (n i : Nat) (ret : message_criteria) (h : i + n ≤ max) :
    operator_not_loop t n i ret = some ret := by
  induction n generalizing i with
  | zero => rfl
  | succ k ih =>
    unfold operator_not_loop
    dsimp only
    rw [if_neg (not_not.2 (ht i (by omega)).1), if_neg (not_not.2 (ht i (by omega)).2)]
    exact ih (i + 1) (by omega)

theorem message_cri_mul_outer_nil (l : List message_term) (ret : message_criteria) :
    message_cri_mul_outer [] l ret = some ret := by
  induction l with
  | nil => rfl
  | cons t rest ih =>
    unfold message_cri_mul_outer
    simp only [message_cri_mul_inner]
    exact ih

/-- C29, at the input where the code departs from it: whatever the identifier `max` of
the last category is, for the term whose positive mask is the bit of that category
`operator !` returns the criterion without terms, which accepts no category, though
the term does not match the category 0.  And for the term with the positive mask 1
(in elfutils, with `max = 31`) it returns the criterion of that same term, which
accepts the category 1, that the term matches, and not the category 0. -/
theorem C29_operator_not_is_no_negation (max : Nat) :
    operator_not max ⟨1 <<< max, 0⟩ = some ⟨[]⟩ ∧
      message_term.matches ⟨1 <<< max, 0⟩ 0 = false ∧
      message_accept ⟨[]⟩ 0 = false ∧
      operator_not max_other ⟨1, 0⟩ = some ⟨[⟨1, 0⟩]⟩ ∧
      message_term.matches ⟨1, 0⟩ 1 = true ∧ message_accept ⟨[⟨1, 0⟩]⟩ 1 = true ∧
      message_term.matches ⟨1, 0⟩ 0 = false ∧ message_accept ⟨[⟨1, 0⟩]⟩ 0 = false := by
  refine ⟨?_, ?_, rfl, by decide, by decide, by decide, by decide, by decide⟩
  · unfold operator_not
    rw [if_neg (by simp)]
    refine operator_not_loop_skip _ max ?_ max 0 _ (by omega)
    intro i hi
    exact ⟨two_pow_and_mask max i hi, by simp⟩
  · have h : (1 : Nat) <<< max ≠ 0 := by
      rw [Nat.one_shiftLeft]
      exact (Nat.two_pow_pos max).ne'
    simp [message_term.matches, Ne.symm h]

/-- C28, at the input where the code departs from it: whatever the identifier `max` of
the last category is, `message_cri_and_not` with the term whose positive mask is the
bit of that category leaves every criterion without terms; so the criterion that
accepted every category accepts the category 0 no more, though the term does not
match it. -/
theorem C28_and_not_last_category (max : Nat) (cri : message_criteria) :
    message_cri_and_not max cri ⟨1 <<< max, 0⟩ = some ⟨[]⟩ ∧
      message_accept ⟨[]⟩ 0 = false ∧
      message_accept ⟨[⟨0, 0⟩]⟩ 0 = true ∧
      message_term.matches ⟨1 <<< max, 0⟩ 0 = false := by
  refine ⟨?_, rfl, by decide, ?_⟩
  · have h1 : operator_not max (message_term_of (0 : Nat) (1 <<< max)) = some ⟨[]⟩ := by
      unfold operator_not message_term_of
      rw [if_neg (by simp)]
      refine operator_not_loop_skip _ max ?_ max 0 _ (by omega)
      intro i hi
      exact ⟨by simp, two_pow_and_mask max i hi⟩
    unfold message_cri_and_not
    dsimp only
    rw [h1]
    exact message_cri_mul_outer_nil _ _
  · have h : (1 : Nat) <<< max ≠ 0 := by
      rw [Nat.one_shiftLeft]
      exact (Nat.two_pow_pos max).ne'
    simp [message_term.matches, Ne.symm h]

/-! ## The holes of the coverage -/

/-- C27, as the code has it: for a hole `(start, length)`, with `end = start + length`
in `uint64_t`: if all bytes of the hole are zero and the hole is padding up to the
alignment (`align` is neither 0 nor 1, `end` is a multiple of `align`, `start` is not a
multiple of 4, and `length < align`), `found_hole` writes nothing; if all bytes are zero
and the hole is not such padding, it writes the message "unnecessary padding with zero
bytes"; and if a byte is not zero, it writes the message "unreferenced non-zero
bytes".  Both are `wr_message` with `category | mc_acc_bloat | mc_impact_1`. -/
theorem C27_found_hole_cases (mc : categories) (info : hole_info) (start length : Nat) :
    (((List.range length).all (fun i => decide (info.data.getD (start + i) 0 = 0)) = true ∧
        (info.align ≠ 0 ∧ info.align ≠ 1 ∧ u64 (start + length) % info.align = 0 ∧
          start % 4 ≠ 0 ∧ length < info.align)) →
      found_hole mc info start length = []) ∧
    (((List.range length).all (fun i => decide (info.data.getD (start + i) 0 = 0)) = true ∧
        ¬ (info.align ≠ 0 ∧ info.align ≠ 1 ∧ u64 (start + length) % info.align = 0 ∧
          start % 4 ≠ 0 ∧ length < info.align)) →
      found_hole mc info start length =
        [diag.message (info.category ||| mc.mc_acc_bloat ||| mc.mc_impact_1)
          (locus.root info.id addr_unset) ": %s: %s.\n"
          [fmt_arg.range start (u64 (start + length)),
            fmt_arg.str "unnecessary padding with zero bytes"]]) ∧
    ((List.range length).all (fun i => decide (info.data.getD (start + i) 0 = 0)) = false →
      found_hole mc info start length =
        [diag.message (info.category ||| mc.mc_acc_bloat ||| mc.mc_impact_1)
          (locus.root info.id addr_unset) ": %s: %s.\n"
          [fmt_arg.range start (u64 (start + length)),
            fmt_arg.str "unreferenced non-zero bytes"]]) := by
  refine ⟨?_, ?_, ?_⟩
  · rintro ⟨hz, hv⟩
    unfold found_hole
    dsimp only
    rw [if_pos hz, if_neg (not_not.2 hv)]
  · rintro ⟨hz, hv⟩
    unfold found_hole
    dsimp only
    rw [if_pos hz, if_pos hv]
    rfl
  · intro hz
    unfold found_hole
    dsimp only
    rw [hz, if_neg (by decide)]
    rfl

/-- C27, as stated, fails: in a section of 8 zero bytes with the alignment 4, for the hole
of the bytes 5 to 7, which are zero and pad up to the alignment, `found_hole` writes
nothing; and for the hole of all 8 bytes, which are zero and not such padding, it
writes the message of the zero padding, not the one of the non-zero bytes. -/
theorem C27_aligned_zero_hole_is_silent :
    found_hole mc_bits ⟨section_id.sec_ranges, mc_bits.mc_ranges, List.replicate 8 0, 4⟩ 5 3 =
        [] ∧
      found_hole mc_bits ⟨section_id.sec_ranges, mc_bits.mc_ranges, List.replicate 8 0, 4⟩ 0 8 =
        [wr_message_padding_0 mc_bits mc_bits.mc_ranges
          (locus.root section_id.sec_ranges addr_unset) 0 8] := by
  decide

/-! ## The checks of a location expression -/

theorem skip_value_bounds (v : Nat) :
    -2 ^ 15 ≤ skip_value v ∧ skip_value v < 2 ^ 15 ∧
      (skip_value v - ((v % 2 ^ 16 : Nat) : Int)) % 2 ^ 16 = 0 := by
  have h : v % 2 ^ 16 < 2 ^ 16 := Nat.mod_lt _ (by norm_num)
  unfold skip_value
  generalize v % 2 ^ 16 = w at h ⊢
  norm_num at h ⊢
  split_ifs <;> refine ⟨?_, ?_, ?_⟩ <;> omega

theorem locexpr_check_branch (E : lr_env) (c : cu) (init_off : Nat) (wh : locus)
    (opcode v : Nat) (st : locexpr_state) (hop : opcode = DW_OP_bra ∨ opcode = DW_OP_skip) :
    locexpr_check E c init_off wh opcode (some v) st =
      some (locexpr_branch E init_off wh opcode v st) := by
  unfold locexpr_check
  rw [if_pos hop]

/-- C23: for `DW_OP_bra` and `DW_OP_skip` with the first operand `v`, the skip `s` is `v`
read as a signed 16-bit value; with `p` the offset of the cursor of the expression (which
is behind the operands) and `L` the length of the expression, the `switch` returns with
exactly one of four outcomes: for `s = 0` the message of the skip 0 (`mc_loc`,
`mc_acc_bloat`, `mc_impact_3`); for `s > 0` with `s > L - p` the error "branches out of
location expression"; for `s < 0` with `-s > p` the error "branches before the beginning
of location expression"; otherwise the target is recorded in `oprefs` and no message is
written, and the target is `init_off + p + s` (the cursor being within the expression,
and the expression within `uint64_t`). -/
theorem C23_branch_outcomes (E : lr_env) (c : cu) (init_off : Nat) (wh : locus)
    (opcode v : Nat) (st : locexpr_state) (hop : opcode = DW_OP_bra ∨ opcode = DW_OP_skip) :
    (-2 ^ 15 ≤ skip_value v ∧ skip_value v < 2 ^ 15 ∧
        (skip_value v - ((v % 2 ^ 16 : Nat) : Int)) % 2 ^ 16 = 0) ∧
      (skip_value v = 0 →
        locexpr_check E c init_off wh opcode (some v) st =
          some { st with diags := st.diags ++ [skip_zero_message E wh opcode] }) ∧
      (skip_value v > 0 ∧ skip_value v > (st.ctx.data.length : Int) - (st.ctx.ptr : Int) →
        locexpr_check E c init_off wh opcode (some v) st =
          some { st with diags := st.diags ++ [branch_out_error wh opcode] }) ∧
      (skip_value v < 0 ∧ - skip_value v > (st.ctx.ptr : Int) →
        locexpr_check E c init_off wh opcode (some v) st =
          some { st with diags := st.diags ++ [branch_before_error wh opcode] }) ∧
      (skip_value v ≠ 0 →
        ¬ (skip_value v > 0 ∧ skip_value v > (st.ctx.data.length : Int) - (st.ctx.ptr : Int)) →
        ¬ (skip_value v < 0 ∧ - skip_value v > (st.ctx.ptr : Int)) →
        ∃ target : Nat,
          locexpr_check E c init_off wh opcode (some v) st =
            some { st with oprefs := st.oprefs ++ [⟨target, wh⟩] } ∧
          (st.ctx.ptr ≤ st.ctx.data.length → init_off + st.ctx.data.length < 2 ^ 64 →
            (target : Int) = (init_off : Int) + (st.ctx.ptr : Int) + skip_value v)) := by
  have hb := skip_value_bounds v
  rw [locexpr_check_branch E c init_off wh opcode v st hop]
  unfold locexpr_branch
  dsimp only
  generalize skip_value v = s at hb ⊢
  have hnd : ∀ n : Nat, (read_ctx_need_data st.ctx n = true) ↔ st.ctx.ptr + n ≤ st.ctx.data.length := by
    intro n
    simp [read_ctx_need_data]
  refine ⟨hb, ?_, ?_, ?_, ?_⟩
  · intro h0
    rw [if_pos h0]
  · rintro ⟨h1, h2⟩
    rw [if_neg (by omega), if_pos ⟨h1, by rw [hnd]; omega⟩]
  · rintro ⟨h1, h2⟩
    rw [if_neg (by omega), if_neg (by omega), if_pos ⟨h1, by unfold read_ctx_get_offset; omega⟩]
  · intro h0 h1 h2
    refine ⟨Int.toNat ((((u64 (read_ctx_get_offset st.ctx + init_off) : Nat) : Int) + s) % 2 ^ 64),
      ?_, ?_⟩
    · rw [if_neg h0, if_neg, if_neg]
      · rintro ⟨h3, h4⟩
        unfold read_ctx_get_offset at h4
        exact h2 ⟨h3, by omega⟩
      · rintro ⟨h3, h4⟩
        rw [hnd] at h4
        exact h1 ⟨h3, by omega⟩
    · intro hp hL
      unfold u64 read_ctx_get_offset
      rw [Nat.mod_eq_of_lt (by omega)]
      have h5 : (0 : Int) ≤ ((st.ctx.ptr + init_off : Nat) : Int) + s := by
        push_cast
        omega
      have h6 : ((st.ctx.ptr + init_off : Nat) : Int) + s < 2 ^ 64 := by
        push_cast
        omega
      rw [Int.emod_eq_of_lt h5 h6, Int.toNat_of_nonneg h5]
      push_cast
      omega

theorem C23_branch_outcomes_witness :
    (DW_OP_skip = DW_OP_bra ∨ DW_OP_skip = DW_OP_skip) ∧
      ((-2 ^ 15 ≤ skip_value 1 ∧ skip_value 1 < 2 ^ 15 ∧
          (skip_value 1 - ((1 % 2 ^ 16 : Nat) : Int)) % 2 ^ 16 = 0) ∧
        skip_value 1 = 1 ∧ skip_value 0x7FFF = 0x7FFF ∧ skip_value 0xFFFA = -6 ∧
        skip_value 0x10000 = 0) ∧
      (∃ target : Nat,
        locexpr_check env_plain (cu32 0) 100 (opcode_at 100 (who_info 1)) DW_OP_skip (some 1)
            ⟨⟨jumps_bytes, 3, false⟩, ⟨[], 0⟩, [], [100], []⟩ =
          some ⟨⟨jumps_bytes, 3, false⟩, ⟨[], 0⟩, [] ++ [⟨target, opcode_at 100 (who_info 1)⟩],
            [100], []⟩ ∧
        ((3 : Nat) ≤ jumps_bytes.length → 100 + jumps_bytes.length < 2 ^ 64 →
          (target : Int) = ((100 : Nat) : Int) + ((3 : Nat) : Int) + skip_value 1)) ∧
      check_location_expression env_plain file32 (ctx_at_start jumps_bytes) (cu32 0) 100
          ⟨[], 0⟩ 9 (who_info 1) =
        some (true, ⟨[], 0⟩, [unresolved_error ⟨104, opcode_at 100 (who_info 1)⟩]) ∧
      check_location_expression env_plain file32 (ctx_at_start [0x2f, 0, 0])
          (cu32 0) 100 ⟨[], 0⟩ 3 (who_info 1) =
        some (true, ⟨[], 0⟩, [skip_zero_message env_plain (opcode_at 100 (who_info 1)) DW_OP_skip]) ∧
      check_location_expression env_plain file32 (ctx_at_start [0x28, 0xfc, 0xff]) (cu32 0) 100
          ⟨[], 0⟩ 3 (who_info 1) =
        some (true, ⟨[], 0⟩, [branch_before_error (opcode_at 100 (who_info 1)) DW_OP_bra]) :=
  ⟨Or.inr rfl,
    ⟨(C23_branch_outcomes env_plain (cu32 0) 100 (opcode_at 100 (who_info 1)) DW_OP_skip 1
      ⟨⟨jumps_bytes, 3, false⟩, ⟨[], 0⟩, [], [100], []⟩ (Or.inr rfl)).1,
      by decide, by decide, by decide, by decide⟩,
    (C23_branch_outcomes env_plain (cu32 0) 100 (opcode_at 100 (who_info 1)) DW_OP_skip 1
      ⟨⟨jumps_bytes, 3, false⟩, ⟨[], 0⟩, [], [100], []⟩ (Or.inr rfl)).2.2.2.2
        (by decide) (by decide) (by decide),
    by decide, by decide, by decide⟩

/-- C24, as the code has it: in an expression of 5 bytes with `DW_OP_skip` at offset 2 and
the operand `0x7FFF` in the bytes 3 and 4, `check_location_expression` writes the error
"branches out of location expression", and so does the walk of a list of `.debug_loc`
with this expression. -/
theorem C24_skip_at_offset_2_branches_out :
    check_location_expression env_plain file32 (ctx_at_start skip_at_2_bytes) (cu32 0) 100
        ⟨[], 0⟩ 5 (who_info 1) =
      some (true, ⟨[], 0⟩, [branch_out_error (opcode_at 102 (who_info 1)) DW_OP_skip]) ∧
    (check_loc_or_range_ref env_plain 100 file32 (loc_list_with skip_at_2_bytes) (cu32 0x1000)
        section_id.sec_loc io_start 0 (who_info 11) mc_bits.mc_loc).map (fun r => r.diags) =
      some [branch_out_error
        (opcode_at 12 (locus.sub section_id.sec_loc 0 (who_info 11))) DW_OP_skip] := by
  decide

/-- C24, as stated, fails: with `DW_OP_skip` at offset 3 of an expression of 5 bytes only
one byte is left for the operand of two bytes (the second byte of `0x7FFF` is behind the
expression), and `check_location_expression` writes the error for the operand that it
cannot read, not the one for the branch. -/
theorem C24_skip_at_offset_3_cannot_read_operand :
    check_location_expression env_plain file32 (ctx_at_start skip_at_3_bytes) (cu32 0) 100
        ⟨[], 0⟩ 5 (who_info 1) =
      some (true, ⟨[], 0⟩,
        [diag.error (opcode_at 103 (who_info 1)) "opcode \"%s\": can't read %s (form \"%s\").\n"
          [fmt_arg.opcode DW_OP_skip, fmt_arg.str "1st operand", fmt_arg.form DW_FORM_data2]]) ∧
    (check_loc_or_range_ref env_plain 100 file32 (loc_list_with (skip_at_3_bytes.take 5))
        (cu32 0x1000) section_id.sec_loc io_start 0 (who_info 11) mc_bits.mc_loc).map
          (fun r => r.diags) =
      some [diag.error (opcode_at 13 (locus.sub section_id.sec_loc 0 (who_info 11)))
        "opcode \"%s\": can't read %s (form \"%s\").\n"
        [fmt_arg.opcode DW_OP_skip, fmt_arg.str "1st operand", fmt_arg.form DW_FORM_data2]] := by
  decide

theorem unresolved_error_injective {x y : ref} (h : unresolved_error x = unresolved_error y) :
    x = y := by
  unfold unresolved_error at h
  obtain ⟨xa, xw⟩ := x
  obtain ⟨ya, yw⟩ := y
  simp only [diag.error.injEq, List.cons.injEq, fmt_arg.num.injEq, and_true, true_and] at h
  obtain ⟨h1, h2⟩ := h
  subst h1
  subst h2
  rfl

theorem fmt_in_not_unresolved {d : diag} (h : d.fmt_in locexpr_formats = true) (x : ref) :
    d ≠ unresolved_error x := by
  rintro rfl
  simp only [unresolved_error, diag.fmt_in, decide_eq_true_eq] at h
  revert h
  decide

/-- C25: when `check_location_expression` returns true, its messages are those of the
loop over the opcodes followed by those written after the label `out`, and an error
"unresolved reference to opcode" is among them for exactly those references of `oprefs`
(the recorded branch targets) whose target is not in `opaddrs`; the loop writes no such
error; and `opaddrs` is the record of the offsets at which the rounds of the loop found
their opcodes. -/
theorem C25_unresolved_references (E : lr_env) (file : elf_file) (parent : read_ctx) (c : cu)
    (init_off : Nat) (reloc : relocation_data) (length : Nat) (wh : locus)
    (r : Bool × relocation_data × List diag)
    (h : check_location_expression E file parent c init_off reloc length wh = some r)
    (hok : r.1 = true) :
    (∃ ctx st, read_ctx_init_sub parent parent.ptr (parent.ptr + length) = some ctx ∧
      locexpr_loop E file c init_off wh (length + 1) ⟨ctx, reloc, [], [], []⟩ = some st ∧
      r.2.2 = st.diags ++ locexpr_out st.opaddrs st.oprefs ∧
      (∀ d, d ∈ locexpr_out st.opaddrs st.oprefs ↔
        ∃ x ∈ st.oprefs, x.addr ∉ st.opaddrs ∧ d = unresolved_error x) ∧
      (∀ d ∈ st.diags, ∀ x, d ≠ unresolved_error x) ∧
      (∀ x ∈ st.oprefs, unresolved_error x ∈ r.2.2 ↔ x.addr ∉ st.opaddrs)) ∧
    (∀ (st0 : locexpr_state) (step : locexpr_step),
      locexpr_round E file c init_off wh st0 = some step →
      step.state.opaddrs = st0.opaddrs ++ [u64 (read_ctx_get_offset st0.ctx + init_off)]) := by
  refine ⟨?_, fun st0 step hs => (locexpr_round_spec hs).2.2.1⟩
  unfold check_location_expression at h
  cases h0 : read_ctx_init_sub parent parent.ptr (parent.ptr + length) with
  | none =>
    rw [h0] at h
    cases h
    cases hok
  | some cx =>
    rw [h0] at h
    dsimp only at h
    cases h1 : locexpr_loop E file c init_off wh (length + 1) ⟨cx, reloc, [], [], []⟩ with
    | none =>
      rw [h1] at h
      cases h
    | some st =>
      rw [h1] at h
      cases h
      obtain ⟨_, D, a2, a3⟩ := locexpr_loop_spec _ _ _ h1
      have hno : ∀ d ∈ st.diags, ∀ x, d ≠ unresolved_error x := by
        intro d hd x
        rw [a2] at hd
        exact fmt_in_not_unresolved (a3 d (by simpa using hd)) x
      refine ⟨cx, st, rfl, h1, rfl, locexpr_out_mem _ _, hno, ?_⟩
      intro x hx
      constructor
      · intro hmem
        rcases List.mem_append.1 hmem with h2 | h2
        · exact absurd rfl (hno _ h2 x)
        · obtain ⟨y, _, hy, he⟩ := (locexpr_out_mem _ _ _).1 h2
          rw [unresolved_error_injective he]
          exact hy
      · intro hx2
        exact List.mem_append_right _ ((locexpr_out_mem _ _ _).2 ⟨x, hx, hx2, rfl⟩)

theorem C25_unresolved_references_witness :
    check_location_expression env_plain file32 (ctx_at_start jumps_bytes) (cu32 0) 100 ⟨[], 0⟩
        9 (who_info 1) =
      some (true, ⟨[], 0⟩, [unresolved_error ⟨104, opcode_at 100 (who_info 1)⟩]) ∧
    locexpr_loop env_plain file32 (cu32 0) 100 (who_info 1) 10
        ⟨⟨jumps_bytes, 0, false⟩, ⟨[], 0⟩, [], [], []⟩ =
      some ⟨⟨jumps_bytes, 9, false⟩, ⟨[], 0⟩,
        [⟨104, opcode_at 100 (who_info 1)⟩, ⟨103, opcode_at 106 (who_info 1)⟩],
        [100, 103, 105, 106], []⟩ ∧
    (∃ ctx st, read_ctx_init_sub (ctx_at_start jumps_bytes) (ctx_at_start jumps_bytes).ptr
        ((ctx_at_start jumps_bytes).ptr + 9) = some ctx ∧
      locexpr_loop env_plain file32 (cu32 0) 100 (who_info 1) (9 + 1) ⟨ctx, ⟨[], 0⟩, [], [], []⟩ =
        some st ∧
      (true, (⟨[], 0⟩ : relocation_data),
          [unresolved_error ⟨104, opcode_at 100 (who_info 1)⟩]).2.2 =
        st.diags ++ locexpr_out st.opaddrs st.oprefs ∧
      (∀ d, d ∈ locexpr_out st.opaddrs st.oprefs ↔
        ∃ x ∈ st.oprefs, x.addr ∉ st.opaddrs ∧ d = unresolved_error x) ∧
      (∀ d ∈ st.diags, ∀ x, d ≠ unresolved_error x) ∧
      (∀ x ∈ st.oprefs,
        unresolved_error x ∈ (true, (⟨[], 0⟩ : relocation_data),
          [unresolved_error ⟨104, opcode_at 100 (who_info 1)⟩]).2.2 ↔ x.addr ∉ st.opaddrs)) :=
  ⟨by decide, by decide,
    (C25_unresolved_references env_plain file32 (ctx_at_start jumps_bytes) (cu32 0) 100 ⟨[], 0⟩ 9
      (who_info 1) (true, ⟨[], 0⟩, [unresolved_error ⟨104, opcode_at 100 (who_info 1)⟩])
      (by decide) rfl).1⟩

/-- What the `switch` does for an opcode that is none of `DW_OP_bra`, `DW_OP_skip`,
`DW_OP_const8u`, `DW_OP_const8s`, with the first operand `v` as the code holds it in
`uint64_t`: the message of the operand on a 32-bit machine is written iff the address
size is 4, the opcode is one of `DW_OP_constu`, `DW_OP_consts`, `DW_OP_deref_size`,
`DW_OP_plus_uconst`, and `v` is above `2 ^ 32 - 1`. -/
theorem locexpr_check_operand (E : lr_env) (c : cu) (init_off : Nat) (wh : locus)
    (opcode v : Nat) (st : locexpr_state)
    (h1 : ¬ (opcode = DW_OP_bra ∨ opcode = DW_OP_skip))
    (h2 : ¬ (opcode = DW_OP_const8u ∨ opcode = DW_OP_const8s)) :
    locexpr_check E c init_off wh opcode (some v) st =
      some (if c.head.address_size = 4 ∧ (opcode = DW_OP_constu ∨ opcode = DW_OP_consts ∨
          opcode = DW_OP_deref_size ∨ opcode = DW_OP_plus_uconst) ∧ v > 2 ^ 32 - 1
        then { st with diags := st.diags ++ [operand_32bit_message E wh opcode v] }
        else st) := by
  unfold locexpr_check
  rw [if_neg h1, if_neg h2]
  by_cases h3 : c.head.address_size = 4 ∧ (opcode = DW_OP_constu ∨ opcode = DW_OP_consts ∨
      opcode = DW_OP_deref_size ∨ opcode = DW_OP_plus_uconst)
  · rw [if_pos h3]
    dsimp only
    by_cases h4 : v > 2 ^ 32 - 1
    · rw [if_pos h4, if_pos ⟨h3.1, h3.2, h4⟩]
    · rw [if_neg h4, if_neg (fun h => h4 h.2.2)]
  · rw [if_neg h3, if_neg (fun h => h3 ⟨h.1, h.2.1⟩)]

/-- C26, at the input where the code departs from it: in a unit with addresses of 4 bytes
the expression `DW_OP_consts -1` (the bytes `0x11 0x7f`) has the operand -1, which the
read of the form `DW_FORM_sdata` passes back as `2 ^ 64 - 1`, and
`check_location_expression` writes the message "with operand ... on a 32-bit machine",
though -1 is not above `2 ^ 32 - 1`. -/
theorem C26_negative_consts_is_flagged :
    (cu32 0).head.address_size = 4 ∧
      read_ctx_read_sleb128 (ctx_at_start [0x7f]) = some (-1, ⟨[0x7f], 1, false⟩) ∧
      ¬ ((-1 : Int) > 2 ^ 32 - 1) ∧
      read_ctx_read_form env_plain (ctx_at_start [0x7f]) (cu32 0) DW_FORM_sdata (who_info 1)
          "1st operand" true =
        (some (2 ^ 64 - 1, false, ⟨[0x7f], 1, false⟩), []) ∧
      check_location_expression env_plain file32 (ctx_at_start consts_minus_one_bytes) (cu32 0)
          100 ⟨[], 0⟩ 2 (who_info 1) =
        some (true, ⟨[], 0⟩,
          [operand_32bit_message env_plain (opcode_at 100 (who_info 1)) DW_OP_consts
            (2 ^ 64 - 1)]) := by
  decide

/-- Outside the calls that `check_loc_or_range_structural` makes, the condition on the
coverage (a block from `addr` on) is needed for the test of the bytes of an expression:
in the list of `.debug_loc` with the entry `(0x10, 0x20)`, an expression of one byte at
offset 10, and the list end, walked when only the byte at offset 10 is covered,
`check_loc_or_range_ref` returns true and writes no message, though the byte of the
expression overlaps the coverage; when the byte at offset 8, of the length field, is
covered, it writes the error of the overlap.  The region that the code tests for the
expression has the length `expr_end - expr_start`, with both offsets read from the
cursor that `check_location_expression` does not move: it is empty, the test of an empty
region is false, and `lr_check_overlap` on it leaves every state as it is. -/
theorem expression_region_tested_is_empty :
    coverage_is_overlap (io_covered 10).coverage 10 1 = true ∧
      (check_loc_or_range_ref env_plain 30 file32 loc_list_bytes (cu32 0x1000) section_id.sec_loc
          (io_covered 10) 0 (who_info 11) mc_bits.mc_loc).map (fun r => (r.retval, r.diags)) =
        some (true, []) ∧
      (check_loc_or_range_ref env_plain 30 file32 loc_list_bytes (cu32 0x1000) section_id.sec_loc
          (io_covered 8) 0 (who_info 11) mc_bits.mc_loc).map (fun r => (r.retval, r.diags)) =
        some (false, [diag.error (locus.sub section_id.sec_loc 0 (who_info 11))
          ": range definitions overlap.\n" []]) ∧
      (∀ (cov : coverage) (start : Nat), coverage_is_overlap cov start 0 = false) ∧
      (∀ (st : lr_state) (wh : locus) (off : Nat),
        lr_check_overlap st wh off (off - off) = st) :=
  ⟨by decide, by decide, by decide, fun _ _ => rfl,
    fun st wh off => by
      unfold lr_check_overlap
      rw [Nat.sub_self, if_neg]
      rintro ⟨_, h⟩
      cases h⟩

/-- C22, as stated, fails: after the walk of the list `(0x10, 0x20)`, `(0x30, 0x40)`,
`(0x50, 0x60)`, list end from offset 0, the walk from offset 8 finds the bytes of its
first entry, at offset 8, and those of its second entry, at offset 16, covered, and it
writes the error "range definitions overlap" once, for the entry at offset 8, and
nothing for the entry at offset 16. -/
theorem C22_later_entry_reports_nothing :
    (check_loc_or_range_ref env_plain 100 file32 three_ranges_bytes (cu32 0x1000)
        section_id.sec_ranges io_start 0 (who_info 11) mc_bits.mc_ranges).map
          (fun r => (⟨r.rel, r.coverage, r.coverage_map, r.pc_coverage, r.diags⟩ : lr_input)) =
      some io_three ∧
    coverage_is_overlap io_three.coverage 8 4 = true ∧
    coverage_is_overlap io_three.coverage 16 4 = true ∧
    (check_loc_or_range_ref env_plain 100 file32 three_ranges_bytes (cu32 0x1000)
        section_id.sec_ranges io_three 8 (who_info 50) mc_bits.mc_ranges).map
          (fun r => (r.retval, r.diags)) =
      some (false, [ref_into_other_error (who_info 50) 8,
        diag.error (locus.sub section_id.sec_ranges 8 (who_info 50))
          ": range definitions overlap.\n" []]) := by
  decide


/-! ## The section coverage of the entries of a walk -/

theorem coverage_add_has (cov : coverage) (start length b : Nat) :
    (coverage_add cov start length).has b =
      (cov.has b || decide (start ≤ b ∧ b < start + length)) := by
  unfold coverage_add
  by_cases h : length = 0
  · rw [if_pos h]
    subst h
    simp
  · rw [if_neg h]
    simp [coverage.has, List.any_append]

theorem lr_selector_frame (E : lr_env) (wh : locus) (cat : Nat) (st : lr_state) (e : endpoint) :
    (lr_selector E wh cat st e).ctx = st.ctx ∧
      (lr_selector E wh cat st e).coverage = st.coverage := by
  unfold lr_selector
  split_ifs <;> exact ⟨rfl, rfl⟩

/-- How the part of a round after the two addresses ends, as to the section coverage:
with the `coverage_add` for the entry, on a state with the coverage as it was, or with
`return false` and the coverage as it was. -/
theorem lr_tail_coverage (E : lr_env) (file : elf_file) (c : cu) (sec_id : section_id)
    (wh : locus) (cat : Nat) (st : lr_state) (b e : endpoint) {step : lr_step}
    (h : lr_tail E file c sec_id wh cat st b e = some step) :
    (∃ s, s.coverage = st.coverage ∧ st.ctx.ptr ≤ s.ctx.ptr ∧
      (step = lr_step.next (lr_finish wh s) ∨ step = lr_step.stop (lr_finish wh s))) ∨
    (∃ s, step = lr_step.fail s ∧ s.coverage = st.coverage) := by
  by_cases h0 : b.addr = 0 ∧ e.addr = 0 ∧ ¬ b.relocated ∧ ¬ e.relocated
  · rw [lr_tail_terminator E file c sec_id wh cat st b e h0] at h
    cases h
    exact Or.inl ⟨st, rfl, le_rfl, Or.inr rfl⟩
  · by_cases h1 : b.addr = escape_value c.head.address_size
    · rw [lr_tail_selector E file c sec_id wh cat st b e h1] at h
      cases h
      obtain ⟨f1, f2⟩ := lr_selector_frame E wh cat st e
      exact Or.inl ⟨_, f2, by rw [f1], Or.inl rfl⟩
    · cases hr : lr_range E wh cat st b e with
      | none =>
        rw [lr_tail_range_none E file c sec_id wh cat st b e h0 h1 hr] at h
        cases h
      | some s0 =>
        obtain ⟨s, hq, hc, _⟩ := lr_tail_payload_of E file c sec_id wh cat st b e h0 h1 hr h
        obtain ⟨g1, _, g3, _⟩ := lr_range_frame hr
        have hcov : s.coverage = st.coverage := hq.coverage.trans g3
        have hptr : st.ctx.ptr ≤ s.ctx.ptr := by
          have := hq.ext.ptr
          rw [g1] at this
          exact this
        rcases hc with hc | hc
        · exact Or.inl ⟨s, hcov, hptr, Or.inl hc⟩
        · exact Or.inr ⟨s, hc, hcov⟩

/-- How a round ends, as to the section coverage: with the `coverage_add` for the entry,
whose cursor is 8 bytes at least behind its start, on a state with the coverage as it
was, or with `return false` and the coverage as it was. -/
theorem lr_body_coverage (E : lr_env) (file : elf_file) (c : cu) (sec_id : section_id)
    (wh : locus) (cat : Nat) (st : lr_state) {step : lr_step}
    (h : lr_body E file c sec_id wh cat st = some step) :
    (∃ s, s.coverage = st.coverage ∧ st.ctx.ptr + 8 ≤ s.ctx.ptr ∧
      (step = lr_step.next (lr_finish (locus.sub sec_id (read_ctx_get_offset st.ctx) wh) s) ∨
        step = lr_step.stop (lr_finish (locus.sub sec_id (read_ctx_get_offset st.ctx) wh) s))) ∨
    (∃ s, step = lr_step.fail s ∧ s.coverage = st.coverage) := by
  unfold lr_body at h
  dsimp only at h
  obtain ⟨b1, _, _, _, _, b6⟩ :=
    lr_begin_spec E file c (locus.sub sec_id (read_ctx_get_offset st.ctx) wh) st
  rcases hb : lr_begin E file c (locus.sub sec_id (read_ctx_get_offset st.ctx) wh) st with
    ⟨st1, _ | b⟩
  · rw [hb] at h b1
    cases h
    exact Or.inr ⟨st1, rfl, b1⟩
  · rw [hb] at h b1 b6
    dsimp only at h b1 b6
    have p1 := b6 b rfl
    obtain ⟨e1, _, _, _, _, e6⟩ :=
      lr_end_spec E file c (locus.sub sec_id (read_ctx_get_offset st.ctx) wh) cat st1 b
    rcases he : lr_end E file c (locus.sub sec_id (read_ctx_get_offset st.ctx) wh) cat st1 b with
      ⟨st2, _ | e⟩
    · rw [he] at h e1
      cases h
      exact Or.inr ⟨st2, rfl, e1.trans b1⟩
    · rw [he] at h e1 e6
      dsimp only at h e1 e6
      have p2 := e6 e rfl
      rcases lr_tail_coverage E file c sec_id _ cat st2 b e h with
        ⟨s, hc, hp, hs⟩ | ⟨s, hs, hc⟩
      · exact Or.inl ⟨s, hc.trans (e1.trans b1), by omega, hs⟩
      · exact Or.inr ⟨s, hs, hc.trans (e1.trans b1)⟩

/-- C31: let a round of the loop of `check_loc_or_range_ref` return for the entry at
the cursor of `st`.  If the entry is read completely (the round ends with the next round
or with the `break` after a list end, in the state `s`), the section coverage of `s` is
the one of `st` with `coverage_add (entry_start, cursor_offset - entry_start)`, where
the length is greater than zero (8 bytes at least), so the bytes in the coverage are the
ones that were in it and every byte of `[entry_start, cursor_offset)`.  If a read fails
in the entry, the section coverage is the one of `st`, with none of the bytes of the
entry added, and the loop returns at once with `retval` false. -/
theorem C31_entry_bytes_are_covered (E : lr_env) (file : elf_file) (c : cu)
    (sec_id : section_id) (wh : locus) (cat : Nat) (st : lr_state) (step : lr_step)
    (h : lr_body E file c sec_id wh cat st = some step) :
    (∀ s, step = lr_step.next s ∨ step = lr_step.stop s →
      0 < read_ctx_get_offset s.ctx - read_ctx_get_offset st.ctx ∧
      read_ctx_get_offset st.ctx + 8 ≤ read_ctx_get_offset s.ctx ∧
      s.coverage = coverage_add st.coverage (read_ctx_get_offset st.ctx)
        (read_ctx_get_offset s.ctx - read_ctx_get_offset st.ctx) ∧
      (∀ b, read_ctx_get_offset st.ctx ≤ b → b < read_ctx_get_offset s.ctx →
        s.coverage.has b = true) ∧
      (∀ b, s.coverage.has b = true ↔
        (st.coverage.has b = true ∨
          (read_ctx_get_offset st.ctx ≤ b ∧ b < read_ctx_get_offset s.ctx)))) ∧
    (∀ s, step = lr_step.fail s →
      s.coverage = st.coverage ∧
      (read_ctx_eof st.ctx = false → ∀ fuel,
        lr_loop E file c sec_id wh cat (fuel + 1) st = some { s with retval := false })) := by
  have hcases := lr_body_coverage E file c sec_id wh cat st h
  constructor
  · intro s hs
    rcases hcases with ⟨s0, hc, hp, hstep⟩ | ⟨s0, hstep, _⟩
    · have hfin : s = lr_finish (locus.sub sec_id (read_ctx_get_offset st.ctx) wh) s0 := by
        rcases hs with hs | hs <;> rcases hstep with h1 | h1 <;> rw [hs] at h1 <;> cases h1 <;> rfl
      have hctx : s.ctx = s0.ctx := by rw [hfin]; rfl
      have hcov : s.coverage = coverage_add st.coverage (read_ctx_get_offset st.ctx)
          (read_ctx_get_offset s.ctx - read_ctx_get_offset st.ctx) := by
        rw [hctx, hfin]
        show coverage_add s0.coverage _ _ = _
        rw [hc]
        rfl
      have hhas : ∀ b, s.coverage.has b = true ↔
          (st.coverage.has b = true ∨
            (read_ctx_get_offset st.ctx ≤ b ∧ b < read_ctx_get_offset s.ctx)) := by
        intro b
        rw [hcov, coverage_add_has]
        simp only [Bool.or_eq_true, decide_eq_true_eq, read_ctx_get_offset]
        have : st.ctx.ptr + 8 ≤ s.ctx.ptr := by rw [hctx]; exact hp
        constructor
        · rintro (h1 | ⟨h1, h2⟩)
          · exact Or.inl h1
          · exact Or.inr ⟨h1, by omega⟩
        · rintro (h1 | ⟨h1, h2⟩)
          · exact Or.inl h1
          · exact Or.inr ⟨h1, by omega⟩
      have h8 : read_ctx_get_offset st.ctx + 8 ≤ read_ctx_get_offset s.ctx := by
        rw [hctx]
        exact hp
      refine ⟨by omega, h8, hcov, fun b h1 h2 => (hhas b).2 (Or.inr ⟨h1, h2⟩), hhas⟩
    · rcases hs with hs | hs <;> rw [hs] at hstep <;> cases hstep
  · intro s hs
    rcases hcases with ⟨s0, _, _, hstep⟩ | ⟨s0, hstep, hc⟩
    · rcases hstep with h1 | h1 <;> rw [hs] at h1 <;> cases h1
    · rw [hs] at hstep
      cases hstep
      refine ⟨hc, fun he fuel => ?_⟩
      rw [lr_loop, if_neg (by simp [he]), h, hs]

/-- The theorem for the list end at offset 16 of scenario S1: the round ends the list
with the cursor at 24, and the bytes 16 to 23 are in the section coverage. -/
theorem C31_entry_bytes_are_covered_witness :
    lr_body env_plain file32 (cu32 0x1000) section_id.sec_ranges (who_info 11)
        mc_bits.mc_ranges (st_S1 16) =
      some (lr_step.stop (lr_finish (entry_at 16) (st_S1 24))) ∧
    (lr_finish (entry_at 16) (st_S1 24)).coverage = ⟨[(0, 8), (8, 8), (16, 8)]⟩ ∧
    (∀ b, read_ctx_get_offset (st_S1 16).ctx ≤ b →
      b < read_ctx_get_offset (lr_finish (entry_at 16) (st_S1 24)).ctx →
      (lr_finish (entry_at 16) (st_S1 24)).coverage.has b = true) :=
  ⟨by decide, by decide,
    ((C31_entry_bytes_are_covered env_plain file32 (cu32 0x1000) section_id.sec_ranges
      (who_info 11) mc_bits.mc_ranges (st_S1 16)
      (lr_step.stop (lr_finish (entry_at 16) (st_S1 24))) (by decide)).1
        (lr_finish (entry_at 16) (st_S1 24)) (Or.inr rfl)).2.2.2.1⟩

end Dwarflint

namespace Dynhash

/-! ## Further properties of the hash table -/

/-- C33: in a table of a prime size of at least 3, the probe sequence for a hash value
`hv` (first the index `1 + hv mod size`, then from `idx` to `idx - h2` with
`h2 = 1 + hv mod (size - 2)`, plus `size` when that is not positive) has no slot twice
among its first `size` members, and these are exactly the slots `1 .. size`; it is the
sequence of the slots that `lookup` and `insert_helper` examine. -/
theorem C33_probe_visits_each_slot_once (size hv : Nat) (hp : Nat.Prime size)
    (h3 : 3 ≤ size) :
    ((List.range size).map (spec_probe size hv)).Nodup ∧
      (∀ s, s ∈ (List.range size).map (spec_probe size hv) ↔ 1 ≤ s ∧ s ≤ size) ∧
      spec_probe size hv 0 = 1 + hv % size ∧
      (∀ k, spec_probe size hv k = probe size hv k) ∧
      (∀ (E : Env Nat) (t : Htab Nat) (val : Nat) (fuel : Nat), t.size = size →
        (lookup E fuel t hv val).1 =
            (List.range (lookup E fuel t hv val).1.length).map (spec_probe size hv) ∧
          (insert_helper E fuel t hv val).1 = (lookup E fuel t hv val).1) := by
  have hfun : spec_probe size hv = probe size hv := funext (spec_probe_eq size hv h3)
  refine ⟨?_, ?_, ?_, spec_probe_eq size hv h3, ?_⟩
  · rw [hfun]
    refine List.Nodup.map_on ?_ (List.nodup_range size)
    intro i hi j hj he
    rw [List.mem_range] at hi hj
    by_contra hne
    rcases Nat.lt_or_gt_of_ne hne with h | h
    · exact probe_injective size hv hp h3 i j h hj he
    · exact probe_injective size hv hp h3 j i h hi he.symm
  · intro s
    rw [hfun]
    constructor
    · intro hs
      obtain ⟨k, _, rfl⟩ := List.mem_map.1 hs
      exact probe_mem size hv h3 k
    · rintro ⟨h1, h2⟩
      obtain ⟨k, hk, rfl⟩ := probe_surjective size hv hp h3 s h1 h2
      exact List.mem_map.2 ⟨k, List.mem_range.2 hk, rfl⟩
  · show 1 + (if hv < size then hv else hv % size) = 1 + hv % size
    split_ifs with h
    · rw [Nat.mod_eq_of_lt h]
    · rfl
  · intro E t val fuel ht
    subst ht
    rw [hfun]
    exact ⟨lookup_trace E t hv val fuel, insert_helper_trace E t hv val fuel⟩

theorem C33_probe_visits_each_slot_once_witness :
    Nat.Prime 5 ∧ 3 ≤ 5 ∧
      (List.range 5).map (spec_probe 5 7) = [3, 1, 4, 2, 5] ∧
      ((List.range 5).map (spec_probe 5 7)).Nodup ∧
      (∀ s, s ∈ (List.range 5).map (spec_probe 5 7) ↔ 1 ≤ s ∧ s ≤ 5) :=
  ⟨by norm_num, by decide, by decide,
    (C33_probe_visits_each_slot_once 5 7 (by norm_num) (by decide)).1,
    (C33_probe_visits_each_slot_once 5 7 (by norm_num) (by decide)).2.1⟩

/-- The counter `filled` and the number of the filled slots along a sequence of
inserts. -/
theorem insert_all_count {α : Type} (E : Env α) (hE : EnvOK E) (ops : List (Nat × α)) :
    ∀ (t : Htab α), HtabInv E t →
      ∃ t' rets F, (∀ fuel, F ≤ fuel → insert_all E fuel t ops = some (t', rets)) ∧
        HtabInv E t' ∧ rets.length = ops.length ∧ t'.filled = t.filled + ops.length ∧
        nfilled t' + rets.count (-1) = nfilled t + ops.length ∧
        (∀ r ∈ rets, r = 0 ∨ r = -1) := by
  induction ops with
  | nil =>
    intro t hI
    exact ⟨t, [], 0, fun _ _ => rfl, hI, rfl, rfl, rfl, fun r hr => by cases hr⟩
  | cons op rest ih =>
    intro t hI
    obtain ⟨hv, val⟩ := op
    obtain ⟨t1, r, hins, hI1, _, hf1, hcase⟩ := INSERT_spec E hE t hI hv val
    obtain ⟨t2, rets, F, hrest, hI2, hlen, hf2, hn2, hr2⟩ := ih t1 hI1
    refine ⟨t2, r :: rets, max (E.next_prime (t.size * 2) + 257) F, ?_, hI2,
      by simp [hlen], by simp only [List.length_cons]; omega, ?_, ?_⟩
    · intro fuel hf
      rw [insert_all, hins fuel (le_trans (le_max_left _ _) hf)]
      simp only
      rw [hrest fuel (le_trans (le_max_right _ _) hf)]
    · rcases hcase with ⟨hr, _, _, hn⟩ | ⟨hr, _, _, hn⟩
      · subst hr
        rw [List.count_cons_self]
        simp only [List.length_cons]
        omega
      · subst hr
        rw [List.count_cons_of_ne (by decide)]
        simp only [List.length_cons]
        omega
    · intro x hx
      rcases List.mem_cons.1 hx with h | h
      · rcases hcase with ⟨hr, _⟩ | ⟨hr, _⟩
        · exact Or.inr (h.trans hr)
        · exact Or.inl (h.trans hr)
      · exact hr2 x h

/-- C34: after `init` with a size of at least 3 and any sequence `ops` of inserts, made
by one thread, every insert has returned, with 0 or -1, the counter `filled` is the
number of the inserts, and the number of the filled slots among `1 .. size` is `filled`
less the number of the inserts that returned -1.  (`find` has no access to the counter:
it reads the table and returns a value.) -/
theorem C34_filled_counts_inserts {α : Type} (E : Env α) (hE : EnvOK E) (h0 : Htab α)
    (init_size : Nat) (h3 : 3 ≤ E.next_prime init_size) (ops : List (Nat × α)) :
    ∃ t rets F,
      (∀ fuel, F ≤ fuel → insert_all E fuel (INIT E h0 init_size).1 ops = some (t, rets)) ∧
      rets.length = ops.length ∧ (∀ r ∈ rets, r = 0 ∨ r = -1) ∧
      t.filled = ops.length ∧ nfilled t + rets.count (-1) = t.filled ∧
      nfilled t = t.filled - rets.count (-1) := by
  have hI0 := INIT_inv E hE h0 init_size h3
  obtain ⟨t, rets, F, hrun, _, hlen, hf, hn, hr⟩ := insert_all_count E hE ops _ hI0
  have hf0 : (INIT E h0 init_size).1.filled = 0 := rfl
  have hn0 : nfilled (INIT E h0 init_size).1 = 0 := by
    have := hI0.count
    omega
  refine ⟨t, rets, F, hrun, hlen, hr, by omega, by omega, by omega⟩

theorem C34_filled_counts_inserts_witness :
    EnvOK natEnv ∧ 3 ≤ natEnv.next_prime 5 ∧
    (∃ t rets F,
      (∀ fuel, F ≤ fuel →
        insert_all natEnv fuel (INIT natEnv raw_htab 5).1
          [(1, 10), (2, 11), (1, 10), (3, 12), (2, 11), (4, 13), (5, 14)] = some (t, rets)) ∧
      rets.length = [(1, 10), (2, 11), (1, 10), (3, 12), (2, 11), (4, 13), (5, 14)].length ∧
      (∀ r ∈ rets, r = 0 ∨ r = -1) ∧
      t.filled = [(1, 10), (2, 11), (1, 10), (3, 12), (2, 11), (4, 13), (5, 14)].length ∧
      nfilled t + rets.count (-1) = t.filled ∧
      nfilled t = t.filled - rets.count (-1)) ∧
    (insert_all natEnv 20 (INIT natEnv raw_htab 5).1
        [(1, 10), (2, 11), (1, 10), (3, 12), (2, 11), (4, 13), (5, 14)]).map
          (fun r => (r.2, r.1.filled, r.1.size,
            ((List.range' 1 r.1.size).filter (fun i => (r.1.table i).state = 2)).length)) =
      some ([0, 0, -1, 0, -1, 0, 0], 7, 11, 5) :=
  ⟨natEnv_ok, by decide,
    C34_filled_counts_inserts natEnv natEnv_ok raw_htab 5 (by decide)
      [(1, 10), (2, 11), (1, 10), (3, 12), (2, 11), (4, 13), (5, 14)], by decide⟩

/-- C32, at the input where the code departs from it: on a table initialised with the
prime size 7, seven inserts with the hash values 1 to 7 all return 0 without a resize
(the fill test sees the count before the increment, at most 6) and fill the seven
slots, so that no slot among `1 .. size` is empty when `lookup` runs next; `lookup` for
the pair (8, 17), which was never inserted, then does not return, whatever the fuel.  So
it is after `init` with the size 3, which gives a table of the size 5, and five
inserts. -/
theorem C32_full_table_lookup_never_returns :
    ((INIT natEnv raw_htab 7).1.size = 7 ∧ Nat.Prime 7 ∧
      (insert_all natEnv 20 (INIT natEnv raw_htab 7).1
          [(1, 10), (2, 11), (3, 12), (4, 13), (5, 14), (6, 15), (7, 16)]).map
          (fun r => (r.2, r.1.size, r.1.filled,
            (List.range' 1 r.1.size).map (fun i => (r.1.table i).state))) =
        some ([0, 0, 0, 0, 0, 0, 0], 7, 7, [2, 2, 2, 2, 2, 2, 2]) ∧
      (∀ fuel, (lookup natEnv fuel (table_after_init 7
          [(1, 10), (2, 11), (3, 12), (4, 13), (5, 14), (6, 15), (7, 16)]) 8 17).2 = none) ∧
      (∀ fuel, FIND natEnv fuel (table_after_init 7
          [(1, 10), (2, 11), (3, 12), (4, 13), (5, 14), (6, 15), (7, 16)]) 8 17 = none)) ∧
    ((INIT natEnv raw_htab 3).1.size = 5 ∧ Nat.Prime 5 ∧
      (insert_all natEnv 20 (INIT natEnv raw_htab 3).1
          [(1, 10), (2, 11), (3, 12), (4, 13), (5, 14)]).map
          (fun r => (r.2, r.1.size, r.1.filled,
            (List.range' 1 r.1.size).map (fun i => (r.1.table i).state))) =
        some ([0, 0, 0, 0, 0], 5, 5, [2, 2, 2, 2, 2]) ∧
      (∀ fuel, (lookup natEnv fuel (table_after_init 3
          [(1, 10), (2, 11), (3, 12), (4, 13), (5, 14)]) 6 15).2 = none) ∧
      (∀ fuel, FIND natEnv fuel (table_after_init 3
          [(1, 10), (2, 11), (3, 12), (4, 13), (5, 14)]) 6 15 = none)) := by
  have hd7 : ∀ fuel, (lookup natEnv fuel (table_after_init 7
      [(1, 10), (2, 11), (3, 12), (4, 13), (5, 14), (6, 15), (7, 16)]) 8 17).2 = none := by
    intro fuel
    exact lookup_full_diverges natEnv (table_after_init 7
      [(1, 10), (2, 11), (3, 12), (4, 13), (5, 14), (6, 15), (7, 16)]) 8 17
      (by decide)
      (by
        intro i h1 h2
        have h2' : i ≤ 7 := h2
        interval_cases i <;> decide) fuel
  have hd5 : ∀ fuel, (lookup natEnv fuel (table_after_init 3
      [(1, 10), (2, 11), (3, 12), (4, 13), (5, 14)]) 6 15).2 = none := by
    intro fuel
    exact lookup_full_diverges natEnv (table_after_init 3
      [(1, 10), (2, 11), (3, 12), (4, 13), (5, 14)]) 6 15
      (by decide)
      (by
        intro i h1 h2
        have h2' : i ≤ 5 := h2
        interval_cases i <;> decide) fuel
  refine ⟨⟨by decide, by norm_num, by decide, hd7, ?_⟩, ⟨by decide, by norm_num, by decide, hd5, ?_⟩⟩
  · intro fuel
    unfold FIND
    simp only [ne_eq, OfNat.ofNat_ne_zero, not_false_eq_true, if_true]
    rw [hd7]
  · intro fuel
    unfold FIND
    simp only [ne_eq, OfNat.ofNat_ne_zero, not_false_eq_true, if_true]
    rw [hd5]


/-! ## The blocks of `resize_helper` -/

end Dynhash

namespace Dwarflint

/-! ## The method `operator &=` -/

theorem getD_append_length {α : Type} (pre : List α) (x : α) (tl : List α) (d : α) :
    (pre ++ x :: tl).getD pre.length d = x := by
  induction pre with
  | nil => rfl
  | cons a pre ih => simpa using ih

theorem set_append_length {α : Type} (pre : List α) (x a : α) (tl : List α) :
    (pre ++ x :: tl).set pre.length a = pre ++ a :: tl := by
  induction pre with
  | nil => rfl
  | cons b pre ih => simp [ih]

theorem take_append_length {α : Type} (pre tl : List α) :
    (pre ++ tl).take pre.length = pre := by
  induction pre with
  | nil => simp
  | cons b pre ih => simp

theorem and_terms_nil (term : message_term) : and_terms term [] = [] := rfl

theorem and_terms_cons_keep (term x : message_term) (l : List message_term)
    (h : ((term.or_masks x).positive &&& (term.or_masks x).negative) = 0) :
    and_terms term (x :: l) = term.or_masks x :: and_terms term l := by
  simp [and_terms, h]

theorem and_terms_cons_drop (term x : message_term) (l : List message_term)
    (h : ((term.or_masks x).positive &&& (term.or_masks x).negative) ≠ 0) :
    and_terms term (x :: l) = and_terms term l := by
  simp [and_terms, h]

theorem and_terms_perm (term : message_term) {l l' : List message_term} (h : l.Perm l') :
    (and_terms term l).Perm (and_terms term l') :=
  (h.map _).filter _

/-- The loop of `operator &=` on an array that holds the terms `pre`, already dealt
with, the terms `rest`, and what is behind `size`: it returns, and the terms that it
leaves are, in some order, `pre` and the terms of `rest` combined with `term`, without
the contradictory ones. -/
theorem and_assign_loop_spec (term : message_term) (fuel : Nat) :
    ∀ (pre rest junk : List message_term), rest.length < fuel →
      ∃ terms size, and_assign_loop term fuel (pre ++ rest ++ junk)
          (pre.length + rest.length) pre.length = some (terms, size) ∧
        (terms.take size).Perm (pre ++ and_terms term rest) := by
  induction fuel with
  | zero => intro pre rest junk h; omega
  | succ fuel ih =>
    intro pre rest junk hf
    cases rest with
    | nil =>
      rw [and_assign_loop, if_neg (by simp)]
      refine ⟨_, _, rfl, ?_⟩
      simp only [List.append_nil, List.length_nil, Nat.add_zero, and_terms_nil]
      rw [take_append_length]
    | cons x rest =>
      have e0 : pre ++ x :: rest ++ junk = pre ++ x :: (rest ++ junk) := by simp
      rw [and_assign_loop, if_pos (by simp)]
      dsimp only
      rw [e0, getD_append_length, set_append_length]
      by_cases hk : ((term.or_masks x).positive &&& (term.or_masks x).negative) = 0
      · rw [if_neg (by simpa [message_term.or_masks] using hk)]
        have e1 : pre ++ (⟨x.positive ||| term.positive, x.negative ||| term.negative⟩ :
            message_term) :: (rest ++ junk) = (pre ++ [term.or_masks x]) ++ rest ++ junk := by
          simp [message_term.or_masks]
        have e2 : pre.length + (x :: rest).length = (pre ++ [term.or_masks x]).length +
            rest.length := by
          simp only [List.length_append, List.length_cons, List.length_nil]
          omega
        have e3 : pre.length + 1 = (pre ++ [term.or_masks x]).length := by simp
        rw [e1, e2, e3]
        obtain ⟨terms, size, h1, h2⟩ := ih (pre ++ [term.or_masks x]) rest junk
          (by simp only [List.length_cons] at hf; omega)
        refine ⟨terms, size, h1, ?_⟩
        rw [and_terms_cons_keep term x rest hk]
        simpa using h2
      · rw [if_pos (by simpa [message_term.or_masks] using hk)]
        rw [and_terms_cons_drop term x rest hk]
        rcases List.eq_nil_or_concat rest with hr | ⟨mid, y, hr⟩
        · subst hr
          have e1 : pre.length + [x].length - 1 = pre.length := by simp
          rw [e1, List.nil_append, getD_append_length, set_append_length]
          have e2 : pre ++ (⟨x.positive ||| term.positive, x.negative ||| term.negative⟩ :
              message_term) :: junk = pre ++ [] ++ (term.or_masks x :: junk) := by
            simp [message_term.or_masks]
          have e3 : pre.length = pre.length + ([] : List message_term).length := by simp
          rw [e2]
          nth_rewrite 2 [e3]
          exact ih pre [] (term.or_masks x :: junk)
            (by simp only [List.length_cons, List.length_nil] at hf ⊢; omega)
        · rw [List.concat_eq_append] at hr
          subst hr
          have e1 : pre.length + (x :: (mid ++ [y])).length - 1 =
              (pre ++ term.or_masks x :: mid).length := by
            simp only [List.length_append, List.length_cons, List.length_nil]
            omega
          have e2 : pre ++ (⟨x.positive ||| term.positive, x.negative ||| term.negative⟩ :
              message_term) :: (mid ++ [y] ++ junk) =
              (pre ++ term.or_masks x :: mid) ++ y :: junk := by
            simp [message_term.or_masks]
          rw [e1, e2, getD_append_length]
          have e4 : (pre ++ term.or_masks x :: mid) ++ y :: junk =
              pre ++ term.or_masks x :: (mid ++ y :: junk) := by simp
          rw [e4, set_append_length]
          have e5 : pre ++ y :: (mid ++ y :: junk) = pre ++ (y :: mid) ++ (y :: junk) := by simp
          have e6 : (pre ++ term.or_masks x :: mid).length = pre.length + (y :: mid).length := by
            simp only [List.length_append, List.length_cons]
          rw [e5, e6]
          obtain ⟨terms, size, h1, h2⟩ := ih pre (y :: mid) (y :: junk)
            (by simp only [List.length_append, List.length_cons, List.length_nil] at hf ⊢; omega)
          refine ⟨terms, size, h1, h2.trans (List.Perm.append_left pre ?_)⟩
          apply and_terms_perm
          exact (List.perm_append_singleton y mid).symm

theorem land_eq_zero_of_lor {a b c : Nat} :
    ((a ||| b) &&& c = 0) ↔ (a &&& c = 0 ∧ b &&& c = 0) := by
  rw [Nat.and_distrib_right]
  constructor
  · intro h
    constructor
    · apply Nat.eq_of_testBit_eq
      intro i
      have := congrArg (fun n => n.testBit i) h
      simp only [Nat.testBit_or, Nat.zero_testBit, Bool.or_eq_false_iff] at this
      rw [Nat.zero_testBit]
      exact this.1
    · apply Nat.eq_of_testBit_eq
      intro i
      have := congrArg (fun n => n.testBit i) h
      simp only [Nat.testBit_or, Nat.zero_testBit, Bool.or_eq_false_iff] at this
      rw [Nat.zero_testBit]
      exact this.2
  · rintro ⟨h1, h2⟩
    rw [h1, h2]
    rfl

theorem land_eq_self_of_lor {a b c : Nat} :
    ((a ||| b) &&& c = a ||| b) ↔ (a &&& c = a ∧ b &&& c = b) := by
  constructor
  · intro h
    constructor
    · apply Nat.eq_of_testBit_eq
      intro i
      have := congrArg (fun n => n.testBit i) h
      simp only [Nat.testBit_and, Nat.testBit_or] at this
      rw [Nat.testBit_and]
      cases ha : a.testBit i <;> cases hb : b.testBit i <;> cases hc : c.testBit i <;>
        simp [ha, hb, hc] at this ⊢
    · apply Nat.eq_of_testBit_eq
      intro i
      have := congrArg (fun n => n.testBit i) h
      simp only [Nat.testBit_and, Nat.testBit_or] at this
      rw [Nat.testBit_and]
      cases ha : a.testBit i <;> cases hb : b.testBit i <;> cases hc : c.testBit i <;>
        simp [ha, hb, hc] at this ⊢
  · rintro ⟨h1, h2⟩
    rw [Nat.and_distrib_right, h1, h2]

/-- The combined term matches a category if and only if both terms do. -/
theorem or_masks_matches (term t : message_term) (cat : Nat) :
    (term.or_masks t).matches cat = (t.matches cat && term.matches cat) := by
  unfold message_term.matches message_term.or_masks
  rw [Bool.eq_iff_iff]
  simp only [decide_eq_true_eq, Bool.and_eq_true]
  rw [land_eq_self_of_lor, land_eq_zero_of_lor]
  tauto

/-- A term that asks for a bit to be set and clear matches no category. -/
theorem contradictory_matches (t : message_term) (cat : Nat)
    (h : (t.positive &&& t.negative) ≠ 0) : t.matches cat = false := by
  unfold message_term.matches
  rw [decide_eq_false_iff_not]
  rintro ⟨h1, h2⟩
  apply h
  rw [← h1, Nat.land_assoc, Nat.land_comm cat, h2]
  exact Nat.and_zero _

theorem message_accept_terms_any (cat : Nat) (l : List message_term) :
    message_accept_terms cat l = l.any (fun t => t.matches cat) := by
  rw [Bool.eq_iff_iff, message_accept_terms_iff, List.any_eq_true]
  simp only [message_term.matches, decide_eq_true_eq]

theorem and_terms_any (term : message_term) (cat : Nat) (l : List message_term) :
    (and_terms term l).any (fun t => t.matches cat) =
      (l.any (fun t => t.matches cat) && term.matches cat) := by
  induction l with
  | nil => rfl
  | cons x l ih =>
    by_cases hk : ((term.or_masks x).positive &&& (term.or_masks x).negative) = 0
    · rw [and_terms_cons_keep term x l hk, List.any_cons, List.any_cons, ih, or_masks_matches]
      cases x.matches cat <;> cases term.matches cat <;> simp
    · rw [and_terms_cons_drop term x l hk, List.any_cons, ih]
      have h1 := contradictory_matches _ cat hk
      rw [or_masks_matches] at h1
      cases hx : x.matches cat <;> cases ht : term.matches cat <;> simp [hx, ht] at h1 ⊢

/-- C36: for a term with disjoint masks, `cri &= term` returns, and the terms of the
criterion afterwards are, in some order, the terms that it had, each combined with
`term` once, without the ones that became contradictory (also a term that was moved into
the place of a dropped one is combined once); so the criterion afterwards accepts a
category if and only if the criterion before accepted it and `term` matches it. -/
theorem C36_and_assign_accepts (cri : message_criteria) (term : message_term)
    (h : (term.positive &&& term.negative) = 0) :
    ∃ cri', cri_and_assign cri term = some cri' ∧
      cri'.terms.Perm (and_terms term cri.terms) ∧
      (∀ t, t ∈ cri'.terms ↔ ∃ u ∈ cri.terms, t = term.or_masks u ∧
        (t.positive &&& t.negative) = 0) ∧
      ∀ cat, message_accept cri' cat = (message_accept cri cat && term.matches cat) := by
  obtain ⟨terms, size, h1, h2⟩ := and_assign_loop_spec term (cri.terms.length + 1) []
    cri.terms [] (Nat.lt_succ_self _)
  simp only [List.nil_append, List.append_nil, List.length_nil, Nat.zero_add] at h1 h2
  refine ⟨⟨terms.take size⟩, ?_, h2, ?_, ?_⟩
  · unfold cri_and_assign
    rw [if_neg (not_not.2 h), h1]
  · intro t
    rw [h2.mem_iff]
    simp only [and_terms, List.mem_filter, List.mem_map, decide_eq_true_eq]
    constructor
    · rintro ⟨⟨u, hu, rfl⟩, hz⟩
      exact ⟨u, hu, rfl, hz⟩
    · rintro ⟨u, hu, rfl, hz⟩
      exact ⟨⟨u, hu, rfl⟩, hz⟩
  · intro cat
    unfold message_accept
    rw [message_accept_terms_any, message_accept_terms_any, ← and_terms_any]
    rw [Bool.eq_iff_iff, List.any_eq_true, List.any_eq_true]
    constructor
    · rintro ⟨t, ht, hm⟩
      exact ⟨t, h2.mem_iff.1 ht, hm⟩
    · rintro ⟨t, ht, hm⟩
      exact ⟨t, h2.mem_iff.2 ht, hm⟩

/-- The theorem for the criterion `(1, 0) | (2, 0) | (0, 4) | (8, 0)` and the term
`(4, 2)`: the second and the third term are dropped, and the fourth is moved into the
place of the second and combined once. -/
theorem C36_and_assign_accepts_witness :
    ((⟨4, 2⟩ : message_term).positive &&& (⟨4, 2⟩ : message_term).negative) = 0 ∧
    cri_and_assign ⟨[⟨1, 0⟩, ⟨2, 0⟩, ⟨0, 4⟩, ⟨8, 0⟩]⟩ ⟨4, 2⟩ = some ⟨[⟨5, 2⟩, ⟨12, 2⟩]⟩ ∧
    ∃ cri', cri_and_assign ⟨[⟨1, 0⟩, ⟨2, 0⟩, ⟨0, 4⟩, ⟨8, 0⟩]⟩ ⟨4, 2⟩ = some cri' ∧
      ∀ cat, message_accept cri' cat =
        (message_accept ⟨[⟨1, 0⟩, ⟨2, 0⟩, ⟨0, 4⟩, ⟨8, 0⟩]⟩ cat &&
          (⟨4, 2⟩ : message_term).matches cat) :=
  ⟨by decide, by decide,
    (C36_and_assign_accepts ⟨[⟨1, 0⟩, ⟨2, 0⟩, ⟨0, 4⟩, ⟨8, 0⟩]⟩ ⟨4, 2⟩ (by decide)).imp
      (fun _ hc => ⟨hc.1, hc.2.2.2⟩)⟩


/-! ## The end of the section in a walk -/

/-- C37: when the cursor of the walk is at the end of the section, the loop of
`check_loc_or_range_ref` returns the state as it is: it adds no message, about a
missing list end or other, and the value returned is the `retval` so far.  So it is
after an entry that ends at the end of the section (the loop goes on with the state
that the round leaves, and returns it), and for a reference to the offset that is the
size of the section: no entry is read, and the call returns the state in which it
enters the loop, with no message but the error for a reference into another list, if
the byte at this offset is covered. -/
theorem C37_end_of_section_ends_walk_silently (E : lr_env) (fuel : Nat) (file : elf_file)
    (data : List Nat) (c : cu) (sec_id : section_id) (io : lr_input) (wh : locus) (cat : Nat)
    (ha : lr_asserts E sec_id cat) :
    (∀ st : lr_state, read_ctx_eof st.ctx = true →
      lr_loop E file c sec_id wh cat (fuel + 1) st = some st) ∧
    (∀ st s : lr_state, read_ctx_eof st.ctx = false →
      lr_body E file c sec_id wh cat st = some (lr_step.next s) →
      lr_loop E file c sec_id wh cat (fuel + 1) st = lr_loop E file c sec_id wh cat fuel s ∧
      (read_ctx_eof s.ctx = true →
        lr_loop E file c sec_id wh cat (fuel + 2) st = some s)) ∧
    check_loc_or_range_ref E (fuel + 1) file data c sec_id io data.length wh cat =
      some (lr_entry file data c io data.length wh) ∧
    (lr_entry file data c io data.length wh).ctx = ⟨data, data.length, file.other_byte_order⟩ ∧
    (lr_entry file data c io data.length wh).retval =
      !coverage_is_covered io.coverage data.length 1 ∧
    (lr_entry file data c io data.length wh).diags = io.diags ++
      (if coverage_is_covered io.coverage data.length 1
        then [ref_into_other_error wh data.length] else []) ∧
    (lr_entry file data c io data.length wh).coverage = io.coverage := by
  have hloop : ∀ (n : Nat) (st : lr_state), read_ctx_eof st.ctx = true →
      lr_loop E file c sec_id wh cat (n + 1) st = some st := by
    intro n st h
    unfold lr_loop
    rw [if_pos h]
  have hnext : ∀ (n : Nat) (st s : lr_state), read_ctx_eof st.ctx = false →
      lr_body E file c sec_id wh cat st = some (lr_step.next s) →
      lr_loop E file c sec_id wh cat (n + 1) st = lr_loop E file c sec_id wh cat n s := by
    intro n st s h hb
    rw [lr_loop, if_neg (by simp [h]), hb]
  refine ⟨hloop fuel, ?_, ?_, ?_, ?_, ?_, ?_⟩
  · intro st s h hb
    refine ⟨hnext fuel st s h hb, fun he => ?_⟩
    rw [hnext (fuel + 1) st s h hb, hloop fuel s he]
  · rw [check_loc_or_range_ref_entry E (fuel + 1) file data c sec_id io data.length wh cat ha
      (le_refl _)]
    apply hloop
    rw [(lr_entry_map file data c io data.length wh).2]
    simp [read_ctx_eof, read_ctx_need_data]
  · exact (lr_entry_map file data c io data.length wh).2
  · unfold lr_entry
    split_ifs with h
    · simp [h]
    · simp [h]
  · unfold lr_entry
    split_ifs with h
    · rfl
    · simp
  · unfold lr_entry
    split_ifs <;> rfl

/-- The theorem for a section `.debug_ranges` of 8 bytes with the entry `(0x10, 0x20)`
and no list end: the walk from offset 0 returns true without a message, and the
reference to offset 8 returns true without a message. -/
theorem C37_end_of_section_ends_walk_silently_witness :
    lr_asserts env_plain section_id.sec_ranges mc_bits.mc_ranges ∧
    check_loc_or_range_ref env_plain (3 + 1) file32 (one_range_bytes.take 8) (cu32 0x1000)
        section_id.sec_ranges io_start (one_range_bytes.take 8).length (who_info 11)
        mc_bits.mc_ranges =
      some (lr_entry file32 (one_range_bytes.take 8) (cu32 0x1000) io_start
        (one_range_bytes.take 8).length (who_info 11)) ∧
    (lr_entry file32 (one_range_bytes.take 8) (cu32 0x1000) io_start
      (one_range_bytes.take 8).length (who_info 11)).retval = true ∧
    (lr_entry file32 (one_range_bytes.take 8) (cu32 0x1000) io_start
      (one_range_bytes.take 8).length (who_info 11)).diags = [] ∧
    (check_loc_or_range_ref env_plain (3 + 1) file32 (one_range_bytes.take 8) (cu32 0x1000)
        section_id.sec_ranges io_start 0 (who_info 11) mc_bits.mc_ranges).map
          (fun r => (r.retval, r.diags, r.ctx.ptr)) = some (true, [], 8) :=
  ⟨by unfold lr_asserts; decide,
    (C37_end_of_section_ends_walk_silently env_plain 3 file32 (one_range_bytes.take 8)
      (cu32 0x1000) section_id.sec_ranges io_start (who_info 11) mc_bits.mc_ranges
      (by unfold lr_asserts; decide)).2.2.1,
    by decide, by decide, by decide⟩

/-! ## The assertion of `coverage_map_add` -/

theorem read_ctx_init_sub_none (parent : read_ctx) (length : Nat)
    (h : read_ctx_need_data parent length = false) :
    read_ctx_init_sub parent parent.ptr (parent.ptr + length) = none := by
  unfold read_ctx_init_sub
  simp only [read_ctx_need_data, decide_eq_false_iff_not] at h
  rw [if_neg (fun hc => h hc.2)]

theorem read_ctx_init_sub_some (parent : read_ctx) (length : Nat)
    (h : read_ctx_need_data parent length = true) :
    read_ctx_init_sub parent parent.ptr (parent.ptr + length) =
      some ⟨(parent.data.drop parent.ptr).take length, 0, parent.other_byte_order⟩ := by
  unfold read_ctx_init_sub
  simp only [read_ctx_need_data, decide_eq_true_eq] at h
  rw [if_pos ⟨Nat.le_add_right _ _, h⟩, Nat.add_sub_cancel_left]

/-- What `check_location_expression` returns, if it returns: false with the error for
missing data when the parent cursor has fewer than `length` bytes left, and true
otherwise. -/
theorem check_location_expression_value {E : lr_env} {file : elf_file} {parent : read_ctx}
    {c : cu} {init_off : Nat} {reloc : relocation_data} {length : Nat} {wh : locus}
    {r : Bool × relocation_data × List diag}
    (h : check_location_expression E file parent c init_off reloc length wh = some r) :
    r.1 = read_ctx_need_data parent length := by
  unfold check_location_expression at h
  cases hn : read_ctx_need_data parent length with
  | false =>
    rw [read_ctx_init_sub_none parent length hn] at h
    cases h
    rfl
  | true =>
    rw [read_ctx_init_sub_some parent length hn] at h
    dsimp only at h
    cases hl : locexpr_loop E file c init_off wh (length + 1)
        ⟨⟨(parent.data.drop parent.ptr).take length, 0, parent.other_byte_order⟩, reloc, [], [],
          []⟩ with
    | none =>
      rw [hl] at h
      cases h
    | some st =>
      rw [hl] at h
      cases h
      rfl

/-- C38: `check_location_expression`, when it returns, returns false if and only if
the parent cursor has fewer than `length` bytes left, and then with the one error for
missing data; with `length` bytes left every value that it returns is true, whatever the
opcodes, operands and branches are.  It returns in an environment that finds no
relocation at an operand and whose table gives a first operand to the opcodes whose
first operand the code reads.  It does not move the parent cursor: after the value true
the caller skips the `length` bytes of the expression from where the cursor was and the
round goes on, and after the value false the walk returns false. -/
theorem C38_false_iff_not_enough_data (E : lr_env) (file : elf_file) (parent : read_ctx)
    (c : cu) (init_off : Nat) (reloc : relocation_data) (length : Nat) (wh : locus) :
    (read_ctx_need_data parent length = false →
      parent.data.length < parent.ptr + length ∧
      check_location_expression E file parent c init_off reloc length wh =
        some (false, reloc,
          [diag.error wh ": not enough data for %s.\n" [fmt_arg.str "location expression"]])) ∧
    (∀ r, check_location_expression E file parent c init_off reloc length wh = some r →
      (r.1 = false ↔ parent.data.length < parent.ptr + length) ∧
      (r.1 = true ↔ parent.ptr + length ≤ parent.data.length)) ∧
    (locexpr_safe E → read_ctx_need_data parent length = true →
      ∃ r, check_location_expression E file parent c init_off reloc length wh = some r ∧
        r.1 = true) ∧
    (∀ (st : lr_state) (len : Nat) (cx : read_ctx) (r : Bool × relocation_data × List diag),
      read_ctx_read_2ubyte st.ctx = some (len, cx) →
      check_location_expression E file cx c (read_ctx_get_offset cx) st.rel len wh = some r →
      (r.1 = false → ∃ s, lr_locexpr E file c wh st = some (lr_step.fail s)) ∧
      (r.1 = true → ∃ s, lr_locexpr E file c wh st = some (lr_step.next s) ∧
        s.ctx = { cx with ptr := cx.ptr + len })) := by
  refine ⟨?_, ?_, ?_, ?_⟩
  · intro hn
    refine ⟨?_, ?_⟩
    · simpa [read_ctx_need_data] using hn
    · unfold check_location_expression
      rw [read_ctx_init_sub_none parent length hn]
  · intro r hr
    have hv := check_location_expression_value hr
    rw [hv]
    constructor <;> simp [read_ctx_need_data]
  · intro hE hn
    obtain ⟨r, hr⟩ := locexpr_safe_returns hE file parent c init_off reloc length wh
    exact ⟨r, hr, (check_location_expression_value hr).trans hn⟩
  · intro st len cx r hread hc
    have hv := check_location_expression_value hc
    obtain ⟨f1, f2, _⟩ := lr_check_overlap_frame st wh (read_ctx_get_offset st.ctx) 2
    unfold lr_locexpr
    dsimp only
    generalize lr_check_overlap st wh (read_ctx_get_offset st.ctx) 2 = s1 at *
    rw [f1, hread]
    dsimp only
    rw [f2, hc]
    dsimp only
    constructor
    · intro hk
      rw [if_pos (by simp [hk])]
      exact ⟨_, rfl⟩
    · intro hk
      rw [if_neg (by simp [hk])]
      generalize hs2 : lr_state.mk cx r.2.1 s1.coverage s1.coverage_map s1.pc_coverage
        s1.retval s1.overlap s1.base (s1.diags ++ r.2.2) = s2
      obtain ⟨g1, _⟩ := lr_check_overlap_frame s2 wh (read_ctx_get_offset cx)
        (read_ctx_get_offset cx - read_ctx_get_offset cx)
      have hcx : s2.ctx = cx := by
        rw [← hs2]
      generalize lr_check_overlap s2 wh (read_ctx_get_offset cx)
        (read_ctx_get_offset cx - read_ctx_get_offset cx) = s3 at *
      have hskip : read_ctx_skip s3.ctx len = some { cx with ptr := cx.ptr + len } := by
        rw [g1, hcx]
        unfold read_ctx_skip
        rw [if_pos (hv.symm.trans hk)]
      rw [hskip]
      exact ⟨_, rfl, rfl⟩

/-- C38, as stated, fails: for the expression `DW_OP_call_ref 0` of 5 bytes, all of
them in the parent cursor, with a relocation at the offset of the operand, the function
does not return true: the assertion of `reloc_target_loc` fails for the opcode
`DW_OP_call_ref`. -/
theorem C38_relocated_call_ref_does_not_return :
    read_ctx_need_data (ctx_at_start call_ref_bytes) 5 = true ∧
    reloc_target_loc DW_OP_call_ref = none ∧
    check_location_expression env_reloc file32 (ctx_at_start call_ref_bytes) (cu32 0) 0
      reloc_at_1 5 (who_info 11) = none ∧
    (∃ r, check_location_expression env_reloc file32 (ctx_at_start call_ref_bytes) (cu32 0) 0
      ⟨[], 0⟩ 5 (who_info 11) = some r ∧ r.1 = true) := by
  decide


/-! ## The branch targets of a location expression -/

theorem uleb128_decode_le : ∀ (l : List Nat) (v n : Nat),
    uleb128_decode l = some (v, n) → n ≤ l.length := by
  intro l
  induction l with
  | nil =>
    intro v n h
    cases h
  | cons b bs ih =>
    intro v n h
    rw [uleb128_decode] at h
    by_cases hb : b % 256 < 128
    · rw [if_pos hb] at h
      simp only [Option.some.injEq, Prod.mk.injEq] at h
      obtain ⟨_, rfl⟩ := h
      simp
    · rw [if_neg hb] at h
      cases hd : uleb128_decode bs with
      | none =>
        rw [hd] at h
        cases h
      | some p =>
        obtain ⟨w, m⟩ := p
        rw [hd] at h
        simp only [Option.some.injEq, Prod.mk.injEq] at h
        obtain ⟨_, rfl⟩ := h
        have := ih w m hd
        simp only [List.length_cons]
        omega

theorem read_ctx_read_uleb128_bound {ctx ctx' : read_ctx} {v : Nat}
    (h : read_ctx_read_uleb128 ctx = some (v, ctx')) (hp : ctx.ptr ≤ ctx.data.length) :
    ctx'.ptr ≤ ctx'.data.length := by
  unfold read_ctx_read_uleb128 at h
  cases hd : uleb128_decode (ctx.data.drop ctx.ptr) with
  | none =>
    rw [hd] at h
    cases h
  | some p =>
    obtain ⟨w, n⟩ := p
    rw [hd] at h
    dsimp only at h
    have hle := uleb128_decode_le _ _ _ hd
    rw [List.length_drop] at hle
    by_cases hn : 7 * n > 128 + 6
    · rw [if_pos hn] at h
      cases h
    · rw [if_neg hn] at h
      simp only [Option.some.injEq, Prod.mk.injEq] at h
      obtain ⟨_, rfl⟩ := h
      show ctx.ptr + n ≤ ctx.data.length
      omega

theorem read_ctx_read_sleb128_bound {ctx ctx' : read_ctx} {v : Int}
    (h : read_ctx_read_sleb128 ctx = some (v, ctx')) (hp : ctx.ptr ≤ ctx.data.length) :
    ctx'.ptr ≤ ctx'.data.length := by
  unfold read_ctx_read_sleb128 at h
  cases hd : uleb128_decode (ctx.data.drop ctx.ptr) with
  | none =>
    rw [hd] at h
    cases h
  | some p =>
    obtain ⟨w, n⟩ := p
    rw [hd] at h
    dsimp only at h
    have hle := uleb128_decode_le _ _ _ hd
    rw [List.length_drop] at hle
    by_cases hn : 7 * n > 128 + 6
    · rw [if_pos hn] at h
      cases h
    · rw [if_neg hn] at h
      simp only [Option.some.injEq, Prod.mk.injEq] at h
      obtain ⟨_, rfl⟩ := h
      show ctx.ptr + n ≤ ctx.data.length
      omega

theorem read_ctx_read_bound {ctx ctx' : read_ctx} {n v : Nat}
    (h : read_ctx_read ctx n = some (v, ctx')) : ctx'.ptr ≤ ctx'.data.length := by
  obtain ⟨h1, h2, h3⟩ := read_ctx_read_spec h
  rw [h1, h2]
  exact h3

theorem sdata_map_bound {ctx ctx' : read_ctx} {v : Nat}
    (h : (read_ctx_read_sleb128 ctx).map (fun p => (Int.toNat (p.1 % 2 ^ 64), p.2)) =
      some (v, ctx')) (hp : ctx.ptr ≤ ctx.data.length) :
    ctx'.ptr ≤ ctx'.data.length := by
  cases hs : read_ctx_read_sleb128 ctx with
  | none =>
    rw [hs] at h
    cases h
  | some p =>
    rw [hs] at h
    simp only [Option.map_some', Option.some.injEq, Prod.mk.injEq] at h
    obtain ⟨_, h2⟩ := h
    rw [← h2]
    exact read_ctx_read_sleb128_bound hs hp

/-- A read of a form that is not a block leaves the cursor within the bytes. -/
theorem read_ctx_read_data_form_bound {E : lr_env} {ctx ctx' : read_ctx} {c : cu} {form : Nat}
    {wh : locus} {what : String} {v : Nat} {ds : List String}
    (h : read_ctx_read_data_form E ctx c form wh what = some (some (v, ctx'), ds))
    (hp : ctx.ptr ≤ ctx.data.length) : ctx'.ptr ≤ ctx'.data.length := by
  unfold read_ctx_read_data_form at h
  split_ifs at h
  all_goals simp only [Option.some.injEq, Prod.mk.injEq, checked_read_uleb128,
    checked_read_sleb128, read_ctx_read_offset, read_ctx_read_ubyte, read_ctx_read_2ubyte,
    read_ctx_read_4ubyte, read_ctx_read_8ubyte] at h
  all_goals first
    | exact read_ctx_read_bound h.1
    | exact read_ctx_read_uleb128_bound h.1 hp
    | exact sdata_map_bound h.1 hp

/-- A read of a form leaves the cursor within the bytes. -/
theorem read_ctx_read_form_bound {E : lr_env} {ctx ctx' : read_ctx} {c : cu} {form : Nat}
    {wh : locus} {what : String} {b isb : Bool} {v : Nat} {ds : List String}
    (h : read_ctx_read_form E ctx c form wh what b = (some (v, isb, ctx'), ds))
    (hp : ctx.ptr ≤ ctx.data.length) : ctx'.ptr ≤ ctx'.data.length := by
  unfold read_ctx_read_form at h
  cases h1 : read_ctx_read_data_form E ctx c form wh what with
  | some p =>
    obtain ⟨r, ds1⟩ := p
    rw [h1] at h
    cases r with
    | none => simp at h
    | some q =>
      obtain ⟨w, cx⟩ := q
      simp only [Option.map_some', Prod.mk.injEq, Option.some.injEq] at h
      obtain ⟨⟨_, _, rfl⟩, rfl⟩ := h
      exact read_ctx_read_data_form_bound h1 hp
  | none =>
    rw [h1] at h
    dsimp only at h
    cases b with
    | false => simp at h
    | true =>
      simp only [if_true] at h
      generalize (if form = DW_FORM_block then some DW_FORM_udata
        else if form = DW_FORM_block1 then some DW_FORM_data1
        else if form = DW_FORM_block2 then some DW_FORM_data2
        else if form = DW_FORM_block4 then some DW_FORM_data4
        else none) = dform at h
      cases dform with
      | none => simp at h
      | some df =>
        dsimp only at h
        cases h2 : read_ctx_read_data_form E ctx c df wh what with
        | none =>
          rw [h2] at h
          simp at h
        | some p =>
          obtain ⟨r, ds1⟩ := p
          cases r with
          | none =>
            rw [h2] at h
            simp at h
          | some q =>
            obtain ⟨w, cx⟩ := q
            rw [h2] at h
            dsimp only at h
            cases h3 : read_ctx_skip cx w with
            | none =>
              rw [h3] at h
              simp at h
            | some cy =>
              rw [h3] at h
              simp only [Prod.mk.injEq, Option.some.injEq] at h
              obtain ⟨⟨_, _, rfl⟩, _⟩ := h
              obtain ⟨b1, b2, b3⟩ := read_ctx_skip_spec h3
              rw [b1, b2]
              exact b3

/-- The cursor that `op_read_form` leaves is within the bytes if the one it is given
is. -/
theorem op_read_form_bound {E : lr_env} {file : elf_file} {ctx : read_ctx} {c : cu}
    {init_off : Nat} {reloc : relocation_data} {opcode form : Nat} {value : Option Nat}
    {str : String} {wh : locus} {r : op_result}
    (h : op_read_form E file ctx c init_off reloc opcode form value str wh = some r)
    (hp : ctx.ptr ≤ ctx.data.length) : r.ctx.ptr ≤ r.ctx.data.length := by
  unfold op_read_form at h
  by_cases hf : form = 0
  · rw [if_pos hf] at h
    cases h
    exact hp
  · rw [if_neg hf] at h
    dsimp only at h
    cases h1 : read_ctx_read_form E ctx c form wh str true with
    | mk o ds =>
      rw [h1] at h
      cases o with
      | none =>
        dsimp only at h
        cases h
        exact hp
      | some q =>
        obtain ⟨v, isblock, cx⟩ := q
        dsimp only at h
        have a := read_ctx_read_form_bound h1 hp
        cases h2 : op_relocate E file c reloc opcode v isblock
            (u64 (read_ctx_get_offset ctx + init_off)) wh with
        | none =>
          rw [h2] at h
          cases h
        | some t =>
          obtain ⟨rd, w, ds1⟩ := t
          rw [h2] at h
          dsimp only at h
          cases h
          exact a

/-- The branch of `DW_OP_bra` and `DW_OP_skip` with the cursor within the expression,
and the expression within `uint64_t`: a target that it records is `init_off` plus the
offset of the cursor plus the skip, with no wrap-around, and it is within the
expression. -/
theorem locexpr_branch_refs (E : lr_env) (init_off : Nat) (wh : locus) (opcode v : Nat)
    (st : locexpr_state) (hp : st.ctx.ptr ≤ st.ctx.data.length)
    (hL : init_off + st.ctx.data.length < 2 ^ 64) :
    ∀ r ∈ (locexpr_branch E init_off wh opcode v st).oprefs,
      r ∈ st.oprefs ∨
        (init_off ≤ r.addr ∧ r.addr ≤ init_off + st.ctx.data.length ∧
          (r.addr : Int) = (init_off : Int) + (st.ctx.ptr : Int) + skip_value v) := by
  have hb := skip_value_bounds v
  unfold locexpr_branch
  dsimp only
  generalize skip_value v = s at hb ⊢
  by_cases h0 : s = 0
  · rw [if_pos h0]
    exact fun r hr => Or.inl hr
  · rw [if_neg h0]
    by_cases h1 : s > 0 ∧ ¬ read_ctx_need_data st.ctx s.toNat = true
    · rw [if_pos h1]
      exact fun r hr => Or.inl hr
    · rw [if_neg h1]
      by_cases h2 : s < 0 ∧ (-s).toNat > read_ctx_get_offset st.ctx
      · rw [if_pos h2]
        exact fun r hr => Or.inl hr
      · rw [if_neg h2]
        intro r hr
        rcases List.mem_append.1 hr with hr | hr
        · exact Or.inl hr
        · right
          rw [List.mem_singleton] at hr
          subst hr
          show init_off ≤ Int.toNat _ ∧ Int.toNat _ ≤ _ ∧ ((Int.toNat _ : Nat) : Int) = _
          have h1' : s > 0 → st.ctx.ptr + s.toNat ≤ st.ctx.data.length := by
            intro hs
            by_contra hc
            exact h1 ⟨hs, by simpa [read_ctx_need_data] using hc⟩
          have h2' : s < 0 → (-s).toNat ≤ st.ctx.ptr := by
            intro hs
            by_contra hc
            exact h2 ⟨hs, by unfold read_ctx_get_offset; omega⟩
          unfold u64 read_ctx_get_offset
          rw [Nat.mod_eq_of_lt (by omega)]
          have h5 : (0 : Int) ≤ ((st.ctx.ptr + init_off : Nat) : Int) + s := by
            push_cast
            omega
          have h6 : ((st.ctx.ptr + init_off : Nat) : Int) + s < 2 ^ 64 := by
            push_cast
            omega
          rw [Int.emod_eq_of_lt h5 h6, Int.toNat_of_nonneg h5]
          refine ⟨?_, ?_, ?_⟩
          · have h7 : ((init_off : Nat) : Int) ≤ ((st.ctx.ptr + init_off : Nat) : Int) + s := by
              push_cast
              omega
            omega
          · have h7 : ((st.ctx.ptr + init_off : Nat) : Int) + s ≤
                ((init_off + st.ctx.data.length : Nat) : Int) := by
              push_cast
              omega
            omega
          · push_cast
            omega

theorem locexpr_check_refs {E : lr_env} {c : cu} {init_off : Nat} {wh : locus} {opcode : Nat}
    {value1 : Option Nat} {st st' : locexpr_state}
    (h : locexpr_check E c init_off wh opcode value1 st = some st')
    (hp : st.ctx.ptr ≤ st.ctx.data.length) (hL : init_off + st.ctx.data.length < 2 ^ 64) :
    ∀ r ∈ st'.oprefs, r ∈ st.oprefs ∨
      (init_off ≤ r.addr ∧ r.addr ≤ init_off + st.ctx.data.length) := by
  unfold locexpr_check at h
  split_ifs at h
  · cases value1 with
    | none => cases h
    | some v =>
      simp only [Option.some.injEq] at h
      rw [← h]
      intro r hr
      rcases locexpr_branch_refs E init_off wh opcode v st hp hL r hr with h1 | ⟨h1, h2, _⟩
      · exact Or.inl h1
      · exact Or.inr ⟨h1, h2⟩
  · cases h
    exact fun r hr => Or.inl hr
  · cases h
    exact fun r hr => Or.inl hr
  · cases value1 with
    | none => cases h
    | some v =>
      dsimp only at h
      split_ifs at h
      · cases h
        exact fun r hr => Or.inl hr
      · cases h
        exact fun r hr => Or.inl hr
  · cases h
    exact fun r hr => Or.inl hr

/-- The targets that a round of the loop of `check_location_expression` records are
within the expression. -/
theorem locexpr_round_refs {E : lr_env} {file : elf_file} {c : cu} {init_off : Nat}
    {wh : locus} {st : locexpr_state} {step : locexpr_step}
    (h : locexpr_round E file c init_off wh st = some step)
    (hL : init_off + st.ctx.data.length < 2 ^ 64) :
    ∀ r ∈ step.state.oprefs, r ∈ st.oprefs ∨
      (init_off ≤ r.addr ∧ r.addr ≤ init_off + st.ctx.data.length) := by
  unfold locexpr_round at h
  dsimp only at h
  cases h0 : read_ctx_read_ubyte st.ctx with
  | none =>
    rw [h0] at h
    cases h
    exact fun r hr => Or.inl hr
  | some p =>
    obtain ⟨opcode, cx⟩ := p
    rw [h0] at h
    dsimp only at h
    obtain ⟨a1, _, _⟩ := read_ctx_read_spec h0
    have a2 := read_ctx_read_bound h0
    cases h1 : E.get_location_opcode_operands opcode with
    | none =>
      rw [h1] at h
      cases h
      exact fun r hr => Or.inl hr
    | some ops =>
      obtain ⟨op1, op2⟩ := ops
      rw [h1] at h
      dsimp only at h
      cases h2 : op_read_form E file cx c init_off st.reloc opcode op1 none "1st operand"
          (locus.sub section_id.sec_locexpr (u64 (read_ctx_get_offset st.ctx + init_off)) wh) with
      | none =>
        rw [h2] at h
        cases h
      | some r1 =>
        rw [h2] at h
        dsimp only at h
        obtain ⟨b1, _⟩ := op_read_form_spec h2
        have b2 := op_read_form_bound h2 a2
        by_cases hk1 : r1.ok = true
        · rw [if_neg (by simp [hk1])] at h
          cases h3 : op_read_form E file r1.ctx c init_off r1.reloc opcode op2 none
              "2st operand" (locus.sub section_id.sec_locexpr
                (u64 (read_ctx_get_offset st.ctx + init_off)) wh) with
          | none =>
            rw [h3] at h
            cases h
          | some r2 =>
            rw [h3] at h
            dsimp only at h
            obtain ⟨c1, _⟩ := op_read_form_spec h3
            have c2 := op_read_form_bound h3 b2
            by_cases hk2 : r2.ok = true
            · rw [if_neg (by simp [hk2])] at h
              generalize hst2 : locexpr_state.mk r2.ctx r2.reloc st.oprefs
                (st.opaddrs ++ [u64 (read_ctx_get_offset st.ctx + init_off)])
                (st.diags ++ r1.diags ++ r2.diags) = st2 at h
              cases h4 : locexpr_check E c init_off (locus.sub section_id.sec_locexpr
                  (u64 (read_ctx_get_offset st.ctx + init_off)) wh) opcode r1.value st2 with
              | none =>
                rw [h4] at h
                cases h
              | some st3 =>
                rw [h4] at h
                cases h
                have hd : st2.ctx.data = st.ctx.data := by
                  rw [← hst2]
                  show r2.ctx.data = st.ctx.data
                  rw [c1, b1, a1]
                have hp2 : st2.ctx.ptr ≤ st2.ctx.data.length := by
                  rw [← hst2]
                  exact c2
                have hrefs : st2.oprefs = st.oprefs := by rw [← hst2]
                have := locexpr_check_refs h4 hp2 (by rw [hd]; exact hL)
                rw [hd, hrefs] at this
                exact this
            · rw [if_pos (by simp [hk2])] at h
              cases h
              exact fun r hr => Or.inl hr
        · rw [if_pos (by simp [hk1])] at h
          cases h
          exact fun r hr => Or.inl hr

/-- The targets that the loop of `check_location_expression` records are within the
expression. -/
theorem locexpr_loop_refs {E : lr_env} {file : elf_file} {c : cu} {init_off : Nat}
    {wh : locus} :
    ∀ (fuel : Nat) (st st' : locexpr_state),
      locexpr_loop E file c init_off wh fuel st = some st' →
      init_off + st.ctx.data.length < 2 ^ 64 →
      ∀ r ∈ st'.oprefs, r ∈ st.oprefs ∨
        (init_off ≤ r.addr ∧ r.addr ≤ init_off + st.ctx.data.length) := by
  intro fuel
  induction fuel with
  | zero =>
    intro st st' h
    cases h
  | succ n ih =>
    intro st st' h hL
    unfold locexpr_loop at h
    by_cases he : read_ctx_eof st.ctx = true
    · rw [if_pos he] at h
      cases h
      exact fun r hr => Or.inl hr
    · rw [if_neg he] at h
      cases hr : locexpr_round E file c init_off wh st with
      | none =>
        rw [hr] at h
        cases h
      | some step =>
        rw [hr] at h
        obtain ⟨a1, _⟩ := locexpr_round_spec hr
        have a2 := locexpr_round_refs hr hL
        cases step with
        | stop s =>
          dsimp only at h
          cases h
          exact a2
        | next s =>
          dsimp only at h
          dsimp only [locexpr_step.state] at a1 a2
          have b := ih s st' h (by rw [a1]; exact hL)
          rw [a1] at b
          intro r hr'
          rcases b r hr' with h1 | h1
          · exact a2 r h1
          · exact Or.inr h1

/-- C39: let the parent cursor have `length` bytes left, and let the expression be
within `uint64_t` (`init_off + length < 2 ^ 64`, as for an expression that is in a
section).  When the loop of `check_location_expression` over the opcodes returns, the
function returns true, and every target in `oprefs` is within the expression:
`init_off <= target <= init_off + length`.  The loop returns in an environment that
finds no relocation and whose table gives the operands.  For the branch of `DW_OP_bra`
and `DW_OP_skip` with the cursor within the expression, the target that it records is
`init_off` plus the offset of the cursor behind the operand plus the skip, as integers:
the sum `off_after + skip` does not wrap around, for every operand, where the skip is
the operand as a signed 16-bit value, from -32768 on. -/
theorem C39_branch_targets_within_expression (E : lr_env) (file : elf_file)
    (parent : read_ctx) (c : cu) (init_off : Nat) (reloc : relocation_data) (length : Nat)
    (wh : locus) (hn : read_ctx_need_data parent length = true)
    (hL : init_off + length < 2 ^ 64) :
    (∀ st', locexpr_loop E file c init_off wh (length + 1)
        ⟨⟨(parent.data.drop parent.ptr).take length, 0, parent.other_byte_order⟩, reloc, [],
          [], []⟩ = some st' →
      check_location_expression E file parent c init_off reloc length wh =
        some (true, st'.reloc, st'.diags ++ locexpr_out st'.opaddrs st'.oprefs) ∧
      ∀ r ∈ st'.oprefs, init_off ≤ r.addr ∧ r.addr ≤ init_off + length) ∧
    (locexpr_safe E → ∃ st', locexpr_loop E file c init_off wh (length + 1)
        ⟨⟨(parent.data.drop parent.ptr).take length, 0, parent.other_byte_order⟩, reloc, [],
          [], []⟩ = some st') ∧
    (∀ (w : locus) (opcode v : Nat) (st : locexpr_state), st.ctx.data.length = length →
      st.ctx.ptr ≤ length →
      ∀ r ∈ (locexpr_branch E init_off w opcode v st).oprefs, r ∈ st.oprefs ∨
        (init_off ≤ r.addr ∧ r.addr ≤ init_off + length ∧
          (r.addr : Int) = (init_off : Int) + (st.ctx.ptr : Int) + skip_value v ∧
          -2 ^ 15 ≤ skip_value v ∧ skip_value v < 2 ^ 15)) := by
  have hlen : ((parent.data.drop parent.ptr).take length).length = length := by
    simp only [read_ctx_need_data, decide_eq_true_eq] at hn
    rw [List.length_take, List.length_drop]
    omega
  refine ⟨?_, ?_, ?_⟩
  · intro st' h
    constructor
    · unfold check_location_expression
      rw [read_ctx_init_sub_some parent length hn]
      dsimp only
      rw [h]
    · intro r hr
      have := locexpr_loop_refs (length + 1) _ st' h (by dsimp only; rw [hlen]; exact hL) r hr
      dsimp only at this
      rw [hlen] at this
      rcases this with h1 | h1
      · cases h1
      · exact h1
  · intro hE
    exact locexpr_loop_total hE file c init_off wh (length + 1) _
      (by dsimp only; rw [hlen]; omega)
  · intro w opcode v st hd hp r hr
    rcases locexpr_branch_refs E init_off w opcode v st (by rw [hd]; exact hp)
      (by rw [hd]; exact hL) r hr with h1 | ⟨h1, h2, h3⟩
    · exact Or.inl h1
    · rw [hd] at h2
      exact Or.inr ⟨h1, h2, h3, (skip_value_bounds v).1, (skip_value_bounds v).2.1⟩

/-- The theorem for the expression `DW_OP_skip -3`, `DW_OP_skip 1`, `DW_OP_nop` of 7
bytes at the offset 100: the targets are 100, the start of the expression, and 107, its
end. -/
theorem C39_branch_targets_within_expression_witness :
    read_ctx_need_data (ctx_at_start [0x2f, 0xfd, 0xff, 0x2f, 0x01, 0x00, 0x96]) 7 = true ∧
    100 + 7 < 2 ^ 64 ∧
    (locexpr_loop env_plain file32 (cu32 0) 100 (who_info 1) (7 + 1)
        ⟨⟨((ctx_at_start [0x2f, 0xfd, 0xff, 0x2f, 0x01, 0x00, 0x96]).data.drop
            (ctx_at_start [0x2f, 0xfd, 0xff, 0x2f, 0x01, 0x00, 0x96]).ptr).take 7, 0,
          (ctx_at_start [0x2f, 0xfd, 0xff, 0x2f, 0x01, 0x00, 0x96]).other_byte_order⟩,
          ⟨[], 0⟩, [], [], []⟩).map (fun s => s.oprefs.map (fun r => r.addr)) =
      some [100, 107] ∧
    skip_value 0x8000 = -32768 ∧
    (∀ st', locexpr_loop env_plain file32 (cu32 0) 100 (who_info 1) (7 + 1)
        ⟨⟨((ctx_at_start [0x2f, 0xfd, 0xff, 0x2f, 0x01, 0x00, 0x96]).data.drop
            (ctx_at_start [0x2f, 0xfd, 0xff, 0x2f, 0x01, 0x00, 0x96]).ptr).take 7, 0,
          (ctx_at_start [0x2f, 0xfd, 0xff, 0x2f, 0x01, 0x00, 0x96]).other_byte_order⟩,
          ⟨[], 0⟩, [], [], []⟩ = some st' →
      check_location_expression env_plain file32
          (ctx_at_start [0x2f, 0xfd, 0xff, 0x2f, 0x01, 0x00, 0x96]) (cu32 0) 100 ⟨[], 0⟩ 7
          (who_info 1) =
        some (true, st'.reloc, st'.diags ++ locexpr_out st'.opaddrs st'.oprefs) ∧
      ∀ r ∈ st'.oprefs, 100 ≤ r.addr ∧ r.addr ≤ 100 + 7) :=
  ⟨by decide, by decide, by decide, by decide,
    (C39_branch_targets_within_expression env_plain file32
      (ctx_at_start [0x2f, 0xfd, 0xff, 0x2f, 0x01, 0x00, 0x96]) (cu32 0) 100 ⟨[], 0⟩ 7
      (who_info 1) (by decide) (by decide)).1⟩


/-! ## Walks that return, in every environment

The lemmas above show that a walk returns when the check of the location expression
does.  The ones here are about a round, a loop or a call that returns, whatever the
environment is: what does not return is a call in which an assertion of the code
fails. -/

/-- The part of a round after the two addresses, when it returns. -/
theorem lr_tail_ext_of (E : lr_env) (file : elf_file) (c : cu) (sec_id : section_id)
    (wh : locus) (cat : Nat) (st : lr_state) (b e : endpoint) (hm : st.coverage_map = none)
    {step : lr_step} (h : lr_tail E file c sec_id wh cat st b e = some step) :
    lr_ext st step.state := by
  by_cases h0 : b.addr = 0 ∧ e.addr = 0 ∧ ¬ b.relocated ∧ ¬ e.relocated
  · rw [lr_tail_terminator E file c sec_id wh cat st b e h0] at h
    cases h
    exact lr_finish_ext wh st
  · by_cases h1 : b.addr = escape_value c.head.address_size
    · rw [lr_tail_selector E file c sec_id wh cat st b e h1] at h
      cases h
      exact lr_ext_trans (lr_selector_ext E wh cat st e) (lr_finish_ext wh _)
    · obtain ⟨s, hq, hc, _⟩ := lr_tail_payload_of E file c sec_id wh cat st b e h0 h1
        (lr_range_none E wh cat st b e hm) h
      have hx := lr_ext_trans (range_state_ext E wh cat st b e) hq.ext
      rcases hc with rfl | rfl
      · exact lr_ext_trans hx (lr_finish_ext wh s)
      · exact hx

/-- A round that returns, without a coverage map: the state that it leaves comes after
the one it started in, and if the loop goes on, the cursor has moved on. -/
theorem lr_body_ext_of (E : lr_env) (file : elf_file) (c : cu) (sec_id : section_id)
    (wh : locus) (cat : Nat) (st : lr_state) (hm : st.coverage_map = none) {step : lr_step}
    (h : lr_body E file c sec_id wh cat st = some step) :
    lr_ext st step.state ∧ (∀ s, step = lr_step.next s → st.ctx.ptr < s.ctx.ptr) := by
  unfold lr_body at h
  dsimp only at h
  obtain ⟨_, b2, _, _, b5, b6⟩ :=
    lr_begin_spec E file c (locus.sub sec_id (read_ctx_get_offset st.ctx) wh) st
  rcases hb : lr_begin E file c (locus.sub sec_id (read_ctx_get_offset st.ctx) wh) st with
    ⟨st1, _ | b⟩
  · rw [hb] at h b5
    cases h
    exact ⟨b5, fun s hs => by cases hs⟩
  · rw [hb] at h b2 b5 b6
    dsimp only at h b2 b5 b6
    have p1 := b6 b rfl
    obtain ⟨_, e2, _, _, e5, _⟩ :=
      lr_end_spec E file c (locus.sub sec_id (read_ctx_get_offset st.ctx) wh) cat st1 b
    rcases he : lr_end E file c (locus.sub sec_id (read_ctx_get_offset st.ctx) wh) cat st1 b with
      ⟨st2, _ | e⟩
    · rw [he] at h e5
      cases h
      exact ⟨lr_ext_trans b5 e5, fun s hs => by cases hs⟩
    · rw [he] at h e2 e5
      dsimp only at h e2 e5
      have hx := lr_tail_ext_of E file c sec_id _ cat st2 b e (e2.trans (b2.trans hm)) h
      refine ⟨lr_ext_trans b5 (lr_ext_trans e5 hx), ?_⟩
      intro s hs
      subst hs
      have p2 := e5.ptr
      have p3 := hx.ptr
      simp only [lr_step.state] at p3
      omega

/-- A loop over the entries that returns, without a coverage map: the state that it
returns comes after the one it started in. -/
theorem lr_loop_ext_of (E : lr_env) (file : elf_file) (c : cu) (sec_id : section_id)
    (wh : locus) (cat : Nat) (fuel : Nat) :
    ∀ st st' : lr_state, st.coverage_map = none →
      lr_loop E file c sec_id wh cat fuel st = some st' → lr_ext st st' := by
  induction fuel with
  | zero =>
    intro st st' _ h
    cases h
  | succ n ih =>
    intro st st' hm h
    unfold lr_loop at h
    by_cases he : read_ctx_eof st.ctx = true
    · rw [if_pos he] at h
      cases h
      exact lr_ext_refl st
    · rw [if_neg he] at h
      cases hb : lr_body E file c sec_id wh cat st with
      | none =>
        rw [hb] at h
        cases h
      | some step =>
        rw [hb] at h
        obtain ⟨hx, _⟩ := lr_body_ext_of E file c sec_id wh cat st hm hb
        cases step with
        | fail s =>
          cases h
          exact lr_ext_fail hx
        | stop s =>
          cases h
          exact hx
        | next s =>
          dsimp only at h
          exact lr_ext_trans hx (ih s st' (hx.map hm) h)

/-- With more fuel than the section has bytes left, the result of the loop over the
entries does not depend on the fuel: if the loop does not return, it is not for want of
fuel. -/
theorem lr_loop_fuel (E : lr_env) (file : elf_file) (c : cu) (sec_id : section_id)
    (wh : locus) (cat : Nat) (fuel : Nat) :
    ∀ (fuel' : Nat) (st : lr_state), st.coverage_map = none →
      st.ctx.data.length - st.ctx.ptr < fuel → st.ctx.data.length - st.ctx.ptr < fuel' →
      lr_loop E file c sec_id wh cat fuel st = lr_loop E file c sec_id wh cat fuel' st := by
  induction fuel with
  | zero =>
    intro fuel' st _ h
    omega
  | succ n ih =>
    intro fuel' st hm hf hf'
    cases fuel' with
    | zero => omega
    | succ m =>
      rw [lr_loop, lr_loop]
      by_cases he : read_ctx_eof st.ctx = true
      · rw [if_pos he, if_pos he]
      · rw [if_neg he, if_neg he]
        cases hb : lr_body E file c sec_id wh cat st with
        | none => rfl
        | some step =>
          obtain ⟨hx, hp⟩ := lr_body_ext_of E file c sec_id wh cat st hm hb
          cases step with
          | fail s => rfl
          | stop s => rfl
          | next s =>
            dsimp only
            have h1 := hp s rfl
            have h2 : s.ctx.data = st.ctx.data := hx.data
            have h3 : st.ctx.ptr + 1 ≤ st.ctx.data.length := by
              simpa [read_ctx_eof, read_ctx_need_data] using he
            exact ih m s (hx.map hm) (by rw [h2]; omega) (by rw [h2]; omega)

/-- A call of `check_loc_or_range_ref` that returns has passed the assertions. -/
theorem check_loc_or_range_ref_asserts {E : lr_env} {fuel : Nat} {file : elf_file}
    {data : List Nat} {c : cu} {sec_id : section_id} {io : lr_input} {addr : Nat}
    {wh : locus} {cat : Nat} {st' : lr_state}
    (h : check_loc_or_range_ref E fuel file data c sec_id io addr wh cat = some st') :
    lr_asserts E sec_id cat := by
  unfold check_loc_or_range_ref at h
  by_cases a1 : sec_id = section_id.sec_loc ∨ sec_id = section_id.sec_ranges
  · by_cases a2 : cat = E.mc.mc_loc ∨ cat = E.mc.mc_ranges
    · by_cases a3 : (sec_id = section_id.sec_loc) ↔ (cat = E.mc.mc_loc)
      · exact ⟨a1, a2, a3⟩
      · rw [if_neg (not_not.2 a1), if_neg (not_not.2 a2), if_pos a3] at h
        cases h
    · rw [if_neg (not_not.2 a1), if_pos a2] at h
      cases h
  · rw [if_pos a1] at h
    cases h

/-- A call of `check_loc_or_range_ref` without a coverage map that returns, in any
environment: among the messages that it has added there is one error of `HAVE_OVERLAP`
at most, and if there is one, the value returned is false. -/
theorem check_loc_or_range_ref_of (E : lr_env) (fuel : Nat) (file : elf_file)
    (data : List Nat) (c : cu) (sec_id : section_id) (io : lr_input) (addr : Nat)
    (wh : locus) (cat : Nat) (hm : io.coverage_map = none) {st' : lr_state}
    (h : check_loc_or_range_ref E fuel file data c sec_id io addr wh cat = some st') :
    st'.coverage_map = none ∧
      ∃ D, st'.diags = io.diags ++ D ∧
        ((∃ d ∈ D, is_overlap_error d) → st'.retval = false) ∧
        D.countP diag.is_overlap ≤ 1 := by
  have ha := check_loc_or_range_ref_asserts h
  by_cases hin : addr ≤ data.length
  · rw [check_loc_or_range_ref_entry E fuel file data c sec_id io addr wh cat ha hin] at h
    obtain ⟨m1, m2⟩ := lr_entry_map file data c io addr wh
    have hx := lr_loop_ext_of E file c sec_id wh cat fuel _ st' (m1.trans hm) h
    obtain ⟨D, hD, hov, _, hc, _⟩ := hx.diags
    obtain ⟨D0, hD0, hn0⟩ := lr_entry_diags file data c io addr wh
    refine ⟨hx.map (m1.trans hm), D0 ++ D, ?_, ?_, ?_⟩
    · rw [hD, hD0, List.append_assoc]
    · rintro ⟨d, hd, ho⟩
      rcases List.mem_append.1 hd with h | h
      · exact absurd ho (hn0 d h)
      · exact hov ⟨d, h, ho⟩
    · rw [List.countP_append, countP_overlap_zero hn0]
      omega
  · obtain ⟨a1, a2, a3⟩ := ha
    unfold check_loc_or_range_ref at h
    rw [if_neg (not_not.2 a1), if_neg (not_not.2 a2), if_neg (not_not.2 a3)] at h
    have hs : read_ctx_skip (read_ctx_init data file.other_byte_order) addr = none := by
      simp [read_ctx_skip, read_ctx_init, read_ctx_need_data, hin]
    dsimp only at h
    rw [hs] at h
    cases h
    refine ⟨hm, _, rfl, fun _ => rfl, ?_⟩
    simp [List.countP_cons, diag.is_overlap]

/-- With more fuel than the section has bytes, the result of `check_loc_or_range_ref`
does not depend on the fuel. -/
theorem check_loc_or_range_ref_fuel (E : lr_env) (fuel fuel' : Nat) (file : elf_file)
    (data : List Nat) (c : cu) (sec_id : section_id) (io : lr_input) (addr : Nat)
    (wh : locus) (cat : Nat) (hm : io.coverage_map = none) (hf : data.length < fuel)
    (hf' : data.length < fuel') :
    check_loc_or_range_ref E fuel file data c sec_id io addr wh cat =
      check_loc_or_range_ref E fuel' file data c sec_id io addr wh cat := by
  by_cases ha : lr_asserts E sec_id cat
  · by_cases hin : addr ≤ data.length
    · rw [check_loc_or_range_ref_entry E fuel file data c sec_id io addr wh cat ha hin,
        check_loc_or_range_ref_entry E fuel' file data c sec_id io addr wh cat ha hin]
      obtain ⟨m1, m2⟩ := lr_entry_map file data c io addr wh
      exact lr_loop_fuel E file c sec_id wh cat fuel fuel' _ (m1.trans hm)
        (by rw [m2]; dsimp only; omega) (by rw [m2]; dsimp only; omega)
    · obtain ⟨a1, a2, a3⟩ := ha
      have hs : read_ctx_skip (read_ctx_init data file.other_byte_order) addr = none := by
        simp [read_ctx_skip, read_ctx_init, read_ctx_need_data, hin]
      have hout : ∀ f, check_loc_or_range_ref E f file data c sec_id io addr wh cat =
          some ⟨read_ctx_init data file.other_byte_order, io.rel, io.coverage, io.coverage_map,
            io.pc_coverage, false, false, c.low_pc, io.diags ++
              [diag.error wh ": invalid reference outside the section %#lx, size only %#tx.\n"
                [fmt_arg.num addr, fmt_arg.num data.length]]⟩ := by
        intro f
        unfold check_loc_or_range_ref
        rw [if_neg (not_not.2 a1), if_neg (not_not.2 a2), if_neg (not_not.2 a3)]
        dsimp only
        rw [hs]
      rw [hout fuel, hout fuel']
  · cases h1 : check_loc_or_range_ref E fuel file data c sec_id io addr wh cat with
    | some r => exact absurd (check_loc_or_range_ref_asserts h1) ha
    | none =>
      cases h2 : check_loc_or_range_ref E fuel' file data c sec_id io addr wh cat with
      | some r => exact absurd (check_loc_or_range_ref_asserts h2) ha
      | none => rfl


/-! ## Claims about the walk, for every environment -/

/-- C16, as the code has it: only the overlap error makes the check return false.
In a walk without a coverage map, in any environment, whenever
`check_loc_or_range_ref` returns and an error of `HAVE_OVERLAP` is among the messages
that it has added, it returns false; it returns when the assertions on the section and
the category hold and, in `.debug_loc`, the checks of the location expressions return,
and with fuel above the size of the section its result does not depend on the fuel.
`HAVE_OVERLAP` writes its error, clears `retval`, and leaves the cursor where it is, so
that the entry is read on.  At a payload entry the error for a missing base address and
the message for a negative range are written, and the tests on the range leave `retval`
as it is; the round then goes on, in `.debug_ranges` to the next entry and in
`.debug_loc` to the location expression of the entry. -/
theorem C16_semantic_errors (E : lr_env) (fuel : Nat) (file : elf_file) (data : List Nat)
    (c : cu) (sec_id : section_id) (io : lr_input) (addr : Nat) (wh : locus) (cat : Nat)
    (hm : io.coverage_map = none) (hf : data.length < fuel) :
    (∀ st', check_loc_or_range_ref E fuel file data c sec_id io addr wh cat = some st' →
        ∃ D, st'.diags = io.diags ++ D ∧
          ((∃ d ∈ D, is_overlap_error d) → st'.retval = false)) ∧
      (lr_asserts E sec_id cat → (sec_id = section_id.sec_loc → locexpr_returns E) →
        ∃ st', check_loc_or_range_ref E fuel file data c sec_id io addr wh cat = some st') ∧
      (∀ fuel', data.length < fuel' →
        check_loc_or_range_ref E fuel' file data c sec_id io addr wh cat =
          check_loc_or_range_ref E fuel file data c sec_id io addr wh cat) ∧
      (∀ (w : locus) (st : lr_state) (off len : Nat), st.overlap = false →
        coverage_is_overlap st.coverage off len = true →
        lr_check_overlap st w off len = HAVE_OVERLAP st w ∧
          (HAVE_OVERLAP st w).retval = false ∧ (HAVE_OVERLAP st w).ctx = st.ctx ∧
          (HAVE_OVERLAP st w).diags =
            st.diags ++ [diag.error w ": range definitions overlap.\n" []]) ∧
      (∀ (w : locus) (st : lr_state) (b e : endpoint),
        ¬ (b.addr = 0 ∧ e.addr = 0 ∧ ¬ b.relocated ∧ ¬ e.relocated) →
        b.addr ≠ escape_value c.head.address_size → st.coverage_map = none →
        lr_range E w cat st b e = some (range_state E w cat st b e) ∧
          (range_state E w cat st b e).retval = st.retval ∧
          (range_state E w cat st b e).diags = st.diags ++ range_diags E w cat st b e ∧
          (st.base = 2 ^ 64 - 1 → no_base_error w b e ∈ range_diags E w cat st b e) ∧
          (e.addr < b.addr → negative_range_message E w cat b e ∈ range_diags E w cat st b e) ∧
          (sec_id ≠ section_id.sec_loc →
            lr_tail E file c sec_id w cat st b e =
              some (lr_step.next (lr_finish w (range_state E w cat st b e)))) ∧
          (sec_id = section_id.sec_loc →
            lr_tail E file c sec_id w cat st b e =
              (match lr_locexpr E file c w (range_state E w cat st b e) with
                | some (lr_step.next s) => some (lr_step.next (lr_finish w s))
                | r => r))) := by
  refine ⟨?_, ?_, ?_, ?_, ?_⟩
  · intro st' h
    obtain ⟨_, D, h3, h4, _⟩ :=
      check_loc_or_range_ref_of E fuel file data c sec_id io addr wh cat hm h
    exact ⟨D, h3, h4⟩
  · intro ha hloc
    obtain ⟨st', D, h1, _⟩ :=
      check_loc_or_range_ref_total E fuel file data c sec_id io addr wh cat ha hm hf hloc
    exact ⟨st', h1⟩
  · intro fuel' hf'
    exact check_loc_or_range_ref_fuel E fuel' fuel file data c sec_id io addr wh cat hm hf' hf
  · intro w st off len h1 h2
    refine ⟨?_, rfl, rfl, rfl⟩
    unfold lr_check_overlap
    rw [if_pos ⟨by simp [h1], h2⟩]
  · intro w st b e h0 h1 hmap
    have hr := lr_range_none E w cat st b e hmap
    refine ⟨hr, rfl, rfl, ?_, ?_, ?_, ?_⟩
    · intro hb
      unfold range_diags
      refine List.mem_append_left _ ?_
      rw [if_pos hb]
      exact List.mem_singleton.2 rfl
    · intro hlt
      unfold range_diags
      refine List.mem_append_right _ ?_
      rw [if_pos hlt]
      exact List.mem_singleton.2 rfl
    · intro hs
      exact lr_tail_ranges E file c sec_id w cat st b e h0 h1 hr hs
    · intro hs
      exact lr_tail_loc E file c sec_id w cat st b e h0 h1 hr hs

/-- The theorem for a list of `.debug_loc` in a file with relocations: the walk of
`loc_two_bytes` from offset 11, after the walk from offset 0, writes the error of the
overlap and returns false. -/
theorem C16_semantic_errors_witness :
    io_loc_walked.coverage_map = none ∧ loc_two_bytes.length < 100 ∧
      (∀ st', check_loc_or_range_ref env_reloc 100 file32 loc_two_bytes (cu32 0x1000)
          section_id.sec_loc io_loc_walked 11 (who_info 50) mc_bits.mc_loc = some st' →
        ∃ D, st'.diags = io_loc_walked.diags ++ D ∧
          ((∃ d ∈ D, is_overlap_error d) → st'.retval = false)) ∧
      (check_loc_or_range_ref env_reloc 100 file32 loc_two_bytes (cu32 0x1000)
          section_id.sec_loc io_loc_walked 11 (who_info 50) mc_bits.mc_loc).map
            (fun r => (r.retval, r.diags, r.ctx.ptr)) =
        some (false, [ref_into_other_error (who_info 50) 11,
          diag.error (locus.sub section_id.sec_loc 11 (who_info 50))
            ": range definitions overlap.\n" []], 30) ∧
      (check_loc_or_range_ref env_reloc 100 file32 loc_two_bytes (cu32 0x1000)
          section_id.sec_loc io_reloc_start 0 (who_info 11) mc_bits.mc_loc).map
            (fun r => (⟨r.rel, r.coverage, r.coverage_map, r.pc_coverage, r.diags⟩ : lr_input)) =
        some io_loc_walked :=
  ⟨rfl, by decide,
    (C16_semantic_errors env_reloc 100 file32 loc_two_bytes (cu32 0x1000) section_id.sec_loc
      io_loc_walked 11 (who_info 50) mc_bits.mc_loc rfl (by decide)).1,
    by decide, by decide⟩

/-- C22, as the code has it: the flag `overlap` is set once for the walk of a list, before
the loop over the entries.  In a walk without a coverage map, in any environment,
whenever `check_loc_or_range_ref` returns, there is at most one error "range definitions
overlap" among the messages that it has added; it returns when the assertions on the
section and the category hold and, in `.debug_loc`, the checks of the location
expressions return.  A test with the flag set changes nothing; `HAVE_OVERLAP` sets the
flag; and a round that is entered with the flag set and returns, returns with the flag
set and adds no such error. -/
theorem C22_one_overlap_error_per_list (E : lr_env) (fuel : Nat) (file : elf_file)
    (data : List Nat) (c : cu) (sec_id : section_id) (io : lr_input) (addr : Nat)
    (wh : locus) (cat : Nat) (hm : io.coverage_map = none) (hf : data.length < fuel) :
    (∀ st', check_loc_or_range_ref E fuel file data c sec_id io addr wh cat = some st' →
        ∃ D, st'.diags = io.diags ++ D ∧ D.countP diag.is_overlap ≤ 1) ∧
      (lr_asserts E sec_id cat → (sec_id = section_id.sec_loc → locexpr_returns E) →
        ∃ st', check_loc_or_range_ref E fuel file data c sec_id io addr wh cat = some st') ∧
      (∀ (w : locus) (st : lr_state) (off len : Nat), st.overlap = true →
        lr_check_overlap st w off len = st) ∧
      (∀ (w : locus) (st : lr_state), (HAVE_OVERLAP st w).overlap = true) ∧
      (∀ (w : locus) (st : lr_state) (step : lr_step), st.coverage_map = none →
        st.overlap = true → lr_body E file c sec_id w cat st = some step →
        step.state.overlap = true ∧
          ∃ D, step.state.diags = st.diags ++ D ∧ D.countP diag.is_overlap = 0) := by
  refine ⟨?_, ?_, ?_, fun _ _ => rfl, ?_⟩
  · intro st' h
    obtain ⟨_, D, h3, _, h5⟩ :=
      check_loc_or_range_ref_of E fuel file data c sec_id io addr wh cat hm h
    exact ⟨D, h3, h5⟩
  · intro ha hloc
    obtain ⟨st', D, h1, _⟩ :=
      check_loc_or_range_ref_total E fuel file data c sec_id io addr wh cat ha hm hf hloc
    exact ⟨st', h1⟩
  · intro w st off len ho
    unfold lr_check_overlap
    rw [if_neg (by simp [ho])]
  · intro w st step hmap ho hs
    obtain ⟨hx, _⟩ := lr_body_ext_of E file c sec_id w cat st hmap hs
    obtain ⟨D, hD, _, hz, _, _⟩ := hx.diags
    exact ⟨hx.overlap ho, D, hD, hz ho⟩

/-- The theorem for a list of `.debug_loc` in a file with relocations: in the walk of
`loc_two_bytes` from offset 11 after the walk from offset 0, the entry at 11 and the
list end at 22 overlap the coverage, and the error is written once, for the entry at
11. -/
theorem C22_one_overlap_error_per_list_witness :
    io_loc_walked.coverage_map = none ∧ loc_two_bytes.length < 100 ∧
      (∀ st', check_loc_or_range_ref env_reloc 100 file32 loc_two_bytes (cu32 0x1000)
          section_id.sec_loc io_loc_walked 11 (who_info 50) mc_bits.mc_loc = some st' →
        ∃ D, st'.diags = io_loc_walked.diags ++ D ∧ D.countP diag.is_overlap ≤ 1) ∧
      coverage_is_overlap io_loc_walked.coverage 11 4 = true ∧
      coverage_is_overlap io_loc_walked.coverage 22 4 = true ∧
      (check_loc_or_range_ref env_reloc 100 file32 loc_two_bytes (cu32 0x1000)
          section_id.sec_loc io_loc_walked 11 (who_info 50) mc_bits.mc_loc).map
            (fun r => r.diags.countP diag.is_overlap) = some 1 :=
  ⟨rfl, by decide,
    (C22_one_overlap_error_per_list env_reloc 100 file32 loc_two_bytes (cu32 0x1000)
      section_id.sec_loc io_loc_walked 11 (who_info 50) mc_bits.mc_loc rfl (by decide)).1,
    by decide, by decide, by decide⟩

/-- C19: at a payload entry with `begin = end` (not the list end, not a base address
selection), in any environment and with or without a coverage map, the tests on the
range return, write the message "entry covers no range" (`wr_message` with
`cat | mc_acc_bloat | mc_impact_3`) and leave `pc_coverage` as it is.  This is before
the location expression is read: in `.debug_ranges` the round then goes on to the next
entry, and in `.debug_loc` it goes on with the location expression, from the state with
the message.  Whenever the round returns, the message is among the messages that it
has added and `pc_coverage` is as before; the round returns if and only if, in
`.debug_loc`, the part that reads the location expression does, which it does when the
check of the location expression returns. -/
theorem C19_empty_range (E : lr_env) (file : elf_file) (c : cu) (sec_id : section_id)
    (wh : locus) (cat : Nat) (st : lr_state) (b e : endpoint)
    (h0 : ¬ (b.addr = 0 ∧ e.addr = 0 ∧ ¬ b.relocated ∧ ¬ e.relocated))
    (h1 : b.addr ≠ escape_value c.head.address_size) (heq : b.addr = e.addr) :
    lr_range E wh cat st b e = some (range_state E wh cat st b e) ∧
      (range_state E wh cat st b e).pc_coverage = st.pc_coverage ∧
      (range_state E wh cat st b e).diags = st.diags ++ range_diags E wh cat st b e ∧
      empty_range_message E wh cat ∈ range_diags E wh cat st b e ∧
      (sec_id ≠ section_id.sec_loc →
        lr_tail E file c sec_id wh cat st b e =
          some (lr_step.next (lr_finish wh (range_state E wh cat st b e)))) ∧
      (sec_id = section_id.sec_loc →
        lr_tail E file c sec_id wh cat st b e =
          (match lr_locexpr E file c wh (range_state E wh cat st b e) with
            | some (lr_step.next s) => some (lr_step.next (lr_finish wh s))
            | r => r)) ∧
      (∀ step, lr_tail E file c sec_id wh cat st b e = some step →
        step.state.pc_coverage = st.pc_coverage ∧
          ∃ D, step.state.diags = st.diags ++ D ∧ empty_range_message E wh cat ∈ D) ∧
      ((∃ step, lr_tail E file c sec_id wh cat st b e = some step) ↔
        (sec_id = section_id.sec_loc →
          ∃ r, lr_locexpr E file c wh (range_state E wh cat st b e) = some r)) ∧
      ((sec_id = section_id.sec_loc → locexpr_returns E) →
        ∃ step, lr_tail E file c sec_id wh cat st b e = some step) := by
  have hr := lr_range_of_le E wh cat st b e (le_of_eq heq.symm)
  have hmem : empty_range_message E wh cat ∈ range_diags E wh cat st b e := by
    unfold range_diags
    refine List.mem_append_right _ ?_
    rw [if_neg (by omega), if_pos heq]
    exact List.mem_singleton.2 rfl
  have hpc0 : (range_state E wh cat st b e).pc_coverage = st.pc_coverage := by
    simp [range_state, range_pc, heq]
  have hiff : (∃ step, lr_tail E file c sec_id wh cat st b e = some step) ↔
      (sec_id = section_id.sec_loc →
        ∃ r, lr_locexpr E file c wh (range_state E wh cat st b e) = some r) := by
    by_cases hs : sec_id = section_id.sec_loc
    · rw [lr_tail_loc E file c sec_id wh cat st b e h0 h1 hr hs]
      constructor
      · rintro ⟨step, hstep⟩ _
        cases hl : lr_locexpr E file c wh (range_state E wh cat st b e) with
        | none =>
          rw [hl] at hstep
          cases hstep
        | some r => exact ⟨r, rfl⟩
      · intro hret
        obtain ⟨r, hl⟩ := hret hs
        rw [hl]
        cases r <;> exact ⟨_, rfl⟩
    · constructor
      · intro _ h
        exact absurd h hs
      · intro _
        exact ⟨_, lr_tail_ranges E file c sec_id wh cat st b e h0 h1 hr hs⟩
  refine ⟨hr, hpc0, rfl, hmem,
    fun hs => lr_tail_ranges E file c sec_id wh cat st b e h0 h1 hr hs,
    fun hs => lr_tail_loc E file c sec_id wh cat st b e h0 h1 hr hs, ?_, hiff, ?_⟩
  · intro step hstep
    obtain ⟨s, hq, hc, _⟩ := lr_tail_payload_of E file c sec_id wh cat st b e h0 h1 hr hstep
    obtain ⟨D', hD', _⟩ := hq.diags
    have hpc : s.pc_coverage = st.pc_coverage := by
      rw [hq.pc_coverage]
      exact hpc0
    have hd : s.diags = st.diags ++ (range_diags E wh cat st b e ++ D') := by
      rw [hD']
      simp [range_state]
    refine ⟨?_, range_diags E wh cat st b e ++ D', ?_, List.mem_append_left _ hmem⟩
    · rcases hc with rfl | rfl <;> exact hpc
    · rcases hc with rfl | rfl <;> exact hd
  · intro hloc
    obtain ⟨s, step, hs, _⟩ := lr_tail_payload E file c sec_id wh cat st b e h0 h1 hr hloc
    exact ⟨step, hs⟩

/-- The theorem for the entry `(0x10, 0x10)` of a list of `.debug_loc`, in the
environment with relocations: the round goes on behind the location expression, with
the message and with `pc_coverage` as it was. -/
theorem C19_empty_range_witness :
    ¬ ((⟨0x10, false, 0⟩ : endpoint).addr = 0 ∧ (⟨0x10, false, 0⟩ : endpoint).addr = 0 ∧
        ¬ (⟨0x10, false, 0⟩ : endpoint).relocated ∧ ¬ (⟨0x10, false, 0⟩ : endpoint).relocated) ∧
      (⟨0x10, false, 0⟩ : endpoint).addr ≠ escape_value (cu32 0x1000).head.address_size ∧
      (⟨0x10, false, 0⟩ : endpoint).addr = (⟨0x10, false, 0⟩ : endpoint).addr ∧
      (∀ step, lr_tail env_reloc file32 (cu32 0x1000) section_id.sec_loc
          (locus.sub section_id.sec_loc 0 (who_info 11)) mc_bits.mc_loc
          (st_after_entry loc_empty_range_bytes 0x1000) ⟨0x10, false, 0⟩ ⟨0x10, false, 0⟩ =
            some step →
        step.state.pc_coverage = (st_after_entry loc_empty_range_bytes 0x1000).pc_coverage ∧
          ∃ D, step.state.diags = (st_after_entry loc_empty_range_bytes 0x1000).diags ++ D ∧
            empty_range_message env_reloc (locus.sub section_id.sec_loc 0 (who_info 11))
              mc_bits.mc_loc ∈ D) ∧
      (lr_tail env_reloc file32 (cu32 0x1000) section_id.sec_loc
          (locus.sub section_id.sec_loc 0 (who_info 11)) mc_bits.mc_loc
          (st_after_entry loc_empty_range_bytes 0x1000) ⟨0x10, false, 0⟩ ⟨0x10, false, 0⟩).map
            (fun s => (s.state.pc_coverage, s.state.diags, s.state.ctx.ptr)) =
        some (some ⟨[]⟩,
          [empty_range_message env_reloc (locus.sub section_id.sec_loc 0 (who_info 11))
            mc_bits.mc_loc], 11) :=
  ⟨by decide, by decide, rfl,
    (C19_empty_range env_reloc file32 (cu32 0x1000) section_id.sec_loc
      (locus.sub section_id.sec_loc 0 (who_info 11)) mc_bits.mc_loc
      (st_after_entry loc_empty_range_bytes 0x1000) ⟨0x10, false, 0⟩ ⟨0x10, false, 0⟩
      (by decide) (by decide) rfl).2.2.2.2.2.2.1,
    by decide⟩


/-- The loop over the entries takes no byte out of the section coverage. -/
theorem lr_loop_coverage_mono (E : lr_env) (file : elf_file) (c : cu) (sec_id : section_id)
    (wh : locus) (cat : Nat) (fuel : Nat) :
    ∀ st st' : lr_state, lr_loop E file c sec_id wh cat fuel st = some st' →
      ∀ b, st.coverage.has b = true → st'.coverage.has b = true := by
  induction fuel with
  | zero =>
    intro st st' h
    cases h
  | succ n ih =>
    intro st st' h b hb
    unfold lr_loop at h
    by_cases he : read_ctx_eof st.ctx = true
    · rw [if_pos he] at h
      cases h
      exact hb
    · rw [if_neg he] at h
      cases hbody : lr_body E file c sec_id wh cat st with
      | none =>
        rw [hbody] at h
        cases h
      | some step =>
        rw [hbody] at h
        have hstep : ∀ s, step = lr_step.next s ∨ step = lr_step.stop s ∨
            step = lr_step.fail s → s.coverage.has b = true := by
          intro s hs
          rcases lr_body_coverage E file c sec_id wh cat st hbody with
            ⟨s0, hc, _, h1⟩ | ⟨s0, h1, hc⟩
          · have hfin : s = lr_finish (locus.sub sec_id (read_ctx_get_offset st.ctx) wh) s0 := by
              rcases hs with hs | hs | hs <;> rcases h1 with h1 | h1 <;> rw [hs] at h1 <;>
                cases h1 <;> rfl
            rw [hfin]
            show (coverage_add s0.coverage _ _).has b = true
            rw [coverage_add_has, hc, hb]
            rfl
          · have : s = s0 := by
              rcases hs with hs | hs | hs <;> rw [hs] at h1 <;> cases h1
              rfl
            rw [this, hc]
            exact hb
        cases step with
        | fail s =>
          simp only [Option.some.injEq] at h
          rw [← h]
          exact hstep s (Or.inr (Or.inr rfl))
        | stop s =>
          simp only [Option.some.injEq] at h
          rw [← h]
          exact hstep s (Or.inr (Or.inl rfl))
        | next s =>
          dsimp only at h
          exact ih s st' h b (hstep s (Or.inl rfl))

/-- The part that reads a location expression, when the round goes on: the length was
read, and the cursor is behind the expression, `length` bytes behind the length. -/
theorem lr_locexpr_next {E : lr_env} {file : elf_file} {c : cu} {wh : locus}
    {st s : lr_state} (h : lr_locexpr E file c wh st = some (lr_step.next s)) :
    ∃ len cx, read_ctx_read_2ubyte st.ctx = some (len, cx) ∧ cx.ptr = st.ctx.ptr + 2 ∧
      s.ctx = { cx with ptr := cx.ptr + len } := by
  obtain ⟨f1, _⟩ := lr_check_overlap_frame st wh (read_ctx_get_offset st.ctx) 2
  unfold lr_locexpr at h
  dsimp only at h
  generalize lr_check_overlap st wh (read_ctx_get_offset st.ctx) 2 = s1 at *
  rw [f1] at h
  cases hr : read_ctx_read_2ubyte st.ctx with
  | none =>
    rw [hr] at h
    cases h
  | some p =>
    obtain ⟨len, cx⟩ := p
    obtain ⟨_, h2, _⟩ := read_ctx_read_spec hr
    rw [hr] at h
    dsimp only at h
    cases hc : check_location_expression E file cx c (read_ctx_get_offset cx) s1.rel len
        wh with
    | none =>
      rw [hc] at h
      cases h
    | some r =>
      rw [hc] at h
      dsimp only at h
      by_cases hk : r.1 = true
      · rw [if_neg (by simp [hk])] at h
        generalize hs2 : lr_state.mk cx r.2.1 s1.coverage s1.coverage_map s1.pc_coverage
          s1.retval s1.overlap s1.base (s1.diags ++ r.2.2) = s2 at h
        obtain ⟨g1, _⟩ := lr_check_overlap_frame s2 wh (read_ctx_get_offset cx)
          (read_ctx_get_offset cx - read_ctx_get_offset cx)
        have hcx : s2.ctx = cx := by
          rw [← hs2]
        generalize lr_check_overlap s2 wh (read_ctx_get_offset cx)
          (read_ctx_get_offset cx - read_ctx_get_offset cx) = s3 at *
        rw [g1, hcx] at h
        cases hs : read_ctx_skip cx len with
        | none =>
          rw [hs] at h
          cases h
        | some ctx2 =>
          rw [hs] at h
          simp only [Option.some.injEq, lr_step.next.injEq] at h
          obtain ⟨k1, k2, _⟩ := read_ctx_skip_spec hs
          refine ⟨len, cx, rfl, h2, ?_⟩
          rw [← h]
          show ctx2 = _
          cases ctx2
          cases cx
          simp only [read_ctx.mk.injEq] at k1 k2 ⊢
          unfold read_ctx_skip at hs
          split_ifs at hs
          simp only [Option.some.injEq, read_ctx.mk.injEq] at hs
          exact ⟨hs.1.symm, hs.2.1.symm, hs.2.2.symm⟩
      · rw [if_pos (by simp [hk])] at h
        cases h

/-- C15: let the byte at the offset `addr` of a reference be a byte of the section that
is in the coverage of the earlier references, in a walk without a coverage map, in any
environment.  Whenever `check_loc_or_range_ref` returns, the value returned is false,
the first message that it has added is the error "reference ... points into another
location or range list", and the list has been walked all the same: the round of the
entry at `addr` was run, from the state with this error; if the entry was read
completely, the cursor was moved on by 8 bytes at least, the bytes of the entry are in
the section coverage that is returned, and the walk went on behind the entry (for a
payload entry of `.debug_loc`: behind its location expression, whose length was read);
if a read failed in the entry, the walk returned at once.  The call returns when the
assertions on the section and the category hold and, in `.debug_loc`, the checks of the
location expressions return; with fuel above the size of the section its result does
not depend on the fuel. -/
theorem C15_reference_into_walked_list (E : lr_env) (fuel : Nat) (file : elf_file)
    (data : List Nat) (c : cu) (sec_id : section_id) (io : lr_input) (addr : Nat)
    (wh : locus) (cat : Nat) (hm : io.coverage_map = none)
    (hin : addr < data.length) (hcov : coverage_is_covered io.coverage addr 1 = true)
    (hf : data.length < fuel) :
    (∀ st', check_loc_or_range_ref E fuel file data c sec_id io addr wh cat = some st' →
      st'.retval = false ∧
      (∃ D, st'.diags = io.diags ++ ref_into_other_error wh addr :: D) ∧
      lr_entry file data c io addr wh =
        ⟨⟨data, addr, file.other_byte_order⟩, io.rel, io.coverage, io.coverage_map,
          io.pc_coverage, false, false, c.low_pc,
          io.diags ++ [ref_into_other_error wh addr]⟩ ∧
      read_ctx_eof (lr_entry file data c io addr wh).ctx = false ∧
      ∃ step, lr_body E file c sec_id wh cat (lr_entry file data c io addr wh) = some step ∧
        (∀ s, step = lr_step.next s ∨ step = lr_step.stop s →
          addr + 8 ≤ s.ctx.ptr ∧ s.ctx.ptr ≤ st'.ctx.ptr ∧
          ∀ b, addr ≤ b → b < s.ctx.ptr → st'.coverage.has b = true) ∧
        (∀ s, step = lr_step.next s →
          lr_loop E file c sec_id wh cat (fuel - 1) s = some st') ∧
        (∀ s, step = lr_step.stop s → st' = s) ∧
        (∀ s, step = lr_step.fail s → st' = { s with retval := false }) ∧
        (sec_id = section_id.sec_loc → ∀ st1 b st2 e,
          lr_begin E file c (locus.sub sec_id addr wh) (lr_entry file data c io addr wh) =
            (st1, some b) →
          lr_end E file c (locus.sub sec_id addr wh) cat st1 b = (st2, some e) →
          ¬ (b.addr = 0 ∧ e.addr = 0 ∧ ¬ b.relocated ∧ ¬ e.relocated) →
          b.addr ≠ escape_value c.head.address_size →
          ∀ s, step = lr_step.next s →
            ∃ len cx, read_ctx_read_2ubyte st2.ctx = some (len, cx) ∧
              s.ctx.ptr = st2.ctx.ptr + 2 + len)) ∧
    (lr_asserts E sec_id cat → (sec_id = section_id.sec_loc → locexpr_returns E) →
      ∃ st', check_loc_or_range_ref E fuel file data c sec_id io addr wh cat = some st') ∧
    (∀ fuel', data.length < fuel' →
      check_loc_or_range_ref E fuel' file data c sec_id io addr wh cat =
        check_loc_or_range_ref E fuel file data c sec_id io addr wh cat) := by
  have he : lr_entry file data c io addr wh =
      ⟨⟨data, addr, file.other_byte_order⟩, io.rel, io.coverage, io.coverage_map,
        io.pc_coverage, false, false, c.low_pc,
        io.diags ++ [ref_into_other_error wh addr]⟩ := by
    unfold lr_entry
    rw [if_pos hcov]
  obtain ⟨m1, m2⟩ := lr_entry_map file data c io addr wh
  have hptr : (lr_entry file data c io addr wh).ctx.ptr = addr := by rw [m2]
  have heof : read_ctx_eof (lr_entry file data c io addr wh).ctx = false := by
    rw [m2]
    simp [read_ctx_eof, read_ctx_need_data]
    omega
  refine ⟨?_, ?_, ?_⟩
  · intro st' h
    have ha := check_loc_or_range_ref_asserts h
    rw [check_loc_or_range_ref_entry E fuel file data c sec_id io addr wh cat ha
      (le_of_lt hin)] at h
    have hx := lr_loop_ext_of E file c sec_id wh cat fuel _ st' (m1.trans hm) h
    obtain ⟨D, hD, _⟩ := hx.diags
    have hrv : st'.retval = false := hx.retval (by rw [he])
    have hdg : ∃ D, st'.diags = io.diags ++ ref_into_other_error wh addr :: D := by
      refine ⟨D, ?_⟩
      rw [hD, he]
      simp
    obtain ⟨n, rfl⟩ : ∃ n, fuel = n + 1 := ⟨fuel - 1, by omega⟩
    rw [lr_loop, if_neg (by simp [heof])] at h
    cases hb : lr_body E file c sec_id wh cat (lr_entry file data c io addr wh) with
    | none =>
      rw [hb] at h
      cases h
    | some step =>
      rw [hb] at h
      obtain ⟨hbx, _⟩ := lr_body_ext_of E file c sec_id wh cat _ (m1.trans hm) hb
      refine ⟨hrv, hdg, he, heof, step, rfl, ?_, ?_, ?_, ?_, ?_⟩
      · intro s hs
        have hc31 := lr_body_coverage E file c sec_id wh cat _ hb
        rcases hc31 with ⟨s0, hc, hp, h1⟩ | ⟨s0, h1, _⟩
        · have hfin : s = lr_finish (locus.sub sec_id
              (read_ctx_get_offset (lr_entry file data c io addr wh).ctx) wh) s0 := by
            rcases hs with hs | hs <;> rcases h1 with h1 | h1 <;> rw [hs] at h1 <;>
              cases h1 <;> rfl
          have hsp : s.ctx.ptr = s0.ctx.ptr := by rw [hfin]; rfl
          rw [hptr] at hp
          have hscov : ∀ b, addr ≤ b → b < s.ctx.ptr → s.coverage.has b = true := by
            intro b hb1 hb2
            rw [hfin]
            show (coverage_add s0.coverage _ _).has b = true
            rw [coverage_add_has]
            simp only [Bool.or_eq_true, decide_eq_true_eq, read_ctx_get_offset, locus.addr]
            right
            rw [hptr]
            rw [hsp] at hb2
            omega
          rcases hs with hs | hs
          · subst hs
            dsimp only at h
            have hl := lr_loop_ext_of E file c sec_id wh cat n s st' (hbx.map (m1.trans hm)) h
            refine ⟨by omega, hl.ptr, fun b hb1 hb2 => ?_⟩
            exact lr_loop_coverage_mono E file c sec_id wh cat n s st' h b (hscov b hb1 hb2)
          · subst hs
            simp only [Option.some.injEq] at h
            rw [← h]
            exact ⟨by omega, le_rfl, hscov⟩
        · rcases hs with hs | hs <;> rw [hs] at h1 <;> cases h1
      · intro s hs
        subst hs
        exact h
      · intro s hs
        subst hs
        simp only [Option.some.injEq] at h
        exact h.symm
      · intro s hs
        subst hs
        simp only [Option.some.injEq] at h
        exact h.symm
      · intro hsl st1 b st2 e hb1 he1 h0 h1 s hs
        subst hs
        unfold lr_body at hb
        dsimp only at hb
        rw [show read_ctx_get_offset (lr_entry file data c io addr wh).ctx = addr from hptr,
          hb1] at hb
        dsimp only at hb
        rw [he1] at hb
        dsimp only at hb
        have hmap2 : st2.coverage_map = none := by
          have b2 := (lr_begin_spec E file c (locus.sub sec_id addr wh)
            (lr_entry file data c io addr wh)).2.1
          have e2 := (lr_end_spec E file c (locus.sub sec_id addr wh) cat st1 b).2.1
          rw [hb1] at b2
          rw [he1] at e2
          exact e2.trans (b2.trans (m1.trans hm))
        have hr := lr_range_none E (locus.sub sec_id addr wh) cat st2 b e hmap2
        rw [lr_tail_loc E file c sec_id _ cat st2 b e h0 h1 hr hsl] at hb
        cases hl : lr_locexpr E file c (locus.sub sec_id addr wh)
            (range_state E (locus.sub sec_id addr wh) cat st2 b e) with
        | none =>
          rw [hl] at hb
          cases hb
        | some r =>
          rw [hl] at hb
          cases r with
          | next s0 =>
            simp only [Option.some.injEq, lr_step.next.injEq] at hb
            obtain ⟨len, cx, k1, k2, k3⟩ := lr_locexpr_next hl
            refine ⟨len, cx, k1, ?_⟩
            rw [← hb]
            show s0.ctx.ptr = _
            rw [k3]
            show cx.ptr + len = _
            rw [k2]
            rfl
          | stop s0 => cases hb
          | fail s0 => cases hb
  · intro ha hloc
    obtain ⟨st', D, h1, _⟩ :=
      check_loc_or_range_ref_total E fuel file data c sec_id io addr wh cat ha hm hf hloc
    exact ⟨st', h1⟩
  · intro fuel' hf'
    exact check_loc_or_range_ref_fuel E fuel' fuel file data c sec_id io addr wh cat hm hf' hf


/-- The theorem for a list of `.debug_loc` in a file with relocations: after the walk
of `loc_two_bytes` from offset 0, the reference to offset 11 is rejected, and the walk
reads the entry at 11 with its location expression and the list end at 22, up to the
end of the section.  And scenario S3: after the walk of the list of 24 bytes from offset
0, the reference to offset 8 is rejected. -/
theorem C15_reference_into_walked_list_witness :
    io_loc_walked.coverage_map = none ∧ 11 < loc_two_bytes.length ∧
      coverage_is_covered io_loc_walked.coverage 11 1 = true ∧ loc_two_bytes.length < 100 ∧
      (∀ st', check_loc_or_range_ref env_reloc 100 file32 loc_two_bytes (cu32 0x1000)
          section_id.sec_loc io_loc_walked 11 (who_info 50) mc_bits.mc_loc = some st' →
        st'.retval = false ∧
          ∃ D, st'.diags = io_loc_walked.diags ++ ref_into_other_error (who_info 50) 11 :: D) ∧
      (check_loc_or_range_ref env_reloc 100 file32 loc_two_bytes (cu32 0x1000)
          section_id.sec_loc io_loc_walked 11 (who_info 50) mc_bits.mc_loc).map
            (fun r => (r.retval, r.diags, r.ctx.ptr, r.coverage)) =
        some (false, [ref_into_other_error (who_info 50) 11,
          diag.error (locus.sub section_id.sec_loc 11 (who_info 50))
            ": range definitions overlap.\n" []], 30,
          ⟨[(0, 11), (11, 11), (22, 8), (11, 11), (22, 8)]⟩) ∧
      (lr_body env_reloc file32 (cu32 0x1000) section_id.sec_loc (who_info 50) mc_bits.mc_loc
          (lr_entry file32 loc_two_bytes (cu32 0x1000) io_loc_walked 11 (who_info 50))).map
            (fun s => s.state.ctx.ptr) = some 22 ∧
      (check_loc_or_range_ref env_plain 100 file32 S3_bytes (cu32 0x1000)
          section_id.sec_ranges io_start 0 (who_info 11) mc_bits.mc_ranges).map
            (fun r => (r.coverage, r.pc_coverage, r.retval, r.diags)) =
        some (io_S3.coverage, io_S3.pc_coverage, true, []) ∧
      (check_loc_or_range_ref env_plain 100 file32 S3_bytes (cu32 0x1000)
          section_id.sec_ranges io_S3 8 (who_info 50) mc_bits.mc_ranges).map
            (fun r => (r.retval, r.diags.head?, r.ctx.ptr)) =
        some (false, some (ref_into_other_error (who_info 50) 8), 24) ∧
      (check_loc_or_range_structural env_plain 100 file32 (ranges_sec S3_bytes) S3_units
          (some ⟨[]⟩) []).map (fun r => (r.1, r.2.1.checked, r.2.2.head?)) =
        some (false, [0, 8], some (ref_into_other_error (who_info 50) 8)) :=
  ⟨rfl, by decide, by decide, by decide,
    fun st' h =>
      ⟨((C15_reference_into_walked_list env_reloc 100 file32 loc_two_bytes (cu32 0x1000)
          section_id.sec_loc io_loc_walked 11 (who_info 50) mc_bits.mc_loc rfl (by decide)
          (by decide) (by decide)).1 st' h).1,
        ((C15_reference_into_walked_list env_reloc 100 file32 loc_two_bytes (cu32 0x1000)
          section_id.sec_loc io_loc_walked 11 (who_info 50) mc_bits.mc_loc rfl (by decide)
          (by decide) (by decide)).1 st' h).2.1⟩,
    by decide, by decide, by decide, by decide, by decide⟩

/-- The loop of `check_loc_or_range_structural` over sorted references, when it returns,
in any environment: the offsets that it has added to the record of the calls are
strictly increasing and are the offsets of the references, but for an offset equal to
the one checked last. -/
theorem check_refs_loop_checked (E : lr_env) (fuel : Nat) (file : elf_file)
    (data : List Nat) (sec_id : section_id) (cat : Nat) :
    ∀ (refs : List ref_cu) (first : Bool) (st st' : refs_state),
      refs.Pairwise (fun a b => a.ref.addr ≤ b.ref.addr) →
      (first = false → ∀ r ∈ refs, st.last_off ≤ r.ref.addr) →
      check_refs_loop E fuel file data sec_id cat refs first st = some st' →
      ∃ new, st'.checked = st.checked ++ new ∧ new.Pairwise (· < ·) ∧
        (∀ o, o ∈ new ↔ (∃ r ∈ refs, r.ref.addr = o) ∧ (first = true ∨ o ≠ st.last_off)) := by
  intro refs
  induction refs with
  | nil =>
    intro first st st' _ _ h
    cases h
    exact ⟨[], by simp, List.Pairwise.nil, by simp⟩
  | cons it rest ih =>
    intro first st st' hs hlast h
    rw [check_refs_loop] at h
    dsimp only at h
    obtain ⟨hit, hrest⟩ := List.pairwise_cons.1 hs
    by_cases hskip : ¬ (first = true) ∧ it.ref.addr = st.last_off
    · rw [if_pos hskip] at h
      have hf' : first = false := by simpa using hskip.1
      obtain ⟨new, h3, h4, h5⟩ := ih false st st' hrest
        (fun _ r hr => hlast hf' r (List.mem_cons_of_mem _ hr)) h
      refine ⟨new, h3, h4, ?_⟩
      intro o
      rw [h5 o]
      subst hf'
      simp only [Bool.false_eq_true, false_or, List.mem_cons, exists_eq_or_imp]
      constructor
      · rintro ⟨⟨r, hr, rfl⟩, hne⟩
        exact ⟨Or.inr ⟨r, hr, rfl⟩, hne⟩
      · rintro ⟨h | ⟨r, hr, rfl⟩, hne⟩
        · exact absurd (h.symm.trans hskip.2) hne
        · exact ⟨⟨r, hr, rfl⟩, hne⟩
    · rw [if_neg hskip] at h
      have hgt : first = false → st.last_off < it.ref.addr := by
        intro hf'
        have h1 := hlast hf' it (List.mem_cons_self _ _)
        have h2 : it.ref.addr ≠ st.last_off := fun h => hskip ⟨by simp [hf'], h⟩
        omega
      generalize (if ¬ (first = true) then
          ({ st.io with
              rel := (E.relocation_skip st.io.rel it.ref.addr
                (locus.root sec_id addr_unset) skip_type.skip_unref).1,
              diags := st.io.diags ++ (E.relocation_skip st.io.rel it.ref.addr
                (locus.root sec_id addr_unset) skip_type.skip_unref).2.map diag.other } :
            lr_input)
        else st.io) = io' at h
      cases hr : check_loc_or_range_ref E fuel file data it.cu sec_id io' it.ref.addr
          it.ref.who cat with
      | none =>
        rw [hr] at h
        cases h
      | some r =>
        rw [hr] at h
        dsimp only at h
        obtain ⟨new, h3, h4, h5⟩ := ih false
          { io := ⟨r.rel, r.coverage, r.coverage_map, r.pc_coverage, r.diags⟩
            retval := st.retval && r.retval
            last_off := it.ref.addr
            checked := st.checked ++ [it.ref.addr] } st' hrest (fun _ r' hr' => hit r' hr') h
        dsimp only at h3 h5
        have hlt : ∀ o ∈ new, it.ref.addr < o := by
          intro o ho
          obtain ⟨⟨r', hr', rfl⟩, hne⟩ := (h5 _).1 ho
          have h6 := hit r' hr'
          have h7 : r'.ref.addr ≠ it.ref.addr := by simpa using hne
          omega
        refine ⟨it.ref.addr :: new, by rw [h3]; simp, List.pairwise_cons.2 ⟨hlt, h4⟩, ?_⟩
        intro o
        simp only [List.mem_cons, exists_eq_or_imp]
        rw [h5 o]
        simp only [Bool.false_eq_true, false_or]
        constructor
        · rintro (rfl | ⟨⟨r', hr', rfl⟩, hne⟩)
          · refine ⟨Or.inl rfl, ?_⟩
            cases first with
            | true => exact Or.inl rfl
            | false => exact Or.inr (ne_of_gt (hgt rfl))
          · refine ⟨Or.inr ⟨r', hr', rfl⟩, ?_⟩
            cases first with
            | true => exact Or.inl rfl
            | false =>
              have h6 := hit r' hr'
              have h7 := hgt rfl
              exact Or.inr (by omega)
        · rintro ⟨h | ⟨r', hr', rfl⟩, _⟩
          · exact Or.inl h.symm
          · by_cases h8 : r'.ref.addr = it.ref.addr
            · exact Or.inl h8
            · exact Or.inr ⟨⟨r', hr', rfl⟩, h8⟩

theorem sort_refs_sorted (refs : List ref_cu) :
    (sort_refs refs).Pairwise (fun a b => a.ref.addr ≤ b.ref.addr) :=
  @List.sorted_insertionSort _ (fun a b : ref_cu => a.ref.addr ≤ b.ref.addr) _
    ⟨fun _ _ => Nat.le_total _ _⟩ ⟨fun _ _ _ => Nat.le_trans⟩ refs

theorem sort_merge_refs_mem (sec_id : section_id) (cu_chain : List cu) (off : Nat) :
    (∃ r ∈ sort_refs (merge_refs sec_id cu_chain), r.ref.addr = off) ↔
      ∃ c ∈ cu_chain,
        ∃ rf ∈ (if sec_id = section_id.sec_loc then c.loc_refs else c.range_refs),
          rf.addr = off := by
  have hin : ∀ r : ref_cu, r ∈ merge_refs sec_id cu_chain ↔
      ∃ c ∈ cu_chain,
        ∃ rf ∈ (if sec_id = section_id.sec_loc then c.loc_refs else c.range_refs),
          (⟨rf, c⟩ : ref_cu) = r := by
    intro r
    unfold merge_refs
    simp only [List.mem_flatMap, List.mem_map]
  constructor
  · rintro ⟨r, hr, rfl⟩
    obtain ⟨c, hc, rf, hrf, rfl⟩ := (hin r).1 ((List.perm_insertionSort _ _).mem_iff.1 hr)
    exact ⟨c, hc, rf, hrf, rfl⟩
  · rintro ⟨c, hc, rf, hrf, rfl⟩
    exact ⟨⟨rf, c⟩, (List.perm_insertionSort _ _).mem_iff.2
      ((hin ⟨rf, c⟩).2 ⟨c, hc, rf, hrf, rfl⟩), rfl⟩

/-- Without a coverage map and with fuel above the size of the section,
`check_loc_or_range_structural` returns when the checks of the location expressions
do. -/
theorem check_loc_or_range_structural_returns (E : lr_env) (fuel : Nat) (file : elf_file)
    (s : sec) (cu_chain : List cu) (pc_coverage : Option coverage) (diags : List diag)
    (hs : s.id = section_id.sec_loc ∨ s.id = section_id.sec_ranges) (hc : cu_chain ≠ [])
    (hmc : E.mc.mc_loc ≠ E.mc.mc_ranges) (hf : (s.data.getD []).length < fuel)
    (hloc : s.id = section_id.sec_loc → locexpr_returns E) :
    ∃ r, check_loc_or_range_structural E fuel file s cu_chain pc_coverage diags = some r := by
  have ha : lr_asserts E s.id (if s.id = section_id.sec_loc then E.mc.mc_loc else E.mc.mc_ranges) := by
    unfold lr_asserts
    rcases hs with h | h
    · rw [h]
      simp
    · rw [h]
      simp [Ne.symm hmc]
  obtain ⟨first_cu, tl, rfl⟩ := List.exists_cons_of_ne_nil hc
  unfold check_loc_or_range_structural
  rw [if_neg (not_not.2 hs)]
  dsimp only
  have hcm : (if do_range_coverage = true ∧ s.id = section_id.sec_ranges then
      coverage_map_alloc_XA file (decide (s.id = section_id.sec_loc)) else none) = none := by
    simp [do_range_coverage]
  rw [hcm]
  obtain ⟨st', new, h1, _⟩ := check_refs_loop_spec E fuel file (s.data.getD [])
    s.id (if s.id = section_id.sec_loc then E.mc.mc_loc else E.mc.mc_ranges) ha hf hloc
    (sort_refs (merge_refs s.id (first_cu :: tl))) true
    ⟨⟨s.rel, ⟨[]⟩, none, pc_coverage, diags⟩, true, 0, []⟩ (sort_refs_sorted _) rfl
    (fun h => by cases h)
  rw [h1]
  dsimp only
  split_ifs <;> exact ⟨_, rfl⟩

/-- C12: for a section `.debug_loc` or `.debug_ranges` and a chain of units that is not
empty, in any environment: whenever `check_loc_or_range_structural` returns, the offsets
that it has called `check_loc_or_range_ref` with, in the order of the calls, are
strictly increasing (so no offset is checked twice) and are exactly the offsets of the
references `loc_refs` (or `range_refs`) of the units of the chain.  It returns, with fuel
above the size of the section, when the categories `mc_loc` and `mc_ranges` differ (the
assertion of `check_loc_or_range_ref`) and, for `.debug_loc`, the checks of the location
expressions return. -/
theorem C12_each_offset_checked_once (E : lr_env) (fuel : Nat) (file : elf_file) (s : sec)
    (cu_chain : List cu) (pc_coverage : Option coverage) (diags : List diag)
    (hs : s.id = section_id.sec_loc ∨ s.id = section_id.sec_ranges) (hc : cu_chain ≠ []) :
    (∀ r st ds,
      check_loc_or_range_structural E fuel file s cu_chain pc_coverage diags = some (r, st, ds) →
      st.checked.Pairwise (· < ·) ∧ st.checked.Nodup ∧
      (∀ off, off ∈ st.checked ↔
        ∃ c ∈ cu_chain,
          ∃ rf ∈ (if s.id = section_id.sec_loc then c.loc_refs else c.range_refs),
            rf.addr = off)) ∧
    (E.mc.mc_loc ≠ E.mc.mc_ranges → (s.data.getD []).length < fuel →
      (s.id = section_id.sec_loc → locexpr_returns E) →
      ∃ r st ds,
        check_loc_or_range_structural E fuel file s cu_chain pc_coverage diags =
          some (r, st, ds)) := by
  constructor
  · intro r st ds h
    obtain ⟨first_cu, tl, rfl⟩ := List.exists_cons_of_ne_nil hc
    unfold check_loc_or_range_structural at h
    rw [if_neg (not_not.2 hs)] at h
    dsimp only at h
    generalize (if do_range_coverage = true ∧ s.id = section_id.sec_ranges then
      coverage_map_alloc_XA file (decide (s.id = section_id.sec_loc)) else none) = cm at h
    cases hl : check_refs_loop E fuel file (s.data.getD []) s.id
        (if s.id = section_id.sec_loc then E.mc.mc_loc else E.mc.mc_ranges)
        (sort_refs (merge_refs s.id (first_cu :: tl))) true
        ⟨⟨s.rel, ⟨[]⟩, cm, pc_coverage, diags⟩, true, 0, []⟩ with
    | none =>
      rw [hl] at h
      cases h
    | some st' =>
      rw [hl] at h
      dsimp only at h
      obtain ⟨new, h3, h4, h5⟩ := check_refs_loop_checked E fuel file (s.data.getD []) s.id _
        _ true _ st' (sort_refs_sorted _) (fun h => by cases h) hl
      have hnew : st'.checked = new := by simpa using h3
      have hp : st'.checked.Pairwise (· < ·) := hnew ▸ h4
      have hn : st'.checked.Nodup := hp.imp (fun h => ne_of_lt h)
      have hm : ∀ off, off ∈ st'.checked ↔ ∃ c ∈ first_cu :: tl,
          ∃ rf ∈ (if s.id = section_id.sec_loc then c.loc_refs else c.range_refs),
            rf.addr = off := by
        intro off
        rw [hnew, h5 off, sort_merge_refs_mem s.id (first_cu :: tl) off]
        simp
      have hst : st.checked = st'.checked := by
        by_cases hr : st'.retval = true
        · rw [if_pos hr] at h
          simp only [Option.some.injEq, Prod.mk.injEq] at h
          rw [← h.2.1]
        · rw [if_neg hr] at h
          simp only [Option.some.injEq, Prod.mk.injEq] at h
          rw [← h.2.1]
      rw [hst]
      exact ⟨hp, hn, hm⟩
  · intro hmc hf hloc
    obtain ⟨⟨r, st, ds⟩, h⟩ := check_loc_or_range_structural_returns E fuel file s cu_chain
      pc_coverage diags hs hc hmc hf hloc
    exact ⟨r, st, ds, h⟩

/-- The theorem for the section `.debug_loc` with the list `loc_two_bytes`, in a file
with relocations, and two units whose references are not in order and repeat: the calls
are for the offsets 0 and 11.  And for a section `.debug_ranges` with two lists and such
units. -/
theorem C12_each_offset_checked_once_witness :
    (loc_sec.id = section_id.sec_loc ∨ loc_sec.id = section_id.sec_ranges) ∧
      loc_units ≠ [] ∧
      (∀ r st ds,
        check_loc_or_range_structural env_reloc 100 file32 loc_sec loc_units (some ⟨[]⟩) [] =
          some (r, st, ds) →
        st.checked.Pairwise (· < ·) ∧ st.checked.Nodup ∧
        (∀ off, off ∈ st.checked ↔
          ∃ c ∈ loc_units,
            ∃ rf ∈ (if loc_sec.id = section_id.sec_loc then c.loc_refs else c.range_refs),
              rf.addr = off)) ∧
      (check_loc_or_range_structural env_reloc 100 file32 loc_sec loc_units (some ⟨[]⟩) []).map
          (fun r => (r.1, r.2.1.checked)) = some (false, [0, 11]) ∧
      (check_loc_or_range_structural env_plain 100 file32 (ranges_sec two_lists_bytes)
          repeat_units (some ⟨[]⟩) []).map (fun r => (r.1, r.2.1.checked, r.2.2)) =
        some (true, [0, 16], []) :=
  ⟨by decide, by decide,
    (C12_each_offset_checked_once env_reloc 100 file32 loc_sec loc_units (some ⟨[]⟩) []
      (by decide) (by decide)).1,
    by decide, by decide⟩


/-! ## The overlap tests of a round, and the test of the location expression -/

end Dwarflint
